import Mathlib

/-!
# WebServer: the per-connection HTTP engine of `http_conn.cpp`

A shallow embedding of `src/http_conn.cpp`.

* Bytes (`char`) are natural numbers; a buffer is a `List Nat` whose length is
  its capacity.
* A `char*` into the read buffer is the offset of the byte it points at, a
  null pointer is `none`.  The C string a pointer denotes is `cstr buf p`:
  the bytes from offset `p` up to (not including) the first NUL.
* A read outside a buffer yields `0` and a write outside a buffer is dropped:
  what such an access does to neighbouring memory is not modelled.
* Loops become structural recursion on a counter that bounds the number of
  iterations.
-/

namespace WebServer

/-! ## Bytes and the C library -/

/-- ASCII codes of the characters of a string literal. -/
def bytes (s : String) : List Nat := s.data.map Char.toNat

/-- The C locale `tolower` on a byte. -/
def tolower (c : Nat) : Nat := if 65 ≤ c ∧ c ≤ 90 then c + 32 else c

/-- The C locale `isspace`: space, and the bytes from TAB to CR. -/
def isspace (c : Nat) : Bool := c == 32 || (9 ≤ c && c ≤ 13)

/-- The C locale `isdigit`. -/
def isdigit (c : Nat) : Bool := 48 ≤ c && c ≤ 57

/-- The C string that starts at offset `p` of `buf`. -/
def cstr (buf : List Nat) (p : Nat) : List Nat := (buf.drop p).takeWhile (fun c => c != 0)

/-- The `strcspn` of libc: length of the longest initial part of `s` with no byte of `reject`. -/
def strcspn (s reject : List Nat) : Nat := (s.takeWhile (fun c => !reject.contains c)).length

/-- The `strspn` of libc: length of the longest initial part of `s` made of bytes of `accept`. -/
def strspn (s accept : List Nat) : Nat := (s.takeWhile (fun c => accept.contains c)).length

/-- The `strpbrk` of libc on the C string at offset `p`: offset of its first byte that is in
`accept`, or the null pointer. -/
def strpbrk (buf : List Nat) (p : Nat) (accept : List Nat) : Option Nat :=
  let s := cstr buf p
  if strcspn s accept < s.length then some (p + strcspn s accept) else none

/-- The `strchr` of libc (for a non-NUL byte `c`) on the C string at offset `p`. -/
def strchr (buf : List Nat) (p : Nat) (c : Nat) : Option Nat :=
  let s := cstr buf p
  if strcspn s [c] < s.length then some (p + strcspn s [c]) else none

/-- The `strncasecmp` of libc on two C strings: compares at most `n` bytes ignoring case; the
end of a string counts as the byte `0`. -/
def strncasecmp : List Nat → List Nat → Nat → Int
  | _, _, 0 => 0
  | [], [], _ + 1 => 0
  | [], b :: _, _ + 1 => 0 - (tolower b : Int)
  | a :: _, [], _ + 1 => (tolower a : Int)
  | a :: s1, b :: s2, n + 1 =>
    if tolower a = tolower b then strncasecmp s1 s2 n else (tolower a : Int) - (tolower b : Int)

/-- The `strcasecmp` of libc on two C strings. -/
def strcasecmp : List Nat → List Nat → Int
  | [], [] => 0
  | [], b :: _ => 0 - (tolower b : Int)
  | a :: _, [] => (tolower a : Int)
  | a :: s1, b :: s2 =>
    if tolower a = tolower b then strcasecmp s1 s2 else (tolower a : Int) - (tolower b : Int)

/-- Value of a run of decimal digits. -/
def digits_value (ds : List Nat) : Nat := ds.foldl (fun acc d => acc * 10 + (d - 48)) 0

/-- The `atol` of libc (as `strtol` base 10 on a 64-bit `long`): leading white space, an
optional sign, then digits; out-of-range values saturate. -/
def atol (s : List Nat) : Int :=
  let s1 := s.dropWhile isspace
  let neg := s1.head? == some 45
  let s2 := if s1.head? == some 45 || s1.head? == some 43 then s1.drop 1 else s1
  let v : Int := digits_value (s2.takeWhile isdigit)
  if neg then max (0 - v) (0 - 2 ^ 63) else min v (2 ^ 63 - 1)

/-- Conversion of an integer to the 32-bit C `int` (two's complement wrap). -/
def to_int (v : Int) : Int := (v + 2 ^ 31) % 2 ^ 32 - 2 ^ 31

/-- Decimal digits of `n`, most significant first; `fuel` bounds the number of digits. -/
def dec_digits : Nat → Nat → List Nat → List Nat
  | 0, _, acc => acc
  | fuel + 1, n, acc =>
    if n < 10 then (48 + n) :: acc else dec_digits fuel (n / 10) ((48 + n % 10) :: acc)

/-- What `printf` writes for `%d`: 20 digits cover every 64-bit value. -/
def fmt_d (v : Int) : List Nat :=
  if v < 0 then 45 :: dec_digits 20 v.natAbs [] else dec_digits 20 v.natAbs []

/-- Overwrites `buf` from offset `i` on with `data`; what would fall outside `buf` is dropped. -/
def write_at (buf : List Nat) (i : Nat) (data : List Nat) : List Nat :=
  (buf.take i ++ data ++ buf.drop (i + data.length)).take buf.length

/-- The `bzero` of libc on the first `n` bytes of `buf`. -/
def bzero (buf : List Nat) (n : Nat) : List Nat := write_at buf 0 (List.replicate n 0)

/-! ## Constants -/

/-- Modelled from the spec: the constants `READ_BUFFER_SIZE`, `WRITE_BUFFER_SIZE` and
`FILENAME_LEN` are declared in `http_conn.h`, which is not among the sources; the functions
take them as a parameter. -/
structure Limits where
  READ_BUFFER_SIZE : Nat
  WRITE_BUFFER_SIZE : Nat
  FILENAME_LEN : Nat
deriving DecidableEq, Repr

/-- Modelled from the spec: the values the specification gives as examples for the three
constants of `http_conn.h`. -/
def spec_limits : Limits := { READ_BUFFER_SIZE := 2048, WRITE_BUFFER_SIZE := 1024, FILENAME_LEN := 200 }

def ok_200_title : List Nat := bytes "OK"
def error_400_title : List Nat := bytes "Bad Request"
def error_400_form : List Nat :=
  bytes "Your request has bad syntax or is inherently impossible to satisfy.\n"
def error_403_title : List Nat := bytes "Forbidden"
def error_403_form : List Nat := bytes "You do not have permission to get file from this server.\n"
def error_404_title : List Nat := bytes "Not Found"
def error_404_form : List Nat := bytes "The requested file was not found on this server.\n"
def error_500_title : List Nat := bytes "Internal Error"
def error_500_form : List Nat := bytes "There was an unusual problem serving the requested file.\n"

def doc_root : List Nat := bytes "/home/cmy/Linux/webserver/resources"

/-- The bit `S_IROTH` of `st_mode` (octal 0004). -/
def S_IROTH : Nat := 4

/-- The macro `S_ISDIR`: the file type bits (octal 0170000) are those of a directory (0040000). -/
def S_ISDIR (mode : Nat) : Bool := mode &&& 61440 == 16384

/-! ## Data model -/

inductive CHECK_STATE where
  | CHECK_STATE_REQUESTLINE
  | CHECK_STATE_HEADER
  | CHECK_STATE_CONTENT
deriving DecidableEq, Repr

inductive LINE_STATUS where
  | LINE_OK
  | LINE_BAD
  | LINE_OPEN
deriving DecidableEq, Repr

inductive HTTP_CODE where
  | NO_REQUEST
  | GET_REQUEST
  | BAD_REQUEST
  | NO_RESOURCE
  | FORBIDDEN_REQUEST
  | FILE_REQUEST
  | INTERNAL_ERROR
  | CLOSED_CONNECTION
deriving DecidableEq, Repr

/-- The request methods; the source only ever stores `GET`. -/
inductive METHOD where
  | GET
  | POST
  | HEAD
  | PUT
  | DELETE
  | TRACE
  | OPTIONS
  | CONNECT
deriving DecidableEq, Repr

/-- The fields of `struct stat` the source reads. -/
structure stat_t where
  st_mode : Nat
  st_size : Int
deriving DecidableEq, Repr

/-- The file system as the source sees it: `stat` on a path (`none` when it fails) and the
bytes visible through the address `mmap` returns for the file at a path.  The source never
tests `open` or `mmap` for failure, so a failed mapping is an address like any other. -/
structure FileSystem where
  stat : List Nat → Option stat_t
  mmap : List Nat → Int → List Nat

/-- What an `iov_base` points at: the connection's write buffer, or a copy of the value of
`m_file_address` (`none` is the null pointer). -/
inductive iov_base_t where
  | write_buf
  | addr (a : Option (List Nat))
deriving DecidableEq, Repr

structure iovec where
  iov_base : iov_base_t
  iov_len : Int
deriving DecidableEq, Repr

/-- One outcome of `recv`: some bytes (none at all is the return value 0), would-block
(`EAGAIN`), or another error. -/
inductive recv_result where
  | data (bs : List Nat)
  | would_block
  | error
deriving DecidableEq, Repr

/-- The per-connection object. -/
structure http_conn where
  m_sockfd : Int
  m_read_buf : List Nat
  m_read_idx : Nat
  m_checked_idx : Nat
  m_start_line : Nat
  m_check_state : CHECK_STATE
  m_method : METHOD
  m_real_file : List Nat
  m_url : Option Nat
  m_version : Option Nat
  m_host : Option Nat
  m_content_length : Int
  m_linger : Bool
  m_write_buf : List Nat
  m_write_idx : Nat
  m_file_address : Option (List Nat)
  m_file_stat : stat_t
  m_iv0 : iovec
  m_iv1 : iovec
  m_iv_count : Int
deriving DecidableEq, Repr

namespace http_conn

/-- A connection object whose buffers have the capacities of `cfg`. -/
def Sized (cfg : Limits) (st : http_conn) : Prop :=
  st.m_read_buf.length = cfg.READ_BUFFER_SIZE ∧
  st.m_write_buf.length = cfg.WRITE_BUFFER_SIZE ∧
  st.m_real_file.length = cfg.FILENAME_LEN

instance (cfg : Limits) (st : http_conn) : Decidable (Sized cfg st) := by
  unfold Sized; infer_instance

/-- A connection object with zeroed members, as a starting point for `init`. -/
def blank (cfg : Limits) : http_conn :=
  { m_sockfd := -1
    m_read_buf := List.replicate cfg.READ_BUFFER_SIZE 0
    m_read_idx := 0
    m_checked_idx := 0
    m_start_line := 0
    m_check_state := CHECK_STATE.CHECK_STATE_REQUESTLINE
    m_method := METHOD.GET
    m_real_file := List.replicate cfg.FILENAME_LEN 0
    m_url := none
    m_version := none
    m_host := none
    m_content_length := 0
    m_linger := false
    m_write_buf := List.replicate cfg.WRITE_BUFFER_SIZE 0
    m_write_idx := 0
    m_file_address := none
    m_file_stat := { st_mode := 0, st_size := 0 }
    m_iv0 := { iov_base := iov_base_t.addr none, iov_len := 0 }
    m_iv1 := { iov_base := iov_base_t.addr none, iov_len := 0 }
    m_iv_count := 0 }

/-- The parameterless `http_conn::init()`.  The call `bzero(m_write_buf, READ_BUFFER_SIZE)`
clears `READ_BUFFER_SIZE` bytes from the start of the write buffer: when the write buffer is
shorter than that, the call runs on into the members that follow it in the object and clears
`m_write_idx`, `m_file_address`, `m_file_stat`, `m_iv` and `m_iv_count` as well. -/
def init (cfg : Limits) (st : http_conn) : http_conn :=
  { st with
    m_check_state := CHECK_STATE.CHECK_STATE_REQUESTLINE
    m_linger := false
    m_method := METHOD.GET
    m_url := none
    m_version := none
    m_content_length := 0
    m_host := none
    m_start_line := 0
    m_checked_idx := 0
    m_read_idx := 0
    m_write_idx := 0
    m_read_buf := bzero st.m_read_buf cfg.READ_BUFFER_SIZE
    m_write_buf := bzero st.m_write_buf cfg.READ_BUFFER_SIZE
    m_real_file := bzero st.m_real_file cfg.FILENAME_LEN
    m_file_address :=
      if cfg.READ_BUFFER_SIZE > st.m_write_buf.length then none else st.m_file_address
    m_file_stat :=
      if cfg.READ_BUFFER_SIZE > st.m_write_buf.length then { st_mode := 0, st_size := 0 }
      else st.m_file_stat
    m_iv0 :=
      if cfg.READ_BUFFER_SIZE > st.m_write_buf.length then
        { iov_base := iov_base_t.addr none, iov_len := 0 }
      else st.m_iv0
    m_iv1 :=
      if cfg.READ_BUFFER_SIZE > st.m_write_buf.length then
        { iov_base := iov_base_t.addr none, iov_len := 0 }
      else st.m_iv1
    m_iv_count := if cfg.READ_BUFFER_SIZE > st.m_write_buf.length then 0 else st.m_iv_count }

/-- The receive loop of `http_conn::read()`, one `recv` outcome per iteration.  A `recv` never
returns more than the requested count, and a request for 0 bytes returns 0. -/
def read_loop (cfg : Limits) : List recv_result → http_conn → Bool × http_conn
  | [], st => (true, st)
  | recv_result.would_block :: _, st => (true, st)
  | recv_result.error :: _, st => (false, st)
  | recv_result.data bs :: rest, st =>
    let got := bs.take (cfg.READ_BUFFER_SIZE - st.m_read_idx)
    if got.length = 0 then (false, st)
    else
      read_loop cfg rest
        { st with
          m_read_buf := write_at st.m_read_buf st.m_read_idx got
          m_read_idx := st.m_read_idx + got.length }

/-- The function `http_conn::read()`; the socket is the list of outcomes of its `recv` calls
(after the last listed one the socket would block). -/
def read (cfg : Limits) (st : http_conn) (socket : List recv_result) : Bool × http_conn :=
  if st.m_read_idx ≥ cfg.READ_BUFFER_SIZE then (false, st) else read_loop cfg socket st

/-- The `for` loop of `http_conn::parse_line()`; `n` bounds the remaining iterations. -/
def parse_line_loop : Nat → http_conn → LINE_STATUS × http_conn
  | 0, st => (LINE_STATUS.LINE_OPEN, st)
  | n + 1, st =>
    if st.m_checked_idx < st.m_read_idx then
      let temp := st.m_read_buf.getD st.m_checked_idx 0
      if temp = 13 then
        if st.m_checked_idx + 1 = st.m_read_idx then (LINE_STATUS.LINE_OPEN, st)
        else if st.m_read_buf.getD (st.m_checked_idx + 1) 0 = 10 then
          (LINE_STATUS.LINE_OK,
            { st with
              m_read_buf := (st.m_read_buf.set st.m_checked_idx 0).set (st.m_checked_idx + 1) 0
              m_checked_idx := st.m_checked_idx + 2 })
        else (LINE_STATUS.LINE_BAD, st)
      else if temp = 10 then
        if st.m_checked_idx > 1 ∧ st.m_read_buf.getD (st.m_checked_idx - 1) 0 = 13 then
          (LINE_STATUS.LINE_OK,
            { st with
              m_read_buf := (st.m_read_buf.set (st.m_checked_idx - 1) 0).set st.m_checked_idx 0
              m_checked_idx := st.m_checked_idx + 1 })
        else (LINE_STATUS.LINE_BAD, st)
      else parse_line_loop n { st with m_checked_idx := st.m_checked_idx + 1 }
    else (LINE_STATUS.LINE_OPEN, st)

/-- The function `http_conn::parse_line()`. -/
def parse_line (st : http_conn) : LINE_STATUS × http_conn :=
  parse_line_loop (st.m_read_idx - st.m_checked_idx) st

/-- The function `http_conn::parse_request_line(char* text)`. -/
def parse_request_line (st : http_conn) (text : Nat) : HTTP_CODE × http_conn :=
  match strpbrk st.m_read_buf text [32, 9] with
  | none => (HTTP_CODE.BAD_REQUEST, { st with m_url := none })
  | some u =>
    let st1 := { st with m_read_buf := st.m_read_buf.set u 0, m_url := some (u + 1) }
    if strcasecmp (cstr st1.m_read_buf text) (bytes "GET") = 0 then
      let st2 := { st1 with m_method := METHOD.GET }
      match strpbrk st2.m_read_buf (u + 1) [32, 9] with
      | none => (HTTP_CODE.BAD_REQUEST, { st2 with m_version := none })
      | some v =>
        let st3 := { st2 with m_read_buf := st2.m_read_buf.set v 0, m_version := some (v + 1) }
        if strcasecmp (cstr st3.m_read_buf (v + 1)) (bytes "HTTP/1.1") ≠ 0 then
          (HTTP_CODE.BAD_REQUEST, st3)
        else
          let st4 :=
            if strncasecmp (cstr st3.m_read_buf (u + 1)) (bytes "http://") 7 = 0 then
              { st3 with m_url := strchr st3.m_read_buf (u + 1 + 7) 47 }
            else st3
          match st4.m_url with
          | none => (HTTP_CODE.BAD_REQUEST, st4)
          | some url =>
            if st4.m_read_buf.getD url 0 ≠ 47 then (HTTP_CODE.BAD_REQUEST, st4)
            else
              (HTTP_CODE.NO_REQUEST,
                { st4 with m_check_state := CHECK_STATE.CHECK_STATE_HEADER })
    else (HTTP_CODE.BAD_REQUEST, st1)

/-- The function `http_conn::parse_headers(char* text)`. -/
def parse_headers (st : http_conn) (text : Nat) : HTTP_CODE × http_conn :=
  if st.m_read_buf.getD text 0 = 0 then
    if st.m_content_length ≠ 0 then
      (HTTP_CODE.NO_REQUEST, { st with m_check_state := CHECK_STATE.CHECK_STATE_CONTENT })
    else (HTTP_CODE.GET_REQUEST, st)
  else if strncasecmp (cstr st.m_read_buf text) (bytes "Connection:") 11 = 0 then
    let text1 := text + 11
    let text2 := text1 + strspn (cstr st.m_read_buf text1) [32, 9]
    if strcasecmp (cstr st.m_read_buf text2) (bytes "keep-alive") = 0 then
      (HTTP_CODE.NO_REQUEST, { st with m_linger := true })
    else (HTTP_CODE.NO_REQUEST, st)
  else if strncasecmp (cstr st.m_read_buf text) (bytes "Content-Length:") 15 = 0 then
    let text1 := text + 15
    let text2 := text1 + strspn (cstr st.m_read_buf text1) [32, 9]
    (HTTP_CODE.NO_REQUEST, { st with m_content_length := to_int (atol (cstr st.m_read_buf text2)) })
  else if strncasecmp (cstr st.m_read_buf text) (bytes "Host:") 5 = 0 then
    let text1 := text + 5
    let text2 := text1 + strspn (cstr st.m_read_buf text1) [32, 9]
    (HTTP_CODE.NO_REQUEST, { st with m_host := some text2 })
  else (HTTP_CODE.NO_REQUEST, st)

/-- The function `http_conn::parse_content(char* text)`.  The sum
`m_content_length + m_checked_idx` is a sum of two `int`s and wraps.  The store
`text[m_content_length] = 0` is at the offset `text + m_content_length` of the read buffer;
when that offset is not an index of the read buffer the store is outside the array, the
behaviour of the program is undefined, and the function has no result here (`none`). -/
def parse_content (st : http_conn) (text : Nat) : Option (HTTP_CODE × http_conn) :=
  if (st.m_read_idx : Int) ≥ to_int (st.m_content_length + (st.m_checked_idx : Int)) then
    if 0 ≤ (text : Int) + st.m_content_length ∧
        (text : Int) + st.m_content_length < (st.m_read_buf.length : Int) then
      some (HTTP_CODE.GET_REQUEST,
        { st with
          m_read_buf := st.m_read_buf.set ((text : Int) + st.m_content_length).toNat 0 })
    else none
  else some (HTTP_CODE.NO_REQUEST, st)

/-- The C string a (possibly null) pointer into the read buffer denotes. -/
def str_at (st : http_conn) (p : Option Nat) : Option (List Nat) :=
  p.map (cstr st.m_read_buf)

/-- The path `do_request` builds in a file-name buffer: `strcpy` of `doc_root`, then
`strncpy` of the url with the count `FILENAME_LEN - len - 1` (which pads with NULs). -/
def build_real_file (cfg : Limits) (real_file url : List Nat) : List Nat :=
  let len := doc_root.length
  let n := cfg.FILENAME_LEN - len - 1
  let r1 := write_at real_file 0 (doc_root ++ [0])
  write_at r1 len (url.take n ++ List.replicate (n - url.length) 0)

/-- The checks `do_request` makes on the path it has built. -/
def stat_code (fs : FileSystem) (path : List Nat) : HTTP_CODE :=
  match fs.stat path with
  | none => HTTP_CODE.NO_RESOURCE
  | some s =>
    if s.st_mode &&& S_IROTH = 0 then HTTP_CODE.FORBIDDEN_REQUEST
    else if S_ISDIR s.st_mode then HTTP_CODE.BAD_REQUEST
    else HTTP_CODE.FILE_REQUEST

/-- The function `http_conn::do_request()`.  A null `m_url` is read as the empty string. -/
def do_request (cfg : Limits) (fs : FileSystem) (st : http_conn) : HTTP_CODE × http_conn :=
  let url := (st.str_at st.m_url).getD []
  let st1 := { st with m_real_file := build_real_file cfg st.m_real_file url }
  let path := cstr st1.m_real_file 0
  match fs.stat path with
  | none => (HTTP_CODE.NO_RESOURCE, st1)
  | some s =>
    let st2 := { st1 with m_file_stat := s }
    if s.st_mode &&& S_IROTH = 0 then (HTTP_CODE.FORBIDDEN_REQUEST, st2)
    else if S_ISDIR s.st_mode then (HTTP_CODE.BAD_REQUEST, st2)
    else
      (HTTP_CODE.FILE_REQUEST, { st2 with m_file_address := some (fs.mmap path s.st_size) })

/-- The `while` loop of `http_conn::process_read()`: one iteration per unit of `fuel`; `none`
when the fuel runs out before the loop ends, and when `parse_content` stores outside the read
buffer. -/
def process_read_loop (cfg : Limits) (fs : FileSystem) :
    Nat → LINE_STATUS → http_conn → Option (HTTP_CODE × http_conn)
  | 0, _, _ => none
  | fuel + 1, line_status, st =>
    let cond : LINE_STATUS × http_conn :=
      if st.m_check_state = CHECK_STATE.CHECK_STATE_CONTENT ∧ line_status = LINE_STATUS.LINE_OK
      then (LINE_STATUS.LINE_OK, st)
      else parse_line st
    if cond.1 ≠ LINE_STATUS.LINE_OK then some (HTTP_CODE.NO_REQUEST, cond.2)
    else
      let text := cond.2.m_start_line
      let st1 := { cond.2 with m_start_line := cond.2.m_checked_idx }
      match st1.m_check_state with
      | CHECK_STATE.CHECK_STATE_REQUESTLINE =>
        let r := parse_request_line st1 text
        if r.1 = HTTP_CODE.BAD_REQUEST then some (HTTP_CODE.BAD_REQUEST, r.2)
        else process_read_loop cfg fs fuel cond.1 r.2
      | CHECK_STATE.CHECK_STATE_HEADER =>
        let r := parse_headers st1 text
        if r.1 = HTTP_CODE.BAD_REQUEST then some (HTTP_CODE.BAD_REQUEST, r.2)
        else if r.1 = HTTP_CODE.GET_REQUEST then some (do_request cfg fs r.2)
        else process_read_loop cfg fs fuel cond.1 r.2
      | CHECK_STATE.CHECK_STATE_CONTENT =>
        match parse_content st1 text with
        | none => none
        | some r =>
          if r.1 = HTTP_CODE.GET_REQUEST then some (do_request cfg fs r.2)
          else process_read_loop cfg fs fuel LINE_STATUS.LINE_OPEN r.2

/-- The function `http_conn::process_read()`.  Every iteration but at most one moves
`m_checked_idx` forward and the last one only tests the loop condition, so
`m_read_idx - m_checked_idx + 2` iterations are enough: the result is `none` only when
`parse_content` stores outside the read buffer. -/
def process_read (cfg : Limits) (fs : FileSystem) (st : http_conn) :
    Option (HTTP_CODE × http_conn) :=
  process_read_loop cfg fs (st.m_read_idx - st.m_checked_idx + 2) LINE_STATUS.LINE_OK st

/-- The function `http_conn::unmap()`. -/
def unmap (st : http_conn) : http_conn :=
  match st.m_file_address with
  | some _ => { st with m_file_address := none }
  | none => st

/-- The function `http_conn::add_response`, given the text its format and arguments produce:
`vsnprintf` stores at most `size - 1` bytes of it and a NUL, and returns its full length. -/
def add_response (cfg : Limits) (st : http_conn) (text : List Nat) : Bool × http_conn :=
  if st.m_write_idx ≥ cfg.WRITE_BUFFER_SIZE then (false, st)
  else
    let size := cfg.WRITE_BUFFER_SIZE - 1 - st.m_write_idx
    let st1 :=
      if size = 0 then st
      else { st with m_write_buf := write_at st.m_write_buf st.m_write_idx (text.take (size - 1) ++ [0]) }
    if text.length ≥ size then (false, st1)
    else (true, { st1 with m_write_idx := st1.m_write_idx + text.length })

/-- The function `http_conn::add_status_line`: format `"%s %d %s\r\n"`. -/
def add_status_line (cfg : Limits) (st : http_conn) (status : Int) (title : List Nat) :
    Bool × http_conn :=
  add_response cfg st (bytes "HTTP/1.1" ++ [32] ++ fmt_d status ++ [32] ++ title ++ [13, 10])

/-- The function `http_conn::add_content_length`: format `"Content-Length: %d\r\n"`. -/
def add_content_length (cfg : Limits) (st : http_conn) (content_len : Int) : Bool × http_conn :=
  add_response cfg st (bytes "Content-Length: " ++ fmt_d content_len ++ [13, 10])

/-- The function `http_conn::add_content_type`: format `"Content-Type:%s\r\n"`. -/
def add_content_type (cfg : Limits) (st : http_conn) : Bool × http_conn :=
  add_response cfg st (bytes "Content-Type:" ++ bytes "text/html" ++ [13, 10])

/-- The function `http_conn::add_linger`: format `"Connection: %s\r\n"`. -/
def add_linger (cfg : Limits) (st : http_conn) : Bool × http_conn :=
  add_response cfg st
    (bytes "Connection: " ++ (if st.m_linger = true then bytes "keep-alive" else bytes "close")
      ++ [13, 10])

/-- The function `http_conn::add_blank_line`. -/
def add_blank_line (cfg : Limits) (st : http_conn) : Bool × http_conn :=
  add_response cfg st [13, 10]

/-- The function `http_conn::add_content`. -/
def add_content (cfg : Limits) (st : http_conn) (content : List Nat) : Bool × http_conn :=
  add_response cfg st content

/-- The function `http_conn::add_headers(int content_len)`.  It has no `return` statement and
no caller reads its value, so only its effect on the connection is modelled. -/
def add_headers (cfg : Limits) (st : http_conn) (content_len : Int) : http_conn :=
  let st1 := (add_content_length cfg st content_len).2
  let st2 := (add_content_type cfg st1).2
  let st3 := (add_linger cfg st2).2
  (add_blank_line cfg st3).2

/-- The four error cases of `process_write` share this shape. -/
def error_response (cfg : Limits) (st : http_conn) (status : Int) (title form : List Nat) :
    Bool × http_conn :=
  let st1 := (add_status_line cfg st status title).2
  let st2 := add_headers cfg st1 (to_int form.length)
  let r := add_content cfg st2 form
  if r.1 = false then (false, r.2)
  else
    (true,
      { r.2 with
        m_iv0 := { iov_base := iov_base_t.write_buf, iov_len := r.2.m_write_idx }
        m_iv_count := 1 })

/-- The function `http_conn::process_write(HTTP_CODE ret)`. -/
def process_write (cfg : Limits) (st : http_conn) (ret : HTTP_CODE) : Bool × http_conn :=
  match ret with
  | HTTP_CODE.INTERNAL_ERROR => error_response cfg st 500 error_500_title error_500_form
  | HTTP_CODE.BAD_REQUEST => error_response cfg st 400 error_400_title error_400_form
  | HTTP_CODE.NO_RESOURCE => error_response cfg st 404 error_404_title error_404_form
  | HTTP_CODE.FORBIDDEN_REQUEST => error_response cfg st 403 error_403_title error_403_form
  | HTTP_CODE.FILE_REQUEST =>
    let st1 := (add_status_line cfg st 200 ok_200_title).2
    let st2 := add_headers cfg st1 (to_int st1.m_file_stat.st_size)
    (true,
      { st2 with
        m_iv0 := { iov_base := iov_base_t.write_buf, iov_len := st2.m_write_idx }
        m_iv1 := { iov_base := iov_base_t.addr st2.m_file_address, iov_len := st2.m_file_stat.st_size }
        m_iv_count := 2 })
  | _ => (false, st)

/-- The bytes of the write buffer that count as written: `[0, m_write_idx)`. -/
def written (st : http_conn) : List Nat := st.m_write_buf.take st.m_write_idx

/-- The connection after `text` and a NUL have been stored at `m_write_idx` and the index has
moved past `text`: the effect of an `add_response` whose text fits. -/
def append_text (st : http_conn) (text : List Nat) : http_conn :=
  { st with
    m_write_buf := write_at st.m_write_buf st.m_write_idx (text ++ [0])
    m_write_idx := st.m_write_idx + text.length }

end http_conn

/-! ## The response table of the specification -/

/-- The table of the specification (section 4.5): status code and reason of an error result,
with the canned body the source pairs with it. -/
def status_table : HTTP_CODE → String × String × List Nat
  | HTTP_CODE.BAD_REQUEST => ("400", "Bad Request", error_400_form)
  | HTTP_CODE.FORBIDDEN_REQUEST => ("403", "Forbidden", error_403_form)
  | HTTP_CODE.NO_RESOURCE => ("404", "Not Found", error_404_form)
  | HTTP_CODE.INTERNAL_ERROR => ("500", "Internal Error", error_500_form)
  | _ => ("", "", [])

/-- The response head of the specification: status line, `Content-Length`, `Content-Type`,
`Connection` and the blank line. -/
def response_head (code reason : String) (n : Int) (linger : Bool) : List Nat :=
  bytes "HTTP/1.1 " ++ bytes code ++ bytes " " ++ bytes reason ++ bytes "\r\n"
    ++ bytes "Content-Length: " ++ fmt_d n ++ bytes "\r\n"
    ++ bytes "Content-Type:text/html\r\n"
    ++ bytes "Connection: " ++ bytes (if linger then "keep-alive" else "close") ++ bytes "\r\n"
    ++ bytes "\r\n"

/-! ## Request lines and header lines as byte strings

What the parser does is stated on the bytes of a line; these functions read a line the way
the source does, without a buffer. -/

/-- The method of a request line: the bytes before its first space or TAB. -/
def rl_method (line : List Nat) : List Nat := line.take (strcspn line [32, 9])

/-- What follows the first space or TAB of a request line. -/
def rl_rest (line : List Nat) : List Nat := line.drop (strcspn line [32, 9] + 1)

/-- The URI of a request line: the bytes between its first and its second separator. -/
def rl_uri (line : List Nat) : List Nat := (rl_rest line).take (strcspn (rl_rest line) [32, 9])

/-- The version of a request line: what follows its second separator. -/
def rl_version (line : List Nat) : List Nat :=
  (rl_rest line).drop (strcspn (rl_rest line) [32, 9] + 1)

/-- The path of a URI: the URI itself, or, after a leading `http://` (any case), what starts
at the first `/` (none when there is no `/`). -/
def uri_path (uri : List Nat) : Option (List Nat) :=
  if (uri.take 7).map tolower = bytes "http://" then
    if strcspn (uri.drop 7) [47] < (uri.drop 7).length then
      some ((uri.drop 7).drop (strcspn (uri.drop 7) [47]))
    else none
  else some uri

/-- The path a request line is accepted with, `none` when the line is rejected. -/
def request_line_path (line : List Nat) : Option (List Nat) :=
  if strcspn line [32, 9] < line.length ∧ (rl_method line).map tolower = bytes "get" ∧
      strcspn (rl_rest line) [32, 9] < (rl_rest line).length ∧
      (rl_version line).map tolower = bytes "http/1.1" then
    (uri_path (rl_uri line)).bind (fun p => if p.head? = some 47 then some p else none)
  else none

/-! The same parts in the words of the specification, which splits a request line at
runs of white space (space or TAB). -/

/-- The method: the bytes before the first white space. -/
def sp_method (line : List Nat) : List Nat := line.takeWhile (fun c => !(List.contains [32, 9] c))

/-- What follows the first run of white space. -/
def sp_after_method (line : List Nat) : List Nat :=
  (line.dropWhile (fun c => !(List.contains [32, 9] c))).dropWhile (fun c => [32, 9].contains c)

/-- The URI: from the end of the first run of white space to the next white space. -/
def sp_uri (line : List Nat) : List Nat :=
  (sp_after_method line).takeWhile (fun c => !(List.contains [32, 9] c))

/-- The version: what follows the second run of white space. -/
def sp_version (line : List Nat) : List Nat :=
  ((sp_after_method line).dropWhile (fun c => !(List.contains [32, 9] c))).dropWhile
    (fun c => [32, 9].contains c)

/-- Small limits for evaluating the functions on concrete requests. -/
def small_limits : Limits := { READ_BUFFER_SIZE := 96, WRITE_BUFFER_SIZE := 256, FILENAME_LEN := 64 }

/-- A file system with no file at all. -/
def empty_fs : FileSystem := { stat := fun _ => none, mmap := fun _ _ => [] }

/-- The connection after `init()` that has then received `req` in one `recv`. -/
def received (cfg : Limits) (req : List Nat) : http_conn :=
  (http_conn.read cfg (http_conn.init cfg (http_conn.blank cfg)) [recv_result.data req]).2

/-! Header lines. -/

/-- The value of a header line whose name takes `n` bytes: what follows the name, without
leading spaces and TABs. -/
def header_value (n : Nat) (l : List Nat) : List Nat :=
  (l.drop n).drop (strspn (l.drop n) [32, 9])

/-- The line starts with `Connection:`, ignoring case. -/
def is_connection (l : List Nat) : Bool := (l.take 11).map tolower == bytes "connection:"

/-- The line starts with `Content-Length:`, ignoring case. -/
def is_content_length (l : List Nat) : Bool := (l.take 15).map tolower == bytes "content-length:"

/-- The line starts with `Host:`, ignoring case. -/
def is_host (l : List Nat) : Bool := (l.take 5).map tolower == bytes "host:"

/-- The line is a `Connection` header whose value is `keep-alive`, ignoring case. -/
def is_keep_alive (l : List Nat) : Bool :=
  is_connection l && ((header_value 11 l).map tolower == bytes "keep-alive")

/-- The line starts with one of the three header names the parser knows. -/
def recognised (l : List Nat) : Bool := is_connection l || is_content_length l || is_host l

/-- What `parse_headers` does to the connection for a non-empty header line `l` that starts
at offset `base` of the read buffer. -/
def header_effect (base : Nat) (l : List Nat) (st : http_conn) : http_conn :=
  if is_connection l then
    if (header_value 11 l).map tolower = bytes "keep-alive" then { st with m_linger := true }
    else st
  else if is_content_length l then
    { st with m_content_length := to_int (atol (header_value 15 l)) }
  else if is_host l then { st with m_host := some (base + 5 + strspn (l.drop 5) [32, 9]) }
  else st

/-- A header line as a client sends it: not empty and free of CR, LF and NUL. -/
def header_line (l : List Nat) : Prop := l ≠ [] ∧ ∀ c ∈ l, c ≠ 13 ∧ c ≠ 10 ∧ c ≠ 0

instance (l : List Nat) : Decidable (header_line l) := by
  unfold header_line; infer_instance

/-- The bytes of a list of lines, each followed by CR LF. -/
def crlf_lines (hs : List (List Nat)) : List Nat := hs.flatMap (fun l => l ++ [13, 10])

/-- The bytes of the request `GET <uri> HTTP/1.1` with the header lines `hs`. -/
def get_request (uri : List Nat) (hs : List (List Nat)) : List Nat :=
  bytes "GET " ++ uri ++ bytes " HTTP/1.1" ++ [13, 10] ++ crlf_lines hs ++ [13, 10]

/-- The host value after the header lines `hs`, starting from the value `hv`: the value of
the last line that `parse_headers` takes for a `Host` header. -/
def host_after : List (List Nat) → Option (List Nat) → Option (List Nat)
  | [], hv => hv
  | l :: ls, hv =>
    host_after ls
      (if !is_connection l && !is_content_length l && is_host l then some (header_value 5 l)
       else hv)

/-- The content length after the header lines `hs`, starting from the value `cl`. -/
def content_length_after : List (List Nat) → Int → Int
  | [], cl => cl
  | l :: ls, cl =>
    content_length_after ls
      (if !is_connection l && is_content_length l then to_int (atol (header_value 15 l)) else cl)

/-- The request fields a parsed request is made of, as values: pointers into the read
buffer are replaced by the strings they denote. -/
structure parsed_fields where
  method : METHOD
  url : Option (List Nat)
  version : Option (List Nat)
  host : Option (List Nat)
  content_length : Int
  linger : Bool
deriving DecidableEq, Repr

/-- The parsed request fields of a connection. -/
def http_conn.parsed (st : http_conn) : parsed_fields :=
  { method := st.m_method
    url := st.str_at st.m_url
    version := st.str_at st.m_version
    host := st.str_at st.m_host
    content_length := st.m_content_length
    linger := st.m_linger }

/-- The pointer `p` denotes the string `v` in every buffer that starts with `pre`: the string
and its terminating NUL lie inside `pre`. -/
def stable_str (pre : List Nat) (p : Option Nat) (v : Option (List Nat)) : Prop :=
  match p, v with
  | none, none => True
  | some u, some s => ∀ X, cstr (pre ++ X) u = s
  | _, _ => False

/-- The file system of the specification's scenarios: under the document root, `/index.html`
is a world-readable regular file of 11 bytes (`hello world`), `/` is a directory and `/secret`
is a regular file that is not world-readable. -/
def scenario_fs : FileSystem :=
  { stat := fun path =>
      if path = doc_root ++ bytes "/index.html" then some { st_mode := 33188, st_size := 11 }
      else if path = doc_root ++ bytes "/" then some { st_mode := 16877, st_size := 4096 }
      else if path = doc_root ++ bytes "/secret" then some { st_mode := 33184, st_size := 5 }
      else none
    mmap := fun path _ => if path = doc_root ++ bytes "/index.html" then bytes "hello world" else [] }

/-- One iteration of the `while` loop of `process_read`: either the end of the function, with
the value it returns (`none` at a store of `parse_content` outside the read buffer), or the
line status and connection the next iteration starts from. -/
def process_read_step (cfg : Limits) (fs : FileSystem) (line_status : LINE_STATUS)
    (st : http_conn) : Sum (Option (HTTP_CODE × http_conn)) (LINE_STATUS × http_conn) :=
  let cond : LINE_STATUS × http_conn :=
    if st.m_check_state = CHECK_STATE.CHECK_STATE_CONTENT ∧ line_status = LINE_STATUS.LINE_OK
    then (LINE_STATUS.LINE_OK, st)
    else http_conn.parse_line st
  if cond.1 ≠ LINE_STATUS.LINE_OK then Sum.inl (some (HTTP_CODE.NO_REQUEST, cond.2))
  else
    let text := cond.2.m_start_line
    let st1 := { cond.2 with m_start_line := cond.2.m_checked_idx }
    match st1.m_check_state with
    | CHECK_STATE.CHECK_STATE_REQUESTLINE =>
      let r := http_conn.parse_request_line st1 text
      if r.1 = HTTP_CODE.BAD_REQUEST then Sum.inl (some (HTTP_CODE.BAD_REQUEST, r.2))
      else Sum.inr (cond.1, r.2)
    | CHECK_STATE.CHECK_STATE_HEADER =>
      let r := http_conn.parse_headers st1 text
      if r.1 = HTTP_CODE.BAD_REQUEST then Sum.inl (some (HTTP_CODE.BAD_REQUEST, r.2))
      else if r.1 = HTTP_CODE.GET_REQUEST then Sum.inl (some (http_conn.do_request cfg fs r.2))
      else Sum.inr (cond.1, r.2)
    | CHECK_STATE.CHECK_STATE_CONTENT =>
      match http_conn.parse_content st1 text with
      | none => Sum.inl none
      | some r =>
        if r.1 = HTTP_CODE.GET_REQUEST then Sum.inl (some (http_conn.do_request cfg fs r.2))
        else Sum.inr (LINE_STATUS.LINE_OPEN, r.2)

/-- Within `fuel` iterations the loop of `process_read` comes to a call of `parse_content`
that stores outside the read buffer. -/
def process_read_bad_store (cfg : Limits) (fs : FileSystem) :
    Nat → LINE_STATUS → http_conn → Bool
  | 0, _, _ => false
  | fuel + 1, line_status, st =>
    match process_read_step cfg fs line_status st with
    | Sum.inl none => true
    | Sum.inl (some _) => false
    | Sum.inr c => process_read_bad_store cfg fs fuel c.1 c.2

/-- The call `process_read()` on the connection `st` comes to a store of `parse_content`
outside the read buffer. -/
def http_conn.bad_store (cfg : Limits) (fs : FileSystem) (st : http_conn) : Bool :=
  process_read_bad_store cfg fs (st.m_read_idx - st.m_checked_idx + 2) LINE_STATUS.LINE_OK st

/-- The number of iterations `process_read` still needs at most, from a connection and a line
status. -/
def loop_measure (line_status : LINE_STATUS) (st : http_conn) : Nat :=
  (st.m_read_idx - st.m_checked_idx) +
    (if st.m_check_state = CHECK_STATE.CHECK_STATE_CONTENT then
      (if line_status = LINE_STATUS.LINE_OK then 2 else 1)
     else 2)

/-! ## Requests that arrive in two pieces -/

/-- The connection after one more `recv` of `http_conn::read()` has stored the bytes `data`
behind the `m_read_idx` bytes already received. -/
def http_conn.feed (st : http_conn) (data : List Nat) : http_conn :=
  { st with
    m_read_buf := write_at st.m_read_buf st.m_read_idx data
    m_read_idx := st.m_read_idx + data.length }

/-- The C string at the pointer `p` ends inside the first `n` bytes of `buf`: a NUL lies at
or after the offset `p` and before the offset `n`.  A null pointer satisfies this. -/
def terminated (buf : List Nat) (n : Nat) (p : Option Nat) : Prop :=
  ∀ q, p = some q → ∃ i, q ≤ i ∧ i < n ∧ buf.getD i 0 = 0

/-- What the two-piece argument keeps true of a connection that still waits for `extra` more
bytes: the received bytes and the `extra` ones fit in the read buffer, the line being scanned
starts at or before the scanner, the scanner is inside the received bytes, and the url and
host strings end inside the received bytes. -/
def resumable (extra : Nat) (st : http_conn) : Prop :=
  st.m_read_idx + extra ≤ st.m_read_buf.length ∧
  st.m_start_line ≤ st.m_checked_idx ∧ st.m_checked_idx ≤ st.m_read_idx ∧
  terminated st.m_read_buf st.m_read_idx st.m_url ∧
  terminated st.m_read_buf st.m_read_idx st.m_host

/-! ## The event loop, `write()` and `process()` -/

/-- The two directions `modfd` is called with. -/
inductive EPOLL_EVENTS where
  | EPOLLIN
  | EPOLLOUT
deriving DecidableEq, Repr

/-- A call the connection makes on the event loop: `modfd(m_epollfd, fd, ev)` rearms the
descriptor for one direction, `removefd(m_epollfd, fd)` takes it out of the event set and
closes it. -/
inductive effect where
  | modfd (fd : Int) (ev : EPOLL_EVENTS)
  | removefd (fd : Int)
deriving DecidableEq, Repr

/-- One outcome of `writev`: the socket accepts the first `n` bytes of what is offered (all
of it when less than `n` is offered), would-block (`EAGAIN`), or another error. -/
inductive writev_result where
  | accepted (n : Nat)
  | would_block
  | error
deriving DecidableEq, Repr

/-- The function `http_conn::close_conn()`.  The static counter `m_user_count` lies outside
the connection object; its decrement goes with the `removefd` call. -/
def http_conn.close_conn (st : http_conn) : http_conn × List effect :=
  if st.m_sockfd ≠ -1 then ({ st with m_sockfd := -1 }, [effect.removefd st.m_sockfd])
  else (st, [])

/-- The bytes one element of the gather vector `m_iv` denotes. -/
def http_conn.iov_bytes (st : http_conn) (iv : iovec) : List Nat :=
  match iv.iov_base with
  | iov_base_t.write_buf => st.m_write_buf.take iv.iov_len.toNat
  | iov_base_t.addr (some bs) => bs.take iv.iov_len.toNat
  | iov_base_t.addr none => []

/-- The bytes `writev(m_sockfd, m_iv, m_iv_count)` offers to the socket: the first
`m_iv_count` elements of `m_iv`, in order. -/
def http_conn.gather (st : http_conn) : List Nat :=
  (if 1 ≤ st.m_iv_count then st.iov_bytes st.m_iv0 else []) ++
    (if 2 ≤ st.m_iv_count then st.iov_bytes st.m_iv1 else [])

/-- What a call of `http_conn::write()` leaves behind: its return value, the connection, the
calls it made on the event loop and the bytes the socket accepted, in order. -/
structure write_result where
  ret : Bool
  conn : http_conn
  effects : List effect
  sent : List Nat
deriving DecidableEq, Repr

/-- The `while(1)` loop of `http_conn::write()`, one `writev` outcome per iteration; after the
last listed outcome the socket would block.  The counters are C `int`s. -/
def http_conn.write_loop (cfg : Limits) :
    List writev_result → http_conn → Int → Int → List Nat → write_result
  | [], st, _, _, sent =>
    { ret := true, conn := st, effects := [effect.modfd st.m_sockfd EPOLL_EVENTS.EPOLLOUT],
      sent := sent }
  | writev_result.would_block :: _, st, _, _, sent =>
    { ret := true, conn := st, effects := [effect.modfd st.m_sockfd EPOLL_EVENTS.EPOLLOUT],
      sent := sent }
  | writev_result.error :: _, st, _, _, sent =>
    { ret := false, conn := http_conn.unmap st, effects := [], sent := sent }
  | writev_result.accepted n :: rest, st, bytes_to_send, bytes_have_send, sent =>
    let out := st.gather.take n
    let temp : Int := to_int out.length
    let bytes_to_send1 := to_int (bytes_to_send - temp)
    let bytes_have_send1 := to_int (bytes_have_send + temp)
    if bytes_to_send1 ≤ bytes_have_send1 then
      let st1 := http_conn.unmap st
      if st1.m_linger = true then
        { ret := true, conn := http_conn.init cfg st1,
          effects := [effect.modfd st1.m_sockfd EPOLL_EVENTS.EPOLLIN], sent := sent ++ out }
      else
        { ret := false, conn := st1,
          effects := [effect.modfd st1.m_sockfd EPOLL_EVENTS.EPOLLIN], sent := sent ++ out }
    else http_conn.write_loop cfg rest st bytes_to_send1 bytes_have_send1 (sent ++ out)

/-- The function `http_conn::write()`; the socket is the list of outcomes of its `writev`
calls. -/
def http_conn.write (cfg : Limits) (st : http_conn) (socket : List writev_result) :
    write_result :=
  if to_int st.m_write_idx = 0 then
    { ret := true, conn := http_conn.init cfg st,
      effects := [effect.modfd st.m_sockfd EPOLL_EVENTS.EPOLLIN], sent := [] }
  else http_conn.write_loop cfg socket st (to_int st.m_write_idx) 0 []

/-- The cursor predicate of the specification: `m_start_line ≤ m_checked_idx ≤ m_read_idx ≤
READ_BUFFER_SIZE`. -/
def cursor_inv (cfg : Limits) (st : http_conn) : Prop :=
  st.m_start_line ≤ st.m_checked_idx ∧ st.m_checked_idx ≤ st.m_read_idx ∧
  st.m_read_idx ≤ cfg.READ_BUFFER_SIZE

instance (cfg : Limits) (st : http_conn) : Decidable (cursor_inv cfg st) := by
  unfold cursor_inv; infer_instance

/-- A prepared response for the evaluation of `write`: the 404 response `process_write`
builds on a fresh keep-alive connection with descriptor 5. -/
def sample_response : http_conn :=
  (http_conn.process_write small_limits
    { http_conn.init small_limits (http_conn.blank small_limits) with
      m_sockfd := 5, m_linger := true }
    HTTP_CODE.NO_RESOURCE).2

/-- The values `init()` gives the parser fields and the cursors, with a read buffer of
`READ_BUFFER_SIZE` zero bytes. -/
def initial_values (cfg : Limits) (st : http_conn) : Prop :=
  st.m_check_state = CHECK_STATE.CHECK_STATE_REQUESTLINE ∧ st.m_linger = false ∧
  st.m_content_length = 0 ∧ st.m_url = none ∧ st.m_version = none ∧ st.m_host = none ∧
  st.m_start_line = 0 ∧ st.m_checked_idx = 0 ∧ st.m_read_idx = 0 ∧ st.m_write_idx = 0 ∧
  st.m_read_buf = List.replicate cfg.READ_BUFFER_SIZE 0

/-- Limits with a write buffer too small for an error response. -/
def tiny_write_limits : Limits :=
  { READ_BUFFER_SIZE := 96, WRITE_BUFFER_SIZE := 100, FILENAME_LEN := 64 }

/-! ## Release of the mapping, close and registration -/

/-- The `munmap` call `http_conn::unmap()` makes: its two arguments, or `none` when the
stored address is null and nothing is released. -/
def http_conn.unmap_call (st : http_conn) : Option (List Nat × Int) :=
  match st.m_file_address with
  | some a => some (a, st.m_file_stat.st_size)
  | none => none

/-- What `http_conn::close_conn()` does to the static counter `m_user_count`, a C `int`. -/
def http_conn.close_conn_user_count (st : http_conn) (m_user_count : Int) : Int :=
  if st.m_sockfd ≠ -1 then to_int (m_user_count - 1) else m_user_count

namespace epoll

/-- The event bits of `<sys/epoll.h>` on Linux. -/
def EPOLLIN : Nat := 0x001
def EPOLLOUT : Nat := 0x004
def EPOLLRDHUP : Nat := 0x2000
def EPOLLONESHOT : Nat := 2 ^ 30
def EPOLLET : Nat := 2 ^ 31

end epoll

/-- The system calls `init(sockfd, addr)` makes, with the descriptor they act on. -/
inductive sys_call where
  | setsockopt_reuseaddr (fd : Int)
  | epoll_ctl_add (fd : Int) (events : Nat)
  | setnonblocking (fd : Int)
deriving DecidableEq, Repr

/-- The event mask `addfd` builds: `EPOLLIN | EPOLLRDHUP`, and `EPOLLONESHOT` when `one_shot`
is set. -/
def addfd_events (one_shot : Bool) : Nat :=
  (epoll.EPOLLIN ||| epoll.EPOLLRDHUP) ||| (if one_shot then epoll.EPOLLONESHOT else 0)

/-- The function `addfd(epollfd, fd, one_shot)`. -/
def addfd (fd : Int) (one_shot : Bool) : List sys_call :=
  [sys_call.epoll_ctl_add fd (addfd_events one_shot), sys_call.setnonblocking fd]

/-- The event mask `modfd` builds for the direction `ev`. -/
def modfd_events (ev : Nat) : Nat :=
  ev ||| epoll.EPOLLET ||| epoll.EPOLLONESHOT ||| epoll.EPOLLRDHUP

/-- The function `http_conn::init(int sockfd, const sockaddr_in& addr)`: the connection, the
static counter `m_user_count` and the system calls made.  The member `m_address` is stored
and never read, and is left out. -/
def http_conn.init_sockfd (cfg : Limits) (st : http_conn) (sockfd : Int) (m_user_count : Int) :
    http_conn × Int × List sys_call :=
  (http_conn.init cfg { st with m_sockfd := sockfd }, to_int (m_user_count + 1),
    [sys_call.setsockopt_reuseaddr sockfd] ++ addfd sockfd true)

/-! ## Predicates on reachable connections -/

/-- The byte at offset `j` of `buf` is neither CR nor LF. -/
def no_crlf (buf : List Nat) (j : Nat) : Prop := buf.getD j 0 ≠ 13 ∧ buf.getD j 0 ≠ 10

/-- The scanner has left no CR or LF behind it: the read buffer has `READ_BUFFER_SIZE` bytes,
the scanner is inside the received bytes, and no byte below `m_checked_idx` is CR or LF. -/
def scanned_clean (cfg : Limits) (st : http_conn) : Prop :=
  st.m_read_buf.length = cfg.READ_BUFFER_SIZE ∧ st.m_checked_idx ≤ st.m_read_idx ∧
  st.m_read_idx ≤ cfg.READ_BUFFER_SIZE ∧ ∀ j, j < st.m_checked_idx → no_crlf st.m_read_buf j

/-- The connections reached from `init()` on an object with buffers of the configured sizes,
by calls of `read` (with any `recv` outcomes), `parse_line` and `process_read`; a call of
`process_read` that comes to a store outside the read buffer leaves no connection to go on
from. -/
inductive reachable (cfg : Limits) (fs : FileSystem) : http_conn → Prop where
  | init (st0 : http_conn) (h : http_conn.Sized cfg st0) : reachable cfg fs (http_conn.init cfg st0)
  | read (st : http_conn) (socket : List recv_result) (h : reachable cfg fs st) :
      reachable cfg fs (http_conn.read cfg st socket).2
  | parse_line (st : http_conn) (h : reachable cfg fs st) :
      reachable cfg fs (http_conn.parse_line st).2
  | process_read (st : http_conn) (r : HTTP_CODE × http_conn) (h : reachable cfg fs st)
      (hr : http_conn.process_read cfg fs st = some r) : reachable cfg fs r.2

/-- The pointers the parser has stored denote strings inside the received bytes: the line
being scanned starts at or before the scanner, the scanner is inside the received bytes,
which are inside the read buffer, the url, version and host strings end inside the received
bytes, and once the request line has been accepted the url and the version are not null. -/
def slices_inv (st : http_conn) : Prop :=
  st.m_read_idx ≤ st.m_read_buf.length ∧
  st.m_start_line ≤ st.m_checked_idx ∧ st.m_checked_idx ≤ st.m_read_idx ∧
  terminated st.m_read_buf st.m_read_idx st.m_url ∧
  terminated st.m_read_buf st.m_read_idx st.m_version ∧
  terminated st.m_read_buf st.m_read_idx st.m_host ∧
  (st.m_check_state ≠ CHECK_STATE.CHECK_STATE_REQUESTLINE →
    st.m_url ≠ none ∧ st.m_version ≠ none)

end WebServer

namespace WebServer
open http_conn

/-! ## Buffers -/

theorem write_at_length (buf : List Nat) (i : Nat) (data : List Nat) :
    (write_at buf i data).length = buf.length := by
  unfold write_at
  simp only [List.length_take, List.length_append, List.length_drop]
  omega

theorem write_at_take (buf : List Nat) (i : Nat) (t : List Nat)
    (h : i + t.length + 1 ≤ buf.length) :
    (write_at buf i (t ++ [0])).take (i + t.length) = buf.take i ++ t := by
  unfold write_at
  have h1 : (buf.take i ++ t).length = i + t.length := by
    simp only [List.length_append, List.length_take]; omega
  rw [List.take_take, Nat.min_eq_left (by omega)]
  have h2 : buf.take i ++ (t ++ [0]) ++ buf.drop (i + (t ++ [0]).length)
      = (buf.take i ++ t) ++ (0 :: buf.drop (i + (t ++ [0]).length)) := by
    simp [List.append_assoc]
  rw [h2]
  exact List.take_left' h1

/-! ## The response builder -/

theorem add_response_fits (cfg : Limits) (st : http_conn) (t : List Nat)
    (hfit : st.m_write_idx + t.length + 1 < cfg.WRITE_BUFFER_SIZE) :
    add_response cfg st t = (true, st.append_text t) := by
  unfold add_response append_text
  have h1 : ¬ st.m_write_idx ≥ cfg.WRITE_BUFFER_SIZE := by omega
  have h2 : ¬ cfg.WRITE_BUFFER_SIZE - 1 - st.m_write_idx = 0 := by omega
  have h3 : ¬ t.length ≥ cfg.WRITE_BUFFER_SIZE - 1 - st.m_write_idx := by omega
  have h4 : t.take (cfg.WRITE_BUFFER_SIZE - 1 - st.m_write_idx - 1) = t :=
    List.take_of_length_le (by omega)
  simp only [h1, h2, h3, h4, if_false]

theorem written_append_text (st : http_conn) (t : List Nat)
    (h : st.m_write_idx + t.length + 1 ≤ st.m_write_buf.length) :
    (st.append_text t).written = st.written ++ t := by
  unfold written append_text
  exact write_at_take _ _ _ h

theorem append_text_idx (st : http_conn) (t : List Nat) :
    (st.append_text t).m_write_idx = st.m_write_idx + t.length := rfl

theorem append_text_buf_length (st : http_conn) (t : List Nat) :
    (st.append_text t).m_write_buf.length = st.m_write_buf.length := by
  unfold append_text
  exact write_at_length _ _ _

theorem append_text_linger (st : http_conn) (t : List Nat) :
    (st.append_text t).m_linger = st.m_linger := rfl

theorem append_text_file_address (st : http_conn) (t : List Nat) :
    (st.append_text t).m_file_address = st.m_file_address := rfl

theorem append_text_file_stat (st : http_conn) (t : List Nat) :
    (st.append_text t).m_file_stat = st.m_file_stat := rfl

end WebServer

namespace WebServer
open http_conn

theorem add_headers_fits (cfg : Limits) (st : http_conn) (n : Int)
    (hfit : st.m_write_idx + (fmt_d n).length + 71 < cfg.WRITE_BUFFER_SIZE) :
    add_headers cfg st n =
      (((st.append_text (bytes "Content-Length: " ++ fmt_d n ++ [13, 10])).append_text
          (bytes "Content-Type:" ++ bytes "text/html" ++ [13, 10])).append_text
          (bytes "Connection: " ++ (if st.m_linger = true then bytes "keep-alive" else bytes "close")
            ++ [13, 10])).append_text [13, 10] := by
  have hl1 : (bytes "Content-Length: " ++ fmt_d n ++ [13, 10]).length = (fmt_d n).length + 18 := by
    simp [bytes]
  have hl2 : (bytes "Content-Type:" ++ bytes "text/html" ++ [13, 10]).length = 24 := by decide
  have hl3 : (bytes "Connection: " ++ (if st.m_linger = true then bytes "keep-alive" else bytes "close")
            ++ [13, 10]).length ≤ 24 := by
    cases st.m_linger <;> decide
  have e1 : add_content_length cfg st n
      = (true, st.append_text (bytes "Content-Length: " ++ fmt_d n ++ [13, 10])) :=
    add_response_fits cfg st _ (by rw [hl1]; omega)
  have e2 : add_content_type cfg (st.append_text (bytes "Content-Length: " ++ fmt_d n ++ [13, 10]))
      = (true, (st.append_text (bytes "Content-Length: " ++ fmt_d n ++ [13, 10])).append_text
          (bytes "Content-Type:" ++ bytes "text/html" ++ [13, 10])) :=
    add_response_fits cfg _ _ (by rw [append_text_idx, hl1, hl2]; omega)
  have e3 : add_linger cfg ((st.append_text (bytes "Content-Length: " ++ fmt_d n ++ [13, 10])).append_text
          (bytes "Content-Type:" ++ bytes "text/html" ++ [13, 10]))
      = (true, ((st.append_text (bytes "Content-Length: " ++ fmt_d n ++ [13, 10])).append_text
          (bytes "Content-Type:" ++ bytes "text/html" ++ [13, 10])).append_text
          (bytes "Connection: " ++ (if st.m_linger = true then bytes "keep-alive" else bytes "close")
            ++ [13, 10])) :=
    add_response_fits cfg _ _ (by
      simp only [append_text_idx, append_text_linger, hl1, hl2]; omega)
  have e4 : add_blank_line cfg (((st.append_text (bytes "Content-Length: " ++ fmt_d n ++ [13, 10])).append_text
          (bytes "Content-Type:" ++ bytes "text/html" ++ [13, 10])).append_text
          (bytes "Connection: " ++ (if st.m_linger = true then bytes "keep-alive" else bytes "close")
            ++ [13, 10]))
      = (true, (((st.append_text (bytes "Content-Length: " ++ fmt_d n ++ [13, 10])).append_text
          (bytes "Content-Type:" ++ bytes "text/html" ++ [13, 10])).append_text
          (bytes "Connection: " ++ (if st.m_linger = true then bytes "keep-alive" else bytes "close")
            ++ [13, 10])).append_text [13, 10]) :=
    add_response_fits cfg _ _ (by
      simp only [append_text_idx, hl1, hl2, List.length_cons, List.length_nil]; omega)
  simp only [add_headers, e1, e2, e3, e4]

/-- The text `add_headers` appends. -/
theorem add_headers_written (cfg : Limits) (st : http_conn) (n : Int)
    (hlen : st.m_write_buf.length = cfg.WRITE_BUFFER_SIZE)
    (hfit : st.m_write_idx + (fmt_d n).length + 71 < cfg.WRITE_BUFFER_SIZE) :
    (add_headers cfg st n).written = st.written ++
      (bytes "Content-Length: " ++ fmt_d n ++ [13, 10]
        ++ (bytes "Content-Type:" ++ bytes "text/html" ++ [13, 10])
        ++ (bytes "Connection: " ++ (if st.m_linger = true then bytes "keep-alive" else bytes "close")
            ++ [13, 10])
        ++ [13, 10]) ∧
    (add_headers cfg st n).m_write_idx ≤ st.m_write_idx + (fmt_d n).length + 68 ∧
    (add_headers cfg st n).m_write_buf.length = cfg.WRITE_BUFFER_SIZE ∧
    (add_headers cfg st n).m_linger = st.m_linger := by
  have hl1 : (bytes "Content-Length: " ++ fmt_d n ++ [13, 10]).length = (fmt_d n).length + 18 := by
    simp [bytes]
  have hl2 : (bytes "Content-Type:" ++ bytes "text/html" ++ [13, 10]).length = 24 := by decide
  have hl3 : (bytes "Connection: " ++ (if st.m_linger = true then bytes "keep-alive" else bytes "close")
            ++ [13, 10]).length ≤ 24 := by
    cases st.m_linger <;> decide
  rw [add_headers_fits cfg st n hfit]
  refine ⟨?_, ?_, ?_, rfl⟩
  · rw [written_append_text, written_append_text, written_append_text, written_append_text]
    · simp only [List.append_assoc]
    · rw [hlen, hl1]; omega
    · rw [append_text_buf_length, append_text_idx, hlen, hl1, hl2]; omega
    · simp only [append_text_buf_length, append_text_idx, hlen, hl1, hl2]; omega
    · simp only [append_text_buf_length, append_text_idx, hlen, hl1, hl2, List.length_cons,
        List.length_nil]; omega
  · simp only [append_text_idx, hl1, hl2, List.length_cons, List.length_nil]; omega
  · simp only [append_text_buf_length, hlen]

end WebServer

namespace WebServer
open http_conn

theorem error_response_spec (cfg : Limits) (st : http_conn) (status : Int) (title form : List Nat)
    (h0 : st.m_write_idx = 0)
    (hlen : st.m_write_buf.length = cfg.WRITE_BUFFER_SIZE)
    (hfit : (fmt_d status).length + title.length + (fmt_d (to_int form.length)).length
      + form.length + 84 < cfg.WRITE_BUFFER_SIZE) :
    (error_response cfg st status title form).1 = true ∧
    (error_response cfg st status title form).2.written =
      (bytes "HTTP/1.1" ++ [32] ++ fmt_d status ++ [32] ++ title ++ [13, 10])
      ++ (bytes "Content-Length: " ++ fmt_d (to_int form.length) ++ [13, 10]
        ++ (bytes "Content-Type:" ++ bytes "text/html" ++ [13, 10])
        ++ (bytes "Connection: " ++ (if st.m_linger = true then bytes "keep-alive" else bytes "close")
            ++ [13, 10])
        ++ [13, 10])
      ++ form ∧
    (error_response cfg st status title form).2.m_iv_count = 1 ∧
    (error_response cfg st status title form).2.m_iv0 =
      { iov_base := iov_base_t.write_buf,
        iov_len := (error_response cfg st status title form).2.m_write_idx } := by
  have hl0 : (bytes "HTTP/1.1" ++ [32] ++ fmt_d status ++ [32] ++ title ++ [13, 10]).length
      = (fmt_d status).length + title.length + 12 := by
    simp [bytes]; omega
  have e1 : add_status_line cfg st status title
      = (true, st.append_text (bytes "HTTP/1.1" ++ [32] ++ fmt_d status ++ [32] ++ title ++ [13, 10])) :=
    add_response_fits cfg st _ (by rw [hl0, h0]; omega)
  have hh := add_headers_written cfg
    (st.append_text (bytes "HTTP/1.1" ++ [32] ++ fmt_d status ++ [32] ++ title ++ [13, 10]))
    (to_int form.length) (by rw [append_text_buf_length, hlen])
    (by rw [append_text_idx, hl0, h0]; omega)
  obtain ⟨hw, hidx, hbl, hlg⟩ := hh
  rw [append_text_idx, hl0, h0] at hidx
  have e3 : add_content cfg (add_headers cfg
      (st.append_text (bytes "HTTP/1.1" ++ [32] ++ fmt_d status ++ [32] ++ title ++ [13, 10]))
      (to_int form.length)) form = (true, (add_headers cfg
      (st.append_text (bytes "HTTP/1.1" ++ [32] ++ fmt_d status ++ [32] ++ title ++ [13, 10]))
      (to_int form.length)).append_text form) :=
    add_response_fits cfg _ _ (by omega)
  have hw0 : st.written = [] := by simp [written, h0]
  have key : (error_response cfg st status title form) = (true,
      { (add_headers cfg
      (st.append_text (bytes "HTTP/1.1" ++ [32] ++ fmt_d status ++ [32] ++ title ++ [13, 10]))
      (to_int form.length)).append_text form with
        m_iv0 := { iov_base := iov_base_t.write_buf, iov_len := ((add_headers cfg
      (st.append_text (bytes "HTTP/1.1" ++ [32] ++ fmt_d status ++ [32] ++ title ++ [13, 10]))
      (to_int form.length)).append_text form).m_write_idx }
        m_iv_count := 1 }) := by
    simp only [error_response, e1, e3]
    simp
  rw [key]
  refine ⟨rfl, ?_, rfl, rfl⟩
  show ((add_headers cfg
      (st.append_text (bytes "HTTP/1.1" ++ [32] ++ fmt_d status ++ [32] ++ title ++ [13, 10]))
      (to_int form.length)).append_text form).written = _
  rw [written_append_text _ _ (by rw [hbl]; omega), hw,
    written_append_text _ _ (by rw [hlen, hl0, h0]; omega), hw0, append_text_linger]
  simp only [List.nil_append]

end WebServer

namespace WebServer
open http_conn

theorem dec_digits_length (fuel n : Nat) (acc : List Nat) :
    (dec_digits fuel n acc).length ≤ fuel + acc.length := by
  induction fuel generalizing n acc with
  | zero => simp [dec_digits]
  | succ k ih =>
    unfold dec_digits
    split
    · simp only [List.length_cons]; omega
    · have := ih (n / 10) ((48 + n % 10) :: acc)
      simp only [List.length_cons] at this
      omega

theorem fmt_d_length (v : Int) : (fmt_d v).length ≤ 21 := by
  unfold fmt_d
  have := dec_digits_length 20 v.natAbs []
  simp only [List.length_nil] at this
  split
  · simp only [List.length_cons]; omega
  · omega

theorem to_int_of_range (v : Int) (h0 : 0 ≤ v) (h1 : v < 2 ^ 31) : to_int v = v := by
  unfold to_int
  omega

/-- C2: an error result makes `process_write` (started with an empty write buffer) return
true with the status line, the three headers, the blank line and the canned body of the table
row in the write buffer, and a gather vector of the single segment `[0, m_write_idx)`. -/
theorem C2_error_response (cfg : Limits) (st : http_conn) (r : HTTP_CODE)
    (hr : r = HTTP_CODE.BAD_REQUEST ∨ r = HTTP_CODE.FORBIDDEN_REQUEST ∨
      r = HTTP_CODE.NO_RESOURCE ∨ r = HTTP_CODE.INTERNAL_ERROR)
    (h0 : st.m_write_idx = 0)
    (hlen : st.m_write_buf.length = cfg.WRITE_BUFFER_SIZE)
    (hW : 256 ≤ cfg.WRITE_BUFFER_SIZE) :
    (process_write cfg st r).1 = true ∧
    (process_write cfg st r).2.written =
      response_head (status_table r).1 (status_table r).2.1 (status_table r).2.2.length st.m_linger
        ++ (status_table r).2.2 ∧
    (process_write cfg st r).2.m_iv_count = 1 ∧
    (process_write cfg st r).2.m_iv0 =
      { iov_base := iov_base_t.write_buf, iov_len := (process_write cfg st r).2.m_write_idx } := by
  rcases hr with h | h | h | h <;> subst h
  · have := error_response_spec cfg st 400 error_400_title error_400_form h0 hlen
      (by
        have : (fmt_d 400).length + error_400_title.length
          + (fmt_d (to_int error_400_form.length)).length + error_400_form.length + 84 = 168 := by
          decide
        omega)
    refine ⟨this.1, ?_, this.2.2.1, this.2.2.2⟩
    show (error_response cfg st 400 error_400_title error_400_form).2.written = _
    rw [this.2.1]
    cases st.m_linger <;> rfl
  · have := error_response_spec cfg st 403 error_403_title error_403_form h0 hlen
      (by
        have : (fmt_d 403).length + error_403_title.length
          + (fmt_d (to_int error_403_form.length)).length + error_403_form.length + 84 = 155 := by
          decide
        omega)
    refine ⟨this.1, ?_, this.2.2.1, this.2.2.2⟩
    show (error_response cfg st 403 error_403_title error_403_form).2.written = _
    rw [this.2.1]
    cases st.m_linger <;> rfl
  · have := error_response_spec cfg st 404 error_404_title error_404_form h0 hlen
      (by
        have : (fmt_d 404).length + error_404_title.length
          + (fmt_d (to_int error_404_form.length)).length + error_404_form.length + 84 = 147 := by
          decide
        omega)
    refine ⟨this.1, ?_, this.2.2.1, this.2.2.2⟩
    show (error_response cfg st 404 error_404_title error_404_form).2.written = _
    rw [this.2.1]
    cases st.m_linger <;> rfl
  · have := error_response_spec cfg st 500 error_500_title error_500_form h0 hlen
      (by
        have : (fmt_d 500).length + error_500_title.length
          + (fmt_d (to_int error_500_form.length)).length + error_500_form.length + 84 = 160 := by
          decide
        omega)
    refine ⟨this.1, ?_, this.2.2.1, this.2.2.2⟩
    show (error_response cfg st 500 error_500_title error_500_form).2.written = _
    rw [this.2.1]
    cases st.m_linger <;> rfl

/-- Witness of C2: the 404 response of a blank connection under the limits of the
specification. -/
theorem C2_error_response_witness :
    (process_write spec_limits (blank spec_limits) HTTP_CODE.NO_RESOURCE).1 = true ∧
    (process_write spec_limits (blank spec_limits) HTTP_CODE.NO_RESOURCE).2.written =
      response_head "404" "Not Found" 49 false
        ++ bytes "The requested file was not found on this server.\n" ∧
    (process_write spec_limits (blank spec_limits) HTTP_CODE.NO_RESOURCE).2.m_iv_count = 1 ∧
    (process_write spec_limits (blank spec_limits) HTTP_CODE.NO_RESOURCE).2.m_iv0 =
      { iov_base := iov_base_t.write_buf,
        iov_len := (process_write spec_limits (blank spec_limits) HTTP_CODE.NO_RESOURCE).2.m_write_idx } :=
  C2_error_response spec_limits (blank spec_limits) HTTP_CODE.NO_RESOURCE
    (Or.inr (Or.inr (Or.inl rfl))) rfl (by simp [blank]) (by decide)

/-- C3: a file result of size `s` (below 2^31) makes `process_write` (started with an empty
write buffer) return true with the 200 status line, `Content-Length: s`, the content type, the
connection header and the blank line in the write buffer, and a gather vector of two segments:
the write buffer `[0, m_write_idx)` and the file mapping with length `s`. -/
theorem C3_file_response (cfg : Limits) (st : http_conn) (s : Int)
    (hs0 : 0 ≤ s) (hs1 : s < 2 ^ 31)
    (hsize : st.m_file_stat.st_size = s)
    (h0 : st.m_write_idx = 0)
    (hlen : st.m_write_buf.length = cfg.WRITE_BUFFER_SIZE)
    (hW : 128 ≤ cfg.WRITE_BUFFER_SIZE) :
    (process_write cfg st HTTP_CODE.FILE_REQUEST).1 = true ∧
    (process_write cfg st HTTP_CODE.FILE_REQUEST).2.written =
      response_head "200" "OK" s st.m_linger ∧
    (process_write cfg st HTTP_CODE.FILE_REQUEST).2.m_iv_count = 2 ∧
    (process_write cfg st HTTP_CODE.FILE_REQUEST).2.m_iv0 =
      { iov_base := iov_base_t.write_buf,
        iov_len := (process_write cfg st HTTP_CODE.FILE_REQUEST).2.m_write_idx } ∧
    (process_write cfg st HTTP_CODE.FILE_REQUEST).2.m_iv1 =
      { iov_base := iov_base_t.addr st.m_file_address, iov_len := s } := by
  have hl0 : (bytes "HTTP/1.1" ++ [32] ++ fmt_d 200 ++ [32] ++ ok_200_title ++ [13, 10]).length
      = 17 := by decide
  have e1 : add_status_line cfg st 200 ok_200_title
      = (true, st.append_text (bytes "HTTP/1.1" ++ [32] ++ fmt_d 200 ++ [32] ++ ok_200_title ++ [13, 10])) :=
    add_response_fits cfg st _ (by rw [hl0, h0]; omega)
  have hfl := fmt_d_length s
  have hti : to_int s = s := to_int_of_range s hs0 hs1
  have hh := add_headers_written cfg
    (st.append_text (bytes "HTTP/1.1" ++ [32] ++ fmt_d 200 ++ [32] ++ ok_200_title ++ [13, 10]))
    s (by rw [append_text_buf_length, hlen])
    (by rw [append_text_idx, hl0, h0]; omega)
  obtain ⟨hw, -, -, -⟩ := hh
  have hw0 : st.written = [] := by simp [written, h0]
  have hfs : (st.append_text (bytes "HTTP/1.1" ++ [32] ++ fmt_d 200 ++ [32] ++ ok_200_title
      ++ [13, 10])).m_file_stat.st_size = s := hsize
  have hfits := add_headers_fits cfg
    (st.append_text (bytes "HTTP/1.1" ++ [32] ++ fmt_d 200 ++ [32] ++ ok_200_title ++ [13, 10]))
    s (by rw [append_text_idx, hl0, h0]; omega)
  have hfa : (add_headers cfg (st.append_text (bytes "HTTP/1.1" ++ [32] ++ fmt_d 200 ++ [32]
      ++ ok_200_title ++ [13, 10])) s).m_file_address = st.m_file_address := by
    rw [hfits]; simp only [append_text_file_address]
  have hfst : (add_headers cfg (st.append_text (bytes "HTTP/1.1" ++ [32] ++ fmt_d 200 ++ [32]
      ++ ok_200_title ++ [13, 10])) s).m_file_stat.st_size = s := by
    rw [hfits]; simp only [append_text_file_stat]; exact hsize
  simp only [process_write, e1, hfs, hti]
  refine ⟨trivial, ?_, trivial, trivial, ?_⟩
  · show (add_headers cfg (st.append_text (bytes "HTTP/1.1" ++ [32] ++ fmt_d 200 ++ [32]
      ++ ok_200_title ++ [13, 10])) s).written = _
    rw [hw, written_append_text _ _ (by rw [hlen, hl0, h0]; omega), hw0, append_text_linger]
    cases st.m_linger <;> simp [response_head, bytes, fmt_d, dec_digits, ok_200_title]
  · rw [hfa, hfst]

/-- Witness of C3: the 200 response for the 11-byte file of the specification's scenarios. -/
theorem C3_file_response_witness :
    (process_write spec_limits
      { blank spec_limits with m_file_stat := { st_mode := 33188, st_size := 11 }, m_linger := true }
      HTTP_CODE.FILE_REQUEST).2.written
      = bytes "HTTP/1.1 200 OK\r\nContent-Length: 11\r\nContent-Type:text/html\r\nConnection: keep-alive\r\n\r\n" :=
  (C3_file_response spec_limits
      { blank spec_limits with m_file_stat := { st_mode := 33188, st_size := 11 }, m_linger := true }
      11 (by decide) (by decide) rfl rfl (by simp [blank]) (by decide)).2.1

end WebServer

namespace WebServer
open http_conn

/-! ## The resource resolver -/

/-- The code `do_request` returns is the one `stat_code` gives for the path it has built. -/
theorem do_request_code (cfg : Limits) (fs : FileSystem) (st : http_conn) :
    (do_request cfg fs st).1 =
      stat_code fs (cstr (build_real_file cfg st.m_real_file ((st.str_at st.m_url).getD [])) 0) := by
  unfold do_request stat_code
  simp only []
  cases fs.stat (cstr (build_real_file cfg st.m_real_file ((st.str_at st.m_url).getD [])) 0) with
  | none => rfl
  | some s =>
    simp only []
    split
    · rfl
    · split <;> rfl

/-- C4: with the file system as a metadata lookup on the resolved path, `do_request`
returns `NO_RESOURCE` exactly when the lookup fails; otherwise `FORBIDDEN_REQUEST` exactly when
the world-readable bit is unset (directory or not); otherwise `BAD_REQUEST` exactly when the
path is a directory; otherwise `FILE_REQUEST`, and only then is a mapping stored. -/
theorem C4_do_request_cases (cfg : Limits) (fs : FileSystem) (st : http_conn) :
    ((do_request cfg fs st).1 = HTTP_CODE.NO_RESOURCE ↔
      fs.stat (cstr (build_real_file cfg st.m_real_file ((st.str_at st.m_url).getD [])) 0) = none) ∧
    (∀ s : stat_t,
      fs.stat (cstr (build_real_file cfg st.m_real_file ((st.str_at st.m_url).getD [])) 0) = some s →
      ((do_request cfg fs st).1 = HTTP_CODE.FORBIDDEN_REQUEST ↔ s.st_mode &&& S_IROTH = 0) ∧
      (s.st_mode &&& S_IROTH ≠ 0 →
        ((do_request cfg fs st).1 = HTTP_CODE.BAD_REQUEST ↔ S_ISDIR s.st_mode = true)) ∧
      (s.st_mode &&& S_IROTH ≠ 0 → S_ISDIR s.st_mode = false →
        (do_request cfg fs st).1 = HTTP_CODE.FILE_REQUEST ∧
        (do_request cfg fs st).2.m_file_address =
          some (fs.mmap (cstr (build_real_file cfg st.m_real_file ((st.str_at st.m_url).getD [])) 0)
            s.st_size))) ∧
    ((do_request cfg fs st).1 ≠ HTTP_CODE.FILE_REQUEST →
      (do_request cfg fs st).2.m_file_address = st.m_file_address) := by
  unfold do_request
  simp only []
  cases hst : fs.stat (cstr (build_real_file cfg st.m_real_file ((st.str_at st.m_url).getD [])) 0) with
  | none => simp
  | some s =>
    simp only []
    by_cases hr : s.st_mode &&& S_IROTH = 0
    · simp [hr]
    · by_cases hd : S_ISDIR s.st_mode = true
      · simp [hr, hd]
      · simp [hr, hd]

end WebServer

namespace WebServer
open http_conn

/-! ## C strings in a buffer -/

theorem takeWhile_nul (s r : List Nat) (h : ∀ c ∈ s, c ≠ 0) :
    (s ++ 0 :: r).takeWhile (fun c => c != 0) = s := by
  rw [List.takeWhile_append_of_pos (by intro a ha; simpa using h a ha)]
  simp

theorem cstr_append (pre s : List Nat) : cstr (pre ++ s) pre.length = s.takeWhile (fun c => c != 0) := by
  unfold cstr
  rw [List.drop_left]

theorem cstr_line (pre s r : List Nat) (h : ∀ c ∈ s, c ≠ 0) :
    cstr (pre ++ s ++ 0 :: r) pre.length = s := by
  rw [List.append_assoc, cstr_append, takeWhile_nul s r h]

theorem cstr_line_add (pre a s r : List Nat) (h : ∀ c ∈ s, c ≠ 0) :
    cstr (pre ++ a ++ s ++ 0 :: r) (pre.length + a.length) = s := by
  have := cstr_line (pre ++ a) s r h
  rw [List.length_append] at this
  exact this

theorem cstr_nil_of_nul (pre r : List Nat) : cstr (pre ++ 0 :: r) pre.length = [] := by
  rw [cstr_append]; simp

theorem set_mid (pre : List Nat) (x y : Nat) (r : List Nat) :
    (pre ++ x :: r).set pre.length y = pre ++ y :: r := by
  rw [List.set_append_right _ _ (le_refl _)]
  simp

theorem getD_mid (pre : List Nat) (x : Nat) (r : List Nat) :
    (pre ++ x :: r).getD pre.length 0 = x := by
  rw [List.getD_append_right _ _ _ _ (le_refl _)]
  simp

theorem tolower_eq_zero (c : Nat) : tolower c = 0 ↔ c = 0 := by
  unfold tolower
  split <;> omega

theorem strcasecmp_eq_zero (s t : List Nat) (hs : ∀ c ∈ s, c ≠ 0) (ht : ∀ c ∈ t, c ≠ 0) :
    strcasecmp s t = 0 ↔ s.map tolower = t.map tolower := by
  induction s generalizing t with
  | nil =>
    cases t with
    | nil => simp [strcasecmp]
    | cons b t =>
      have hb : b ≠ 0 := ht b (List.mem_cons_self _ _)
      have : tolower b ≠ 0 := fun h => hb ((tolower_eq_zero b).1 h)
      simp [strcasecmp]
      omega
  | cons a s ih =>
    have ha : a ≠ 0 := hs a (List.mem_cons_self _ _)
    have ha' : tolower a ≠ 0 := fun h => ha ((tolower_eq_zero a).1 h)
    cases t with
    | nil =>
      simp [strcasecmp]
      omega
    | cons b t =>
      have ih' := ih t (fun c hc => hs c (List.mem_cons_of_mem _ hc))
        (fun c hc => ht c (List.mem_cons_of_mem _ hc))
      unfold strcasecmp
      by_cases hab : tolower a = tolower b
      · simp [hab, ih']
      · simp [hab]
        omega

theorem strncasecmp_eq_zero (s t : List Nat) (n : Nat) (hs : ∀ c ∈ s, c ≠ 0)
    (ht : ∀ c ∈ t, c ≠ 0) :
    strncasecmp s t n = 0 ↔ (s.take n).map tolower = (t.take n).map tolower := by
  induction n generalizing s t with
  | zero => simp [strncasecmp]
  | succ n ih =>
    cases s with
    | nil =>
      cases t with
      | nil => simp [strncasecmp]
      | cons b t =>
        have hb : b ≠ 0 := ht b (List.mem_cons_self _ _)
        have : tolower b ≠ 0 := fun h => hb ((tolower_eq_zero b).1 h)
        simp [strncasecmp]
        omega
    | cons a s =>
      have ha : a ≠ 0 := hs a (List.mem_cons_self _ _)
      have ha' : tolower a ≠ 0 := fun h => ha ((tolower_eq_zero a).1 h)
      cases t with
      | nil =>
        simp [strncasecmp]
        omega
      | cons b t =>
        have ih' := ih s t (fun c hc => hs c (List.mem_cons_of_mem _ hc))
          (fun c hc => ht c (List.mem_cons_of_mem _ hc))
        unfold strncasecmp
        by_cases hab : tolower a = tolower b
        · simp [hab, ih']
        · simp [hab]
          omega

/-- A string either has no byte of `acc`, or splits at its first byte of `acc`. -/
theorem split_first (s acc : List Nat) :
    ((∀ c ∈ s, c ∉ acc) ∧ strcspn s acc = s.length) ∨
    ∃ m x r, s = m ++ x :: r ∧ (∀ c ∈ m, c ∉ acc) ∧ x ∈ acc ∧ strcspn s acc = m.length := by
  induction s with
  | nil => left; simp [strcspn]
  | cons a s ih =>
    by_cases ha : a ∈ acc
    · right
      refine ⟨[], a, s, rfl, by simp, ha, ?_⟩
      simp [strcspn, List.takeWhile_cons, ha]
    · rcases ih with ⟨h1, h2⟩ | ⟨m, x, r, h1, h2, h3, h4⟩
      · left
        refine ⟨?_, ?_⟩
        · intro c hc
          rcases List.mem_cons.1 hc with h | h
          · rw [h]; exact ha
          · exact h1 c h
        · unfold strcspn at h2 ⊢
          have hc : (!acc.contains a) = true := by simp [ha]
          rw [List.takeWhile_cons, if_pos hc, List.length_cons, h2, List.length_cons]
      · right
        refine ⟨a :: m, x, r, by rw [h1]; rfl, ?_, h3, ?_⟩
        · intro c hc
          rcases List.mem_cons.1 hc with h | h
          · rw [h]; exact ha
          · exact h2 c h
        · unfold strcspn at h4 ⊢
          have hc : (!acc.contains a) = true := by simp [ha]
          rw [List.takeWhile_cons, if_pos hc, List.length_cons, h4, List.length_cons]

theorem strcspn_split (m : List Nat) (x : Nat) (r acc : List Nat)
    (hm : ∀ c ∈ m, c ∉ acc) (hx : x ∈ acc) :
    strcspn (m ++ x :: r) acc = m.length := by
  unfold strcspn
  rw [List.takeWhile_append_of_pos (by intro a ha; simp [hm a ha])]
  simp [List.takeWhile_cons, hx]

theorem strcspn_none (s acc : List Nat) (hs : ∀ c ∈ s, c ∉ acc) :
    strcspn s acc = s.length := by
  unfold strcspn
  rw [List.takeWhile_eq_self_iff.2 (by intro a ha; simp [hs a ha])]

end WebServer

namespace WebServer
open http_conn

/-! ## The request line -/

theorem cstr_seg (X A s R : List Nat) (i : Nat) (hX : X = A ++ s ++ 0 :: R) (hi : i = A.length)
    (h0 : ∀ c ∈ s, c ≠ 0) : cstr X i = s := by
  subst hX hi
  exact cstr_line A s R h0

theorem set_seg (X A : List Nat) (x : Nat) (R : List Nat) (i y : Nat) (hX : X = A ++ x :: R)
    (hi : i = A.length) : X.set i y = A ++ y :: R := by
  subst hX hi
  exact set_mid A x y R

theorem getD_seg (X A : List Nat) (x : Nat) (R : List Nat) (i : Nat) (hX : X = A ++ x :: R)
    (hi : i = A.length) : X.getD i 0 = x := by
  subst hX hi
  exact getD_mid A x R

/-- Apart from the read buffer, `parse_request_line` only touches the url, the version, the
method and the parser state. -/
theorem parse_request_line_frame (st : http_conn) (text : Nat) :
    ∃ buf url ver meth cs, (parse_request_line st text).2 =
      { st with
        m_read_buf := buf
        m_url := url
        m_version := ver
        m_method := meth
        m_check_state := cs } := by
  unfold parse_request_line
  simp only []
  repeat' split
  all_goals exact ⟨_, _, _, _, _, rfl⟩

end WebServer

namespace WebServer
open http_conn

theorem rl_parts (m : List Nat) (s1 : Nat) (r1 : List Nat)
    (hk : strcspn (m ++ s1 :: r1) [32, 9] = m.length) :
    rl_method (m ++ s1 :: r1) = m ∧ rl_rest (m ++ s1 :: r1) = r1 := by
  unfold rl_method rl_rest
  rw [hk]
  constructor
  · exact List.take_left' rfl
  · have : m ++ s1 :: r1 = (m ++ [s1]) ++ r1 := by simp
    rw [this]
    exact List.drop_left' (by simp)

theorem rl_parts2 (m : List Nat) (s1 : Nat) (ur : List Nat) (s2 : Nat) (ver : List Nat)
    (hk : strcspn (m ++ s1 :: (ur ++ s2 :: ver)) [32, 9] = m.length)
    (hk2 : strcspn (ur ++ s2 :: ver) [32, 9] = ur.length) :
    rl_uri (m ++ s1 :: (ur ++ s2 :: ver)) = ur ∧ rl_version (m ++ s1 :: (ur ++ s2 :: ver)) = ver := by
  unfold rl_uri rl_version
  rw [(rl_parts m s1 _ hk).2, hk2]
  constructor
  · exact List.take_left' rfl
  · have : ur ++ s2 :: ver = (ur ++ [s2]) ++ ver := by simp
    rw [this]
    exact List.drop_left' (by simp)

theorem get_lower : (bytes "GET").map tolower = bytes "get" := by decide

theorem version_lower : (bytes "HTTP/1.1").map tolower = bytes "http/1.1" := by decide

theorem scheme_lower : ((bytes "http://").take 7).map tolower = bytes "http://" := by decide

/-- What `parse_request_line` does to a NUL-terminated line in the read buffer, in terms of
the bytes of the line: it accepts the line exactly when `request_line_path` gives a path, the
url then denotes that path whatever follows the line, and a rejected line leaves the parser
state as it was.  The line keeps its place and length in the buffer. -/
theorem parse_request_line_spec (st : http_conn) (pre line rest : List Nat)
    (hbuf : st.m_read_buf = pre ++ line ++ 0 :: rest) (h0 : ∀ c ∈ line, c ≠ 0) :
    ∃ line', line'.length = line.length ∧
      (parse_request_line st pre.length).2.m_read_buf = pre ++ line' ++ 0 :: rest ∧
      match request_line_path line with
      | some p =>
        (parse_request_line st pre.length).1 = HTTP_CODE.NO_REQUEST ∧
        (parse_request_line st pre.length).2.m_check_state = CHECK_STATE.CHECK_STATE_HEADER ∧
        (∃ u, (parse_request_line st pre.length).2.m_url = some u ∧
          ∀ X, cstr (pre ++ line' ++ 0 :: X) u = p) ∧
        (∃ w, (parse_request_line st pre.length).2.m_version = some w ∧
          ∀ X, cstr (pre ++ line' ++ 0 :: X) w = rl_version line) ∧
        (parse_request_line st pre.length).2.m_method = METHOD.GET
      | none =>
        (parse_request_line st pre.length).1 = HTTP_CODE.BAD_REQUEST ∧
        (parse_request_line st pre.length).2.m_check_state = st.m_check_state := by
  have hc : cstr st.m_read_buf pre.length = line := by rw [hbuf]; exact cstr_line pre line rest h0
  rcases split_first line [32, 9] with ⟨hnone, hk⟩ | ⟨m, s1, r1, hline, hm, hs1, hk⟩
  · -- no separator at all
    have hs : strpbrk st.m_read_buf pre.length [32, 9] = none := by
      unfold strpbrk; simp only [hc, hk]; simp
    have hp : request_line_path line = none := by
      unfold request_line_path; rw [hk]; simp
    refine ⟨line, rfl, ?_, ?_⟩
    · simp only [parse_request_line, hs]; exact hbuf
    · rw [hp]; simp only [parse_request_line, hs]; exact ⟨trivial, trivial⟩
  · subst hline
    have h0m : ∀ c ∈ m, c ≠ 0 := fun c hc => h0 c (List.mem_append_left _ hc)
    have h0r : ∀ c ∈ r1, c ≠ 0 := fun c hc =>
      h0 c (List.mem_append_right _ (List.mem_cons_of_mem _ hc))
    have hs : strpbrk st.m_read_buf pre.length [32, 9] = some (pre.length + m.length) := by
      unfold strpbrk; simp only [hc, hk]; simp
    have hset : st.m_read_buf.set (pre.length + m.length) 0 = pre ++ m ++ 0 :: (r1 ++ 0 :: rest) :=
      set_seg _ (pre ++ m) s1 (r1 ++ 0 :: rest) _ 0 (by rw [hbuf]; simp) (by simp)
    have hcm : cstr (pre ++ m ++ 0 :: (r1 ++ 0 :: rest)) pre.length = m := cstr_line pre m _ h0m
    obtain ⟨hmeth, hrest⟩ := rl_parts m s1 r1 hk
    have hget : strcasecmp m (bytes "GET") = 0 ↔ m.map tolower = bytes "get" := by
      rw [strcasecmp_eq_zero m _ h0m (by decide), get_lower]
    by_cases hG : m.map tolower = bytes "get"
    · have hG' : strcasecmp m (bytes "GET") = 0 := hget.2 hG
      have hcr : cstr (pre ++ m ++ 0 :: (r1 ++ 0 :: rest)) (pre.length + m.length + 1) = r1 :=
        cstr_seg _ (pre ++ m ++ [0]) r1 rest _ (by simp) (by simp only [List.length_append, List.length_cons, List.length_nil]) h0r
      rcases split_first r1 [32, 9] with ⟨hnone2, hk2⟩ | ⟨ur, s2, ver, hr1, hur, hs2, hk2⟩
      · -- no second separator
        have hs2 : strpbrk (pre ++ m ++ 0 :: (r1 ++ 0 :: rest)) (pre.length + m.length + 1) [32, 9]
            = none := by
          unfold strpbrk; simp only [hcr, hk2]; simp
        have hp : request_line_path (m ++ s1 :: r1) = none := by
          unfold request_line_path; rw [hrest, hk2]; simp
        refine ⟨m ++ 0 :: r1, by simp, ?_, ?_⟩
        · simp only [parse_request_line, hs, hset, hcm, hG', if_true, hs2]
          simp
        · rw [hp]; simp only [parse_request_line, hs, hset, hcm, hG', if_true, hs2]
          exact ⟨trivial, trivial⟩
      · subst hr1
        have h0u : ∀ c ∈ ur, c ≠ 0 := fun c hc => h0r c (List.mem_append_left _ hc)
        have h0v : ∀ c ∈ ver, c ≠ 0 := fun c hc =>
          h0r c (List.mem_append_right _ (List.mem_cons_of_mem _ hc))
        have hs2' : strpbrk (pre ++ m ++ 0 :: (ur ++ s2 :: ver ++ 0 :: rest))
            (pre.length + m.length + 1) [32, 9] = some (pre.length + m.length + 1 + ur.length) := by
          unfold strpbrk; simp only [hcr, hk2]; simp
        have hset2 : (pre ++ m ++ 0 :: (ur ++ s2 :: ver ++ 0 :: rest)).set
            (pre.length + m.length + 1 + ur.length) 0
            = pre ++ m ++ 0 :: (ur ++ 0 :: (ver ++ 0 :: rest)) :=
          (set_seg _ (pre ++ m ++ [0] ++ ur) s2 (ver ++ 0 :: rest) _ 0 (by simp) (by simp only [List.length_append, List.length_cons, List.length_nil])).trans (by simp)
        have hcv : cstr (pre ++ m ++ 0 :: (ur ++ 0 :: (ver ++ 0 :: rest)))
            (pre.length + m.length + 1 + ur.length + 1) = ver :=
          cstr_seg _ (pre ++ m ++ [0] ++ ur ++ [0]) ver rest _ (by simp) (by simp only [List.length_append, List.length_cons, List.length_nil]) h0v
        have hcu : cstr (pre ++ m ++ 0 :: (ur ++ 0 :: (ver ++ 0 :: rest)))
            (pre.length + m.length + 1) = ur :=
          cstr_seg _ (pre ++ m ++ [0]) ur (ver ++ 0 :: rest) _ (by simp) (by simp only [List.length_append, List.length_cons, List.length_nil]) h0u
        obtain ⟨huri, hver⟩ := rl_parts2 m s1 ur s2 ver hk hk2
        have hvv : strcasecmp ver (bytes "HTTP/1.1") = 0 ↔ ver.map tolower = bytes "http/1.1" := by
          rw [strcasecmp_eq_zero ver _ h0v (by decide), version_lower]
        have hhh : strncasecmp ur (bytes "http://") 7 = 0 ↔ (ur.take 7).map tolower = bytes "http://" := by
          rw [strncasecmp_eq_zero ur _ 7 h0u (by decide), scheme_lower]
        have hlen' : (m ++ 0 :: (ur ++ 0 :: ver)).length = (m ++ s1 :: (ur ++ s2 :: ver)).length := by
          simp
        have hbuf' : pre ++ m ++ 0 :: (ur ++ 0 :: (ver ++ 0 :: rest))
            = pre ++ (m ++ 0 :: (ur ++ 0 :: ver)) ++ 0 :: rest := by simp
        by_cases hV : ver.map tolower = bytes "http/1.1"
        · have hV' : strcasecmp ver (bytes "HTTP/1.1") = 0 := hvv.2 hV
          by_cases hH : (ur.take 7).map tolower = bytes "http://"
          · -- an absolute URI
            have hH' : strncasecmp ur (bytes "http://") 7 = 0 := hhh.2 hH
            have hl7 : (ur.take 7).length = 7 := by
              have := congrArg List.length hH
              rw [List.length_map] at this
              rw [this]; decide
            have hur7 : ur = ur.take 7 ++ ur.drop 7 := (List.take_append_drop 7 ur).symm
            have h0d : ∀ c ∈ ur.drop 7, c ≠ 0 := fun c hc => h0u c (List.mem_of_mem_drop hc)
            have hcd : cstr (pre ++ m ++ 0 :: (ur ++ 0 :: (ver ++ 0 :: rest)))
                (pre.length + m.length + 1 + 7) = ur.drop 7 :=
              cstr_seg _ (pre ++ m ++ [0] ++ ur.take 7) (ur.drop 7) (ver ++ 0 :: rest) _
                (by
                  have e : pre ++ m ++ [0] ++ ur.take 7 ++ ur.drop 7 = pre ++ m ++ [0] ++ ur := by
                    rw [List.append_assoc _ (ur.take 7), List.take_append_drop]
                  rw [e]; simp)
                (by simp only [List.length_append, List.length_cons, List.length_nil, hl7])
                h0d
            rcases split_first (ur.drop 7) [47] with ⟨hnone3, hk3⟩ | ⟨h, x, q, hd, hh, hx, hk3⟩
            · -- no slash after the scheme
              have hsc : strchr (pre ++ m ++ 0 :: (ur ++ 0 :: (ver ++ 0 :: rest)))
                  (pre.length + m.length + 1 + 7) 47 = none := by
                unfold strchr; simp only [hcd, hk3]; simp
              have hp : request_line_path (m ++ s1 :: (ur ++ s2 :: ver)) = none := by
                unfold request_line_path uri_path
                rw [huri, hmeth, hver, hrest, hk, hk2, hk3]
                simp [hH]
              refine ⟨m ++ 0 :: (ur ++ 0 :: ver), hlen', ?_, ?_⟩
              · simp only [parse_request_line, hs, hset, hcm, hG', if_true, hs2', hset2, hcv, hV',
                  ne_eq, not_true_eq_false, if_false, hcu, hH', hsc]
                exact hbuf'
              · rw [hp]; simp only [parse_request_line, hs, hset, hcm, hG', if_true, hs2', hset2,
                  hcv, hV', ne_eq, not_true_eq_false, if_false, hcu, hH', hsc]
                exact ⟨trivial, trivial⟩
            · -- the path starts at the first slash
              have hx47 : x = 47 := by simpa using hx
              subst hx47
              have hsc : strchr (pre ++ m ++ 0 :: (ur ++ 0 :: (ver ++ 0 :: rest)))
                  (pre.length + m.length + 1 + 7) 47
                  = some (pre.length + m.length + 1 + 7 + h.length) := by
                unfold strchr; simp only [hcd, hk3]; rw [hd]; simp
              have hur' : ur = ur.take 7 ++ h ++ 47 :: q := by
                rw [List.append_assoc, ← hd]; exact hur7
              have h0q : ∀ c ∈ (47 :: q), c ≠ 0 := fun c hc => h0d c (by rw [hd]; simp at hc ⊢; tauto)
              have hgd : (pre ++ m ++ 0 :: (ur ++ 0 :: (ver ++ 0 :: rest))).getD
                  (pre.length + m.length + 1 + 7 + h.length) 0 = 47 :=
                getD_seg _ (pre ++ m ++ [0] ++ ur.take 7 ++ h) 47 (q ++ 0 :: (ver ++ 0 :: rest)) _
                  (by
                    have e : pre ++ m ++ [0] ++ ur.take 7 ++ h ++ 47 :: (q ++ 0 :: (ver ++ 0 :: rest))
                        = pre ++ m ++ [0] ++ (ur.take 7 ++ h ++ 47 :: q) ++ 0 :: (ver ++ 0 :: rest) := by
                      simp
                    rw [e, ← hur']; simp)
                  (by simp only [List.length_append, List.length_cons, List.length_nil, hl7])
              have hp : request_line_path (m ++ s1 :: (ur ++ s2 :: ver)) = some (47 :: q) := by
                unfold request_line_path uri_path
                rw [huri, hmeth, hver, hrest, hk, hk2, hk3]
                have : List.drop h.length (List.drop 7 ur) = 47 :: q := by
                  rw [hd]; exact List.drop_left' rfl
                simp [hH, hG, hV, this, hd]
              refine ⟨m ++ 0 :: (ur ++ 0 :: ver), hlen', ?_, ?_⟩
              · simp only [parse_request_line, hs, hset, hcm, hG', if_true, hs2', hset2, hcv, hV',
                  ne_eq, not_true_eq_false, if_false, hcu, hH', hsc, hgd]
                exact hbuf'
              · rw [hp]; simp only [parse_request_line, hs, hset, hcm, hG', if_true, hs2', hset2,
                  hcv, hV', ne_eq, not_true_eq_false, if_false, hcu, hH', hsc, hgd]
                refine ⟨trivial, trivial, ⟨_, rfl, ?_⟩, ⟨_, rfl, fun X => by
                  rw [hver]
                  exact cstr_seg _ (pre ++ m ++ [0] ++ ur ++ [0]) ver X _ (by simp)
                    (by simp only [List.length_append, List.length_cons, List.length_nil]) h0v⟩, trivial⟩
                intro X
                exact cstr_seg _ (pre ++ m ++ [0] ++ ur.take 7 ++ h) (47 :: q) (ver ++ 0 :: X) _
                  (by
                    have e : pre ++ m ++ [0] ++ ur.take 7 ++ h ++ (47 :: q) ++ 0 :: (ver ++ 0 :: X)
                        = pre ++ m ++ [0] ++ (ur.take 7 ++ h ++ 47 :: q) ++ 0 :: (ver ++ 0 :: X) := by
                      simp
                    rw [e, ← hur']; simp)
                  (by simp only [List.length_append, List.length_cons, List.length_nil, hl7])
                  h0q
          · -- an origin-form URI: the url stays right after the first separator
            have hH' : ¬ strncasecmp ur (bytes "http://") 7 = 0 := fun h => hH (hhh.1 h)
            have hpu : request_line_path (m ++ s1 :: (ur ++ s2 :: ver))
                = if ur.head? = some 47 then some ur else none := by
              unfold request_line_path uri_path
              rw [huri, hmeth, hver, hrest, hk, hk2]
              rw [if_pos ⟨by simp, hG, by simp, hV⟩, if_neg hH]
              rfl
            have hgd : (pre ++ m ++ 0 :: (ur ++ 0 :: (ver ++ 0 :: rest))).getD
                (pre.length + m.length + 1) 0 = (ur ++ [0]).headD 0 := by
              cases ur with
              | nil =>
                exact getD_seg _ (pre ++ m ++ [0]) 0 (ver ++ 0 :: rest) _ (by simp)
                  (by simp only [List.length_append, List.length_cons, List.length_nil])
              | cons c ur' =>
                exact getD_seg _ (pre ++ m ++ [0]) c (ur' ++ 0 :: (ver ++ 0 :: rest)) _ (by simp)
                  (by simp only [List.length_append, List.length_cons, List.length_nil])
            by_cases h47 : ur.head? = some 47
            · have hgd' : (pre ++ m ++ 0 :: (ur ++ 0 :: (ver ++ 0 :: rest))).getD
                  (pre.length + m.length + 1) 0 = 47 := by
                rw [hgd]
                cases ur with
                | nil => simp at h47
                | cons c ur' => simpa using h47
              rw [if_pos h47] at hpu
              refine ⟨m ++ 0 :: (ur ++ 0 :: ver), hlen', ?_, ?_⟩
              · simp only [parse_request_line, hs, hset, hcm, hG', if_true, hs2', hset2, hcv, hV',
                  ne_eq, not_true_eq_false, if_false, hcu, hH', hgd']
                exact hbuf'
              · rw [hpu]; simp only [parse_request_line, hs, hset, hcm, hG', if_true, hs2', hset2,
                  hcv, hV', ne_eq, not_true_eq_false, if_false, hcu, hH', hgd']
                refine ⟨trivial, trivial, ⟨_, rfl, ?_⟩, ⟨_, rfl, fun X => by
                  rw [hver]
                  exact cstr_seg _ (pre ++ m ++ [0] ++ ur ++ [0]) ver X _ (by simp)
                    (by simp only [List.length_append, List.length_cons, List.length_nil]) h0v⟩, trivial⟩
                intro X
                exact cstr_seg _ (pre ++ m ++ [0]) ur (ver ++ 0 :: X) _ (by simp)
                  (by simp only [List.length_append, List.length_cons, List.length_nil]) h0u
            · have hgd' : ¬ (pre ++ m ++ 0 :: (ur ++ 0 :: (ver ++ 0 :: rest))).getD
                  (pre.length + m.length + 1) 0 = 47 := by
                rw [hgd]
                cases ur with
                | nil => simp
                | cons c ur' => simpa using h47
              rw [if_neg h47] at hpu
              refine ⟨m ++ 0 :: (ur ++ 0 :: ver), hlen', ?_, ?_⟩
              · simp only [parse_request_line, hs, hset, hcm, hG', if_true, hs2', hset2, hcv, hV',
                  ne_eq, not_true_eq_false, if_false, hcu, hH', hgd', not_false_eq_true]
                exact hbuf'
              · rw [hpu]; simp only [parse_request_line, hs, hset, hcm, hG', if_true, hs2', hset2,
                  hcv, hV', ne_eq, not_true_eq_false, if_false, hcu, hH', hgd', not_false_eq_true]
                exact ⟨trivial, trivial⟩
        · -- the version is not HTTP/1.1
          have hV' : ¬ strcasecmp ver (bytes "HTTP/1.1") = 0 := fun h => hV (hvv.1 h)
          have hp : request_line_path (m ++ s1 :: (ur ++ s2 :: ver)) = none := by
            unfold request_line_path; rw [hver]; simp [hV]
          refine ⟨m ++ 0 :: (ur ++ 0 :: ver), hlen', ?_, ?_⟩
          · simp only [parse_request_line, hs, hset, hcm, hG', if_true, hs2', hset2, hcv, hV',
              ne_eq, not_false_eq_true]
            exact hbuf'
          · rw [hp]; simp only [parse_request_line, hs, hset, hcm, hG', if_true, hs2', hset2, hcv,
              hV', ne_eq, not_false_eq_true]
            exact ⟨trivial, trivial⟩
    · -- the method is not GET
      have hG' : ¬ strcasecmp m (bytes "GET") = 0 := fun h => hG (hget.1 h)
      have hp : request_line_path (m ++ s1 :: r1) = none := by
        unfold request_line_path; rw [hmeth]; simp [hG]
      refine ⟨m ++ 0 :: r1, by simp, ?_, ?_⟩
      · simp only [parse_request_line, hs, hset, hcm, hG', if_false]
        simp
      · rw [hp]; simp only [parse_request_line, hs, hset, hcm, hG', if_false]
        exact ⟨trivial, trivial⟩

end WebServer

namespace WebServer
open http_conn

theorem request_line_path_shape (m : List Nat) (s1 : Nat) (u : List Nat) (s2 : Nat) (v : List Nat)
    (hm : ∀ c ∈ m, c ∉ [32, 9]) (hs1 : s1 ∈ [32, 9]) (hu : ∀ c ∈ u, c ∉ [32, 9])
    (hs2 : s2 ∈ [32, 9]) (hG : m.map tolower = bytes "get")
    (hV : v.map tolower = bytes "http/1.1") :
    request_line_path (m ++ s1 :: (u ++ s2 :: v)) =
      (uri_path u).bind (fun p => if p.head? = some 47 then some p else none) := by
  have hk := strcspn_split m s1 (u ++ s2 :: v) [32, 9] hm hs1
  have hk2 := strcspn_split u s2 v [32, 9] hu hs2
  obtain ⟨hmeth, hrest⟩ := rl_parts m s1 _ hk
  obtain ⟨huri, hver⟩ := rl_parts2 m s1 u s2 v hk hk2
  unfold request_line_path
  rw [huri, hmeth, hver, hrest, hk, hk2]
  rw [if_pos ⟨by simp, hG, by simp, hV⟩]

/-- An accepted request line is a method, one separator, a URI, one separator and a
version. -/
theorem request_line_path_some (line p : List Nat) (h : request_line_path line = some p) :
    ∃ m s1 u s2 v, line = m ++ s1 :: (u ++ s2 :: v) ∧ (∀ c ∈ m, c ∉ [32, 9]) ∧ s1 ∈ [32, 9] ∧
      (∀ c ∈ u, c ∉ [32, 9]) ∧ s2 ∈ [32, 9] ∧ m.map tolower = bytes "get" ∧
      v.map tolower = bytes "http/1.1" ∧ uri_path u = some p ∧ p.head? = some 47 := by
  rcases split_first line [32, 9] with ⟨hnone, hk⟩ | ⟨m, s1, r1, hline, hm, hs1, hk⟩
  · unfold request_line_path at h
    rw [hk] at h
    simp at h
  · subst hline
    obtain ⟨hmeth, hrest⟩ := rl_parts m s1 r1 hk
    rcases split_first r1 [32, 9] with ⟨hnone2, hk2⟩ | ⟨u, s2, v, hr1, hu, hs2, hk2⟩
    · unfold request_line_path at h
      rw [hrest, hk2] at h
      simp at h
    · subst hr1
      obtain ⟨huri, hver⟩ := rl_parts2 m s1 u s2 v hk hk2
      unfold request_line_path at h
      rw [huri, hmeth, hver, hrest, hk, hk2] at h
      by_cases hc : m.length < (m ++ s1 :: (u ++ s2 :: v)).length ∧ m.map tolower = bytes "get" ∧
          u.length < (u ++ s2 :: v).length ∧ v.map tolower = bytes "http/1.1"
      · rw [if_pos hc] at h
        refine ⟨m, s1, u, s2, v, rfl, hm, hs1, hu, hs2, hc.2.1, hc.2.2.2, ?_⟩
        cases hup : uri_path u with
        | none => rw [hup] at h; simp at h
        | some q =>
          rw [hup] at h
          simp only [Option.bind] at h
          by_cases hq : q.head? = some 47
          · rw [if_pos hq] at h
            have : q = p := by simpa using h
            subst this
            exact ⟨rfl, hq⟩
          · rw [if_neg hq] at h
            simp at h
      · rw [if_neg hc] at h
        simp at h

theorem tolower_sep (c : Nat) (h : tolower c ∈ bytes "get" ∨ tolower c ∈ bytes "http/1.1" ∨
    tolower c ∈ bytes "http://") : c ∉ [32, 9] ∧ c ≠ 0 := by
  have e1 : bytes "get" = [103, 101, 116] := by decide
  have e2 : bytes "http/1.1" = [104, 116, 116, 112, 47, 49, 46, 49] := by decide
  have e3 : bytes "http://" = [104, 116, 116, 112, 58, 47, 47] := by decide
  rw [e1, e2, e3] at h
  unfold tolower at h
  simp only [List.mem_cons, List.mem_singleton, List.not_mem_nil, or_false] at h ⊢
  split at h <;> omega

theorem dropWhile_sep_of_head (s : List Nat) (c : Nat) (t : List Nat) (hs : s = c :: t)
    (hc : c ∉ [32, 9]) : s.dropWhile (fun c => [32, 9].contains c) = s := by
  subst hs
  rw [List.dropWhile_cons]
  simp [hc]

theorem takeWhile_notsep_split (u : List Nat) (s2 : Nat) (v : List Nat)
    (hu : ∀ c ∈ u, c ∉ [32, 9]) (hs2 : s2 ∈ [32, 9]) :
    (u ++ s2 :: v).takeWhile (fun c => !(List.contains [32, 9] c)) = u ∧
    (u ++ s2 :: v).dropWhile (fun c => !(List.contains [32, 9] c)) = s2 :: v := by
  have hc : (!(List.contains [32, 9] s2)) = false := by simp [hs2]
  constructor
  · rw [List.takeWhile_append_of_pos (by intro a ha; simp [hu a ha]), List.takeWhile_cons, hc]
    simp
  · rw [List.dropWhile_append_of_pos (by intro a ha; simp [hu a ha]), List.dropWhile_cons, hc]
    simp

end WebServer

namespace WebServer
open http_conn

theorem dropWhile_sep_cons (s1 : Nat) (t : List Nat) (hs1 : s1 ∈ [32, 9]) :
    (s1 :: t).dropWhile (fun c => [32, 9].contains c) = t.dropWhile (fun c => [32, 9].contains c) := by
  rw [List.dropWhile_cons]
  simp [hs1]

/-- The parts of an accepted request line are the same whether it is split at single
separators or at runs of white space. -/
theorem sp_parts_of_accepted (m : List Nat) (s1 : Nat) (u : List Nat) (s2 : Nat) (v p : List Nat)
    (hm : ∀ c ∈ m, c ∉ [32, 9]) (hs1 : s1 ∈ [32, 9]) (hu : ∀ c ∈ u, c ∉ [32, 9])
    (hs2 : s2 ∈ [32, 9]) (hV : v.map tolower = bytes "http/1.1")
    (hup : uri_path u = some p) (hp : p.head? = some 47) :
    sp_method (m ++ s1 :: (u ++ s2 :: v)) = m ∧
    sp_after_method (m ++ s1 :: (u ++ s2 :: v)) = u ++ s2 :: v ∧
    sp_uri (m ++ s1 :: (u ++ s2 :: v)) = u ∧
    sp_version (m ++ s1 :: (u ++ s2 :: v)) = v := by
  obtain ⟨h1, h2⟩ := takeWhile_notsep_split m s1 (u ++ s2 :: v) hm hs1
  obtain ⟨h3, h4⟩ := takeWhile_notsep_split u s2 v hu hs2
  have hune : ∃ c t, u = c :: t := by
    cases u with
    | nil =>
      exfalso
      have : uri_path [] = some [] := by decide
      rw [this] at hup
      have : p = [] := by simpa using hup.symm
      subst this
      simp at hp
    | cons c t => exact ⟨c, t, rfl⟩
  obtain ⟨c, t, hct⟩ := hune
  have hcs : c ∉ [32, 9] := hu c (by rw [hct]; exact List.mem_cons_self _ _)
  have hvne : ∃ d w, v = d :: w ∧ d ∉ [32, 9] := by
    cases v with
    | nil => exfalso; revert hV; decide
    | cons d w =>
      refine ⟨d, w, rfl, ?_⟩
      have : tolower d ∈ bytes "http/1.1" := by
        rw [← hV]; simp
      exact (tolower_sep d (Or.inr (Or.inl this))).1
  obtain ⟨d, w, hdw, hds⟩ := hvne
  have h5 : (u ++ s2 :: v).dropWhile (fun c => [32, 9].contains c) = u ++ s2 :: v :=
    dropWhile_sep_of_head _ c (t ++ s2 :: v) (by rw [hct]; rfl) hcs
  have h6 : v.dropWhile (fun c => [32, 9].contains c) = v := dropWhile_sep_of_head _ d w hdw hds
  have hafter : sp_after_method (m ++ s1 :: (u ++ s2 :: v)) = u ++ s2 :: v := by
    unfold sp_after_method
    rw [h2, dropWhile_sep_cons s1 _ hs1, h5]
  refine ⟨h1, hafter, ?_, ?_⟩
  · unfold sp_uri; rw [hafter, h3]
  · unfold sp_version; rw [hafter, h4, dropWhile_sep_cons s2 _ hs2, h6]

/-- C5: a request line (a NUL-terminated string in the read buffer) that has no space or
TAB, whose method is not GET ignoring case, that has no second separator, whose version is not
HTTP/1.1 ignoring case, or whose path does not begin with `/`, makes `parse_request_line`
return `BAD_REQUEST` and leaves the parser in the request-line state.  The parts of the line
are taken as the specification words them, split at runs of white space. -/
theorem C5_bad_request_line (st : http_conn) (pre line rest : List Nat)
    (hbuf : st.m_read_buf = pre ++ line ++ 0 :: rest) (h0 : ∀ c ∈ line, c ≠ 0)
    (hst : st.m_check_state = CHECK_STATE.CHECK_STATE_REQUESTLINE)
    (hbad : (∀ c ∈ line, c ∉ [32, 9]) ∨
      (sp_method line).map tolower ≠ bytes "get" ∨
      (∀ c ∈ sp_after_method line, c ∉ [32, 9]) ∨
      (sp_version line).map tolower ≠ bytes "http/1.1" ∨
      (∀ p, uri_path (sp_uri line) = some p → p.head? ≠ some 47)) :
    (parse_request_line st pre.length).1 = HTTP_CODE.BAD_REQUEST ∧
    (parse_request_line st pre.length).2.m_check_state = CHECK_STATE.CHECK_STATE_REQUESTLINE := by
  obtain ⟨line', -, -, hmatch⟩ := parse_request_line_spec st pre line rest hbuf h0
  cases hp : request_line_path line with
  | none =>
    rw [hp] at hmatch
    exact ⟨hmatch.1, hmatch.2.trans hst⟩
  | some p =>
    exfalso
    obtain ⟨m, s1, u, s2, v, hline, hm, hs1, hu, hs2, hG, hV, hup, hp47⟩ :=
      request_line_path_some line p hp
    subst hline
    obtain ⟨e1, e2, e3, e4⟩ := sp_parts_of_accepted m s1 u s2 v p hm hs1 hu hs2 hV hup hp47
    rcases hbad with h | h | h | h | h
    · exact h s1 (by simp) hs1
    · rw [e1] at h; exact h hG
    · rw [e2] at h; exact h s2 (by simp) hs2
    · rw [e4] at h; exact h hV
    · rw [e3] at h; exact h p hup hp47

/-- Witness of C5: the request line `POST / HTTP/1.1` is rejected. -/
theorem C5_bad_request_line_witness :
    (parse_request_line
      { blank small_limits with m_read_buf := bytes "POST / HTTP/1.1" ++ 0 :: List.replicate 80 0 }
      0).1 = HTTP_CODE.BAD_REQUEST ∧
    (parse_request_line
      { blank small_limits with m_read_buf := bytes "POST / HTTP/1.1" ++ 0 :: List.replicate 80 0 }
      0).2.m_check_state = CHECK_STATE.CHECK_STATE_REQUESTLINE :=
  C5_bad_request_line
    { blank small_limits with m_read_buf := bytes "POST / HTTP/1.1" ++ 0 :: List.replicate 80 0 }
    [] (bytes "POST / HTTP/1.1") (List.replicate 80 0) rfl (by decide) rfl
    (Or.inr (Or.inl (by decide)))

end WebServer

namespace WebServer
open http_conn

/-- C6 (the code at the failing input): a request line whose method and URI are separated by
two spaces is rejected with `BAD_REQUEST` and the parser stays in the request-line state,
although the line is made of `GET`, a run of spaces, a URI beginning with `/`, a space and
`HTTP/1.1`; with a single space in that place the same line is accepted. -/
theorem C6_space_run_rejected :
    (process_read small_limits empty_fs
        (received small_limits (bytes "GET  /index.html HTTP/1.1\r\n\r\n"))).map
      (fun r => (r.1, r.2.m_check_state))
      = some (HTTP_CODE.BAD_REQUEST, CHECK_STATE.CHECK_STATE_REQUESTLINE) ∧
    (parse_request_line (parse_line
        (received small_limits (bytes "GET /index.html HTTP/1.1\r\n\r\n"))).2 0).1
      = HTTP_CODE.NO_REQUEST := by
  decide

end WebServer

namespace WebServer
open http_conn

theorem uri_path_origin (p : List Nat) (hp : p.head? = some 47) : uri_path p = some p := by
  cases p with
  | nil => simp at hp
  | cons c t =>
    have hc : c = 47 := by simpa using hp
    subst hc
    unfold uri_path
    rw [if_neg]
    intro h
    have := congrArg List.head? h
    revert this
    simp [tolower]
    decide

theorem scheme_length (pfx : List Nat) (hpfx : pfx.map tolower = bytes "http://") :
    pfx.length = 7 := by
  have := congrArg List.length hpfx
  rw [List.length_map] at this
  rw [this]; decide

theorem uri_path_absolute (pfx h p : List Nat) (hpfx : pfx.map tolower = bytes "http://")
    (hh : ∀ c ∈ h, c ∉ [47]) (hp : p.head? = some 47) : uri_path (pfx ++ h ++ p) = some p := by
  have hl := scheme_length pfx hpfx
  have ht : (pfx ++ h ++ p).take 7 = pfx := by
    rw [List.append_assoc]; exact List.take_left' hl
  have hd : (pfx ++ h ++ p).drop 7 = h ++ p := by
    rw [List.append_assoc]; exact List.drop_left' hl
  cases p with
  | nil => simp at hp
  | cons c t =>
    have hc : c = 47 := by simpa using hp
    subst hc
    have hk := strcspn_split h 47 t [47] hh (by simp)
    unfold uri_path
    rw [ht, hd, if_pos hpfx, hk, if_pos (by simp)]
    rw [List.drop_left' rfl]

theorem uri_path_no_slash (pfx h : List Nat) (hpfx : pfx.map tolower = bytes "http://")
    (hh : ∀ c ∈ h, c ∉ [47]) : uri_path (pfx ++ h) = none := by
  have hl := scheme_length pfx hpfx
  have ht : (pfx ++ h).take 7 = pfx := List.take_left' hl
  have hd : (pfx ++ h).drop 7 = h := List.drop_left' hl
  unfold uri_path
  rw [ht, hd, if_pos hpfx, strcspn_none h [47] hh, if_neg (by simp)]

theorem scheme_bytes (pfx : List Nat) (hpfx : pfx.map tolower = bytes "http://") :
    ∀ c ∈ pfx, c ∉ [32, 9] ∧ c ≠ 0 := by
  intro c hc
  apply tolower_sep
  right; right
  rw [← hpfx]
  exact List.mem_map_of_mem _ hc

/-- What `parse_request_line` does with the line `GET <uri> HTTP/1.1` for a URI without
space, TAB or NUL. -/
theorem parse_get_line (st : http_conn) (pre uri rest : List Nat)
    (hbuf : st.m_read_buf = pre ++ (bytes "GET " ++ uri ++ bytes " HTTP/1.1") ++ 0 :: rest)
    (huri : ∀ c ∈ uri, c ∉ [32, 9] ∧ c ≠ 0) :
    ∃ line', line'.length = (bytes "GET " ++ uri ++ bytes " HTTP/1.1").length ∧
      (parse_request_line st pre.length).2.m_read_buf = pre ++ line' ++ 0 :: rest ∧
      match (uri_path uri).bind (fun p => if p.head? = some 47 then some p else none) with
      | some p =>
        (parse_request_line st pre.length).1 = HTTP_CODE.NO_REQUEST ∧
        (parse_request_line st pre.length).2.m_check_state = CHECK_STATE.CHECK_STATE_HEADER ∧
        (∃ u, (parse_request_line st pre.length).2.m_url = some u ∧
          ∀ X, cstr (pre ++ line' ++ 0 :: X) u = p) ∧
        (∃ w, (parse_request_line st pre.length).2.m_version = some w ∧
          ∀ X, cstr (pre ++ line' ++ 0 :: X) w = bytes "HTTP/1.1") ∧
        (parse_request_line st pre.length).2.m_method = METHOD.GET
      | none =>
        (parse_request_line st pre.length).1 = HTTP_CODE.BAD_REQUEST ∧
        (parse_request_line st pre.length).2.m_check_state = st.m_check_state := by
  have hline : bytes "GET " ++ uri ++ bytes " HTTP/1.1"
      = bytes "GET" ++ 32 :: (uri ++ 32 :: bytes "HTTP/1.1") := by
    have e1 : bytes "GET " = bytes "GET" ++ [32] := by decide
    have e2 : bytes " HTTP/1.1" = 32 :: bytes "HTTP/1.1" := by decide
    rw [e1, e2]; simp
  have h0 : ∀ c ∈ bytes "GET " ++ uri ++ bytes " HTTP/1.1", c ≠ 0 := by
    have k1 : ∀ c ∈ bytes "GET ", c ≠ 0 := by decide
    have k2 : ∀ c ∈ bytes " HTTP/1.1", c ≠ 0 := by decide
    intro c hc
    rcases List.mem_append.1 hc with h | h
    · rcases List.mem_append.1 h with h | h
      · exact k1 c h
      · exact (huri c h).2
    · exact k2 c h
  have hp := request_line_path_shape (bytes "GET") 32 uri 32 (bytes "HTTP/1.1")
    (by decide) (by decide) (fun c hc => (huri c hc).1) (by decide) (by decide) (by decide)
  have hver : rl_version (bytes "GET" ++ 32 :: (uri ++ 32 :: bytes "HTTP/1.1")) = bytes "HTTP/1.1" :=
    (rl_parts2 (bytes "GET") 32 uri 32 (bytes "HTTP/1.1")
      (strcspn_split _ 32 _ [32, 9] (by decide) (by decide))
      (strcspn_split uri 32 _ [32, 9] (fun c hc => (huri c hc).1) (by decide))).2
  have := parse_request_line_spec st pre _ rest hbuf h0
  rw [hline] at this ⊢
  rw [hp, hver] at this
  exact this

/-- C7: for an authority `h` without `/`, space, TAB or NUL and a path `p` that begins with
`/` and has no space, TAB or NUL, the request line `GET http://` ++ h ++ p ++ ` HTTP/1.1`
(the scheme in any case) is accepted with url = p; when what follows the scheme has no `/`,
the line is rejected with `BAD_REQUEST`. -/
theorem C7_absolute_uri (st : http_conn) (pre rest pfx h : List Nat)
    (hpfx : pfx.map tolower = bytes "http://")
    (hh : ∀ c ∈ h, c ≠ 47 ∧ c ≠ 32 ∧ c ≠ 9 ∧ c ≠ 0) :
    (∀ p : List Nat, p.head? = some 47 → (∀ c ∈ p, c ≠ 32 ∧ c ≠ 9 ∧ c ≠ 0) →
      st.m_read_buf = pre ++ (bytes "GET " ++ (pfx ++ h ++ p) ++ bytes " HTTP/1.1") ++ 0 :: rest →
      (parse_request_line st pre.length).1 = HTTP_CODE.NO_REQUEST ∧
      (parse_request_line st pre.length).2.m_check_state = CHECK_STATE.CHECK_STATE_HEADER ∧
      (parse_request_line st pre.length).2.str_at (parse_request_line st pre.length).2.m_url
        = some p) ∧
    (st.m_read_buf = pre ++ (bytes "GET " ++ (pfx ++ h) ++ bytes " HTTP/1.1") ++ 0 :: rest →
      (parse_request_line st pre.length).1 = HTTP_CODE.BAD_REQUEST) := by
  have hpf := scheme_bytes pfx hpfx
  have hh47 : ∀ c ∈ h, c ∉ [47] := fun c hc => by simp [(hh c hc).1]
  have hhs : ∀ c ∈ h, c ∉ [32, 9] ∧ c ≠ 0 := fun c hc => by
    have := hh c hc
    simp [this.2.1, this.2.2.1, this.2.2.2]
  constructor
  · intro p hp hpc hbuf
    have hu : ∀ c ∈ pfx ++ h ++ p, c ∉ [32, 9] ∧ c ≠ 0 := by
      intro c hc
      rcases List.mem_append.1 hc with h1 | h1
      · rcases List.mem_append.1 h1 with h2 | h2
        · exact hpf c h2
        · exact hhs c h2
      · have := hpc c h1
        simp [this.1, this.2.1, this.2.2]
    obtain ⟨line', -, hb, hm⟩ := parse_get_line st pre _ rest hbuf hu
    rw [uri_path_absolute pfx h p hpfx hh47 hp] at hm
    simp only [Option.bind, hp, if_true] at hm
    obtain ⟨h1, h2, ⟨u, h3, h4⟩, -, -⟩ := hm
    refine ⟨h1, h2, ?_⟩
    unfold str_at
    rw [h3, hb]
    simp only [Option.map]
    rw [h4 rest]
  · intro hbuf
    have hu : ∀ c ∈ pfx ++ h, c ∉ [32, 9] ∧ c ≠ 0 := by
      intro c hc
      rcases List.mem_append.1 hc with h2 | h2
      · exact hpf c h2
      · exact hhs c h2
    obtain ⟨line', -, -, hm⟩ := parse_get_line st pre _ rest hbuf hu
    rw [uri_path_no_slash pfx h hpfx hh47] at hm
    exact hm.1

/-- Witness of C7: the request line of the specification's second scenario, with the scheme
in upper case. -/
theorem C7_absolute_uri_witness :
    (parse_request_line
      { blank small_limits with
        m_read_buf := bytes "GET HTTP://h:80/index.html HTTP/1.1" ++ 0 :: List.replicate 60 0 } 0).1
      = HTTP_CODE.NO_REQUEST ∧
    (parse_request_line
      { blank small_limits with
        m_read_buf := bytes "GET HTTP://h:80/index.html HTTP/1.1" ++ 0 :: List.replicate 60 0 }
      0).2.m_check_state = CHECK_STATE.CHECK_STATE_HEADER ∧
    (parse_request_line
      { blank small_limits with
        m_read_buf := bytes "GET HTTP://h:80/index.html HTTP/1.1" ++ 0 :: List.replicate 60 0 }
      0).2.str_at
        (parse_request_line
          { blank small_limits with
            m_read_buf := bytes "GET HTTP://h:80/index.html HTTP/1.1" ++ 0 :: List.replicate 60 0 }
          0).2.m_url
      = some (bytes "/index.html") :=
  (C7_absolute_uri
    { blank small_limits with
      m_read_buf := bytes "GET HTTP://h:80/index.html HTTP/1.1" ++ 0 :: List.replicate 60 0 }
    [] (List.replicate 60 0) (bytes "HTTP://") (bytes "h:80") (by decide) (by decide)).1
    (bytes "/index.html") (by decide) (by decide) (by decide)

end WebServer

namespace WebServer
open http_conn

/-! ## The line scanner on a complete line -/

theorem parse_line_loop_line (l : List Nat) :
    ∀ (pre rest : List Nat) (st : http_conn) (n : Nat),
      st.m_read_buf = pre ++ l ++ 13 :: 10 :: rest →
      st.m_checked_idx = pre.length →
      (∀ c ∈ l, c ≠ 13 ∧ c ≠ 10) →
      pre.length + l.length + 2 ≤ st.m_read_idx →
      l.length + 1 ≤ n →
      parse_line_loop n st =
        (LINE_STATUS.LINE_OK,
          { st with
            m_read_buf := pre ++ l ++ 0 :: 0 :: rest
            m_checked_idx := pre.length + l.length + 2 }) := by
  induction l with
  | nil =>
    intro pre rest st n hbuf hchk _ hrd hn
    obtain ⟨k, rfl⟩ : ∃ k, n = k + 1 := ⟨n - 1, by simp at hn; omega⟩
    simp only [List.append_nil, List.length_nil, Nat.add_zero] at hbuf hrd ⊢
    have h1 : st.m_checked_idx < st.m_read_idx := by omega
    have h2 : st.m_read_buf.getD st.m_checked_idx 0 = 13 :=
      getD_seg _ pre 13 (10 :: rest) _ hbuf hchk
    have h3 : ¬ st.m_checked_idx + 1 = st.m_read_idx := by omega
    have h4 : st.m_read_buf.getD (st.m_checked_idx + 1) 0 = 10 :=
      getD_seg _ (pre ++ [13]) 10 rest _ (by rw [hbuf]; simp) (by simp [hchk])
    have h5 : (st.m_read_buf.set st.m_checked_idx 0).set (st.m_checked_idx + 1) 0
        = pre ++ 0 :: 0 :: rest := by
      rw [set_seg _ pre 13 (10 :: rest) _ 0 hbuf hchk]
      rw [set_seg _ (pre ++ [0]) 10 rest _ 0 (by simp) (by simp [hchk])]
      simp
    unfold parse_line_loop
    simp only [h1, h2, h3, h4, h5, if_true, if_false]
    rw [hchk]
  | cons c l ih =>
    intro pre rest st n hbuf hchk hl hrd hn
    obtain ⟨k, rfl⟩ : ∃ k, n = k + 1 := ⟨n - 1, by simp at hn; omega⟩
    simp only [List.length_cons] at hrd hn
    have h1 : st.m_checked_idx < st.m_read_idx := by omega
    have h2 : st.m_read_buf.getD st.m_checked_idx 0 = c :=
      getD_seg _ pre c (l ++ 13 :: 10 :: rest) _ (by rw [hbuf]; simp) hchk
    have hc := hl c (List.mem_cons_self _ _)
    have h3 : ¬ c = 13 := hc.1
    have h4 : ¬ c = 10 := hc.2
    have := ih (pre ++ [c]) rest { st with m_checked_idx := st.m_checked_idx + 1 } k
      (by simp [hbuf]) (by simp [hchk])
      (fun d hd => hl d (List.mem_cons_of_mem _ hd))
      (by simp only [List.length_append, List.length_cons, List.length_nil]; omega) (by omega)
    unfold parse_line_loop
    simp only [h1, h2, h3, h4, if_true, if_false]
    rw [this]
    simp only [List.length_append, List.length_cons, List.length_nil, List.append_assoc,
      List.singleton_append, Prod.mk.injEq, true_and]
    congr 1
    omega

theorem parse_line_line (st : http_conn) (pre l rest : List Nat)
    (hbuf : st.m_read_buf = pre ++ l ++ 13 :: 10 :: rest)
    (hchk : st.m_checked_idx = pre.length)
    (hl : ∀ c ∈ l, c ≠ 13 ∧ c ≠ 10)
    (hrd : pre.length + l.length + 2 ≤ st.m_read_idx) :
    parse_line st =
      (LINE_STATUS.LINE_OK,
        { st with
          m_read_buf := pre ++ l ++ 0 :: 0 :: rest
          m_checked_idx := pre.length + l.length + 2 }) :=
  parse_line_loop_line l pre rest st _ hbuf hchk hl hrd (by omega)

end WebServer

namespace WebServer
open http_conn

/-! ## Header lines -/

theorem cstr_drop (pre l R : List Nat) (j : Nat) (h0 : ∀ c ∈ l, c ≠ 0) (hj : j ≤ l.length) :
    cstr (pre ++ l ++ 0 :: R) (pre.length + j) = l.drop j :=
  cstr_seg _ (pre ++ l.take j) (l.drop j) R _
    (by rw [List.append_assoc pre (l.take j), List.take_append_drop])
    (by rw [List.length_append, List.length_take, Nat.min_eq_left hj])
    (fun c hc => h0 c (List.mem_of_mem_drop hc))

theorem strspn_le (s acc : List Nat) : strspn s acc ≤ s.length := by
  unfold strspn
  exact List.Sublist.length_le (List.takeWhile_sublist _)

theorem take_length_of_map_eq (l lit : List Nat) (n : Nat)
    (h : (l.take n).map tolower = lit) (hn : lit.length = n) : n ≤ l.length := by
  have := congrArg List.length h
  rw [List.length_map, List.length_take] at this
  omega

theorem parse_headers_line (st : http_conn) (pre l R : List Nat)
    (hbuf : st.m_read_buf = pre ++ l ++ 0 :: R) (hne : l ≠ []) (h0 : ∀ c ∈ l, c ≠ 0) :
    parse_headers st pre.length = (HTTP_CODE.NO_REQUEST, header_effect pre.length l st) := by
  have hc : cstr st.m_read_buf pre.length = l := by rw [hbuf]; exact cstr_line pre l R h0
  have hg : ¬ st.m_read_buf.getD pre.length 0 = 0 := by
    cases l with
    | nil => exact absurd rfl hne
    | cons c t =>
      rw [getD_seg _ pre c (t ++ 0 :: R) _ (by rw [hbuf]; simp) rfl]
      exact h0 c (List.mem_cons_self _ _)
  have hcd : ∀ j, j ≤ l.length → cstr st.m_read_buf (pre.length + j) = l.drop j := by
    intro j hj; rw [hbuf]; exact cstr_drop pre l R j h0 hj
  have hval : ∀ n, n ≤ l.length →
      cstr st.m_read_buf (pre.length + n + strspn (cstr st.m_read_buf (pre.length + n)) [32, 9])
        = header_value n l := by
    intro n hn
    rw [hcd n hn, Nat.add_assoc, hcd _ (by
      have := strspn_le (l.drop n) [32, 9]
      rw [List.length_drop] at this
      omega)]
    unfold header_value
    rw [List.drop_drop, Nat.add_comm]
  have e1 : strncasecmp l (bytes "Connection:") 11 = 0 ↔ is_connection l = true := by
    rw [strncasecmp_eq_zero l _ 11 h0 (by decide)]
    have : ((bytes "Connection:").take 11).map tolower = bytes "connection:" := by decide
    rw [this]; unfold is_connection; simp
  have e2 : strncasecmp l (bytes "Content-Length:") 15 = 0 ↔ is_content_length l = true := by
    rw [strncasecmp_eq_zero l _ 15 h0 (by decide)]
    have : ((bytes "Content-Length:").take 15).map tolower = bytes "content-length:" := by decide
    rw [this]; unfold is_content_length; simp
  have e3 : strncasecmp l (bytes "Host:") 5 = 0 ↔ is_host l = true := by
    rw [strncasecmp_eq_zero l _ 5 h0 (by decide)]
    have : ((bytes "Host:").take 5).map tolower = bytes "host:" := by decide
    rw [this]; unfold is_host; simp
  have h0v : ∀ n, ∀ c ∈ header_value n l, c ≠ 0 := fun n c hc =>
    h0 c (List.mem_of_mem_drop (List.mem_of_mem_drop hc))
  unfold parse_headers header_effect
  rw [if_neg hg, hc]
  by_cases c1 : is_connection l = true
  · have hn : 11 ≤ l.length :=
      take_length_of_map_eq l _ 11 (by simpa [is_connection] using c1) (by decide)
    rw [if_pos (e1.2 c1), if_pos c1]
    simp only []
    have hka : strcasecmp (header_value 11 l) (bytes "keep-alive") = 0 ↔
        (header_value 11 l).map tolower = bytes "keep-alive" := by
      rw [strcasecmp_eq_zero _ _ (h0v 11) (by decide)]
      have : (bytes "keep-alive").map tolower = bytes "keep-alive" := by decide
      rw [this]
    rw [hval 11 hn]
    by_cases hk : (header_value 11 l).map tolower = bytes "keep-alive"
    · rw [if_pos (hka.2 hk), if_pos hk]
    · rw [if_neg (fun h => hk (hka.1 h)), if_neg hk]
  · rw [if_neg (fun h => c1 (e1.1 h)), if_neg c1]
    by_cases c2 : is_content_length l = true
    · have hn : 15 ≤ l.length :=
        take_length_of_map_eq l _ 15 (by simpa [is_content_length] using c2) (by decide)
      rw [if_pos (e2.2 c2), if_pos c2]
      simp only []
      rw [hval 15 hn]
    · rw [if_neg (fun h => c2 (e2.1 h)), if_neg c2]
      by_cases c3 : is_host l = true
      · have hn : 5 ≤ l.length :=
          take_length_of_map_eq l _ 5 (by simpa [is_host] using c3) (by decide)
        rw [if_pos (e3.2 c3), if_pos c3]
        simp only []
        rw [hcd 5 hn]
      · rw [if_neg (fun h => c3 (e3.1 h)), if_neg c3]

theorem parse_headers_blank (st : http_conn) (pre R : List Nat)
    (hbuf : st.m_read_buf = pre ++ 0 :: R) :
    parse_headers st pre.length =
      if st.m_content_length ≠ 0 then
        (HTTP_CODE.NO_REQUEST, { st with m_check_state := CHECK_STATE.CHECK_STATE_CONTENT })
      else (HTTP_CODE.GET_REQUEST, st) := by
  unfold parse_headers
  rw [if_pos (getD_seg _ pre 0 R _ hbuf rfl)]

end WebServer

namespace WebServer
open http_conn

/-! ## One iteration of `process_read` -/

theorem loop_unfold_line (cfg : Limits) (fs : FileSystem) (f : Nat) (ls : LINE_STATUS)
    (st st1 : http_conn) (hcs : st.m_check_state ≠ CHECK_STATE.CHECK_STATE_CONTENT)
    (hpl : parse_line st = (LINE_STATUS.LINE_OK, st1)) :
    process_read_loop cfg fs (f + 1) ls st =
      match st1.m_check_state with
      | CHECK_STATE.CHECK_STATE_REQUESTLINE =>
        if (parse_request_line { st1 with m_start_line := st1.m_checked_idx } st1.m_start_line).1
            = HTTP_CODE.BAD_REQUEST then
          some (HTTP_CODE.BAD_REQUEST,
            (parse_request_line { st1 with m_start_line := st1.m_checked_idx } st1.m_start_line).2)
        else
          process_read_loop cfg fs f LINE_STATUS.LINE_OK
            (parse_request_line { st1 with m_start_line := st1.m_checked_idx } st1.m_start_line).2
      | CHECK_STATE.CHECK_STATE_HEADER =>
        if (parse_headers { st1 with m_start_line := st1.m_checked_idx } st1.m_start_line).1
            = HTTP_CODE.BAD_REQUEST then
          some (HTTP_CODE.BAD_REQUEST,
            (parse_headers { st1 with m_start_line := st1.m_checked_idx } st1.m_start_line).2)
        else if (parse_headers { st1 with m_start_line := st1.m_checked_idx } st1.m_start_line).1
            = HTTP_CODE.GET_REQUEST then
          some (do_request cfg fs
            (parse_headers { st1 with m_start_line := st1.m_checked_idx } st1.m_start_line).2)
        else
          process_read_loop cfg fs f LINE_STATUS.LINE_OK
            (parse_headers { st1 with m_start_line := st1.m_checked_idx } st1.m_start_line).2
      | CHECK_STATE.CHECK_STATE_CONTENT =>
        match parse_content { st1 with m_start_line := st1.m_checked_idx } st1.m_start_line with
        | none => none
        | some r =>
          if r.1 = HTTP_CODE.GET_REQUEST then some (do_request cfg fs r.2)
          else process_read_loop cfg fs f LINE_STATUS.LINE_OPEN r.2 := by
  rw [process_read_loop]
  have h1 : ¬ (st.m_check_state = CHECK_STATE.CHECK_STATE_CONTENT ∧ ls = LINE_STATUS.LINE_OK) :=
    fun h => hcs h.1
  simp only [h1, if_false, hpl, ne_eq, not_true_eq_false]
  all_goals (cases st1.m_check_state <;> rfl)

theorem header_effect_frame (base : Nat) (l : List Nat) (st : http_conn) :
    header_effect base l st =
      { st with
        m_linger := (header_effect base l st).m_linger
        m_content_length := (header_effect base l st).m_content_length
        m_host := (header_effect base l st).m_host } := by
  unfold header_effect
  repeat' split
  all_goals rfl

theorem header_effect_linger (base : Nat) (l : List Nat) (st : http_conn) :
    (header_effect base l st).m_linger = (st.m_linger || is_keep_alive l) := by
  unfold header_effect is_keep_alive
  by_cases c1 : is_connection l = true
  · rw [if_pos c1, c1]
    by_cases hk : (header_value 11 l).map tolower = bytes "keep-alive"
    · rw [if_pos hk]; simp [hk]
    · rw [if_neg hk]; simp [hk]
  · rw [if_neg c1]
    have : is_connection l = false := by simpa using c1
    rw [this]
    simp only [Bool.false_and, Bool.or_false]
    repeat' split
    all_goals rfl

theorem header_effect_content_length (base : Nat) (l : List Nat) (st : http_conn) :
    (header_effect base l st).m_content_length =
      (if !is_connection l && is_content_length l then to_int (atol (header_value 15 l))
       else st.m_content_length) := by
  unfold header_effect
  by_cases c1 : is_connection l = true
  · rw [if_pos c1, c1]
    simp only [Bool.not_true, Bool.false_and, Bool.false_eq_true, if_false]
    split <;> rfl
  · rw [if_neg c1]
    have h1 : is_connection l = false := by simpa using c1
    rw [h1]
    by_cases c2 : is_content_length l = true
    · rw [if_pos c2, c2]; rfl
    · rw [if_neg c2]
      have h2 : is_content_length l = false := by simpa using c2
      rw [h2]
      simp only [Bool.not_false, Bool.and_false, Bool.false_eq_true, if_false]
      split <;> rfl

theorem header_effect_host (base : Nat) (l : List Nat) (st : http_conn) :
    (header_effect base l st).m_host =
      (if !is_connection l && !is_content_length l && is_host l then
        some (base + 5 + strspn (l.drop 5) [32, 9])
       else st.m_host) := by
  unfold header_effect
  by_cases c1 : is_connection l = true
  · rw [if_pos c1, c1]
    simp only [Bool.not_true, Bool.false_and, Bool.false_eq_true, if_false]
    split <;> rfl
  · rw [if_neg c1]
    have h1 : is_connection l = false := by simpa using c1
    rw [h1]
    by_cases c2 : is_content_length l = true
    · rw [if_pos c2, c2]; rfl
    · rw [if_neg c2]
      have h2 : is_content_length l = false := by simpa using c2
      rw [h2]
      by_cases c3 : is_host l = true
      · rw [if_pos c3, c3]; rfl
      · rw [if_neg c3]
        have h3 : is_host l = false := by simpa using c3
        rw [h3]; rfl

end WebServer

namespace WebServer
open http_conn

/-! ## The header section -/

theorem stable_str_mono (pre Z : List Nat) (p : Option Nat) (v : Option (List Nat))
    (h : stable_str pre p v) : stable_str (pre ++ Z) p v := by
  cases p <;> cases v <;> simp only [stable_str] at h ⊢
  intro X
  rw [List.append_assoc]
  exact h _

theorem stable_str_apply (pre Y : List Nat) (p : Option Nat) (v : Option (List Nat))
    (h : stable_str pre p v) : p.map (cstr (pre ++ Y)) = v := by
  cases p <;> cases v <;> simp only [stable_str] at h
  · rfl
  · simp [h Y]

theorem crlf_lines_cons (l : List Nat) (ls : List (List Nat)) :
    crlf_lines (l :: ls) = l ++ 13 :: 10 :: crlf_lines ls := by
  simp [crlf_lines]

theorem crlf_lines_nil : crlf_lines [] = [] := rfl

/-- The iterations of `process_read` over a header section: the header lines `hs` and the
blank line.  They end either in `do_request` or, with a content length, in the content
state. -/
theorem headers_loop (cfg : Limits) (fs : FileSystem) (hs : List (List Nat)) :
    ∀ (pre rest : List Nat) (st : http_conn) (f : Nat) (ls : LINE_STATUS),
      st.m_check_state = CHECK_STATE.CHECK_STATE_HEADER →
      st.m_read_buf = pre ++ crlf_lines hs ++ 13 :: 10 :: rest →
      st.m_checked_idx = pre.length →
      st.m_start_line = pre.length →
      (∀ l ∈ hs, header_line l) →
      pre.length + (crlf_lines hs).length + 2 ≤ st.m_read_idx →
      hs.length + 1 ≤ f →
      ∃ stF Y,
        process_read_loop cfg fs f ls st =
          (if stF.m_content_length ≠ 0 then
            process_read_loop cfg fs (f - hs.length - 1) LINE_STATUS.LINE_OK
              { stF with m_check_state := CHECK_STATE.CHECK_STATE_CONTENT }
           else some (do_request cfg fs stF)) ∧
        stF = { st with
                m_read_buf := pre ++ Y
                m_checked_idx := pre.length + (crlf_lines hs).length + 2
                m_start_line := pre.length + (crlf_lines hs).length + 2
                m_linger := (st.m_linger || hs.any is_keep_alive)
                m_content_length := content_length_after hs st.m_content_length
                m_host := stF.m_host } ∧
        Y.length = (crlf_lines hs).length + 2 + rest.length ∧
        ∀ hv, stable_str pre st.m_host hv →
          stable_str (pre ++ Y.take ((crlf_lines hs).length + 2)) stF.m_host (host_after hs hv) := by
  induction hs with
  | nil =>
    intro pre rest st f ls hcs hbuf hchk hsl _ hrd hf
    obtain ⟨k, rfl⟩ : ∃ k, f = k + 1 := ⟨f - 1, by simp at hf; omega⟩
    obtain ⟨sockfd, buf, ridx, cidx, sline, cs, meth, rf, url, ver, host, cl, lg, wbuf, widx, fa,
      fst, iv0, iv1, ivc⟩ := st
    simp only [crlf_lines_nil, List.append_nil, List.length_nil, Nat.add_zero] at hcs hbuf hchk hsl hrd
    subst hcs hbuf hchk hsl
    have hpl := parse_line_line
      ⟨sockfd, pre ++ 13 :: 10 :: rest, ridx, pre.length, pre.length,
        CHECK_STATE.CHECK_STATE_HEADER, meth, rf, url, ver, host, cl, lg, wbuf, widx, fa, fst, iv0,
        iv1, ivc⟩ pre [] rest (by simp) rfl (by simp) (by simpa using hrd)
    simp only [List.append_nil, List.length_nil, Nat.add_zero] at hpl
    rw [loop_unfold_line cfg fs k ls _ _ (by simp) hpl]
    simp only []
    rw [parse_headers_blank _ pre (0 :: rest) rfl]
    refine ⟨⟨sockfd, pre ++ 0 :: 0 :: rest, ridx, pre.length + 2, pre.length + 2,
        CHECK_STATE.CHECK_STATE_HEADER, meth, rf, url, ver, host, cl, lg, wbuf, widx, fa, fst, iv0,
        iv1, ivc⟩, 0 :: 0 :: rest, ?_, ?_, ?_, ?_⟩
    · by_cases hcl : cl = 0
      · simp [hcl]
      · simp [hcl]
    · simp [crlf_lines_nil, content_length_after]
    · simp [crlf_lines_nil]; omega
    · intro hv hst
      simp only [host_after]
      exact stable_str_mono _ _ _ _ hst
  | cons l ls ih =>
    intro pre rest st f lst hcs hbuf hchk hsl hl hrd hf
    obtain ⟨k, rfl⟩ : ∃ k, f = k + 1 := ⟨f - 1, by simp at hf; omega⟩
    have hll := hl l (List.mem_cons_self _ _)
    have hlen : (crlf_lines (l :: ls)).length = l.length + 2 + (crlf_lines ls).length := by
      rw [crlf_lines_cons]; simp; omega
    obtain ⟨sockfd, buf, ridx, cidx, sline, cs, meth, rf, url, ver, host, cl, lg, wbuf, widx, fa,
      fst, iv0, iv1, ivc⟩ := st
    simp only [] at hcs hbuf hchk hsl hrd
    subst hcs hchk hsl
    have hbuf' : buf = pre ++ l ++ 13 :: 10 :: (crlf_lines ls ++ 13 :: 10 :: rest) := by
      rw [hbuf, crlf_lines_cons]; simp
    subst hbuf'
    rw [hlen] at hrd
    have hpl := parse_line_line
      ⟨sockfd, pre ++ l ++ 13 :: 10 :: (crlf_lines ls ++ 13 :: 10 :: rest), ridx, pre.length,
        pre.length, CHECK_STATE.CHECK_STATE_HEADER, meth, rf, url, ver, host, cl, lg, wbuf, widx, fa,
        fst, iv0, iv1, ivc⟩ pre l _ rfl rfl (fun c hc => ⟨(hll.2 c hc).1, (hll.2 c hc).2.1⟩)
      (by simp only []; omega)
    simp only [] at hpl
    rw [loop_unfold_line cfg fs k lst _ _ (by simp) hpl]
    simp only []
    rw [parse_headers_line _ pre l (0 :: (crlf_lines ls ++ 13 :: 10 :: rest)) rfl hll.1
      (fun c hc => (hll.2 c hc).2.2)]
    simp only [reduceCtorEq, if_false]
    have hfr := header_effect_frame pre.length l
      ⟨sockfd, pre ++ l ++ 0 :: 0 :: (crlf_lines ls ++ 13 :: 10 :: rest), ridx,
        pre.length + l.length + 2, pre.length + l.length + 2, CHECK_STATE.CHECK_STATE_HEADER, meth,
        rf, url, ver, host, cl, lg, wbuf, widx, fa, fst, iv0, iv1, ivc⟩
    have hlg := header_effect_linger pre.length l
      ⟨sockfd, pre ++ l ++ 0 :: 0 :: (crlf_lines ls ++ 13 :: 10 :: rest), ridx,
        pre.length + l.length + 2, pre.length + l.length + 2, CHECK_STATE.CHECK_STATE_HEADER, meth,
        rf, url, ver, host, cl, lg, wbuf, widx, fa, fst, iv0, iv1, ivc⟩
    have hcl := header_effect_content_length pre.length l
      ⟨sockfd, pre ++ l ++ 0 :: 0 :: (crlf_lines ls ++ 13 :: 10 :: rest), ridx,
        pre.length + l.length + 2, pre.length + l.length + 2, CHECK_STATE.CHECK_STATE_HEADER, meth,
        rf, url, ver, host, cl, lg, wbuf, widx, fa, fst, iv0, iv1, ivc⟩
    have hho := header_effect_host pre.length l
      ⟨sockfd, pre ++ l ++ 0 :: 0 :: (crlf_lines ls ++ 13 :: 10 :: rest), ridx,
        pre.length + l.length + 2, pre.length + l.length + 2, CHECK_STATE.CHECK_STATE_HEADER, meth,
        rf, url, ver, host, cl, lg, wbuf, widx, fa, fst, iv0, iv1, ivc⟩
    generalize header_effect pre.length l
      ⟨sockfd, pre ++ l ++ 0 :: 0 :: (crlf_lines ls ++ 13 :: 10 :: rest), ridx,
        pre.length + l.length + 2, pre.length + l.length + 2, CHECK_STATE.CHECK_STATE_HEADER, meth,
        rf, url, ver, host, cl, lg, wbuf, widx, fa, fst, iv0, iv1, ivc⟩ = st2 at hfr hlg hcl hho ⊢
    simp only [] at hlg hcl hho hfr
    obtain ⟨stF, Y, hrun, hstF, hY, hhost⟩ := ih (pre ++ l ++ [0, 0]) rest st2 k LINE_STATUS.LINE_OK
      (by rw [hfr])
      (by rw [hfr]; simp)
      (by rw [hfr]; simp only [List.length_append, List.length_cons, List.length_nil])
      (by rw [hfr]; simp only [List.length_append, List.length_cons, List.length_nil])
      (fun x hx => hl x (List.mem_cons_of_mem _ hx))
      (by rw [hfr]; simp only [List.length_append, List.length_cons, List.length_nil]; omega)
      (by simp only [List.length_cons] at hf; omega)
    refine ⟨stF, l ++ 0 :: 0 :: Y, ?_, ?_, ?_, ?_⟩
    · rw [hrun]
      simp only [List.length_cons]
      have : k + 1 - (ls.length + 1) - 1 = k - ls.length - 1 := by omega
      rw [this]
    · rw [hstF, hfr]
      simp only [hlg, hcl, hlen, List.any_cons, content_length_after, List.length_append,
        List.length_cons, List.length_nil, List.append_assoc, List.cons_append, List.nil_append,
        Bool.or_assoc, mk.injEq, true_and, and_true]
      omega
    · rw [hlen]; simp only [List.length_append, List.length_cons, hY]; omega
    · intro hv hst
      have key : stable_str (pre ++ l ++ [0, 0]) st2.m_host
          (if !is_connection l && !is_content_length l && is_host l then some (header_value 5 l)
           else hv) := by
        rw [hho]
        by_cases hc : (!is_connection l && !is_content_length l && is_host l) = true
        · rw [if_pos hc, if_pos hc]
          simp only [stable_str]
          intro X
          have hh : is_host l = true := by
            simp only [Bool.and_eq_true] at hc; exact hc.2
          have h5 : 5 ≤ l.length :=
            take_length_of_map_eq l _ 5 (by simpa [is_host] using hh) (by decide)
          have hsp := strspn_le (l.drop 5) [32, 9]
          rw [List.length_drop] at hsp
          have := cstr_drop pre l (0 :: X) (5 + strspn (l.drop 5) [32, 9])
            (fun c hc => (hll.2 c hc).2.2) (by omega)
          rw [← Nat.add_assoc] at this
          have e : pre ++ l ++ [0, 0] ++ X = pre ++ l ++ 0 :: (0 :: X) := by simp
          rw [e, this]
          unfold header_value
          rw [List.drop_drop, Nat.add_comm]
        · rw [if_neg hc, if_neg hc]
          have := stable_str_mono pre (l ++ [0, 0]) _ _ hst
          rw [← List.append_assoc] at this
          exact this
      have := hhost _ key
      simp only [host_after]
      have e : pre ++ (l ++ 0 :: 0 :: Y).take ((crlf_lines (l :: ls)).length + 2)
          = pre ++ l ++ [0, 0] ++ Y.take ((crlf_lines ls).length + 2) := by
        rw [hlen]
        have : l.length + 2 + (crlf_lines ls).length + 2
            = (l ++ [0, 0]).length + ((crlf_lines ls).length + 2) := by
          simp only [List.length_append, List.length_cons, List.length_nil]; omega
        have e2 : l ++ 0 :: 0 :: Y = (l ++ [0, 0]) ++ Y := by simp
        rw [this, e2, List.take_append]
        simp
      rw [e]
      exact this

end WebServer

namespace WebServer
open http_conn

/-! ## A fresh connection and its input -/

theorem bzero_full (buf : List Nat) (n : Nat) (h : buf.length = n) :
    bzero buf n = List.replicate n 0 := by
  unfold bzero write_at
  simp only [List.take_zero, List.nil_append, List.length_replicate, Nat.zero_add]
  rw [List.drop_of_length_le (by omega), List.append_nil, List.take_of_length_le (by simp [h])]

theorem write_at_zeros (n : Nat) (req : List Nat) (h : req.length ≤ n) :
    write_at (List.replicate n 0) 0 req = req ++ List.replicate (n - req.length) 0 := by
  unfold write_at
  simp only [List.take_zero, List.nil_append, Nat.zero_add, List.drop_replicate,
    List.length_replicate]
  exact List.take_of_length_le (by simp; omega)

/-- The connection after `init()` and one `recv` that delivers `req`. -/
theorem read_fresh (cfg : Limits) (st0 : http_conn) (req : List Nat) (hsz : Sized cfg st0)
    (hne : req ≠ []) (hfit : req.length ≤ cfg.READ_BUFFER_SIZE) :
    (read cfg (init cfg st0) [recv_result.data req]).2 =
      { init cfg st0 with
        m_read_buf := req ++ List.replicate (cfg.READ_BUFFER_SIZE - req.length) 0
        m_read_idx := req.length } := by
  have hpos : 0 < req.length := List.length_pos.2 hne
  have hb : (init cfg st0).m_read_buf = List.replicate cfg.READ_BUFFER_SIZE 0 := by
    simp only [init]; exact bzero_full _ _ hsz.1
  have hi : (init cfg st0).m_read_idx = 0 := rfl
  unfold http_conn.read
  rw [if_neg (by rw [hi]; omega)]
  unfold read_loop
  simp only [hi, Nat.sub_zero, Nat.zero_add]
  rw [List.take_of_length_le hfit, if_neg (by omega)]
  unfold read_loop
  simp only [hb]
  rw [write_at_zeros _ _ hfit]

theorem init_fields (cfg : Limits) (st0 : http_conn) (hsz : Sized cfg st0) :
    (init cfg st0).m_check_state = CHECK_STATE.CHECK_STATE_REQUESTLINE ∧
    (init cfg st0).m_linger = false ∧ (init cfg st0).m_url = none ∧
    (init cfg st0).m_version = none ∧ (init cfg st0).m_host = none ∧
    (init cfg st0).m_content_length = 0 ∧ (init cfg st0).m_start_line = 0 ∧
    (init cfg st0).m_checked_idx = 0 ∧ (init cfg st0).m_write_idx = 0 ∧
    (init cfg st0).m_real_file = List.replicate cfg.FILENAME_LEN 0 ∧
    (init cfg st0).m_write_buf.length = cfg.WRITE_BUFFER_SIZE := by
  refine ⟨rfl, rfl, rfl, rfl, rfl, rfl, rfl, rfl, rfl, ?_, ?_⟩
  · simp only [init]; exact bzero_full _ _ hsz.2.2
  · simp only [init, bzero]; rw [write_at_length]; exact hsz.2.1

/-! ## The path `do_request` builds -/

theorem build_real_file_zeros (cfg : Limits) (url : List Nat) (h0 : ∀ c ∈ url, c ≠ 0)
    (hF : doc_root.length < cfg.FILENAME_LEN) :
    cstr (build_real_file cfg (List.replicate cfg.FILENAME_LEN 0) url) 0
      = doc_root ++ url.take (cfg.FILENAME_LEN - doc_root.length - 1) := by
  have hd0 : ∀ c ∈ doc_root, c ≠ 0 := by decide
  unfold build_real_file
  simp only []
  generalize doc_root = dr at hd0 hF ⊢
  generalize hn : cfg.FILENAME_LEN - dr.length - 1 = n
  have hFn : cfg.FILENAME_LEN = dr.length + n + 1 := by omega
  rw [hFn]
  have hr1 : write_at (List.replicate (dr.length + n + 1) 0) 0 (dr ++ [0])
      = dr ++ 0 :: List.replicate n 0 := by
    rw [write_at_zeros _ _ (by simp)]
    have : dr.length + n + 1 - (dr ++ [0]).length = n := by simp
    rw [this]; simp
  rw [hr1]
  have hdl : (url.take n ++ List.replicate (n - url.length) 0).length = n := by
    simp only [List.length_append, List.length_take, List.length_replicate]; omega
  have hr2 : write_at (dr ++ 0 :: List.replicate n 0) dr.length
      (url.take n ++ List.replicate (n - url.length) 0)
      = dr ++ url.take n ++ (List.replicate (n - url.length) 0 ++ [0]) := by
    unfold write_at
    rw [hdl, List.take_left' rfl]
    have hdrop : (dr ++ 0 :: List.replicate n 0).drop (dr.length + n) = [0] := by
      rw [List.drop_append]
      have : (0 :: List.replicate n 0) = List.replicate (n + 1) 0 := rfl
      rw [this, List.drop_replicate]
      simp
    rw [hdrop]
    rw [List.take_of_length_le (by
      simp only [List.length_append, List.length_take, List.length_replicate, List.length_cons,
        List.length_nil]; omega)]
    simp
  rw [hr2]
  have hz : List.replicate (n - url.length) 0 ++ [0] = 0 :: List.replicate (n - url.length) 0 := by
    rw [← List.replicate_succ, List.replicate_succ']
  rw [hz]
  have := cstr_line [] (dr ++ url.take n) (List.replicate (n - url.length) 0) (by
    intro c hc
    rcases List.mem_append.1 hc with h | h
    · exact hd0 c h
    · exact h0 c (List.mem_of_mem_take h))
  simpa using this

end WebServer

namespace WebServer
open http_conn

/-! ## A whole GET request -/

theorem crlf_lines_length_ge (hs : List (List Nat)) : hs.length ≤ (crlf_lines hs).length := by
  induction hs with
  | nil => simp [crlf_lines]
  | cons l ls ih =>
    rw [crlf_lines_cons]
    simp only [List.length_cons, List.length_append]
    omega

theorem get_request_length (uri : List Nat) (hs : List (List Nat)) :
    (get_request uri hs).length = uri.length + (crlf_lines hs).length + 17 := by
  have e1 : (bytes "GET ").length = 4 := by decide
  have e2 : (bytes " HTTP/1.1").length = 9 := by decide
  unfold get_request
  simp only [List.length_append, e1, e2, List.length_cons, List.length_nil]
  omega

/-- The run of `process_read` on a fresh connection that has received a GET request with an
acceptable URI, header lines `hs`, the blank line and any further bytes `body`: the parser
reaches the end of the headers in the state `stF`, and then either calls `do_request` or, with
a content length, goes on in the content state. -/
theorem get_request_run (cfg : Limits) (fs : FileSystem) (st0 : http_conn)
    (uri path : List Nat) (hs : List (List Nat)) (body : List Nat)
    (hsz : Sized cfg st0)
    (huri : ∀ c ∈ uri, c ≠ 32 ∧ c ≠ 9 ∧ c ≠ 13 ∧ c ≠ 10 ∧ c ≠ 0)
    (hpath : (uri_path uri).bind (fun p => if p.head? = some 47 then some p else none) = some path)
    (hhs : ∀ l ∈ hs, header_line l)
    (hfit : (get_request uri hs ++ body).length ≤ cfg.READ_BUFFER_SIZE) :
    ∃ stF : http_conn,
      process_read cfg fs
          (read cfg (init cfg st0) [recv_result.data (get_request uri hs ++ body)]).2 =
        (if stF.m_content_length ≠ 0 then
          process_read_loop cfg fs ((get_request uri hs ++ body).length - hs.length)
            LINE_STATUS.LINE_OK { stF with m_check_state := CHECK_STATE.CHECK_STATE_CONTENT }
         else some (do_request cfg fs stF)) ∧
      stF.m_linger = hs.any is_keep_alive ∧
      stF.m_content_length = content_length_after hs 0 ∧
      stF.m_method = METHOD.GET ∧
      stF.str_at stF.m_url = some path ∧
      stF.str_at stF.m_version = some (bytes "HTTP/1.1") ∧
      stF.str_at stF.m_host = host_after hs none ∧
      stF.m_real_file = List.replicate cfg.FILENAME_LEN 0 ∧
      stF.m_check_state = CHECK_STATE.CHECK_STATE_HEADER ∧
      stF.m_read_idx = (get_request uri hs ++ body).length ∧
      stF.m_checked_idx = (get_request uri hs).length ∧
      stF.m_start_line = (get_request uri hs).length ∧
      stF.m_write_idx = 0 ∧
      stF.m_write_buf.length = cfg.WRITE_BUFFER_SIZE ∧
      stF.m_read_buf.length = cfg.READ_BUFFER_SIZE := by
  have hne : get_request uri hs ++ body ≠ [] := by
    intro h
    have := congrArg List.length h
    rw [List.length_append, get_request_length] at this
    simp at this
  have hlenreq := get_request_length uri hs
  have hin := read_fresh cfg st0 _ hsz hne hfit
  obtain ⟨i1, i2, i3, i4, i5, i6, i7, i8, i9, i10, i11⟩ := init_fields cfg st0 hsz
  generalize init cfg st0 = si at hin i1 i2 i3 i4 i5 i6 i7 i8 i9 i10 i11
  obtain ⟨sockfd, buf, ridx, cidx, sline, cs, meth, rf, url, ver, host, cl, lg, wbuf, widx, fa,
    fst, iv0, iv1, ivc⟩ := si
  simp only [] at hin i1 i2 i3 i4 i5 i6 i7 i8 i9 i10 i11
  subst i1 i2 i3 i4 i5 i6 i7 i8 i9 i10
  rw [hin]
  generalize hz : List.replicate (cfg.READ_BUFFER_SIZE - (get_request uri hs ++ body).length) 0 = zs
  -- the request line
  have hshape : get_request uri hs ++ body ++ zs
      = [] ++ (bytes "GET " ++ uri ++ bytes " HTTP/1.1") ++ 13 :: 10 ::
          (crlf_lines hs ++ 13 :: 10 :: (body ++ zs)) := by
    unfold get_request; simp
  have hlinelen : (bytes "GET " ++ uri ++ bytes " HTTP/1.1").length = uri.length + 13 := by
    have e1 : (bytes "GET ").length = 4 := by decide
    have e2 : (bytes " HTTP/1.1").length = 9 := by decide
    simp only [List.length_append, e1, e2]; omega
  have hlinecr : ∀ c ∈ bytes "GET " ++ uri ++ bytes " HTTP/1.1", c ≠ 13 ∧ c ≠ 10 := by
    have k1 : ∀ c ∈ bytes "GET ", c ≠ 13 ∧ c ≠ 10 := by decide
    have k2 : ∀ c ∈ bytes " HTTP/1.1", c ≠ 13 ∧ c ≠ 10 := by decide
    intro c hc
    rcases List.mem_append.1 hc with h | h
    · rcases List.mem_append.1 h with h | h
      · exact k1 c h
      · exact ⟨(huri c h).2.2.1, (huri c h).2.2.2.1⟩
    · exact k2 c h
  have hpl := parse_line_line
    ⟨sockfd, get_request uri hs ++ body ++ zs, (get_request uri hs ++ body).length, 0, 0,
      CHECK_STATE.CHECK_STATE_REQUESTLINE, meth, List.replicate cfg.FILENAME_LEN 0, none,
      none, none, 0, false, wbuf, 0, fa, fst, iv0, iv1, ivc⟩
    [] (bytes "GET " ++ uri ++ bytes " HTTP/1.1") _ hshape rfl hlinecr
    (by simp only [List.length_nil, List.length_append, hlenreq, hlinelen]; omega)
  simp only [List.nil_append, List.length_nil, Nat.zero_add] at hpl
  unfold process_read
  simp only [Nat.sub_zero]
  rw [loop_unfold_line cfg fs _ _ _ _ (by simp) hpl]
  simp only []
  obtain ⟨line', hl', hb, hm⟩ := parse_get_line
    ⟨sockfd, bytes "GET " ++ uri ++ bytes " HTTP/1.1" ++ 0 :: 0 ::
        (crlf_lines hs ++ 13 :: 10 :: (body ++ zs)), (get_request uri hs ++ body).length,
      (bytes "GET " ++ uri ++ bytes " HTTP/1.1").length + 2,
      (bytes "GET " ++ uri ++ bytes " HTTP/1.1").length + 2,
      CHECK_STATE.CHECK_STATE_REQUESTLINE, meth, List.replicate cfg.FILENAME_LEN 0, none,
      none, none, 0, false, wbuf, 0, fa, fst, iv0, iv1, ivc⟩
    [] uri (0 :: (crlf_lines hs ++ 13 :: 10 :: (body ++ zs))) (by simp)
    (fun c hc => by
      have := huri c hc
      simp [this.1, this.2.1, this.2.2.2.2])
  rw [hpath] at hm
  obtain ⟨b, u, v, me, c, hfr⟩ := parse_request_line_frame
    ⟨sockfd, bytes "GET " ++ uri ++ bytes " HTTP/1.1" ++ 0 :: 0 ::
        (crlf_lines hs ++ 13 :: 10 :: (body ++ zs)), (get_request uri hs ++ body).length,
      (bytes "GET " ++ uri ++ bytes " HTTP/1.1").length + 2,
      (bytes "GET " ++ uri ++ bytes " HTTP/1.1").length + 2,
      CHECK_STATE.CHECK_STATE_REQUESTLINE, meth, List.replicate cfg.FILENAME_LEN 0, none,
      none, none, 0, false, wbuf, 0, fa, fst, iv0, iv1, ivc⟩ 0
  simp only [List.length_nil, List.nil_append] at hb hm
  generalize parse_request_line
    ⟨sockfd, bytes "GET " ++ uri ++ bytes " HTTP/1.1" ++ 0 :: 0 ::
        (crlf_lines hs ++ 13 :: 10 :: (body ++ zs)), (get_request uri hs ++ body).length,
      (bytes "GET " ++ uri ++ bytes " HTTP/1.1").length + 2,
      (bytes "GET " ++ uri ++ bytes " HTTP/1.1").length + 2,
      CHECK_STATE.CHECK_STATE_REQUESTLINE, meth, List.replicate cfg.FILENAME_LEN 0, none,
      none, none, 0, false, wbuf, 0, fa, fst, iv0, iv1, ivc⟩ 0 = r at hb hm hfr ⊢
  obtain ⟨rc, s2⟩ := r
  simp only [] at hb hm hfr
  obtain ⟨hrc, hcs2, ⟨uu, huu, hustab⟩, ⟨ww, hww, hwstab⟩, hmeth⟩ := hm
  subst hrc hfr
  simp only [] at hb hcs2 huu hww hmeth
  subst hb hcs2 huu hww hmeth
  simp only [reduceCtorEq, if_false]
  -- the header section
  obtain ⟨stF, Y, hrun, hstF, hY, hhost⟩ := headers_loop cfg fs hs (line' ++ [0, 0]) (body ++ zs)
    ⟨sockfd, line' ++ 0 :: 0 :: (crlf_lines hs ++ 13 :: 10 :: (body ++ zs)),
      (get_request uri hs ++ body).length,
      (bytes "GET " ++ uri ++ bytes " HTTP/1.1").length + 2,
      (bytes "GET " ++ uri ++ bytes " HTTP/1.1").length + 2,
      CHECK_STATE.CHECK_STATE_HEADER, METHOD.GET, List.replicate cfg.FILENAME_LEN 0, some uu,
      some ww, none, 0, false, wbuf, 0, fa, fst, iv0, iv1, ivc⟩
    ((get_request uri hs ++ body).length + 1) LINE_STATUS.LINE_OK rfl (by simp)
    (by simp only [List.length_append, List.length_cons, List.length_nil, hl'])
    (by simp only [List.length_append, List.length_cons, List.length_nil, hl'])
    hhs
    (by
      simp only [List.length_append, List.length_cons, List.length_nil, hl', hlenreq, hlinelen]
      omega)
    (by
      have := crlf_lines_length_ge hs
      simp only [List.length_append, hlenreq]; omega)
  refine ⟨stF, ?_, ?_⟩
  · rw [hrun]
    have : (get_request uri hs ++ body).length + 1 - hs.length - 1
        = (get_request uri hs ++ body).length - hs.length := by omega
    rw [this]
  · have hhost' := hhost none (by simp [stable_str])
    rw [hstF]
    simp only [str_at, Bool.false_or, content_length_after, Option.map]
    refine ⟨trivial, trivial, trivial, ?_, ?_, ?_, trivial, trivial, trivial, ?_, ?_, trivial, i11,
      ?_⟩
    · have := hustab (0 :: Y)
      rw [← this]; simp
    · have := hwstab (0 :: Y)
      rw [← this]; simp
    · have := stable_str_apply _ (Y.drop ((crlf_lines hs).length + 2)) _ _ hhost'
      rw [List.append_assoc, List.take_append_drop] at this
      rw [hstF] at this
      exact this
    · simp only [List.length_append, List.length_cons, List.length_nil, hl', hlenreq, hlinelen]
      omega
    · simp only [List.length_append, List.length_cons, List.length_nil, hl', hlenreq, hlinelen]
      omega
    · have hzl : zs.length = cfg.READ_BUFFER_SIZE - (get_request uri hs ++ body).length := by
        rw [← hz, List.length_replicate]
      simp only [List.length_append, List.length_cons, List.length_nil, hl', hlinelen, hY, hzl,
        hlenreq]
      simp only [List.length_append, hlenreq] at hfit
      omega

end WebServer

namespace WebServer
open http_conn

theorem do_request_frame (cfg : Limits) (fs : FileSystem) (st : http_conn) :
    ∃ rf fst fa, (do_request cfg fs st).2 =
      { st with m_real_file := rf, m_file_stat := fst, m_file_address := fa } := by
  unfold do_request
  simp only []
  repeat' split
  all_goals exact ⟨_, _, _, rfl⟩

theorem do_request_parsed (cfg : Limits) (fs : FileSystem) (st : http_conn) :
    (do_request cfg fs st).2.parsed = st.parsed ∧
    (do_request cfg fs st).2.m_check_state = st.m_check_state ∧
    (do_request cfg fs st).2.m_write_idx = st.m_write_idx := by
  obtain ⟨rf, fst, fa, h⟩ := do_request_frame cfg fs st
  rw [h]
  exact ⟨rfl, rfl, rfl⟩

theorem stat_code_ne_no_request (fs : FileSystem) (path : List Nat) :
    stat_code fs path ≠ HTTP_CODE.NO_REQUEST := by
  unfold stat_code
  repeat' split
  all_goals decide

theorem host_after_filter (hs : List (List Nat)) :
    ∀ hv, host_after (hs.filter recognised) hv = host_after hs hv := by
  induction hs with
  | nil => intro hv; rfl
  | cons l ls ih =>
    intro hv
    by_cases hr : recognised l = true
    · rw [List.filter_cons_of_pos hr]
      simp only [host_after]
      exact ih _
    · rw [List.filter_cons_of_neg hr]
      have hh : is_host l = false := by
        unfold recognised at hr
        simp only [Bool.or_eq_true, not_or, Bool.not_eq_true] at hr
        exact hr.2
      simp only [host_after, hh, Bool.and_false, Bool.false_eq_true, if_false]
      exact ih _

theorem any_keep_alive_filter (hs : List (List Nat)) :
    (hs.filter recognised).any is_keep_alive = hs.any is_keep_alive := by
  induction hs with
  | nil => rfl
  | cons l ls ih =>
    by_cases hr : recognised l = true
    · rw [List.filter_cons_of_pos hr]
      simp only [List.any_cons, ih]
    · rw [List.filter_cons_of_neg hr]
      have hh : is_keep_alive l = false := by
        unfold recognised at hr
        simp only [Bool.or_eq_true, not_or, Bool.not_eq_true] at hr
        unfold is_keep_alive
        rw [hr.1.1]; rfl
      simp only [List.any_cons, hh, Bool.false_or, ih]

theorem content_length_after_none (hs : List (List Nat)) (cl : Int)
    (h : ∀ l ∈ hs, is_content_length l = false) : content_length_after hs cl = cl := by
  induction hs generalizing cl with
  | nil => rfl
  | cons l ls ih =>
    have hl := h l (List.mem_cons_self _ _)
    simp only [content_length_after, hl, Bool.and_false, Bool.false_eq_true, if_false]
    exact ih cl (fun x hx => h x (List.mem_cons_of_mem _ hx))

theorem crlf_lines_filter_length (hs : List (List Nat)) (q : List Nat → Bool) :
    (crlf_lines (hs.filter q)).length ≤ (crlf_lines hs).length := by
  induction hs with
  | nil => simp
  | cons l ls ih =>
    by_cases hq : q l = true
    · rw [List.filter_cons_of_pos hq, crlf_lines_cons, crlf_lines_cons]
      simp only [List.length_append, List.length_cons]
      omega
    · rw [List.filter_cons_of_neg hq, crlf_lines_cons]
      simp only [List.length_append, List.length_cons]
      omega

/-- The run of `process_read` on a GET request for the path `p` whose headers carry no
content length. -/
theorem get_path_run (cfg : Limits) (fs : FileSystem) (st0 : http_conn)
    (p : List Nat) (hs : List (List Nat))
    (hsz : Sized cfg st0)
    (hp : p.head? = some 47)
    (hpc : ∀ c ∈ p, c ≠ 32 ∧ c ≠ 9 ∧ c ≠ 13 ∧ c ≠ 10 ∧ c ≠ 0)
    (hhs : ∀ l ∈ hs, header_line l ∧ is_content_length l = false)
    (hfit : (get_request p hs).length ≤ cfg.READ_BUFFER_SIZE)
    (hF : doc_root.length < cfg.FILENAME_LEN) :
    ∃ st1 : http_conn,
      process_read cfg fs (read cfg (init cfg st0) [recv_result.data (get_request p hs)]).2 =
        some (stat_code fs (doc_root ++ p.take (cfg.FILENAME_LEN - doc_root.length - 1)), st1) ∧
      st1.parsed =
        { method := METHOD.GET, url := some p, version := some (bytes "HTTP/1.1"),
          host := host_after hs none, content_length := 0, linger := hs.any is_keep_alive } := by
  have hpath : (uri_path p).bind (fun q => if q.head? = some 47 then some q else none) = some p := by
    rw [uri_path_origin p hp]
    simp only [Option.bind, hp, if_true]
  obtain ⟨stF, hrun, h1, h2, h3, h4, h5, h6, h7, -, -, -, -, -, -⟩ :=
    get_request_run cfg fs st0 p p hs [] hsz hpc hpath (fun l hl => (hhs l hl).1)
      (by simpa using hfit)
  rw [content_length_after_none hs 0 (fun l hl => (hhs l hl).2)] at h2
  simp only [List.append_nil] at hrun
  rw [hrun, if_neg (by rw [h2]; simp)]
  refine ⟨(do_request cfg fs stF).2, ?_, ?_⟩
  · have hc := do_request_code cfg fs stF
    rw [h7, h4] at hc
    simp only [Option.getD] at hc
    rw [build_real_file_zeros cfg p (fun c hc => (hpc c hc).2.2.2.2) hF] at hc
    rw [← hc]
  · rw [(do_request_parsed cfg fs stF).1]
    simp only [parsed, h1, h2, h3, h4, h5, h6]

end WebServer

namespace WebServer
open http_conn

theorem blank_sized (cfg : Limits) : Sized cfg (blank cfg) := by
  simp [Sized, blank]

/-- C1: on a freshly initialised connection whose read buffer holds `GET p HTTP/1.1`, header
lines none of which is a `Content-Length` header, and the blank line, where `p` begins with
`/` and has no space, TAB, CR, LF or NUL, `process_read` stores url = p and returns the
resolver's result for `p` (the code `do_request` gives for the document root followed by `p`),
which is never `NO_REQUEST`; and the request without its header lines that start with none of
`Connection:`, `Content-Length:`, `Host:` gives the same result and the same parsed fields. -/
theorem C1_get_request (cfg : Limits) (fs : FileSystem) (st0 : http_conn)
    (p : List Nat) (hs : List (List Nat))
    (hsz : Sized cfg st0)
    (hp : p.head? = some 47)
    (hpc : ∀ c ∈ p, c ≠ 32 ∧ c ≠ 9 ∧ c ≠ 13 ∧ c ≠ 10 ∧ c ≠ 0)
    (hhs : ∀ l ∈ hs, header_line l ∧ is_content_length l = false)
    (hfit : (get_request p hs).length ≤ cfg.READ_BUFFER_SIZE)
    (hF : doc_root.length < cfg.FILENAME_LEN) :
    ∃ st1 st2 : http_conn,
      process_read cfg fs (read cfg (init cfg st0) [recv_result.data (get_request p hs)]).2 =
        some (stat_code fs (doc_root ++ p.take (cfg.FILENAME_LEN - doc_root.length - 1)), st1) ∧
      st1.str_at st1.m_url = some p ∧
      stat_code fs (doc_root ++ p.take (cfg.FILENAME_LEN - doc_root.length - 1))
        ≠ HTTP_CODE.NO_REQUEST ∧
      process_read cfg fs
          (read cfg (init cfg st0) [recv_result.data (get_request p (hs.filter recognised))]).2 =
        some (stat_code fs (doc_root ++ p.take (cfg.FILENAME_LEN - doc_root.length - 1)), st2) ∧
      st2.parsed = st1.parsed := by
  obtain ⟨st1, hrun1, hp1⟩ := get_path_run cfg fs st0 p hs hsz hp hpc hhs hfit hF
  obtain ⟨st2, hrun2, hp2⟩ := get_path_run cfg fs st0 p (hs.filter recognised) hsz hp hpc
    (fun l hl => hhs l (List.mem_of_mem_filter hl))
    (by
      have := crlf_lines_filter_length hs recognised
      rw [get_request_length] at hfit ⊢
      omega)
    hF
  refine ⟨st1, st2, hrun1, ?_, stat_code_ne_no_request _ _, hrun2, ?_⟩
  · have := congrArg parsed_fields.url hp1
    exact this
  · rw [hp1, hp2, host_after_filter, any_keep_alive_filter]

/-- Witness of C1: the first scenario of the specification with one more header line the
parser does not know, under the limits of the specification. -/
theorem C1_get_request_witness :
    ∃ st1 st2 : http_conn,
      process_read spec_limits scenario_fs
          (read spec_limits (init spec_limits (blank spec_limits))
            [recv_result.data (get_request (bytes "/index.html")
              [bytes "Host: x", bytes "X-Trace: 1", bytes "Connection: keep-alive"])]).2 =
        some (stat_code scenario_fs (doc_root ++ (bytes "/index.html").take
          (spec_limits.FILENAME_LEN - doc_root.length - 1)), st1) ∧
      st1.str_at st1.m_url = some (bytes "/index.html") ∧
      stat_code scenario_fs (doc_root ++ (bytes "/index.html").take
          (spec_limits.FILENAME_LEN - doc_root.length - 1)) ≠ HTTP_CODE.NO_REQUEST ∧
      process_read spec_limits scenario_fs
          (read spec_limits (init spec_limits (blank spec_limits))
            [recv_result.data (get_request (bytes "/index.html")
              ([bytes "Host: x", bytes "X-Trace: 1", bytes "Connection: keep-alive"].filter
                recognised))]).2 =
        some (stat_code scenario_fs (doc_root ++ (bytes "/index.html").take
          (spec_limits.FILENAME_LEN - doc_root.length - 1)), st2) ∧
      st2.parsed = st1.parsed :=
  C1_get_request spec_limits scenario_fs (blank spec_limits) (bytes "/index.html")
    [bytes "Host: x", bytes "X-Trace: 1", bytes "Connection: keep-alive"]
    (blank_sized spec_limits) (by decide) (by decide) (by decide) (by decide) (by decide)

end WebServer

namespace WebServer
open http_conn

/-! ## The loop of `process_read` in general -/

theorem loop_succ (cfg : Limits) (fs : FileSystem) (f : Nat) (ls : LINE_STATUS) (st : http_conn) :
    process_read_loop cfg fs (f + 1) ls st =
      match process_read_step cfg fs ls st with
      | Sum.inl r => r
      | Sum.inr c => process_read_loop cfg fs f c.1 c.2 := by
  rw [process_read_loop]
  unfold process_read_step
  simp only []
  generalize (if st.m_check_state = CHECK_STATE.CHECK_STATE_CONTENT ∧ ls = LINE_STATUS.LINE_OK
    then (LINE_STATUS.LINE_OK, st) else parse_line st) = cond
  obtain ⟨cls, cst⟩ := cond
  obtain ⟨sockfd, buf, ridx, cidx, sline, cs, meth, rf, url, ver, host, cl, lg, wbuf, widx, fa,
    fst, iv0, iv1, ivc⟩ := cst
  simp only []
  by_cases h : cls ≠ LINE_STATUS.LINE_OK
  · rw [if_pos h, if_pos h]
  · rw [if_neg h, if_neg h]
    cases cs
    · simp only []
      by_cases h1 : (parse_request_line
          ⟨sockfd, buf, ridx, cidx, cidx, CHECK_STATE.CHECK_STATE_REQUESTLINE, meth, rf, url, ver,
            host, cl, lg, wbuf, widx, fa, fst, iv0, iv1, ivc⟩ sline).1 = HTTP_CODE.BAD_REQUEST
      · rw [if_pos h1, if_pos h1]
      · rw [if_neg h1, if_neg h1]
    · simp only []
      by_cases h1 : (parse_headers
          ⟨sockfd, buf, ridx, cidx, cidx, CHECK_STATE.CHECK_STATE_HEADER, meth, rf, url, ver,
            host, cl, lg, wbuf, widx, fa, fst, iv0, iv1, ivc⟩ sline).1 = HTTP_CODE.BAD_REQUEST
      · rw [if_pos h1, if_pos h1]
      · rw [if_neg h1, if_neg h1]
        by_cases h2 : (parse_headers
            ⟨sockfd, buf, ridx, cidx, cidx, CHECK_STATE.CHECK_STATE_HEADER, meth, rf, url, ver,
              host, cl, lg, wbuf, widx, fa, fst, iv0, iv1, ivc⟩ sline).1 = HTTP_CODE.GET_REQUEST
        · rw [if_pos h2, if_pos h2]
        · rw [if_neg h2, if_neg h2]
    · simp only []
      cases hp : parse_content
          ⟨sockfd, buf, ridx, cidx, cidx, CHECK_STATE.CHECK_STATE_CONTENT, meth, rf, url, ver,
            host, cl, lg, wbuf, widx, fa, fst, iv0, iv1, ivc⟩ sline with
      | none => rfl
      | some r =>
        simp only []
        by_cases h1 : r.1 = HTTP_CODE.GET_REQUEST
        · rw [if_pos h1, if_pos h1]
        · rw [if_neg h1, if_neg h1]

theorem parse_line_loop_frame (n : Nat) :
    ∀ st : http_conn, ∃ buf c,
      (parse_line_loop n st).2 = { st with m_read_buf := buf, m_checked_idx := c } ∧
      st.m_checked_idx ≤ c ∧ buf.length = st.m_read_buf.length ∧
      ((parse_line_loop n st).1 = LINE_STATUS.LINE_OK →
        st.m_checked_idx < c ∧ c ≤ st.m_read_idx) := by
  induction n with
  | zero =>
    intro st
    exact ⟨st.m_read_buf, st.m_checked_idx, rfl, le_refl _, rfl, by simp [parse_line_loop]⟩
  | succ n ih =>
    intro st
    unfold parse_line_loop
    by_cases h1 : st.m_checked_idx < st.m_read_idx
    · rw [if_pos h1]
      simp only []
      by_cases h2 : st.m_read_buf.getD st.m_checked_idx 0 = 13
      · rw [if_pos h2]
        by_cases h3 : st.m_checked_idx + 1 = st.m_read_idx
        · rw [if_pos h3]
          exact ⟨st.m_read_buf, st.m_checked_idx, rfl, le_refl _, rfl, by simp⟩
        · rw [if_neg h3]
          by_cases h4 : st.m_read_buf.getD (st.m_checked_idx + 1) 0 = 10
          · rw [if_pos h4]
            exact ⟨_, _, rfl, by omega, by simp, fun _ => ⟨by omega, by omega⟩⟩
          · rw [if_neg h4]
            exact ⟨st.m_read_buf, st.m_checked_idx, rfl, le_refl _, rfl, by simp⟩
      · rw [if_neg h2]
        by_cases h5 : st.m_read_buf.getD st.m_checked_idx 0 = 10
        · rw [if_pos h5]
          by_cases h6 : st.m_checked_idx > 1 ∧ st.m_read_buf.getD (st.m_checked_idx - 1) 0 = 13
          · rw [if_pos h6]
            exact ⟨_, _, rfl, by omega, by simp, fun _ => ⟨by omega, by omega⟩⟩
          · rw [if_neg h6]
            exact ⟨st.m_read_buf, st.m_checked_idx, rfl, le_refl _, rfl, by simp⟩
        · rw [if_neg h5]
          obtain ⟨buf, c, e, hle, hlen, hok⟩ := ih { st with m_checked_idx := st.m_checked_idx + 1 }
          refine ⟨buf, c, ?_, ?_, hlen, ?_⟩
          · rw [e]
          · simp only [] at hle; omega
          · intro h
            have := hok h
            simp only [] at this
            omega
    · rw [if_neg h1]
      exact ⟨st.m_read_buf, st.m_checked_idx, rfl, le_refl _, rfl, by simp⟩

theorem parse_line_frame (st : http_conn) : ∃ buf c,
    (parse_line st).2 = { st with m_read_buf := buf, m_checked_idx := c } ∧
    st.m_checked_idx ≤ c ∧ buf.length = st.m_read_buf.length ∧
    ((parse_line st).1 = LINE_STATUS.LINE_OK → st.m_checked_idx < c ∧ c ≤ st.m_read_idx) :=
  parse_line_loop_frame _ st

theorem parse_headers_frame (st : http_conn) (text : Nat) : ∃ cs lg cl host,
    (parse_headers st text).2 =
      { st with m_check_state := cs, m_linger := lg, m_content_length := cl, m_host := host } := by
  unfold parse_headers
  simp only []
  repeat' split
  all_goals exact ⟨_, _, _, _, rfl⟩

/-- The three ways `parse_content` ends: the body is not complete; the body is complete and
the NUL is stored at an index of the read buffer; the body is complete and the store is
outside the read buffer. -/
theorem parse_content_cases (st : http_conn) (text : Nat) :
    (parse_content st text = some (HTTP_CODE.NO_REQUEST, st) ∧
      ¬ (st.m_read_idx : Int) ≥ to_int (st.m_content_length + (st.m_checked_idx : Int))) ∨
    (∃ k, parse_content st text
        = some (HTTP_CODE.GET_REQUEST, { st with m_read_buf := st.m_read_buf.set k 0 }) ∧
      (st.m_read_idx : Int) ≥ to_int (st.m_content_length + (st.m_checked_idx : Int)) ∧
      k < st.m_read_buf.length ∧ (k : Int) = (text : Int) + st.m_content_length) ∨
    (parse_content st text = none ∧
      (st.m_read_idx : Int) ≥ to_int (st.m_content_length + (st.m_checked_idx : Int)) ∧
      ¬ (0 ≤ (text : Int) + st.m_content_length ∧
        (text : Int) + st.m_content_length < (st.m_read_buf.length : Int))) := by
  unfold parse_content
  by_cases h1 : (st.m_read_idx : Int) ≥ to_int (st.m_content_length + (st.m_checked_idx : Int))
  · rw [if_pos h1]
    by_cases h2 : 0 ≤ (text : Int) + st.m_content_length ∧
        (text : Int) + st.m_content_length < (st.m_read_buf.length : Int)
    · rw [if_pos h2]
      refine Or.inr (Or.inl ⟨((text : Int) + st.m_content_length).toNat, rfl, h1, ?_, ?_⟩)
      · omega
      · omega
    · rw [if_neg h2]
      exact Or.inr (Or.inr ⟨rfl, h1, h2⟩)
  · rw [if_neg h1]
    exact Or.inl ⟨rfl, h1⟩

theorem parse_content_frame (st : http_conn) (text : Nat) (r : HTTP_CODE × http_conn)
    (h : parse_content st text = some r) :
    ∃ buf, r.2 = { st with m_read_buf := buf } ∧
      buf.length = st.m_read_buf.length ∧
      (r.1 ≠ HTTP_CODE.GET_REQUEST → r = (HTTP_CODE.NO_REQUEST, st)) ∧
      (r.1 = HTTP_CODE.GET_REQUEST → ∃ k, buf = st.m_read_buf.set k 0 ∧
        k < st.m_read_buf.length ∧ (k : Int) = (text : Int) + st.m_content_length ∧
        (st.m_read_idx : Int) ≥ to_int (st.m_content_length + (st.m_checked_idx : Int))) := by
  rcases parse_content_cases st text with ⟨e, -⟩ | ⟨k, e, h1, h2, h3⟩ | ⟨e, -, -⟩
  · rw [e] at h
    simp only [Option.some.injEq] at h
    subst h
    exact ⟨_, rfl, rfl, fun _ => rfl, fun e => (by cases e)⟩
  · rw [e] at h
    simp only [Option.some.injEq] at h
    subst h
    exact ⟨_, rfl, by simp, fun e => absurd rfl e, fun _ => ⟨k, rfl, h2, h3, h1⟩⟩
  · rw [e] at h; cases h

end WebServer

namespace WebServer
open http_conn

theorem step_content_ok (cfg : Limits) (fs : FileSystem) (st : http_conn)
    (hcs : st.m_check_state = CHECK_STATE.CHECK_STATE_CONTENT) :
    process_read_step cfg fs LINE_STATUS.LINE_OK st =
      match parse_content { st with m_start_line := st.m_checked_idx } st.m_start_line with
      | none => Sum.inl none
      | some r =>
        if r.1 = HTTP_CODE.GET_REQUEST then Sum.inl (some (do_request cfg fs r.2))
        else Sum.inr (LINE_STATUS.LINE_OPEN, r.2) := by
  unfold process_read_step
  simp only [hcs, and_self, if_true, ne_eq, not_true_eq_false, if_false]
  all_goals rfl

theorem step_scan (cfg : Limits) (fs : FileSystem) (ls : LINE_STATUS) (st : http_conn)
    (hc : ¬ (st.m_check_state = CHECK_STATE.CHECK_STATE_CONTENT ∧ ls = LINE_STATUS.LINE_OK)) :
    process_read_step cfg fs ls st =
      if (parse_line st).1 ≠ LINE_STATUS.LINE_OK then
        Sum.inl (some (HTTP_CODE.NO_REQUEST, (parse_line st).2))
      else
        match (parse_line st).2.m_check_state with
        | CHECK_STATE.CHECK_STATE_REQUESTLINE =>
          if (parse_request_line { (parse_line st).2 with m_start_line := (parse_line st).2.m_checked_idx }
              (parse_line st).2.m_start_line).1 = HTTP_CODE.BAD_REQUEST then
            Sum.inl (some (HTTP_CODE.BAD_REQUEST,
              (parse_request_line
                { (parse_line st).2 with m_start_line := (parse_line st).2.m_checked_idx }
                (parse_line st).2.m_start_line).2))
          else
            Sum.inr ((parse_line st).1,
              (parse_request_line
                { (parse_line st).2 with m_start_line := (parse_line st).2.m_checked_idx }
                (parse_line st).2.m_start_line).2)
        | CHECK_STATE.CHECK_STATE_HEADER =>
          if (parse_headers { (parse_line st).2 with m_start_line := (parse_line st).2.m_checked_idx }
              (parse_line st).2.m_start_line).1 = HTTP_CODE.BAD_REQUEST then
            Sum.inl (some (HTTP_CODE.BAD_REQUEST,
              (parse_headers
                { (parse_line st).2 with m_start_line := (parse_line st).2.m_checked_idx }
                (parse_line st).2.m_start_line).2))
          else if (parse_headers
              { (parse_line st).2 with m_start_line := (parse_line st).2.m_checked_idx }
              (parse_line st).2.m_start_line).1 = HTTP_CODE.GET_REQUEST then
            Sum.inl (some (do_request cfg fs
              (parse_headers
                { (parse_line st).2 with m_start_line := (parse_line st).2.m_checked_idx }
                (parse_line st).2.m_start_line).2))
          else
            Sum.inr ((parse_line st).1,
              (parse_headers
                { (parse_line st).2 with m_start_line := (parse_line st).2.m_checked_idx }
                (parse_line st).2.m_start_line).2)
        | CHECK_STATE.CHECK_STATE_CONTENT =>
          match parse_content
              { (parse_line st).2 with m_start_line := (parse_line st).2.m_checked_idx }
              (parse_line st).2.m_start_line with
          | none => Sum.inl none
          | some r =>
            if r.1 = HTTP_CODE.GET_REQUEST then Sum.inl (some (do_request cfg fs r.2))
            else Sum.inr (LINE_STATUS.LINE_OPEN, r.2) := by
  unfold process_read_step
  simp only [hc, if_false]
  all_goals rfl

/-- Every iteration that does not end `process_read` lowers the measure. -/
theorem step_measure (cfg : Limits) (fs : FileSystem) (ls : LINE_STATUS) (st : http_conn)
    (c : LINE_STATUS × http_conn) (h : process_read_step cfg fs ls st = Sum.inr c) :
    loop_measure c.1 c.2 + 1 ≤ loop_measure ls st := by
  by_cases hc : st.m_check_state = CHECK_STATE.CHECK_STATE_CONTENT ∧ ls = LINE_STATUS.LINE_OK
  · obtain ⟨hcs, hls⟩ := hc
    subst hls
    rw [step_content_ok cfg fs st hcs] at h
    cases hp : parse_content { st with m_start_line := st.m_checked_idx } st.m_start_line with
    | none => rw [hp] at h; exact absurd h (by simp)
    | some r =>
      rw [hp] at h
      simp only [] at h
      obtain ⟨buf, -, -, hno, -⟩ := parse_content_frame _ _ r hp
      split at h
      · exact absurd h (by simp)
      · rename_i hg
        have := hno hg
        rw [this] at h
        have hc' := (Sum.inr.inj h).symm
        subst hc'
        simp [loop_measure, hcs]
  · rw [step_scan cfg fs ls st hc] at h
    obtain ⟨buf, c', hfr, hle, -, hok⟩ := parse_line_frame st
    split at h
    · exact absurd h (by simp)
    · rename_i hnok
      have hok' : (parse_line st).1 = LINE_STATUS.LINE_OK := by simpa using hnok
      obtain ⟨hlt, hle'⟩ := hok hok'
      generalize parse_line st = pl at h hfr hok'
      obtain ⟨pls, pst⟩ := pl
      simp only [] at hfr hok' h
      subst hfr hok'
      simp only [] at h
      split at h
      · -- request line
        rename_i hst
        obtain ⟨b, u, v, me, cs', hfr2⟩ := parse_request_line_frame
          { st with m_read_buf := buf, m_checked_idx := c', m_start_line := c' } st.m_start_line
        split at h
        · exact absurd h (by simp)
        · have hc' := (Sum.inr.inj h).symm
          subst hc'
          simp only []
          rw [hfr2]
          simp only [loop_measure, hst] at *
          simp only [reduceCtorEq, if_false, if_true]
          split <;> omega
      · -- header
        rename_i hst
        obtain ⟨cs', lg, cl, ho, hfr2⟩ := parse_headers_frame
          { st with m_read_buf := buf, m_checked_idx := c', m_start_line := c' } st.m_start_line
        split at h
        · exact absurd h (by simp)
        · split at h
          · exact absurd h (by simp)
          · have hc' := (Sum.inr.inj h).symm
            subst hc'
            simp only []
            rw [hfr2]
            simp only [loop_measure, hst] at *
            simp only [reduceCtorEq, if_false, if_true]
            split <;> omega
      · -- content
        rename_i hst
        cases hp : parse_content
            { st with m_read_buf := buf, m_checked_idx := c', m_start_line := c' }
            st.m_start_line with
        | none => rw [hp] at h; exact absurd h (by simp)
        | some r =>
          rw [hp] at h
          simp only [] at h
          obtain ⟨b, -, -, hno, -⟩ := parse_content_frame _ _ r hp
          split at h
          · exact absurd h (by simp)
          · rename_i hg
            have := hno hg
            rw [this] at h
            have hc' := (Sum.inr.inj h).symm
            subst hc'
            have hls : ls ≠ LINE_STATUS.LINE_OK := fun e => hc ⟨hst, e⟩
            simp only [loop_measure, hst, hls] at *
            simp only [reduceCtorEq, if_false, if_true]
            omega

theorem loop_measure_pos (ls : LINE_STATUS) (st : http_conn) : 1 ≤ loop_measure ls st := by
  unfold loop_measure
  repeat' split
  all_goals omega

theorem bad_store_succ (cfg : Limits) (fs : FileSystem) (f : Nat) (ls : LINE_STATUS)
    (st : http_conn) :
    process_read_bad_store cfg fs (f + 1) ls st =
      match process_read_step cfg fs ls st with
      | Sum.inl none => true
      | Sum.inl (some _) => false
      | Sum.inr c => process_read_bad_store cfg fs f c.1 c.2 := by
  rw [process_read_bad_store]
  all_goals rfl

/-- The loop of `process_read` ends within `loop_measure` iterations: with a result, or at a
store of `parse_content` outside the read buffer. -/
theorem loop_total (cfg : Limits) (fs : FileSystem) (f : Nat) :
    ∀ (ls : LINE_STATUS) (st : http_conn), loop_measure ls st ≤ f →
      (∃ r, process_read_loop cfg fs f ls st = some r ∧
        process_read_bad_store cfg fs f ls st = false) ∨
      (process_read_loop cfg fs f ls st = none ∧
        process_read_bad_store cfg fs f ls st = true) := by
  induction f with
  | zero =>
    intro ls st h
    have := loop_measure_pos ls st
    omega
  | succ f ih =>
    intro ls st h
    rw [loop_succ, bad_store_succ]
    cases hs : process_read_step cfg fs ls st with
    | inl r =>
      cases r with
      | none => exact Or.inr ⟨rfl, rfl⟩
      | some r => exact Or.inl ⟨r, rfl, rfl⟩
    | inr c =>
      have := step_measure cfg fs ls st c hs
      exact ih c.1 c.2 (by omega)

/-- More fuel does not change a result. -/
theorem loop_mono (cfg : Limits) (fs : FileSystem) (f : Nat) :
    ∀ (ls : LINE_STATUS) (st : http_conn) (r : HTTP_CODE × http_conn) (k : Nat),
      process_read_loop cfg fs f ls st = some r →
      process_read_loop cfg fs (f + k) ls st = some r := by
  induction f with
  | zero => intro ls st r k h; simp [process_read_loop] at h
  | succ f ih =>
    intro ls st r k h
    have e : f + 1 + k = (f + k) + 1 := by omega
    rw [e, loop_succ]
    rw [loop_succ] at h
    cases hs : process_read_step cfg fs ls st with
    | inl r' => rw [hs] at h; exact h
    | inr c => rw [hs] at h; exact ih c.1 c.2 r k h

/-- The function `process_read` always ends: it returns, or it comes to a store of
`parse_content` outside the read buffer. -/
theorem process_read_total (cfg : Limits) (fs : FileSystem) (st : http_conn) :
    (∃ r, process_read cfg fs st = some r ∧ bad_store cfg fs st = false) ∨
    (process_read cfg fs st = none ∧ bad_store cfg fs st = true) := by
  unfold process_read bad_store
  apply loop_total
  unfold loop_measure
  repeat' split
  all_goals omega

/-- A store outside the read buffer is met with any larger fuel as well. -/
theorem bad_store_mono (cfg : Limits) (fs : FileSystem) (f : Nat) :
    ∀ (ls : LINE_STATUS) (st : http_conn) (k : Nat),
      process_read_bad_store cfg fs f ls st = true →
      process_read_bad_store cfg fs (f + k) ls st = true := by
  induction f with
  | zero => intro ls st k h; simp [process_read_bad_store] at h
  | succ f ih =>
    intro ls st k h
    have e : f + 1 + k = (f + k) + 1 := by omega
    rw [e, bad_store_succ]
    rw [bad_store_succ] at h
    cases hs : process_read_step cfg fs ls st with
    | inl r' =>
      rw [hs] at h
      cases r' with
      | none => rfl
      | some x => cases h
    | inr c => rw [hs] at h; exact ih c.1 c.2 k h

/-- A run that meets a store outside the read buffer has no result, whatever the fuel. -/
theorem bad_store_no_result (cfg : Limits) (fs : FileSystem) (f : Nat) :
    ∀ (g : Nat) (ls : LINE_STATUS) (st : http_conn) (r : HTTP_CODE × http_conn),
      process_read_bad_store cfg fs f ls st = true →
      process_read_loop cfg fs g ls st = some r → False := by
  induction f with
  | zero => intro g ls st r h; simp [process_read_bad_store] at h
  | succ f ih =>
    intro g ls st r h hr
    cases g with
    | zero => simp [process_read_loop] at hr
    | succ g =>
      rw [bad_store_succ] at h
      rw [loop_succ] at hr
      cases hs : process_read_step cfg fs ls st with
      | inl r' =>
        rw [hs] at h hr
        cases r' with
        | none => cases hr
        | some x => cases h
      | inr c =>
        rw [hs] at h hr
        exact ih g c.1 c.2 r h hr

/-- The loop of `process_read` returns when no call of `parse_content` it makes stores outside
the read buffer: `P` is a property of the connection that the parsers keep, each in its own
check state, and under which `parse_content` has a result. -/
theorem loop_returns (P : http_conn → Prop) (cfg : Limits) (fs : FileSystem)
    (hpl : ∀ s, P s → P (parse_line s).2)
    (hrl : ∀ s, P s → s.m_check_state = CHECK_STATE.CHECK_STATE_REQUESTLINE →
      P (parse_request_line { s with m_start_line := s.m_checked_idx } s.m_start_line).2)
    (hh : ∀ s, P s → s.m_check_state = CHECK_STATE.CHECK_STATE_HEADER →
      P (parse_headers { s with m_start_line := s.m_checked_idx } s.m_start_line).2)
    (hc : ∀ s, P s → s.m_check_state = CHECK_STATE.CHECK_STATE_CONTENT →
      ∃ r, parse_content { s with m_start_line := s.m_checked_idx } s.m_start_line = some r ∧
        P r.2) (f : Nat) :
    ∀ (ls : LINE_STATUS) (st : http_conn), loop_measure ls st ≤ f → P st →
      ∃ r, process_read_loop cfg fs f ls st = some r := by
  induction f with
  | zero =>
    intro ls st h
    have := loop_measure_pos ls st
    omega
  | succ f ih =>
    intro ls st h hP
    rw [loop_succ]
    cases hs : process_read_step cfg fs ls st with
    | inl r =>
      cases r with
      | some r => exact ⟨r, rfl⟩
      | none =>
        exfalso
        by_cases hcond : st.m_check_state = CHECK_STATE.CHECK_STATE_CONTENT ∧
            ls = LINE_STATUS.LINE_OK
        · obtain ⟨hcs, hls⟩ := hcond
          subst hls
          rw [step_content_ok cfg fs st hcs] at hs
          obtain ⟨r, hr, -⟩ := hc st hP hcs
          rw [hr] at hs
          simp only [] at hs
          split at hs <;> cases hs
        · rw [step_scan cfg fs ls st hcond] at hs
          split at hs
          · cases hs
          · split at hs
            · split at hs <;> cases hs
            · split at hs
              · cases hs
              · split at hs <;> cases hs
            · rename_i hcs
              obtain ⟨r, hr, -⟩ := hc _ (hpl st hP) hcs
              rw [hr] at hs
              simp only [] at hs
              split at hs <;> cases hs
    | inr c =>
      have hm := step_measure cfg fs ls st c hs
      apply ih c.1 c.2 (by omega)
      by_cases hcond : st.m_check_state = CHECK_STATE.CHECK_STATE_CONTENT ∧
          ls = LINE_STATUS.LINE_OK
      · obtain ⟨hcs, hls⟩ := hcond
        subst hls
        rw [step_content_ok cfg fs st hcs] at hs
        obtain ⟨r, hr, hPr⟩ := hc st hP hcs
        rw [hr] at hs
        simp only [] at hs
        split at hs
        · cases hs
        · have e := (Sum.inr.inj hs).symm
          subst e
          exact hPr
      · rw [step_scan cfg fs ls st hcond] at hs
        split at hs
        · cases hs
        · split at hs
          · rename_i hcs
            split at hs
            · cases hs
            · have e := (Sum.inr.inj hs).symm
              subst e
              exact hrl _ (hpl st hP) hcs
          · rename_i hcs
            split at hs
            · cases hs
            · split at hs
              · cases hs
              · have e := (Sum.inr.inj hs).symm
                subst e
                exact hh _ (hpl st hP) hcs
          · rename_i hcs
            obtain ⟨r, hr, hPr⟩ := hc _ (hpl st hP) hcs
            rw [hr] at hs
            simp only [] at hs
            split at hs
            · cases hs
            · have e := (Sum.inr.inj hs).symm
              subst e
              exact hPr

end WebServer

namespace WebServer
open http_conn

/-! ## The content state keeps the connection flag -/

theorem step_content_frame (cfg : Limits) (fs : FileSystem) (ls : LINE_STATUS) (st : http_conn)
    (hcs : st.m_check_state = CHECK_STATE.CHECK_STATE_CONTENT) :
    match process_read_step cfg fs ls st with
    | Sum.inl none => True
    | Sum.inl (some r) =>
      r.2.m_linger = st.m_linger ∧ r.2.m_write_buf = st.m_write_buf ∧
      r.2.m_write_idx = st.m_write_idx ∧ r.2.m_content_length = st.m_content_length ∧
      r.2.m_check_state = CHECK_STATE.CHECK_STATE_CONTENT
    | Sum.inr c =>
      c.2.m_check_state = CHECK_STATE.CHECK_STATE_CONTENT ∧
      c.2.m_linger = st.m_linger ∧ c.2.m_write_buf = st.m_write_buf ∧
      c.2.m_write_idx = st.m_write_idx ∧ c.2.m_content_length = st.m_content_length := by
  obtain ⟨sockfd, buf, ridx, cidx, sline, cs, meth, rf, url, ver, host, cl, lg, wbuf, widx, fa,
    fst, iv0, iv1, ivc⟩ := st
  simp only [] at hcs
  subst hcs
  by_cases hls : ls = LINE_STATUS.LINE_OK
  · subst hls
    rw [step_content_ok cfg fs _ rfl]
    simp only []
    generalize hp : parse_content
      ⟨sockfd, buf, ridx, cidx, cidx, CHECK_STATE.CHECK_STATE_CONTENT, meth, rf, url, ver, host, cl,
        lg, wbuf, widx, fa, fst, iv0, iv1, ivc⟩ sline = pr
    cases pr with
    | none => trivial
    | some r =>
      obtain ⟨b, hfr, -, -, -⟩ := parse_content_frame _ _ r hp
      obtain ⟨rc, rs⟩ := r
      simp only [] at hfr
      subst hfr
      simp only []
      by_cases hg : rc = HTTP_CODE.GET_REQUEST
      · rw [if_pos hg]
        obtain ⟨rf', fst', fa', hd⟩ := do_request_frame cfg fs
          ⟨sockfd, b, ridx, cidx, cidx, CHECK_STATE.CHECK_STATE_CONTENT, meth, rf, url, ver, host,
            cl, lg, wbuf, widx, fa, fst, iv0, iv1, ivc⟩
        simp only []
        rw [hd]
        exact ⟨rfl, rfl, rfl, rfl, rfl⟩
      · rw [if_neg hg]
        exact ⟨rfl, rfl, rfl, rfl, rfl⟩
  · rw [step_scan cfg fs ls _ (fun h => hls h.2)]
    obtain ⟨buf', c', hfr, -, -, -⟩ := parse_line_frame
      ⟨sockfd, buf, ridx, cidx, sline, CHECK_STATE.CHECK_STATE_CONTENT, meth, rf, url, ver, host, cl,
        lg, wbuf, widx, fa, fst, iv0, iv1, ivc⟩
    generalize parse_line
      ⟨sockfd, buf, ridx, cidx, sline, CHECK_STATE.CHECK_STATE_CONTENT, meth, rf, url, ver, host, cl,
        lg, wbuf, widx, fa, fst, iv0, iv1, ivc⟩ = pl at hfr ⊢
    obtain ⟨pls, pst⟩ := pl
    simp only [] at hfr
    subst hfr
    simp only []
    by_cases hok : pls ≠ LINE_STATUS.LINE_OK
    · rw [if_pos hok]
      exact ⟨rfl, rfl, rfl, rfl, rfl⟩
    · rw [if_neg hok]
      generalize hp : parse_content
        ⟨sockfd, buf', ridx, c', c', CHECK_STATE.CHECK_STATE_CONTENT, meth, rf, url, ver, host, cl,
          lg, wbuf, widx, fa, fst, iv0, iv1, ivc⟩ sline = pr
      cases pr with
      | none => trivial
      | some r =>
        obtain ⟨b, hfr, -, -, -⟩ := parse_content_frame _ _ r hp
        obtain ⟨rc, rs⟩ := r
        simp only [] at hfr
        subst hfr
        simp only []
        by_cases hg : rc = HTTP_CODE.GET_REQUEST
        · rw [if_pos hg]
          obtain ⟨rf', fst', fa', hd⟩ := do_request_frame cfg fs
            ⟨sockfd, b, ridx, c', c', CHECK_STATE.CHECK_STATE_CONTENT, meth, rf, url, ver, host,
              cl, lg, wbuf, widx, fa, fst, iv0, iv1, ivc⟩
          simp only []
          rw [hd]
          exact ⟨rfl, rfl, rfl, rfl, rfl⟩
        · rw [if_neg hg]
          exact ⟨rfl, rfl, rfl, rfl, rfl⟩

theorem loop_content_frame (cfg : Limits) (fs : FileSystem) (f : Nat) :
    ∀ (ls : LINE_STATUS) (st : http_conn) (r : HTTP_CODE × http_conn),
      st.m_check_state = CHECK_STATE.CHECK_STATE_CONTENT →
      process_read_loop cfg fs f ls st = some r →
      r.2.m_linger = st.m_linger ∧ r.2.m_write_buf = st.m_write_buf ∧
      r.2.m_write_idx = st.m_write_idx ∧ r.2.m_content_length = st.m_content_length ∧
      r.2.m_check_state = CHECK_STATE.CHECK_STATE_CONTENT := by
  induction f with
  | zero => intro ls st r _ h; simp [process_read_loop] at h
  | succ f ih =>
    intro ls st r hcs h
    rw [loop_succ] at h
    have hstep := step_content_frame cfg fs ls st hcs
    cases hs : process_read_step cfg fs ls st with
    | inl r' =>
      rw [hs] at h hstep
      cases r' with
      | none => cases h
      | some x =>
        simp only [Option.some.injEq] at h
        subst h
        exact hstep
    | inr c =>
      rw [hs] at h hstep
      simp only [] at h hstep
      obtain ⟨h1, h2, h3, h4, h5⟩ := hstep
      have := ih c.1 c.2 r h1 h
      exact ⟨this.1.trans h2, this.2.1.trans h3, this.2.2.1.trans h4, this.2.2.2.1.trans h5,
        this.2.2.2.2⟩

end WebServer
namespace WebServer
open http_conn

/-! ## A bad line ends `process_read` with `NO_REQUEST` -/

/-- When the scanner stops with `LINE_BAD` it leaves the buffer as it was. -/
theorem parse_line_loop_bad (n : Nat) (st : http_conn)
    (h : (parse_line_loop n st).1 = LINE_STATUS.LINE_BAD) :
    ∃ c, parse_line_loop n st = (LINE_STATUS.LINE_BAD, { st with m_checked_idx := c }) ∧
      st.m_checked_idx ≤ c ∧ c < st.m_read_idx ∧
      (st.m_read_buf.getD c 0 = 13 ∨ st.m_read_buf.getD c 0 = 10) := by
  induction n generalizing st with
  | zero => simp [parse_line_loop] at h
  | succ n ih =>
    unfold parse_line_loop at h ⊢
    by_cases h1 : st.m_checked_idx < st.m_read_idx
    · rw [if_pos h1] at h ⊢
      simp only [] at h ⊢
      by_cases h2 : st.m_read_buf.getD st.m_checked_idx 0 = 13
      · rw [if_pos h2] at h ⊢
        by_cases h3 : st.m_checked_idx + 1 = st.m_read_idx
        · rw [if_pos h3] at h; cases h
        · rw [if_neg h3] at h ⊢
          by_cases h4 : st.m_read_buf.getD (st.m_checked_idx + 1) 0 = 10
          · rw [if_pos h4] at h; cases h
          · rw [if_neg h4]
            exact ⟨st.m_checked_idx, rfl, le_refl _, h1, Or.inl h2⟩
      · rw [if_neg h2] at h ⊢
        by_cases h3 : st.m_read_buf.getD st.m_checked_idx 0 = 10
        · rw [if_pos h3] at h ⊢
          by_cases h4 : st.m_checked_idx > 1 ∧ st.m_read_buf.getD (st.m_checked_idx - 1) 0 = 13
          · rw [if_pos h4] at h; cases h
          · rw [if_neg h4]
            exact ⟨st.m_checked_idx, rfl, le_refl _, h1, Or.inr h3⟩
        · rw [if_neg h3] at h ⊢
          obtain ⟨c, hc, hle, hlt, hb⟩ := ih _ h
          refine ⟨c, hc, ?_, hlt, hb⟩
          simp only [] at hle
          omega
    · rw [if_neg h1] at h; cases h

/-- C10 (counterexample): a bare CR in the request line, and a bare CR in a header line after an
accepted request line, make the scanner report `LINE_BAD`; `process_read` then returns
`NO_REQUEST`, not `BAD_REQUEST`. -/
theorem C10_line_bad_counterexample :
    (parse_line (received small_limits (bytes "GET / HTTP/1.1\rX\r\n\r\n"))).1
      = LINE_STATUS.LINE_BAD ∧
    (process_read small_limits empty_fs
        (received small_limits (bytes "GET / HTTP/1.1\rX\r\n\r\n"))).map Prod.fst
      = some HTTP_CODE.NO_REQUEST ∧
    (process_read_step small_limits empty_fs LINE_STATUS.LINE_OK
        (received small_limits (bytes "GET / HTTP/1.1\r\nHost: x\rY\r\n\r\n"))).elim
      (fun _ => false) (fun c => (parse_line c.2).1 = LINE_STATUS.LINE_BAD) ∧
    (process_read small_limits empty_fs
        (received small_limits (bytes "GET / HTTP/1.1\r\nHost: x\rY\r\n\r\n"))).map Prod.fst
      = some HTTP_CODE.NO_REQUEST := by
  decide

/-- C10 (amended): in any iteration of the loop of `process_read` in which the line scanner is
called and reports `LINE_BAD`, the function returns `NO_REQUEST`; the connection is left as it
was before the scanner ran, except that `m_checked_idx` stands at the offending CR or LF. -/
theorem C10_line_bad (cfg : Limits) (fs : FileSystem) (fuel : Nat) (ls : LINE_STATUS)
    (st : http_conn)
    (hcall : ¬(st.m_check_state = CHECK_STATE.CHECK_STATE_CONTENT ∧ ls = LINE_STATUS.LINE_OK))
    (hbad : (parse_line st).1 = LINE_STATUS.LINE_BAD) :
    ∃ c, process_read_loop cfg fs (fuel + 1) ls st
        = some (HTTP_CODE.NO_REQUEST, { st with m_checked_idx := c }) ∧
      st.m_checked_idx ≤ c ∧ c < st.m_read_idx ∧
      (st.m_read_buf.getD c 0 = 13 ∨ st.m_read_buf.getD c 0 = 10) := by
  obtain ⟨c, hc, hle, hlt, hb⟩ := parse_line_loop_bad _ st hbad
  refine ⟨c, ?_, hle, hlt, hb⟩
  unfold process_read_loop
  rw [if_neg hcall]
  unfold parse_line
  rw [hc]
  simp

/-- Witness of C10: the first iteration of `process_read` on a request line with a bare CR. -/
theorem C10_line_bad_witness :
    ∃ c, process_read_loop small_limits empty_fs (0 + 1) LINE_STATUS.LINE_OK
          (received small_limits (bytes "GET / HTTP/1.1\rX\r\n\r\n"))
        = some (HTTP_CODE.NO_REQUEST,
            { received small_limits (bytes "GET / HTTP/1.1\rX\r\n\r\n") with m_checked_idx := c }) ∧
      (received small_limits (bytes "GET / HTTP/1.1\rX\r\n\r\n")).m_checked_idx ≤ c ∧
      c < (received small_limits (bytes "GET / HTTP/1.1\rX\r\n\r\n")).m_read_idx ∧
      ((received small_limits (bytes "GET / HTTP/1.1\rX\r\n\r\n")).m_read_buf.getD c 0 = 13 ∨
        (received small_limits (bytes "GET / HTTP/1.1\rX\r\n\r\n")).m_read_buf.getD c 0 = 10) :=
  C10_line_bad small_limits empty_fs 0 LINE_STATUS.LINE_OK
    (received small_limits (bytes "GET / HTTP/1.1\rX\r\n\r\n")) (by decide) (by decide)

end WebServer
namespace WebServer
open http_conn

/-! ## Bytes behind a NUL do not matter -/

theorem takeWhile_append_stop (p : Nat → Bool) (l1 l2 : List Nat) (h : ∃ x ∈ l1, p x = false) :
    (l1 ++ l2).takeWhile p = l1.takeWhile p := by
  induction l1 with
  | nil => obtain ⟨x, hx, -⟩ := h; cases hx
  | cons a l ih =>
    simp only [List.cons_append, List.takeWhile_cons]
    cases hpa : p a with
    | false => rfl
    | true =>
      simp only [if_true]
      congr 1
      apply ih
      obtain ⟨x, hx, hpx⟩ := h
      rcases List.mem_cons.1 hx with rfl | hx
      · rw [hpa] at hpx; cases hpx
      · exact ⟨x, hx, hpx⟩

theorem write_at_fit (buf : List Nat) (n : Nat) (B : List Nat) (h : n + B.length ≤ buf.length) :
    write_at buf n B = buf.take n ++ (B ++ buf.drop (n + B.length)) := by
  unfold write_at
  rw [List.append_assoc]
  apply List.take_of_length_le
  simp only [List.length_append, List.length_take, List.length_drop]
  omega

theorem getD_write_at (buf : List Nat) (n : Nat) (B : List Nat) (j : Nat)
    (h : n + B.length ≤ buf.length) (hj : j < n) :
    (write_at buf n B).getD j 0 = buf.getD j 0 := by
  rw [write_at_fit buf n B h]
  have hl : j < (buf.take n).length := by rw [List.length_take]; omega
  rw [List.getD_append _ _ _ _ hl, List.getD_eq_getElem?_getD, List.getD_eq_getElem?_getD,
    List.getElem?_take_of_lt hj]

theorem set_write_at (buf : List Nat) (n : Nat) (B : List Nat) (u v : Nat)
    (h : n + B.length ≤ buf.length) (hu : u < n) :
    (write_at buf n B).set u v = write_at (buf.set u v) n B := by
  rw [write_at_fit buf n B h, write_at_fit (buf.set u v) n B (by rw [List.length_set]; exact h)]
  have hl : u < (buf.take n).length := by rw [List.length_take]; omega
  rw [List.set_append_left _ _ hl]
  congr 1
  · rw [List.set_take]
  · congr 1
    rw [List.drop_set, if_pos (by omega)]

theorem cstr_write_at (buf : List Nat) (n : Nat) (B : List Nat) (p i : Nat)
    (h : n + B.length ≤ buf.length) (hp : p ≤ i) (hi : i < n) (h0 : buf.getD i 0 = 0) :
    cstr (write_at buf n B) p = cstr buf p := by
  have key : ∀ Y : List Nat, cstr (buf.take n ++ Y) p = cstr (buf.take n) p := by
    intro Y
    unfold cstr
    have hl : p ≤ (buf.take n).length := by rw [List.length_take]; omega
    rw [List.drop_append_of_le_length hl]
    apply takeWhile_append_stop
    refine ⟨0, ?_, by decide⟩
    have hlen : i - p < ((buf.take n).drop p).length := by
      rw [List.length_drop, List.length_take]; omega
    have : ((buf.take n).drop p)[i - p] = 0 := by
      rw [List.getElem_drop, List.getElem_take]
      have hib : i < buf.length := by omega
      rw [List.getD_eq_getElem?_getD, List.getElem?_eq_getElem hib] at h0
      simp only [Option.getD_some] at h0
      have e : p + (i - p) = i := by omega
      simp only [e]
      exact h0
    rw [← this]
    exact List.getElem_mem _
  rw [write_at_fit buf n B h, key]
  conv_rhs => rw [← List.take_append_drop n buf]
  rw [key]

theorem cstr_ne_zero (buf : List Nat) (p : Nat) : ∀ c ∈ cstr buf p, c ≠ 0 := by
  intro c hc
  have := List.mem_takeWhile_imp hc
  simpa using this

/-- The C string at `p` ends at or before any NUL that follows `p`. -/
theorem cstr_end_le (buf : List Nat) (p i : Nat) (hp : p ≤ i) (hi : i < buf.length)
    (h0 : buf.getD i 0 = 0) : p + (cstr buf p).length ≤ i := by
  by_contra hcon
  have hlt : i - p < (cstr buf p).length := by omega
  have hmem := cstr_ne_zero buf p ((cstr buf p)[i - p]) (List.getElem_mem _)
  apply hmem
  have hpre : cstr buf p <+: buf.drop p := List.takeWhile_prefix _
  rw [List.IsPrefix.getElem hpre hlt, List.getElem_drop]
  rw [List.getD_eq_getElem?_getD, List.getElem?_eq_getElem hi] at h0
  simp only [Option.getD_some] at h0
  have e : p + (i - p) = i := by omega
  simp only [e]
  exact h0

theorem getD_set_zero (buf : List Nat) (u i : Nat) (h0 : buf.getD i 0 = 0) :
    (buf.set u 0).getD i 0 = 0 := by
  rw [List.getD_eq_getElem?_getD, List.getElem?_set]
  by_cases hu : u = i
  · rw [if_pos hu]
    by_cases hl : u < buf.length
    · rw [if_pos hl]; rfl
    · rw [if_neg hl]; rfl
  · rw [if_neg hu, ← List.getD_eq_getElem?_getD]
    exact h0

theorem strpbrk_bounds (buf : List Nat) (p : Nat) (acc : List Nat) (u : Nat)
    (h : strpbrk buf p acc = some u) : p ≤ u ∧ u < p + (cstr buf p).length := by
  unfold strpbrk at h
  simp only [] at h
  by_cases hc : strcspn (cstr buf p) acc < (cstr buf p).length
  · rw [if_pos hc] at h
    have := Option.some.inj h
    omega
  · rw [if_neg hc] at h; cases h

theorem strchr_bounds (buf : List Nat) (p c u : Nat)
    (h : strchr buf p c = some u) : p ≤ u ∧ u < p + (cstr buf p).length := by
  unfold strchr at h
  simp only [] at h
  by_cases hc : strcspn (cstr buf p) [c] < (cstr buf p).length
  · rw [if_pos hc] at h
    have := Option.some.inj h
    omega
  · rw [if_neg hc] at h; cases h

/-- A C string that matches a NUL-free literal of `n` bytes in `strncasecmp` has `n` bytes. -/
theorem strncasecmp_length (buf : List Nat) (p : Nat) (lit : List Nat) (n : Nat)
    (hlit : ∀ c ∈ lit, c ≠ 0) (hn : lit.length = n)
    (h : strncasecmp (cstr buf p) lit n = 0) : n ≤ (cstr buf p).length := by
  rw [strncasecmp_eq_zero _ _ _ (cstr_ne_zero buf p) hlit] at h
  have : ((cstr buf p).take n).length = n := by
    have := congrArg List.length h
    simp only [List.length_map, List.length_take] at this
    rw [List.length_take]
    omega
  rw [List.length_take] at this
  omega

end WebServer
namespace WebServer
open http_conn

/-! ## The line scanner and bytes that arrive later -/

/-- A scan that ends with `LINE_OK` or `LINE_BAD` has only looked at received bytes: with more
bytes behind them it ends the same way. -/
theorem parse_line_loop_feed (B : List Nat) (k : Nat) : ∀ (k' : Nat) (st : http_conn),
    k ≤ k' → st.m_read_idx + B.length ≤ st.m_read_buf.length →
    (parse_line_loop k st).1 ≠ LINE_STATUS.LINE_OPEN →
    parse_line_loop k' (feed st B) =
      ((parse_line_loop k st).1, feed (parse_line_loop k st).2 B) := by
  induction k with
  | zero => intro k' st _ _ h; exact absurd rfl h
  | succ k ih =>
    intro k' st hk hfit h
    obtain ⟨k'', rfl⟩ : ∃ k'', k' = k'' + 1 := ⟨k' - 1, by omega⟩
    obtain ⟨sockfd, buf, ridx, cidx, sline, cs, meth, rf, url, ver, host, cl, lg, wbuf, widx, fa,
      fst, iv0, iv1, ivc⟩ := st
    simp only [] at hfit
    unfold parse_line_loop at h ⊢
    simp only [feed] at h ⊢
    by_cases h1 : cidx < ridx
    · rw [if_pos h1] at h
      rw [if_pos h1, if_pos (by omega : cidx < ridx + B.length)]
      rw [getD_write_at buf ridx B cidx hfit h1]
      by_cases h2 : buf.getD cidx 0 = 13
      · rw [if_pos h2] at h
        rw [if_pos h2, if_pos h2]
        by_cases h3 : cidx + 1 = ridx
        · rw [if_pos h3] at h; exact absurd rfl h
        · rw [if_neg h3] at h
          rw [if_neg h3, if_neg (by omega : ¬ cidx + 1 = ridx + B.length)]
          rw [getD_write_at buf ridx B (cidx + 1) hfit (by omega)]
          by_cases h4 : buf.getD (cidx + 1) 0 = 10
          · rw [if_pos h4, if_pos h4]
            rw [set_write_at buf ridx B cidx 0 hfit h1,
              set_write_at _ ridx B (cidx + 1) 0 (by rw [List.length_set]; exact hfit) (by omega)]
          · rw [if_neg h4, if_neg h4]
      · rw [if_neg h2] at h
        rw [if_neg h2, if_neg h2]
        by_cases h3 : buf.getD cidx 0 = 10
        · rw [if_pos h3, if_pos h3]
          rw [getD_write_at buf ridx B (cidx - 1) hfit (by omega)]
          by_cases h4 : cidx > 1 ∧ buf.getD (cidx - 1) 0 = 13
          · rw [if_pos h4, if_pos h4]
            rw [set_write_at buf ridx B (cidx - 1) 0 hfit (by omega),
              set_write_at _ ridx B cidx 0 (by rw [List.length_set]; exact hfit) h1]
          · rw [if_neg h4, if_neg h4]
        · rw [if_neg h3] at h
          rw [if_neg h3, if_neg h3]
          exact ih k'' _ (by omega) hfit h
    · rw [if_neg h1] at h; exact absurd rfl h

theorem getD_set_self (buf : List Nat) (u : Nat) : (buf.set u 0).getD u 0 = 0 := by
  rw [List.getD_eq_getElem?_getD, List.getElem?_set, if_pos rfl]
  by_cases hl : u < buf.length
  · rw [if_pos hl]; rfl
  · rw [if_neg hl]; rfl

/-- A scan that ends without a line has skipped bytes that are neither CR nor LF, and stands
at offset `c`: with more bytes behind the received ones, the scan from the old offset goes on
as the scan from `c` does. -/
theorem parse_line_loop_skip (B : List Nat) (k : Nat) : ∀ (st : http_conn),
    st.m_read_idx + B.length ≤ st.m_read_buf.length →
    (parse_line_loop k st).1 ≠ LINE_STATUS.LINE_OK →
    ∃ c, (parse_line_loop k st).2 = { st with m_checked_idx := c } ∧
      st.m_checked_idx ≤ c ∧ (st.m_checked_idx ≤ st.m_read_idx → c ≤ st.m_read_idx) ∧
      ∀ m, parse_line_loop (m + (c - st.m_checked_idx)) (feed st B) =
        parse_line_loop m (feed { st with m_checked_idx := c } B) := by
  induction k with
  | zero =>
    intro st _ _
    exact ⟨st.m_checked_idx, rfl, le_refl _, fun h => h, fun m => by rw [Nat.sub_self]; rfl⟩
  | succ k ih =>
    intro st hfit h
    obtain ⟨sockfd, buf, ridx, cidx, sline, cs, meth, rf, url, ver, host, cl, lg, wbuf, widx, fa,
      fst, iv0, iv1, ivc⟩ := st
    simp only [] at hfit
    have triv : ∀ m, parse_line_loop (m + (cidx - cidx))
        (feed ⟨sockfd, buf, ridx, cidx, sline, cs, meth, rf, url, ver, host, cl, lg, wbuf, widx,
          fa, fst, iv0, iv1, ivc⟩ B) =
        parse_line_loop m (feed ⟨sockfd, buf, ridx, cidx, sline, cs, meth, rf, url, ver, host,
          cl, lg, wbuf, widx, fa, fst, iv0, iv1, ivc⟩ B) := fun m => by rw [Nat.sub_self]; rfl
    generalize hr : parse_line_loop (k + 1)
      ⟨sockfd, buf, ridx, cidx, sline, cs, meth, rf, url, ver, host, cl, lg, wbuf, widx, fa,
        fst, iv0, iv1, ivc⟩ = r at h ⊢
    unfold parse_line_loop at hr
    simp only [] at hr
    by_cases h1 : cidx < ridx
    · rw [if_pos h1] at hr
      by_cases h2 : buf.getD cidx 0 = 13
      · rw [if_pos h2] at hr
        by_cases h3 : cidx + 1 = ridx
        · rw [if_pos h3] at hr
          subst hr
          exact ⟨cidx, rfl, le_refl _, fun h => h, triv⟩
        · rw [if_neg h3] at hr
          by_cases h4 : buf.getD (cidx + 1) 0 = 10
          · rw [if_pos h4] at hr; subst hr; exact absurd rfl h
          · rw [if_neg h4] at hr
            subst hr
            exact ⟨cidx, rfl, le_refl _, fun h => h, triv⟩
      · rw [if_neg h2] at hr
        by_cases h3 : buf.getD cidx 0 = 10
        · rw [if_pos h3] at hr
          by_cases h4 : cidx > 1 ∧ buf.getD (cidx - 1) 0 = 13
          · rw [if_pos h4] at hr; subst hr; exact absurd rfl h
          · rw [if_neg h4] at hr
            subst hr
            exact ⟨cidx, rfl, le_refl _, fun h => h, triv⟩
        · rw [if_neg h3] at hr
          subst hr
          obtain ⟨c, hc, hle, hlt, hm⟩ := ih _ hfit h
          simp only [] at hle hlt hm
          refine ⟨c, hc, by show cidx ≤ c; omega, fun _ => hlt (by omega), ?_⟩
          intro m
          rw [← hm m]
          have e : m + (c - cidx) = (m + (c - (cidx + 1))) + 1 := by omega
          rw [e]
          conv_lhs => unfold parse_line_loop
          simp only [feed]
          rw [if_pos (by omega : cidx < ridx + B.length),
            getD_write_at buf ridx B cidx hfit h1, if_neg h2, if_neg h3]
    · rw [if_neg h1] at hr
      subst hr
      exact ⟨cidx, rfl, le_refl _, fun h => h, triv⟩

/-- The scanner only ever writes NULs, and after `LINE_OK` a NUL stands right before the
offset it stops at. -/
theorem parse_line_loop_nul (k : Nat) : ∀ (st : http_conn),
    (∀ j, st.m_read_buf.getD j 0 = 0 → (parse_line_loop k st).2.m_read_buf.getD j 0 = 0) ∧
    ((parse_line_loop k st).1 = LINE_STATUS.LINE_OK →
      (parse_line_loop k st).2.m_read_buf.getD ((parse_line_loop k st).2.m_checked_idx - 1) 0
        = 0) := by
  induction k with
  | zero => intro st; exact ⟨fun j h => h, fun h => by cases h⟩
  | succ k ih =>
    intro st
    unfold parse_line_loop
    by_cases h1 : st.m_checked_idx < st.m_read_idx
    · rw [if_pos h1]
      simp only []
      by_cases h2 : st.m_read_buf.getD st.m_checked_idx 0 = 13
      · rw [if_pos h2]
        by_cases h3 : st.m_checked_idx + 1 = st.m_read_idx
        · rw [if_pos h3]; exact ⟨fun j h => h, fun h => by cases h⟩
        · rw [if_neg h3]
          by_cases h4 : st.m_read_buf.getD (st.m_checked_idx + 1) 0 = 10
          · rw [if_pos h4]
            refine ⟨fun j h => getD_set_zero _ _ _ (getD_set_zero _ _ _ h), fun _ => ?_⟩
            exact getD_set_self _ _
          · rw [if_neg h4]; exact ⟨fun j h => h, fun h => by cases h⟩
      · rw [if_neg h2]
        by_cases h3 : st.m_read_buf.getD st.m_checked_idx 0 = 10
        · rw [if_pos h3]
          by_cases h4 : st.m_checked_idx > 1 ∧
              st.m_read_buf.getD (st.m_checked_idx - 1) 0 = 13
          · rw [if_pos h4]
            refine ⟨fun j h => getD_set_zero _ _ _ (getD_set_zero _ _ _ h), fun _ => ?_⟩
            exact getD_set_self _ _
          · rw [if_neg h4]; exact ⟨fun j h => h, fun h => by cases h⟩
        · rw [if_neg h3]
          exact ih { st with m_checked_idx := st.m_checked_idx + 1 }
    · rw [if_neg h1]; exact ⟨fun j h => h, fun h => by cases h⟩

theorem parse_line_feed (B : List Nat) (st : http_conn)
    (hfit : st.m_read_idx + B.length ≤ st.m_read_buf.length)
    (h : (parse_line st).1 ≠ LINE_STATUS.LINE_OPEN) :
    parse_line (feed st B) = ((parse_line st).1, feed (parse_line st).2 B) := by
  unfold parse_line at h ⊢
  exact parse_line_loop_feed B _ _ st (by show _ ≤ st.m_read_idx + B.length - st.m_checked_idx; omega) hfit h

theorem parse_line_skip (B : List Nat) (st : http_conn)
    (hfit : st.m_read_idx + B.length ≤ st.m_read_buf.length)
    (hcr : st.m_checked_idx ≤ st.m_read_idx)
    (h : (parse_line st).1 ≠ LINE_STATUS.LINE_OK) :
    ∃ c, (parse_line st).2 = { st with m_checked_idx := c } ∧
      st.m_checked_idx ≤ c ∧ c ≤ st.m_read_idx ∧
      parse_line (feed st B) = parse_line (feed { st with m_checked_idx := c } B) := by
  unfold parse_line at h
  obtain ⟨c, hc, hle, hlt, hm⟩ := parse_line_loop_skip B _ st hfit h
  refine ⟨c, hc, hle, hlt hcr, ?_⟩
  have h2 := hlt hcr
  have e : (feed st B).m_read_idx - (feed st B).m_checked_idx
      = ((feed { st with m_checked_idx := c } B).m_read_idx
          - (feed { st with m_checked_idx := c } B).m_checked_idx) + (c - st.m_checked_idx) := by
    show st.m_read_idx + B.length - st.m_checked_idx
      = (st.m_read_idx + B.length - c) + (c - st.m_checked_idx)
    omega
  show parse_line_loop _ _ = parse_line_loop _ _
  rw [e]
  exact hm _

theorem parse_line_nul (st : http_conn) :
    (∀ j, st.m_read_buf.getD j 0 = 0 → (parse_line st).2.m_read_buf.getD j 0 = 0) ∧
    ((parse_line st).1 = LINE_STATUS.LINE_OK →
      (parse_line st).2.m_read_buf.getD ((parse_line st).2.m_checked_idx - 1) 0 = 0) :=
  parse_line_loop_nul _ st

end WebServer
namespace WebServer
open http_conn

/-! ## The line parsers and bytes that arrive later -/

theorem strpbrk_write_at (buf : List Nat) (n : Nat) (B : List Nat) (p i : Nat) (acc : List Nat)
    (h : n + B.length ≤ buf.length) (hp : p ≤ i) (hi : i < n) (h0 : buf.getD i 0 = 0) :
    strpbrk (write_at buf n B) p acc = strpbrk buf p acc := by
  unfold strpbrk
  rw [cstr_write_at buf n B p i h hp hi h0]

theorem strchr_write_at (buf : List Nat) (n : Nat) (B : List Nat) (p i c : Nat)
    (h : n + B.length ≤ buf.length) (hp : p ≤ i) (hi : i < n) (h0 : buf.getD i 0 = 0) :
    strchr (write_at buf n B) p c = strchr buf p c := by
  unfold strchr
  rw [cstr_write_at buf n B p i h hp hi h0]

/-- The request-line parser reads and writes only up to the NUL that ends the line: with more
bytes behind the received ones it does the same, the url it finds lies before that NUL, and
it writes nothing but NULs. -/
theorem parse_request_line_feed (B : List Nat) (st : http_conn) (text i : Nat)
    (hfit : st.m_read_idx + B.length ≤ st.m_read_buf.length)
    (hti : text ≤ i) (hi : i < st.m_read_idx) (h0 : st.m_read_buf.getD i 0 = 0) :
    parse_request_line (feed st B) text =
      ((parse_request_line st text).1, feed (parse_request_line st text).2 B) ∧
    (∀ q, (parse_request_line st text).2.m_url = some q → q ≤ i) ∧
    (∀ j, st.m_read_buf.getD j 0 = 0 →
      (parse_request_line st text).2.m_read_buf.getD j 0 = 0) ∧
    ((parse_request_line st text).2.m_check_state = st.m_check_state ∨
      (parse_request_line st text).2.m_check_state = CHECK_STATE.CHECK_STATE_HEADER) := by
  obtain ⟨sockfd, buf, ridx, cidx, sline, cs, meth, rf, url, ver, host, cl, lg, wbuf, widx, fa,
    fst, iv0, iv1, ivc⟩ := st
  simp only [] at hfit hi h0
  have hib : i < buf.length := by omega
  unfold parse_request_line
  simp only [feed]
  rw [strpbrk_write_at buf ridx B text i [32, 9] hfit hti hi h0]
  cases hu : strpbrk buf text [32, 9] with
  | none =>
    simp only []
    refine ⟨by first | trivial | rfl, fun q hq => ?_, (fun j hj => hj),
      by first | exact Or.inl trivial | exact Or.inr trivial | exact Or.inl rfl | exact Or.inr rfl⟩
    cases hq <;> omega
  | some u =>
    simp only []
    obtain ⟨hu1, hu2⟩ := strpbrk_bounds _ _ _ _ hu
    have hlen := cstr_end_le buf text i hti hib h0
    have hui : u < i := by omega
    have h01 : (buf.set u 0).getD i 0 = 0 := getD_set_zero _ _ _ h0
    have hfit1 : ridx + B.length ≤ (buf.set u 0).length := by rw [List.length_set]; exact hfit
    have hib1 : i < (buf.set u 0).length := by rw [List.length_set]; exact hib
    have hz1 : ∀ j, buf.getD j 0 = 0 → (buf.set u 0).getD j 0 = 0 :=
      fun j hj => getD_set_zero _ _ _ hj
    rw [set_write_at buf ridx B u 0 hfit (by omega)]
    rw [cstr_write_at (buf.set u 0) ridx B text i hfit1 hti hi h01]
    by_cases hg : strcasecmp (cstr (buf.set u 0) text) (bytes "GET") = 0
    · simp only [if_pos hg]
      rw [strpbrk_write_at (buf.set u 0) ridx B (u + 1) i [32, 9] hfit1 (by omega) hi h01]
      cases hv : strpbrk (buf.set u 0) (u + 1) [32, 9] with
      | none =>
        simp only []
        refine ⟨by first | trivial | rfl, fun q hq => ?_, hz1,
          by first | exact Or.inl trivial | exact Or.inr trivial | exact Or.inl rfl | exact Or.inr rfl⟩
        cases hq <;> omega
      | some v =>
        simp only []
        obtain ⟨hv1, hv2⟩ := strpbrk_bounds _ _ _ _ hv
        have hlen1 := cstr_end_le (buf.set u 0) (u + 1) i (by omega) hib1 h01
        have hvi : v < i := by omega
        have h02 : ((buf.set u 0).set v 0).getD i 0 = 0 := getD_set_zero _ _ _ h01
        have hfit2 : ridx + B.length ≤ ((buf.set u 0).set v 0).length := by
          rw [List.length_set]; exact hfit1
        have hib2 : i < ((buf.set u 0).set v 0).length := by rw [List.length_set]; exact hib1
        have hz2 : ∀ j, buf.getD j 0 = 0 → ((buf.set u 0).set v 0).getD j 0 = 0 :=
          fun j hj => getD_set_zero _ _ _ (hz1 j hj)
        rw [set_write_at (buf.set u 0) ridx B v 0 hfit1 (by omega)]
        rw [cstr_write_at ((buf.set u 0).set v 0) ridx B (v + 1) i hfit2 (by omega) hi h02]
        by_cases hver : strcasecmp (cstr ((buf.set u 0).set v 0) (v + 1)) (bytes "HTTP/1.1") ≠ 0
        · simp only [if_pos hver]
          refine ⟨by first | trivial | rfl, fun q hq => ?_, hz2,
            by first | exact Or.inl trivial | exact Or.inr trivial | exact Or.inl rfl | exact Or.inr rfl⟩
          cases hq <;> omega
        · simp only [if_neg hver]
          rw [cstr_write_at ((buf.set u 0).set v 0) ridx B (u + 1) i hfit2 (by omega) hi h02]
          by_cases hsch : strncasecmp (cstr ((buf.set u 0).set v 0) (u + 1)) (bytes "http://") 7 = 0
          · simp only [if_pos hsch]
            have h7 := strncasecmp_length _ _ _ 7 (by decide) (by decide) hsch
            have hlen2 := cstr_end_le ((buf.set u 0).set v 0) (u + 1) i (by omega) hib2 h02
            rw [strchr_write_at ((buf.set u 0).set v 0) ridx B (u + 1 + 7) i 47 hfit2 (by omega)
              hi h02]
            cases hw : strchr ((buf.set u 0).set v 0) (u + 1 + 7) 47 with
            | none =>
              simp only []
              refine ⟨by first | trivial | rfl, fun q hq => ?_, hz2,
                by first | exact Or.inl trivial | exact Or.inr trivial | exact Or.inl rfl | exact Or.inr rfl⟩
              cases hq <;> omega
            | some w =>
              simp only []
              obtain ⟨hw1, hw2⟩ := strchr_bounds _ _ _ _ hw
              have hlen3 := cstr_end_le ((buf.set u 0).set v 0) (u + 1 + 7) i (by omega) hib2 h02
              rw [getD_write_at _ ridx B w hfit2 (by omega)]
              by_cases hsl : ((buf.set u 0).set v 0).getD w 0 ≠ 47
              · simp only [if_pos hsl]
                refine ⟨by first | trivial | rfl, fun q hq => ?_, hz2,
                  by first | exact Or.inl trivial | exact Or.inr trivial | exact Or.inl rfl | exact Or.inr rfl⟩
                cases hq <;> omega
              · simp only [if_neg hsl]
                refine ⟨by first | trivial | rfl, fun q hq => ?_, hz2,
                  by first | exact Or.inl trivial | exact Or.inr trivial | exact Or.inl rfl | exact Or.inr rfl⟩
                cases hq <;> omega
          · simp only [if_neg hsch]
            rw [getD_write_at _ ridx B (u + 1) hfit2 (by omega)]
            by_cases hsl : ((buf.set u 0).set v 0).getD (u + 1) 0 ≠ 47
            · simp only [if_pos hsl]
              refine ⟨by first | trivial | rfl, fun q hq => ?_, hz2,
                by first | exact Or.inl trivial | exact Or.inr trivial | exact Or.inl rfl | exact Or.inr rfl⟩
              cases hq <;> omega
            · simp only [if_neg hsl]
              refine ⟨by first | trivial | rfl, fun q hq => ?_, hz2,
                by first | exact Or.inl trivial | exact Or.inr trivial | exact Or.inl rfl | exact Or.inr rfl⟩
              cases hq <;> omega
    · simp only [if_neg hg]
      refine ⟨by first | trivial | rfl, fun q hq => ?_, hz1,
        by first | exact Or.inl trivial | exact Or.inr trivial | exact Or.inl rfl | exact Or.inr rfl⟩
      cases hq <;> omega

/-- The header parser reads only up to the NUL that ends the line: with more bytes behind the
received ones it does the same; a host value it finds lies before that NUL; it returns
`GET_REQUEST` only with a zero content length and no change, and enters the content state only
with a non-zero content length. -/
theorem parse_headers_feed (B : List Nat) (st : http_conn) (text i : Nat)
    (hfit : st.m_read_idx + B.length ≤ st.m_read_buf.length)
    (hti : text ≤ i) (hi : i < st.m_read_idx) (h0 : st.m_read_buf.getD i 0 = 0) :
    parse_headers (feed st B) text =
      ((parse_headers st text).1, feed (parse_headers st text).2 B) ∧
    (∀ q, (parse_headers st text).2.m_host = some q → q ≤ i ∨ st.m_host = some q) ∧
    ((parse_headers st text).1 = HTTP_CODE.NO_REQUEST ∨
      ((parse_headers st text).1 = HTTP_CODE.GET_REQUEST ∧ (parse_headers st text).2 = st)) ∧
    ((parse_headers st text).2.m_check_state = st.m_check_state ∨
      ((parse_headers st text).2.m_check_state = CHECK_STATE.CHECK_STATE_CONTENT ∧
        (parse_headers st text).2.m_content_length ≠ 0)) := by
  obtain ⟨sockfd, buf, ridx, cidx, sline, cs, meth, rf, url, ver, host, cl, lg, wbuf, widx, fa,
    fst, iv0, iv1, ivc⟩ := st
  simp only [] at hfit hi h0
  have hib : i < buf.length := by omega
  have hlen := cstr_end_le buf text i hti hib h0
  unfold parse_headers
  simp only [feed]
  rw [getD_write_at buf ridx B text hfit (by omega),
    cstr_write_at buf ridx B text i hfit hti hi h0]
  by_cases hb : buf.getD text 0 = 0
  · simp only [if_pos hb]
    by_cases hcl : cl ≠ 0
    · simp only [if_pos hcl]
      refine ⟨by first | trivial | rfl, fun q hq => Or.inr ?_, Or.inl (by first | trivial | rfl),
        Or.inr ⟨by first | trivial | rfl, hcl⟩⟩
      first | exact hq | (cases hq; rfl)
    · simp only [if_neg hcl]
      refine ⟨by first | trivial | rfl, fun q hq => Or.inr ?_,
        Or.inr ⟨by first | trivial | rfl, by first | trivial | rfl⟩,
        Or.inl (by first | trivial | rfl)⟩
      first | exact hq | (cases hq; rfl)
  · simp only [if_neg hb]
    by_cases hc : strncasecmp (cstr buf text) (bytes "Connection:") 11 = 0
    · simp only [if_pos hc]
      have h11 := strncasecmp_length _ _ _ 11 (by decide) (by decide) hc
      have hlen1 := cstr_end_le buf (text + 11) i (by omega) hib h0
      rw [cstr_write_at buf ridx B (text + 11) i hfit (by omega) hi h0]
      have hsp := strspn_le (cstr buf (text + 11)) [32, 9]
      rw [cstr_write_at buf ridx B _ i hfit (by omega) hi h0]
      by_cases hk : strcasecmp (cstr buf (text + 11 + strspn (cstr buf (text + 11)) [32, 9]))
          (bytes "keep-alive") = 0
      · simp only [if_pos hk]
        refine ⟨by first | trivial | rfl, fun q hq => Or.inr ?_,
          Or.inl (by first | trivial | rfl), Or.inl (by first | trivial | rfl)⟩
        first | exact hq | (cases hq; rfl)
      · simp only [if_neg hk]
        refine ⟨by first | trivial | rfl, fun q hq => Or.inr ?_,
          Or.inl (by first | trivial | rfl), Or.inl (by first | trivial | rfl)⟩
        first | exact hq | (cases hq; rfl)
    · simp only [if_neg hc]
      by_cases hl : strncasecmp (cstr buf text) (bytes "Content-Length:") 15 = 0
      · simp only [if_pos hl]
        have h15 := strncasecmp_length _ _ _ 15 (by decide) (by decide) hl
        have hlen1 := cstr_end_le buf (text + 15) i (by omega) hib h0
        rw [cstr_write_at buf ridx B (text + 15) i hfit (by omega) hi h0]
        have hsp := strspn_le (cstr buf (text + 15)) [32, 9]
        rw [cstr_write_at buf ridx B _ i hfit (by omega) hi h0]
        refine ⟨by first | trivial | rfl, fun q hq => Or.inr ?_,
          Or.inl (by first | trivial | rfl), Or.inl (by first | trivial | rfl)⟩
        first | exact hq | (cases hq; rfl)
      · simp only [if_neg hl]
        by_cases hh : strncasecmp (cstr buf text) (bytes "Host:") 5 = 0
        · simp only [if_pos hh]
          have h5 := strncasecmp_length _ _ _ 5 (by decide) (by decide) hh
          have hlen1 := cstr_end_le buf (text + 5) i (by omega) hib h0
          rw [cstr_write_at buf ridx B (text + 5) i hfit (by omega) hi h0]
          have hsp := strspn_le (cstr buf (text + 5)) [32, 9]
          refine ⟨by first | trivial | rfl, fun q hq => Or.inl ?_,
            Or.inl (by first | trivial | rfl), Or.inl (by first | trivial | rfl)⟩
          cases hq
          omega
        · simp only [if_neg hh]
          refine ⟨by first | trivial | rfl, fun q hq => Or.inr ?_,
            Or.inl (by first | trivial | rfl), Or.inl (by first | trivial | rfl)⟩
          first | exact hq | (cases hq; rfl)

/-- With the url string ending inside the received bytes, `do_request` does the same whatever
arrives behind them. -/
theorem do_request_feed (cfg : Limits) (fs : FileSystem) (B : List Nat) (st : http_conn)
    (hfit : st.m_read_idx + B.length ≤ st.m_read_buf.length)
    (hurl : terminated st.m_read_buf st.m_read_idx st.m_url) :
    do_request cfg fs (feed st B) =
      ((do_request cfg fs st).1, feed (do_request cfg fs st).2 B) := by
  obtain ⟨sockfd, buf, ridx, cidx, sline, cs, meth, rf, url, ver, host, cl, lg, wbuf, widx, fa,
    fst, iv0, iv1, ivc⟩ := st
  simp only [] at hfit hurl
  have hs : (Option.map (cstr (write_at buf ridx B)) url).getD []
      = (Option.map (cstr buf) url).getD [] := by
    cases url with
    | none => rfl
    | some q =>
      obtain ⟨i, h1, h2, h3⟩ := hurl q rfl
      simp only [Option.map_some', Option.getD_some]
      exact cstr_write_at buf ridx B q i hfit h1 h2 h3
  unfold do_request
  simp only [feed, str_at]
  rw [hs]
  generalize fs.stat (cstr (build_real_file cfg rf ((Option.map (cstr buf) url).getD [])) 0) = o
  cases o with
  | none => rfl
  | some s =>
    simp only []
    by_cases h1 : s.st_mode &&& S_IROTH = 0
    · simp only [if_pos h1]
    · simp only [if_neg h1]
      by_cases h2 : S_ISDIR s.st_mode = true
      · simp only [if_pos h2]
      · simp only [if_neg h2]

end WebServer
namespace WebServer
open http_conn

/-! ## One iteration of `process_read` and bytes that arrive later -/

theorem terminated_of_le (buf : List Nat) (n i : Nat) (p : Option Nat)
    (hi : i < n) (h0 : buf.getD i 0 = 0) (hp : ∀ q, p = some q → q ≤ i) :
    terminated buf n p :=
  fun q hq => ⟨i, hp q hq, hi, h0⟩

theorem terminated_mono (buf buf2 : List Nat) (n : Nat) (p : Option Nat)
    (hz : ∀ j, buf.getD j 0 = 0 → buf2.getD j 0 = 0) (h : terminated buf n p) :
    terminated buf2 n p :=
  fun q hq => by
    obtain ⟨i, h1, h2, h3⟩ := h q hq
    exact ⟨i, h1, h2, hz i h3⟩

/-- An iteration that ends without a line: the scanner has moved, and with more bytes behind
the received ones the iteration from the old state is the iteration from the new one. -/
theorem step_feed_open (cfg : Limits) (fs : FileSystem) (B : List Nat) (st : http_conn)
    (hres : resumable B.length st)
    (hcs : st.m_check_state ≠ CHECK_STATE.CHECK_STATE_CONTENT)
    (hok : (parse_line st).1 ≠ LINE_STATUS.LINE_OK) :
    ∃ s1, process_read_step cfg fs LINE_STATUS.LINE_OK st
        = Sum.inl (some (HTTP_CODE.NO_REQUEST, s1)) ∧
      resumable B.length s1 ∧ s1.m_read_idx = st.m_read_idx ∧
      s1.m_check_state = st.m_check_state ∧
      process_read_step cfg fs LINE_STATUS.LINE_OK (feed st B) =
        process_read_step cfg fs LINE_STATUS.LINE_OK (feed s1 B) := by
  obtain ⟨hfit, hsl, hcr, hu, hh⟩ := hres
  obtain ⟨c, hc, hle, hlt, hpl⟩ := parse_line_skip B st hfit hcr hok
  refine ⟨{ st with m_checked_idx := c }, ?_, ⟨hfit, ?_, hlt, hu, hh⟩, rfl, rfl, ?_⟩
  · rw [step_scan cfg fs LINE_STATUS.LINE_OK st (fun h => hcs h.1), if_pos hok, hc]
  · show st.m_start_line ≤ c
    omega
  · rw [step_scan cfg fs LINE_STATUS.LINE_OK (feed st B) (fun h => hcs h.1),
      step_scan cfg fs LINE_STATUS.LINE_OK (feed { st with m_checked_idx := c } B)
        (fun h => hcs h.1), hpl]

theorem parse_request_line_length (st : http_conn) (text : Nat) :
    (parse_request_line st text).2.m_read_buf.length = st.m_read_buf.length := by
  unfold parse_request_line
  simp only []
  repeat' split
  all_goals simp only [List.length_set]

theorem parse_request_line_resumable (B : List Nat) (st : http_conn) (text i : Nat)
    (hres : resumable B.length st)
    (hti : text ≤ i) (hi : i < st.m_read_idx) (h0 : st.m_read_buf.getD i 0 = 0) :
    parse_request_line (feed st B) text =
      ((parse_request_line st text).1, feed (parse_request_line st text).2 B) ∧
    resumable B.length (parse_request_line st text).2 ∧
    (parse_request_line st text).2.m_read_idx = st.m_read_idx ∧
    (parse_request_line st text).2.m_content_length = st.m_content_length ∧
    ((parse_request_line st text).2.m_check_state = st.m_check_state ∨
      (parse_request_line st text).2.m_check_state = CHECK_STATE.CHECK_STATE_HEADER) := by
  obtain ⟨hfit, hsl, hcr, hu, hh⟩ := hres
  obtain ⟨h1, h2, h3, h4⟩ := parse_request_line_feed B st text i hfit hti hi h0
  have hlen := parse_request_line_length st text
  obtain ⟨b, u, v, m, c, hfr⟩ := parse_request_line_frame st text
  refine ⟨h1, ?_, ?_, ?_, h4⟩
  · have hu2 : ∀ q, (parse_request_line st text).2.m_url = some q → q ≤ i := h2
    have h02 := h3 i h0
    rw [hfr] at hlen hu2 h02 h3 ⊢
    simp only [] at hlen hu2 h02 h3
    exact ⟨by show st.m_read_idx + B.length ≤ b.length; omega, hsl, hcr,
      terminated_of_le _ _ i _ hi h02 hu2, terminated_mono _ _ _ _ h3 hh⟩
  · rw [hfr]
  · rw [hfr]

theorem parse_headers_resumable (B : List Nat) (st : http_conn) (text i : Nat)
    (hres : resumable B.length st)
    (hti : text ≤ i) (hi : i < st.m_read_idx) (h0 : st.m_read_buf.getD i 0 = 0) :
    parse_headers (feed st B) text =
      ((parse_headers st text).1, feed (parse_headers st text).2 B) ∧
    resumable B.length (parse_headers st text).2 ∧
    (parse_headers st text).2.m_read_idx = st.m_read_idx ∧
    ((parse_headers st text).1 = HTTP_CODE.NO_REQUEST ∨
      ((parse_headers st text).1 = HTTP_CODE.GET_REQUEST ∧ (parse_headers st text).2 = st)) ∧
    ((parse_headers st text).2.m_check_state = st.m_check_state ∨
      ((parse_headers st text).2.m_check_state = CHECK_STATE.CHECK_STATE_CONTENT ∧
        (parse_headers st text).2.m_content_length ≠ 0)) := by
  obtain ⟨hfit, hsl, hcr, hu, hh⟩ := hres
  obtain ⟨h1, h2, h3, h4⟩ := parse_headers_feed B st text i hfit hti hi h0
  obtain ⟨c, l, n, h, hfr⟩ := parse_headers_frame st text
  refine ⟨h1, ?_, ?_, h3, h4⟩
  · have hh2 : ∀ q, (parse_headers st text).2.m_host = some q → q ≤ i ∨ st.m_host = some q := h2
    rw [hfr] at hh2 ⊢
    simp only [] at hh2
    refine ⟨hfit, hsl, hcr, hu, ?_⟩
    intro q hq
    rcases hh2 q hq with hle | hold
    · exact ⟨i, hle, hi, h0⟩
    · exact hh q hold
  · rw [hfr]

theorem do_request_resumable (cfg : Limits) (fs : FileSystem) (B : List Nat) (st : http_conn)
    (hres : resumable B.length st) :
    do_request cfg fs (feed st B) =
      ((do_request cfg fs st).1, feed (do_request cfg fs st).2 B) ∧
    resumable B.length (do_request cfg fs st).2 ∧
    (do_request cfg fs st).2.m_read_idx = st.m_read_idx ∧
    (do_request cfg fs st).2.m_check_state = st.m_check_state ∧
    (do_request cfg fs st).1 ≠ HTTP_CODE.NO_REQUEST := by
  obtain ⟨hfit, hsl, hcr, hu, hh⟩ := hres
  obtain ⟨rf, fst, fa, hfr⟩ := do_request_frame cfg fs st
  refine ⟨do_request_feed cfg fs B st hfit hu, ?_, ?_, ?_, ?_⟩
  · rw [hfr]; exact ⟨hfit, hsl, hcr, hu, hh⟩
  · rw [hfr]
  · rw [hfr]
  · rw [do_request_code]; exact stat_code_ne_no_request _ _

end WebServer
namespace WebServer
open http_conn

/-- An iteration that gets a line, outside the content state: with more bytes behind the
received ones the iteration does the same. -/
theorem step_feed_line (cfg : Limits) (fs : FileSystem) (B : List Nat) (st : http_conn)
    (hres : resumable B.length st)
    (hcs : st.m_check_state ≠ CHECK_STATE.CHECK_STATE_CONTENT)
    (hok : (parse_line st).1 = LINE_STATUS.LINE_OK) :
    match process_read_step cfg fs LINE_STATUS.LINE_OK st with
    | Sum.inl none => False
    | Sum.inl (some r) =>
      r.1 ≠ HTTP_CODE.NO_REQUEST ∧ r.2.m_check_state ≠ CHECK_STATE.CHECK_STATE_CONTENT ∧
      resumable B.length r.2 ∧ r.2.m_read_idx = st.m_read_idx ∧
      process_read_step cfg fs LINE_STATUS.LINE_OK (feed st B)
        = Sum.inl (some (r.1, feed r.2 B))
    | Sum.inr c =>
      c.1 = LINE_STATUS.LINE_OK ∧ resumable B.length c.2 ∧ c.2.m_read_idx = st.m_read_idx ∧
      process_read_step cfg fs LINE_STATUS.LINE_OK (feed st B)
        = Sum.inr (LINE_STATUS.LINE_OK, feed c.2 B) ∧
      (c.2.m_check_state = CHECK_STATE.CHECK_STATE_CONTENT → c.2.m_content_length ≠ 0) := by
  obtain ⟨hfit, hsl, hcr, hu, hh⟩ := hres
  have hplf := parse_line_feed B st hfit (by rw [hok]; decide)
  obtain ⟨buf1, c1, hfr, hle, hbl, hok2⟩ := parse_line_frame st
  obtain ⟨hc1, hc2⟩ := hok2 hok
  obtain ⟨hz, hnul0⟩ := parse_line_nul st
  have hnul := hnul0 hok
  clear hnul0
  rw [step_scan cfg fs LINE_STATUS.LINE_OK st (fun h => hcs h.1),
    step_scan cfg fs LINE_STATUS.LINE_OK (feed st B) (fun h => hcs h.1), hplf]
  rw [hfr] at hnul hz ⊢
  rw [hok]
  clear hplf hfr hok2 hok
  obtain ⟨sockfd, buf, ridx, cidx, sline, cs, meth, rf, url, ver, host, cl, lg, wbuf, widx, fa,
    fst, iv0, iv1, ivc⟩ := st
  simp only [] at hfit hsl hcr hu hh hle hbl hc1 hc2 hz hnul hcs
  simp only [feed, ne_eq, not_true_eq_false, if_false]
  have hS : ∀ cs0, resumable B.length
      ⟨sockfd, buf1, ridx, c1, c1, cs0, meth, rf, url, ver, host, cl, lg, wbuf, widx, fa, fst,
        iv0, iv1, ivc⟩ := fun cs0 =>
    ⟨by show ridx + B.length ≤ buf1.length; omega, le_refl _, hc2,
      terminated_mono _ _ _ _ hz hu, terminated_mono _ _ _ _ hz hh⟩
  cases cs with
  | CHECK_STATE_CONTENT => exact absurd rfl hcs
  | CHECK_STATE_REQUESTLINE =>
    simp only []
    obtain ⟨hP, hR, hI, hL, hC⟩ := parse_request_line_resumable B _ sline (c1 - 1)
      (hS CHECK_STATE.CHECK_STATE_REQUESTLINE) (by omega)
      (by show c1 - 1 < ridx; omega) hnul
    simp only [feed] at hP
    rw [hP]
    generalize parse_request_line
      ⟨sockfd, buf1, ridx, c1, c1, CHECK_STATE.CHECK_STATE_REQUESTLINE, meth, rf, url, ver, host,
        cl, lg, wbuf, widx, fa, fst, iv0, iv1, ivc⟩ sline = r at hR hI hL hC ⊢
    obtain ⟨code, s2⟩ := r
    simp only [] at hR hI hL hC ⊢
    have hnc : ¬ s2.m_check_state = CHECK_STATE.CHECK_STATE_CONTENT := by
      rcases hC with h | h <;> rw [h] <;> decide
    by_cases hb : code = HTTP_CODE.BAD_REQUEST
    · subst hb
      simp only [if_pos (rfl : HTTP_CODE.BAD_REQUEST = HTTP_CODE.BAD_REQUEST)]
      exact ⟨fun h => (by cases h), hnc, hR, hI, (by first | trivial | rfl)⟩
    · simp only [if_neg hb]
      exact ⟨by first | trivial | rfl, hR, hI, by first | trivial | rfl,
        fun h => absurd h hnc⟩
  | CHECK_STATE_HEADER =>
    simp only []
    obtain ⟨hP, hR, hI, hG, hC⟩ := parse_headers_resumable B _ sline (c1 - 1)
      (hS CHECK_STATE.CHECK_STATE_HEADER) (by omega)
      (by show c1 - 1 < ridx; omega) hnul
    simp only [feed] at hP
    rw [hP]
    generalize hgen : parse_headers
      ⟨sockfd, buf1, ridx, c1, c1, CHECK_STATE.CHECK_STATE_HEADER, meth, rf, url, ver, host,
        cl, lg, wbuf, widx, fa, fst, iv0, iv1, ivc⟩ sline = r at hR hI hG hC ⊢
    obtain ⟨code, s2⟩ := r
    simp only [] at hR hI hG hC ⊢
    rcases hG with hn | ⟨hg, hs2⟩
    · subst hn
      simp only [if_neg (by decide : ¬ HTTP_CODE.NO_REQUEST = HTTP_CODE.BAD_REQUEST),
        if_neg (by decide : ¬ HTTP_CODE.NO_REQUEST = HTTP_CODE.GET_REQUEST)]
      refine ⟨by first | trivial | rfl, hR, hI, by first | trivial | rfl, fun h => ?_⟩
      rcases hC with h2 | h2
      · rw [h2] at h; cases h
      · exact h2.2
    · subst hg
      simp only [if_neg (by decide : ¬ HTTP_CODE.GET_REQUEST = HTTP_CODE.BAD_REQUEST),
        if_pos (rfl : HTTP_CODE.GET_REQUEST = HTTP_CODE.GET_REQUEST)]
      obtain ⟨hD, hDR, hDI, hDC, hDN⟩ := do_request_resumable cfg fs B s2 hR
      have hfeed : (⟨s2.m_sockfd, write_at s2.m_read_buf s2.m_read_idx B,
          s2.m_read_idx + B.length, s2.m_checked_idx, s2.m_start_line, s2.m_check_state,
          s2.m_method, s2.m_real_file, s2.m_url, s2.m_version, s2.m_host, s2.m_content_length,
          s2.m_linger, s2.m_write_buf, s2.m_write_idx, s2.m_file_address, s2.m_file_stat,
          s2.m_iv0, s2.m_iv1, s2.m_iv_count⟩ : http_conn) = feed s2 B := rfl
      rw [hfeed, hD]
      refine ⟨hDN, ?_, hDR, hDI.trans hI, rfl⟩
      rw [hDC, hs2]
      exact fun h => by cases h

end WebServer
namespace WebServer
open http_conn

/-! ## A request that arrives in two pieces -/

theorem loop_agree (cfg : Limits) (fs : FileSystem) (f g : Nat) (ls : LINE_STATUS)
    (st : http_conn) (r1 r2 : HTTP_CODE × http_conn)
    (h1 : process_read_loop cfg fs f ls st = some r1)
    (h2 : process_read_loop cfg fs g ls st = some r2) : r1 = r2 := by
  have e1 := loop_mono cfg fs f ls st r1 g h1
  have e2 := loop_mono cfg fs g ls st r2 f h2
  rw [Nat.add_comm] at e2
  rw [e1] at e2
  exact Option.some.inj e2

theorem loop_zero (cfg : Limits) (fs : FileSystem) (ls : LINE_STATUS) (st : http_conn) :
    process_read_loop cfg fs 0 ls st = none := rfl

/-- The loop of `process_read` on the first piece of a request, when `B` is what arrives
later.  If it returns a result other than `NO_REQUEST` without entering the content state, the
loop on the whole request returns the same result and the same connection (with `B` in its
buffer).  If it returns `NO_REQUEST` outside the content state, the loop on the whole request
returns what the loop returns when it is called again after `B` has arrived.  Otherwise the
content length is not zero, in this run and at the end of any run on the whole request. -/
theorem loop_resume (cfg : Limits) (fs : FileSystem) (B : List Nat) (f : Nat) :
    ∀ (st : http_conn) (c1 : HTTP_CODE) (s1 : http_conn),
      resumable B.length st → st.m_check_state ≠ CHECK_STATE.CHECK_STATE_CONTENT →
      process_read_loop cfg fs f LINE_STATUS.LINE_OK st = some (c1, s1) →
      (s1.m_check_state ≠ CHECK_STATE.CHECK_STATE_CONTENT ∧ resumable B.length s1 ∧
        s1.m_read_idx = st.m_read_idx ∧
        ((c1 ≠ HTTP_CODE.NO_REQUEST ∧
            process_read_loop cfg fs f LINE_STATUS.LINE_OK (feed st B) = some (c1, feed s1 B)) ∨
          (c1 = HTTP_CODE.NO_REQUEST ∧
            ∀ g r, process_read_loop cfg fs g LINE_STATUS.LINE_OK (feed s1 B) = some r →
              process_read_loop cfg fs (f + g) LINE_STATUS.LINE_OK (feed st B) = some r))) ∨
      (s1.m_content_length ≠ 0 ∧
        ∀ g r, process_read_loop cfg fs g LINE_STATUS.LINE_OK (feed st B) = some r →
          r.2.m_content_length ≠ 0) := by
  induction f with
  | zero => intro st c1 s1 _ _ h; cases h
  | succ f ih =>
    intro st c1 s1 hres hcs h
    rw [loop_succ] at h
    by_cases hok : (parse_line st).1 = LINE_STATUS.LINE_OK
    · have hstep := step_feed_line cfg fs B st hres hcs hok
      cases hs : process_read_step cfg fs LINE_STATUS.LINE_OK st with
      | inl r =>
        rw [hs] at h hstep
        simp only [Option.some.injEq] at h
        subst h
        simp only [] at hstep
        obtain ⟨h1, h2, h3, h4, h5⟩ := hstep
        refine Or.inl ⟨h2, h3, h4, Or.inl ⟨h1, ?_⟩⟩
        rw [loop_succ, h5]
      | inr c =>
        rw [hs] at h hstep
        simp only [] at h hstep
        obtain ⟨h1, h2, h3, h4, h5⟩ := hstep
        rw [h1] at h
        by_cases hcc : c.2.m_check_state = CHECK_STATE.CHECK_STATE_CONTENT
        · obtain ⟨-, -, -, hcl, -⟩ := loop_content_frame cfg fs f _ _ _ hcc h
          refine Or.inr ⟨?_, ?_⟩
          · show s1.m_content_length ≠ 0
            have : s1.m_content_length = c.2.m_content_length := hcl
            rw [this]; exact h5 hcc
          · intro g r hg
            cases g with
            | zero => cases hg
            | succ g =>
              rw [loop_succ, h4] at hg
              simp only [] at hg
              obtain ⟨-, -, -, hcl2, -⟩ := loop_content_frame cfg fs g _ _ _
                (show (feed c.2 B).m_check_state = CHECK_STATE.CHECK_STATE_CONTENT from hcc) hg
              have : r.2.m_content_length = c.2.m_content_length := hcl2
              rw [this]; exact h5 hcc
        · rcases ih c.2 c1 s1 h2 hcc h with ⟨k1, k2, k3, k4⟩ | ⟨k1, k2⟩
          · refine Or.inl ⟨k1, k2, k3.trans h3, ?_⟩
            rcases k4 with ⟨k5, k6⟩ | ⟨k5, k6⟩
            · refine Or.inl ⟨k5, ?_⟩
              rw [loop_succ, h4]
              exact k6
            · refine Or.inr ⟨k5, ?_⟩
              intro g r hg
              have e : f + 1 + g = f + g + 1 := by omega
              rw [e, loop_succ, h4]
              exact k6 g r hg
          · refine Or.inr ⟨k1, ?_⟩
            intro g r hg
            cases g with
            | zero => cases hg
            | succ g =>
              rw [loop_succ, h4] at hg
              exact k2 g r hg
    · obtain ⟨s', hstep, hR, hI, hC, hfd⟩ := step_feed_open cfg fs B st hres hcs hok
      rw [hstep] at h
      simp only [Option.some.injEq, Prod.mk.injEq] at h
      obtain ⟨hc, hs⟩ := h
      subst hc
      subst hs
      refine Or.inl ⟨by rw [hC]; exact hcs, hR, hI, Or.inr ⟨rfl, ?_⟩⟩
      intro g r hg
      cases g with
      | zero => cases hg
      | succ g =>
        rw [loop_succ, ← hfd, ← loop_succ] at hg
        have := loop_mono cfg fs (g + 1) _ _ r (f + 1) hg
        have e : f + 1 + (g + 1) = g + 1 + (f + 1) := by omega
        rw [e]
        exact this

/-- The loop of `process_read` on the first piece of a request comes to a store outside the
read buffer: it has entered the content state, and any run on the whole request that returns
ends with a content length other than zero. -/
theorem loop_resume_bad (cfg : Limits) (fs : FileSystem) (B : List Nat) (f : Nat) :
    ∀ (st : http_conn),
      resumable B.length st → st.m_check_state ≠ CHECK_STATE.CHECK_STATE_CONTENT →
      process_read_bad_store cfg fs f LINE_STATUS.LINE_OK st = true →
      ∀ g r, process_read_loop cfg fs g LINE_STATUS.LINE_OK (feed st B) = some r →
        r.2.m_content_length ≠ 0 := by
  induction f with
  | zero => intro st _ _ h; simp [process_read_bad_store] at h
  | succ f ih =>
    intro st hres hcs hb
    rw [bad_store_succ] at hb
    by_cases hok : (parse_line st).1 = LINE_STATUS.LINE_OK
    · have hstep := step_feed_line cfg fs B st hres hcs hok
      cases hs : process_read_step cfg fs LINE_STATUS.LINE_OK st with
      | inl r =>
        rw [hs] at hb hstep
        cases r with
        | none => exact absurd hstep (fun h => h)
        | some x => cases hb
      | inr c =>
        rw [hs] at hb hstep
        simp only [] at hb hstep
        obtain ⟨h1, h2, h3, h4, h5⟩ := hstep
        rw [h1] at hb
        by_cases hcc : c.2.m_check_state = CHECK_STATE.CHECK_STATE_CONTENT
        · intro g r hg
          cases g with
          | zero => cases hg
          | succ g =>
            rw [loop_succ, h4] at hg
            simp only [] at hg
            obtain ⟨-, -, -, hcl2, -⟩ := loop_content_frame cfg fs g _ _ _
              (show (feed c.2 B).m_check_state = CHECK_STATE.CHECK_STATE_CONTENT from hcc) hg
            have : r.2.m_content_length = c.2.m_content_length := hcl2
            rw [this]; exact h5 hcc
        · intro g r hg
          cases g with
          | zero => cases hg
          | succ g =>
            rw [loop_succ, h4] at hg
            exact ih c.2 h2 hcc hb g r hg
    · obtain ⟨s', hstep, -, -, -, -⟩ := step_feed_open cfg fs B st hres hcs hok
      rw [hstep] at hb
      cases hb

/-- The loop of `process_read` on the first piece of a request returns `NO_REQUEST` outside
the content state: if the loop, called again after `B` has arrived, comes to a store outside
the read buffer, so does the loop on the whole request. -/
theorem loop_resume_second_bad (cfg : Limits) (fs : FileSystem) (B : List Nat) (f : Nat) :
    ∀ (st s1 : http_conn),
      resumable B.length st → st.m_check_state ≠ CHECK_STATE.CHECK_STATE_CONTENT →
      process_read_loop cfg fs f LINE_STATUS.LINE_OK st = some (HTTP_CODE.NO_REQUEST, s1) →
      s1.m_check_state ≠ CHECK_STATE.CHECK_STATE_CONTENT →
      ∀ g, process_read_bad_store cfg fs g LINE_STATUS.LINE_OK (feed s1 B) = true →
        process_read_bad_store cfg fs (f + g) LINE_STATUS.LINE_OK (feed st B) = true := by
  induction f with
  | zero => intro st s1 _ _ h; cases h
  | succ f ih =>
    intro st s1 hres hcs h hs1
    rw [loop_succ] at h
    by_cases hok : (parse_line st).1 = LINE_STATUS.LINE_OK
    · have hstep := step_feed_line cfg fs B st hres hcs hok
      cases hs : process_read_step cfg fs LINE_STATUS.LINE_OK st with
      | inl r =>
        rw [hs] at h hstep
        cases r with
        | none => exact absurd hstep (fun h => h)
        | some x =>
          simp only [Option.some.injEq] at h
          subst h
          exact absurd rfl hstep.1
      | inr c =>
        rw [hs] at h hstep
        simp only [] at h hstep
        obtain ⟨h1, h2, h3, h4, h5⟩ := hstep
        rw [h1] at h
        by_cases hcc : c.2.m_check_state = CHECK_STATE.CHECK_STATE_CONTENT
        · obtain ⟨-, -, -, -, hcf⟩ := loop_content_frame cfg fs f _ _ _ hcc h
          exact absurd hcf hs1
        · intro g hg
          have e : f + 1 + g = f + g + 1 := by omega
          rw [e, bad_store_succ, h4]
          exact ih c.2 s1 h2 hcc h hs1 g hg
    · obtain ⟨s', hstep, hR, hI, hC, hfd⟩ := step_feed_open cfg fs B st hres hcs hok
      rw [hstep] at h
      simp only [Option.some.injEq, Prod.mk.injEq, true_and] at h
      subst h
      intro g hg
      cases g with
      | zero => simp [process_read_bad_store] at hg
      | succ g =>
        rw [bad_store_succ, ← hfd, ← bad_store_succ] at hg
        have := bad_store_mono cfg fs (g + 1) _ _ (f + 1) hg
        have e : f + 1 + (g + 1) = g + 1 + (f + 1) := by omega
        rw [e]
        exact this

end WebServer
namespace WebServer
open http_conn

theorem write_at_nil (buf : List Nat) (n : Nat) : write_at buf n [] = buf := by
  unfold write_at
  simp

theorem feed_nil (st : http_conn) : feed st [] = st := by
  obtain ⟨sockfd, buf, ridx, cidx, sline, cs, meth, rf, url, ver, host, cl, lg, wbuf, widx, fa,
    fst, iv0, iv1, ivc⟩ := st
  simp only [feed, write_at_nil, List.length_nil, Nat.add_zero]

theorem write_at_write_at (buf : List Nat) (n : Nat) (A B : List Nat)
    (h : n + A.length + B.length ≤ buf.length) :
    write_at (write_at buf n A) (n + A.length) B = write_at buf n (A ++ B) := by
  have hA : n + A.length ≤ buf.length := by omega
  rw [write_at_fit (write_at buf n A) (n + A.length) B (by rw [write_at_length]; exact h),
    write_at_fit buf n A hA,
    write_at_fit buf n (A ++ B) (by rw [List.length_append]; omega)]
  have hl : (buf.take n ++ A).length = n + A.length := by
    rw [List.length_append, List.length_take]; omega
  have e1 : buf.take n ++ (A ++ buf.drop (n + A.length))
      = (buf.take n ++ A) ++ buf.drop (n + A.length) := by rw [List.append_assoc]
  rw [e1, List.take_left' hl]
  have e2 : n + A.length + B.length = (buf.take n ++ A).length + B.length := by rw [hl]
  rw [e2, List.drop_append, List.drop_drop, List.length_append, List.append_assoc,
    List.append_assoc]
  congr 3
  rw [Nat.add_assoc]

theorem feed_feed (st : http_conn) (A B : List Nat)
    (h : st.m_read_idx + A.length + B.length ≤ st.m_read_buf.length) :
    feed (feed st A) B = feed st (A ++ B) := by
  obtain ⟨sockfd, buf, ridx, cidx, sline, cs, meth, rf, url, ver, host, cl, lg, wbuf, widx, fa,
    fst, iv0, iv1, ivc⟩ := st
  simp only [] at h
  simp only [feed]
  rw [write_at_write_at buf ridx A B h, List.length_append, Nat.add_assoc]

/-- One `recv` whose bytes fit in the read buffer: `read` stores them behind the bytes
already received. -/
theorem read_feed (cfg : Limits) (st : http_conn) (B : List Nat)
    (h : st.m_read_idx + B.length ≤ cfg.READ_BUFFER_SIZE) :
    (read cfg st [recv_result.data B]).2 = feed st B := by
  unfold http_conn.read
  by_cases h1 : st.m_read_idx ≥ cfg.READ_BUFFER_SIZE
  · rw [if_pos h1]
    have hB : B = [] := List.length_eq_zero.1 (by omega)
    subst hB
    exact (feed_nil st).symm
  · rw [if_neg h1]
    unfold read_loop
    simp only []
    rw [List.take_of_length_le (by omega)]
    by_cases h2 : B.length = 0
    · rw [if_pos h2]
      have hB : B = [] := List.length_eq_zero.1 h2
      subst hB
      exact (feed_nil st).symm
    · rw [if_neg h2]
      rfl

theorem str_at_feed (st : http_conn) (B : List Nat) (p : Option Nat)
    (hfit : st.m_read_idx + B.length ≤ st.m_read_buf.length)
    (hp : terminated st.m_read_buf st.m_read_idx p) :
    (feed st B).str_at p = st.str_at p := by
  cases p with
  | none => rfl
  | some q =>
    obtain ⟨i, h1, h2, h3⟩ := hp q rfl
    show some (cstr (write_at st.m_read_buf st.m_read_idx B) q) = some (cstr st.m_read_buf q)
    rw [cstr_write_at _ _ _ q i hfit h1 h2 h3]

theorem terminated_none (buf : List Nat) (n : Nat) : terminated buf n none :=
  fun q hq => by cases hq

/-- The connection after `init()` and a first `recv` can take a second piece `B`. -/
theorem received_resumable (cfg : Limits) (st0 : http_conn) (A B : List Nat)
    (hsz : Sized cfg st0) (hfit : (A ++ B).length ≤ cfg.READ_BUFFER_SIZE) :
    resumable B.length (feed (init cfg st0) A) ∧
    (feed (init cfg st0) A).m_check_state ≠ CHECK_STATE.CHECK_STATE_CONTENT ∧
    (feed (init cfg st0) A).m_read_idx = A.length ∧
    (feed (init cfg st0) A).m_checked_idx = 0 := by
  rw [List.length_append] at hfit
  have hlen : (init cfg st0).m_read_buf.length = cfg.READ_BUFFER_SIZE := by
    simp only [init, bzero]; rw [write_at_length]; exact hsz.1
  refine ⟨⟨?_, le_refl _, Nat.zero_le _, terminated_none _ _, terminated_none _ _⟩,
    fun h => (by cases h), ?_, rfl⟩
  · show 0 + A.length + B.length ≤ (write_at (init cfg st0).m_read_buf 0 A).length
    rw [write_at_length, hlen]
    omega
  · show 0 + A.length = A.length
    omega

end WebServer
namespace WebServer
open http_conn

/-- C9 (counterexample): the request `POST /index.html HTTP/1.1` with a `Host` header, whose
content length stays 0, split inside the `Host` value: the first piece does not contain the
blank line that ends the header section, and yet `process_read` on it returns `BAD_REQUEST`,
not `NO_REQUEST`. -/
theorem C9_first_chunk_counterexample :
    ¬ ([13, 10, 13, 10] <:+: bytes "POST /index.html HTTP/1.1\r\nHost: lo") ∧
    (process_read small_limits scenario_fs
        (received small_limits
          (bytes "POST /index.html HTTP/1.1\r\nHost: lo" ++ bytes "calhost\r\n\r\n"))).map
      (fun r => r.2.m_content_length) = some 0 ∧
    (process_read small_limits scenario_fs
        (received small_limits (bytes "POST /index.html HTTP/1.1\r\nHost: lo"))).map Prod.fst
      = some HTTP_CODE.BAD_REQUEST := by
  decide

/-- C9 (amended): a request `A ++ B` that fits in the read buffer and on which the single
call of `process_read` returns with content length 0, received after `init()` either in one
piece or as `A` and then `B`, with `process_read` called after each `read`.  The first call
returns; if its result is not `NO_REQUEST`, the call on the whole request returns the same
result with the same url, host and linger; if it is `NO_REQUEST`, the second call returns
the result of the call on the whole request and leaves the same connection.  And the first
call returns `NO_REQUEST` whenever `A` ends before the offset at which the scanner stands
after the call on the whole request. -/
theorem C9_two_chunks (cfg : Limits) (fs : FileSystem) (st0 : http_conn) (A B : List Nat)
    (hsz : Sized cfg st0) (hfit : (A ++ B).length ≤ cfg.READ_BUFFER_SIZE)
    (hcl : (process_read cfg fs
        (read cfg (init cfg st0) [recv_result.data (A ++ B)]).2).map
          (fun r => r.2.m_content_length) = some 0) :
    ∃ (c1 : HTTP_CODE) (s1 : http_conn) (cw : HTTP_CODE) (sw : http_conn),
      process_read cfg fs (read cfg (init cfg st0) [recv_result.data A]).2 = some (c1, s1) ∧
      process_read cfg fs (read cfg (init cfg st0) [recv_result.data (A ++ B)]).2
        = some (cw, sw) ∧
      (c1 ≠ HTTP_CODE.NO_REQUEST →
        cw = c1 ∧ sw.str_at sw.m_url = s1.str_at s1.m_url ∧
        sw.str_at sw.m_host = s1.str_at s1.m_host ∧ sw.m_linger = s1.m_linger) ∧
      (c1 = HTTP_CODE.NO_REQUEST →
        process_read cfg fs (read cfg s1 [recv_result.data B]).2 = some (cw, sw)) ∧
      (A.length < sw.m_checked_idx → c1 = HTTP_CODE.NO_REQUEST) := by
  obtain ⟨hR, hcs, hri, hci⟩ := received_resumable cfg st0 A B hsz hfit
  have hlen : (init cfg st0).m_read_buf.length = cfg.READ_BUFFER_SIZE := by
    simp only [init, bzero]; rw [write_at_length]; exact hsz.1
  have hfit2 : A.length + B.length ≤ cfg.READ_BUFFER_SIZE := by
    rw [List.length_append] at hfit; exact hfit
  have hA : (read cfg (init cfg st0) [recv_result.data A]).2 = feed (init cfg st0) A :=
    read_feed cfg _ A (by show 0 + A.length ≤ _; omega)
  have hAB : (read cfg (init cfg st0) [recv_result.data (A ++ B)]).2
      = feed (feed (init cfg st0) A) B := by
    rw [feed_feed _ A B (by rw [hlen]; show 0 + A.length + B.length ≤ _; omega)]
    exact read_feed cfg _ (A ++ B) (by show 0 + (A ++ B).length ≤ _; omega)
  rw [hAB] at hcl
  rw [hA, hAB]
  obtain ⟨⟨cw, sw⟩, hw, hsw⟩ : ∃ r, process_read cfg fs (feed (feed (init cfg st0) A) B) = some r ∧
      r.2.m_content_length = 0 := by
    cases hp : process_read cfg fs (feed (feed (init cfg st0) A) B) with
    | none => rw [hp] at hcl; cases hcl
    | some r =>
      rw [hp] at hcl
      simp only [Option.map_some', Option.some.injEq] at hcl
      exact ⟨r, rfl, hcl⟩
  simp only [] at hsw
  rcases process_read_total cfg fs (feed (init cfg st0) A) with ⟨⟨c1, s1⟩, h1, -⟩ | ⟨-, hbad⟩
  · refine ⟨c1, s1, cw, sw, h1, hw, ?_⟩
    rcases loop_resume cfg fs B _ _ c1 s1 hR hcs h1 with ⟨k0, k2, k3, k4⟩ | ⟨k1, k2⟩
    · obtain ⟨r1, r2, r3, r4, r5⟩ := k2
      have hrd : (read cfg s1 [recv_result.data B]).2 = feed s1 B :=
        read_feed cfg s1 B (by rw [k3, hri]; exact hfit2)
      rw [hrd]
      rcases k4 with ⟨k5, k6⟩ | ⟨k5, k6⟩
      · have e := loop_agree _ _ _ _ _ _ _ _ k6 hw
        obtain ⟨e1, e2⟩ := Prod.mk.inj e
        subst e1
        subst e2
        refine ⟨fun _ => ⟨rfl, str_at_feed s1 B _ r1 r4, str_at_feed s1 B _ r1 r5, rfl⟩,
          fun h => absurd h k5, fun hlt => ?_⟩
        exfalso
        have hlt2 : A.length < s1.m_checked_idx := hlt
        rw [k3, hri] at r3
        omega
      · refine ⟨fun h => absurd k5 h, fun _ => ?_, fun _ => k5⟩
        subst k5
        rcases process_read_total cfg fs (feed s1 B) with ⟨r2', h2, -⟩ | ⟨-, hbad2⟩
        · have e := loop_agree _ _ _ _ _ _ _ _ (k6 _ _ h2) hw
          rw [h2, e]
        · exfalso
          have hb := loop_resume_second_bad cfg fs B _ _ s1 hR hcs h1 k0 _ hbad2
          exact bad_store_no_result cfg fs _ _ _ _ _ hb hw
    · exact absurd hsw (k2 _ _ hw)
  · exfalso
    exact loop_resume_bad cfg fs B _ _ hR hcs hbad _ _ hw hsw

/-- Witness of C9: the first scenario of the specification, split inside the `Host` value. -/
theorem C9_two_chunks_witness :
    ∃ (c1 : HTTP_CODE) (s1 : http_conn) (cw : HTTP_CODE) (sw : http_conn),
      process_read small_limits scenario_fs
        (read small_limits (init small_limits (blank small_limits))
          [recv_result.data (bytes "GET /index.html HTTP/1.1\r\nHost: lo")]).2 = some (c1, s1) ∧
      process_read small_limits scenario_fs
        (read small_limits (init small_limits (blank small_limits))
          [recv_result.data (bytes "GET /index.html HTTP/1.1\r\nHost: lo" ++
            bytes "calhost\r\nConnection: keep-alive\r\n\r\n")]).2 = some (cw, sw) ∧
      (c1 ≠ HTTP_CODE.NO_REQUEST →
        cw = c1 ∧ sw.str_at sw.m_url = s1.str_at s1.m_url ∧
        sw.str_at sw.m_host = s1.str_at s1.m_host ∧ sw.m_linger = s1.m_linger) ∧
      (c1 = HTTP_CODE.NO_REQUEST →
        process_read small_limits scenario_fs
          (read small_limits s1
            [recv_result.data (bytes "calhost\r\nConnection: keep-alive\r\n\r\n")]).2
          = some (cw, sw)) ∧
      ((bytes "GET /index.html HTTP/1.1\r\nHost: lo").length < sw.m_checked_idx →
        c1 = HTTP_CODE.NO_REQUEST) :=
  C9_two_chunks small_limits scenario_fs (blank small_limits)
    (bytes "GET /index.html HTTP/1.1\r\nHost: lo")
    (bytes "calhost\r\nConnection: keep-alive\r\n\r\n") (blank_sized small_limits)
    (by decide) (by decide)

end WebServer
namespace WebServer
open http_conn

/-! ## A body that arrives in pieces -/

/-- C11 (the code at the failing input): a request with `Content-Length: 5` whose body arrives
as `he` and then `llo`.  The first call of `process_read` returns `NO_REQUEST` and leaves the
scanner behind the two body bytes it has seen; after the second `read` five bytes follow the
blank line (which ends at offset 47, with 52 bytes received), and `process_read` still returns
`NO_REQUEST`.  The same bytes received in one piece give `FILE_REQUEST`, and so does the body
received in one piece after the head. -/
theorem C11_partial_body_stalls :
    (process_read small_limits scenario_fs
        (received small_limits
          (bytes "GET /index.html HTTP/1.1\r\nContent-Length: 5\r\n\r\nhe"))).map
      (fun r => (r.1, r.2.m_checked_idx, r.2.m_read_idx))
      = some (HTTP_CODE.NO_REQUEST, 49, 49) ∧
    ((process_read small_limits scenario_fs
        (received small_limits
          (bytes "GET /index.html HTTP/1.1\r\nContent-Length: 5\r\n\r\nhe"))).bind
      (fun r => process_read small_limits scenario_fs
        (read small_limits r.2 [recv_result.data (bytes "llo")]).2)).map
      (fun r => (r.1, r.2.m_content_length, r.2.m_read_idx))
      = some (HTTP_CODE.NO_REQUEST, 5, 52) ∧
    (process_read small_limits scenario_fs
        (received small_limits
          (bytes "GET /index.html HTTP/1.1\r\nContent-Length: 5\r\n\r\nhello"))).map Prod.fst
      = some HTTP_CODE.FILE_REQUEST ∧
    ((process_read small_limits scenario_fs
        (received small_limits
          (bytes "GET /index.html HTTP/1.1\r\nContent-Length: 5\r\n\r\n"))).bind
      (fun r => process_read small_limits scenario_fs
        (read small_limits r.2 [recv_result.data (bytes "hello")]).2)).map Prod.fst
      = some HTTP_CODE.FILE_REQUEST := by
  decide

end WebServer
namespace WebServer
open http_conn

/-! ## The write loop -/

set_option maxRecDepth 100000 in
/-- C12 (the code at the failing input): a prepared 404 response of 143 bytes on a keep-alive
connection.  When the first `writev` accepts 90 bytes, `write` reports the response complete
(it returns `true` and rearms for reading) although only the first 90 bytes were sent.  When
the first `writev` accepts 10 bytes and the second accepts everything offered, the second
call offers the whole response again: the socket has accepted the first 10 bytes twice. -/
theorem C12_write_partial :
    sample_response.gather.length = 143 ∧
    (write small_limits sample_response [writev_result.accepted 90]).ret = true ∧
    (write small_limits sample_response [writev_result.accepted 90]).effects
      = [effect.modfd 5 EPOLL_EVENTS.EPOLLIN] ∧
    (write small_limits sample_response [writev_result.accepted 90]).sent
      = sample_response.gather.take 90 ∧
    (write small_limits sample_response
        [writev_result.accepted 10, writev_result.accepted 200]).effects
      = [effect.modfd 5 EPOLL_EVENTS.EPOLLIN] ∧
    (write small_limits sample_response
        [writev_result.accepted 10, writev_result.accepted 200]).sent
      = sample_response.gather.take 10 ++ sample_response.gather := by
  decide

end WebServer
namespace WebServer
open http_conn

/-! ## `write()` resets the connection -/

theorem init_initial_values (cfg : Limits) (st : http_conn)
    (hsz : st.m_read_buf.length = cfg.READ_BUFFER_SIZE) : initial_values cfg (init cfg st) :=
  ⟨rfl, rfl, rfl, rfl, rfl, rfl, rfl, rfl, rfl, rfl, bzero_full _ _ hsz⟩

theorem unmap_frame (st : http_conn) :
    ∃ fa, unmap st = { st with m_file_address := fa } := by
  obtain ⟨sockfd, buf, ridx, cidx, sline, cs, meth, rf, url, ver, host, cl, lg, wbuf, widx, fa,
    fst, iv0, iv1, ivc⟩ := st
  cases fa with
  | none => exact ⟨none, rfl⟩
  | some a => exact ⟨none, rfl⟩

/-- A run of the write loop that ends with a rearm for reading on a keep-alive connection has
completed the response: it returns `true` and leaves the connection `init()` gives. -/
theorem write_loop_reset (cfg : Limits) (socket : List writev_result) :
    ∀ (st : http_conn) (a b : Int) (sent : List Nat),
      st.m_linger = true →
      (write_loop cfg socket st a b sent).effects
        = [effect.modfd st.m_sockfd EPOLL_EVENTS.EPOLLIN] →
      (write_loop cfg socket st a b sent).ret = true ∧
      (write_loop cfg socket st a b sent).conn = init cfg (unmap st) := by
  induction socket with
  | nil => intro st a b sent _ h; simp [write_loop] at h
  | cons o rest ih =>
    intro st a b sent hl h
    cases o with
    | would_block => simp [write_loop] at h
    | error => simp [write_loop] at h
    | accepted n =>
      unfold write_loop at h ⊢
      simp only [] at h ⊢
      by_cases hc : to_int (a - to_int (List.take n st.gather).length)
          ≤ to_int (b + to_int (List.take n st.gather).length)
      · rw [if_pos hc] at h ⊢
        have hlu : (unmap st).m_linger = true := by
          obtain ⟨fa, hfa⟩ := unmap_frame st
          rw [hfa]; exact hl
        rw [if_pos hlu]
        exact ⟨rfl, rfl⟩
      · rw [if_neg hc] at h ⊢
        exact ih st _ _ _ hl h

/-- C13: `write()` on a connection whose read buffer has `READ_BUFFER_SIZE` bytes.  Entered
with `m_write_idx = 0` it rearms for reading, returns `true` and leaves every cursor and
parser field at its initial value, with a read buffer of zero bytes; and so does a call that
completes a response (it ends with the rearm for reading) on a connection whose linger flag
is set. -/
theorem C13_write_reset (cfg : Limits) (st : http_conn) (socket : List writev_result)
    (hsz : st.m_read_buf.length = cfg.READ_BUFFER_SIZE) :
    (st.m_write_idx = 0 →
      (write cfg st socket).effects = [effect.modfd st.m_sockfd EPOLL_EVENTS.EPOLLIN] ∧
      (write cfg st socket).ret = true ∧ initial_values cfg (write cfg st socket).conn) ∧
    (st.m_linger = true →
      (write cfg st socket).effects = [effect.modfd st.m_sockfd EPOLL_EVENTS.EPOLLIN] →
      (write cfg st socket).ret = true ∧ initial_values cfg (write cfg st socket).conn) := by
  constructor
  · intro h0
    have hz : to_int (st.m_write_idx : Int) = 0 := by rw [h0]; rfl
    unfold http_conn.write
    rw [if_pos hz]
    exact ⟨rfl, rfl, init_initial_values cfg st hsz⟩
  · intro hl h
    unfold http_conn.write at h ⊢
    by_cases hz : to_int (st.m_write_idx : Int) = 0
    · rw [if_pos hz]
      exact ⟨rfl, init_initial_values cfg st hsz⟩
    · rw [if_neg hz] at h ⊢
      obtain ⟨h1, h2⟩ := write_loop_reset cfg socket st _ _ _ hl h
      refine ⟨h1, ?_⟩
      rw [h2]
      apply init_initial_values
      obtain ⟨fa, hfa⟩ := unmap_frame st
      rw [hfa]; exact hsz

set_option maxRecDepth 100000 in
/-- Witness of C13: the prepared 404 response on a keep-alive connection, sent in one
`writev`. -/
theorem C13_write_reset_witness :
    (write small_limits sample_response [writev_result.accepted 200]).ret = true ∧
    initial_values small_limits
      (write small_limits sample_response [writev_result.accepted 200]).conn :=
  (C13_write_reset small_limits sample_response [writev_result.accepted 200]
    (by decide)).2 (by decide) (by decide)

end WebServer
namespace WebServer
open http_conn

/-- What the scanner's loop leaves: after `LINE_OK` at the new offset `c`, the bytes at
`c - 2` and `c - 1` were CR and LF and are the only ones written; otherwise only the offset
has moved. -/
theorem parse_line_loop_cases (k : Nat) : ∀ (st : http_conn),
    ((parse_line_loop k st).1 = LINE_STATUS.LINE_OK →
      ∃ c, (parse_line_loop k st).2 =
          { st with
            m_read_buf := (st.m_read_buf.set (c - 2) 0).set (c - 1) 0
            m_checked_idx := c } ∧
        2 ≤ c ∧ st.m_checked_idx < c ∧ c ≤ st.m_read_idx ∧
        st.m_read_buf.getD (c - 2) 0 = 13 ∧ st.m_read_buf.getD (c - 1) 0 = 10) ∧
    ((parse_line_loop k st).1 ≠ LINE_STATUS.LINE_OK →
      ∃ c, (parse_line_loop k st).2 = { st with m_checked_idx := c } ∧
        st.m_checked_idx ≤ c ∧ (st.m_checked_idx ≤ st.m_read_idx → c ≤ st.m_read_idx)) := by
  induction k with
  | zero =>
    intro st
    exact ⟨fun h => (by cases h), fun _ => ⟨st.m_checked_idx, rfl, le_refl _, fun h => h⟩⟩
  | succ k ih =>
    intro st
    obtain ⟨sockfd, buf, ridx, cidx, sline, cs, meth, rf, url, ver, host, cl, lg, wbuf, widx, fa,
      fst, iv0, iv1, ivc⟩ := st
    have stay : ∃ c, (⟨sockfd, buf, ridx, cidx, sline, cs, meth, rf, url, ver, host, cl, lg,
        wbuf, widx, fa, fst, iv0, iv1, ivc⟩ : http_conn) =
        { (⟨sockfd, buf, ridx, cidx, sline, cs, meth, rf, url, ver, host, cl, lg,
          wbuf, widx, fa, fst, iv0, iv1, ivc⟩ : http_conn) with m_checked_idx := c } ∧
        cidx ≤ c ∧ (cidx ≤ ridx → c ≤ ridx) := ⟨cidx, rfl, le_refl _, fun h => h⟩
    generalize hr : parse_line_loop (k + 1)
      ⟨sockfd, buf, ridx, cidx, sline, cs, meth, rf, url, ver, host, cl, lg, wbuf, widx, fa,
        fst, iv0, iv1, ivc⟩ = r
    unfold parse_line_loop at hr
    simp only [] at hr
    by_cases h1 : cidx < ridx
    · rw [if_pos h1] at hr
      by_cases h2 : buf.getD cidx 0 = 13
      · rw [if_pos h2] at hr
        by_cases h3 : cidx + 1 = ridx
        · rw [if_pos h3] at hr
          subst hr
          exact ⟨fun h => (by cases h), fun _ => stay⟩
        · rw [if_neg h3] at hr
          by_cases h4 : buf.getD (cidx + 1) 0 = 10
          · rw [if_pos h4] at hr
            subst hr
            refine ⟨fun _ => ⟨cidx + 2, ?_, by omega, by show cidx < cidx + 2; omega,
              by show cidx + 2 ≤ ridx; omega, ?_, ?_⟩, fun h => absurd rfl h⟩
            · have e1 : cidx + 2 - 2 = cidx := by omega
              have e2 : cidx + 2 - 1 = cidx + 1 := by omega
              simp only [e1, e2]
            · have e1 : cidx + 2 - 2 = cidx := by omega
              simp only [e1]; exact h2
            · have e2 : cidx + 2 - 1 = cidx + 1 := by omega
              simp only [e2]; exact h4
          · rw [if_neg h4] at hr
            subst hr
            exact ⟨fun h => (by cases h), fun _ => stay⟩
      · rw [if_neg h2] at hr
        by_cases h3 : buf.getD cidx 0 = 10
        · rw [if_pos h3] at hr
          by_cases h4 : cidx > 1 ∧ buf.getD (cidx - 1) 0 = 13
          · rw [if_pos h4] at hr
            subst hr
            obtain ⟨h5, h6⟩ := h4
            refine ⟨fun _ => ⟨cidx + 1, ?_, by omega, by show cidx < cidx + 1; omega,
              by show cidx + 1 ≤ ridx; omega, ?_, ?_⟩, fun h => absurd rfl h⟩
            · have e1 : cidx + 1 - 2 = cidx - 1 := by omega
              have e2 : cidx + 1 - 1 = cidx := by omega
              simp only [e1, e2]
            · have e1 : cidx + 1 - 2 = cidx - 1 := by omega
              simp only [e1]; exact h6
            · have e2 : cidx + 1 - 1 = cidx := by omega
              simp only [e2]; exact h3
          · rw [if_neg h4] at hr
            subst hr
            exact ⟨fun h => (by cases h), fun _ => stay⟩
        · rw [if_neg h3] at hr
          subst hr
          obtain ⟨ihok, ihno⟩ := ih
            ⟨sockfd, buf, ridx, cidx + 1, sline, cs, meth, rf, url, ver, host, cl, lg, wbuf,
              widx, fa, fst, iv0, iv1, ivc⟩
          constructor
          · intro h
            obtain ⟨c, hc, g1, g2, g3, g4, g5⟩ := ihok h
            exact ⟨c, hc, g1, by show cidx < c; exact Nat.lt_of_succ_lt g2, g3, g4, g5⟩
          · intro h
            obtain ⟨c, hc, g1, g2⟩ := ihno h
            refine ⟨c, hc, by show cidx ≤ c; exact Nat.le_of_succ_le g1, fun _ => g2 ?_⟩
            show cidx + 1 ≤ ridx
            omega
    · rw [if_neg h1] at hr
      subst hr
      exact ⟨fun h => (by cases h), fun _ => stay⟩

theorem getD_set_ne (buf : List Nat) (u j v : Nat) (h : j ≠ u) :
    (buf.set u v).getD j 0 = buf.getD j 0 := by
  rw [List.getD_eq_getElem?_getD, List.getD_eq_getElem?_getD, List.getElem?_set,
    if_neg (fun e => h e.symm)]

/-- C16: when `parse_line` returns `LINE_OK` and leaves the scanner at offset `c`, the bytes
of the read buffer at `c - 2` and `c - 1` were CR and LF before the call and are NUL after it,
every other byte of the read buffer is as before, and `m_start_line` and `m_read_idx` are
unchanged (`c` is the offset of the first byte after the two); when it returns `LINE_OPEN` or
`LINE_BAD` the read buffer is unchanged. -/
theorem C16_parse_line_frame (st : http_conn) :
    ((parse_line st).1 = LINE_STATUS.LINE_OK →
      ∃ c, (parse_line st).2.m_checked_idx = c ∧ 2 ≤ c ∧ st.m_checked_idx < c ∧
        st.m_read_buf.getD (c - 2) 0 = 13 ∧ st.m_read_buf.getD (c - 1) 0 = 10 ∧
        (parse_line st).2.m_read_buf.getD (c - 2) 0 = 0 ∧
        (parse_line st).2.m_read_buf.getD (c - 1) 0 = 0 ∧
        (∀ j, j ≠ c - 2 → j ≠ c - 1 →
          (parse_line st).2.m_read_buf.getD j 0 = st.m_read_buf.getD j 0) ∧
        (parse_line st).2.m_read_buf.length = st.m_read_buf.length ∧
        (parse_line st).2.m_start_line = st.m_start_line ∧
        (parse_line st).2.m_read_idx = st.m_read_idx) ∧
    ((parse_line st).1 ≠ LINE_STATUS.LINE_OK →
      (parse_line st).2.m_read_buf = st.m_read_buf) := by
  unfold parse_line
  obtain ⟨hok, hno⟩ := parse_line_loop_cases (st.m_read_idx - st.m_checked_idx) st
  constructor
  · intro h
    obtain ⟨c, hc, g1, g2, g3, g4, g5⟩ := hok h
    rw [hc]
    refine ⟨c, rfl, g1, g2, g4, g5, ?_, ?_, ?_, ?_, rfl, rfl⟩
    · show ((st.m_read_buf.set (c - 2) 0).set (c - 1) 0).getD (c - 2) 0 = 0
      exact getD_set_zero _ _ _ (getD_set_self _ _)
    · show ((st.m_read_buf.set (c - 2) 0).set (c - 1) 0).getD (c - 1) 0 = 0
      exact getD_set_self _ _
    · intro j hj1 hj2
      show ((st.m_read_buf.set (c - 2) 0).set (c - 1) 0).getD j 0 = st.m_read_buf.getD j 0
      rw [getD_set_ne _ _ _ _ hj2, getD_set_ne _ _ _ _ hj1]
    · show ((st.m_read_buf.set (c - 2) 0).set (c - 1) 0).length = st.m_read_buf.length
      rw [List.length_set, List.length_set]
  · intro h
    obtain ⟨c, hc, -, -⟩ := hno h
    rw [hc]

/-- Witness of C16: a complete request line gives `LINE_OK`, the bare method `GET` gives
`LINE_OPEN`. -/
theorem C16_parse_line_frame_witness :
    (∃ c, (parse_line (received small_limits (bytes "GET / HTTP/1.1\r\n"))).2.m_checked_idx = c ∧
      2 ≤ c ∧ (received small_limits (bytes "GET / HTTP/1.1\r\n")).m_checked_idx < c ∧
      (received small_limits (bytes "GET / HTTP/1.1\r\n")).m_read_buf.getD (c - 2) 0 = 13 ∧
      (received small_limits (bytes "GET / HTTP/1.1\r\n")).m_read_buf.getD (c - 1) 0 = 10 ∧
      (parse_line (received small_limits (bytes "GET / HTTP/1.1\r\n"))).2.m_read_buf.getD
        (c - 2) 0 = 0 ∧
      (parse_line (received small_limits (bytes "GET / HTTP/1.1\r\n"))).2.m_read_buf.getD
        (c - 1) 0 = 0 ∧
      (∀ j, j ≠ c - 2 → j ≠ c - 1 →
        (parse_line (received small_limits (bytes "GET / HTTP/1.1\r\n"))).2.m_read_buf.getD j 0
          = (received small_limits (bytes "GET / HTTP/1.1\r\n")).m_read_buf.getD j 0) ∧
      (parse_line (received small_limits (bytes "GET / HTTP/1.1\r\n"))).2.m_read_buf.length
        = (received small_limits (bytes "GET / HTTP/1.1\r\n")).m_read_buf.length ∧
      (parse_line (received small_limits (bytes "GET / HTTP/1.1\r\n"))).2.m_start_line
        = (received small_limits (bytes "GET / HTTP/1.1\r\n")).m_start_line ∧
      (parse_line (received small_limits (bytes "GET / HTTP/1.1\r\n"))).2.m_read_idx
        = (received small_limits (bytes "GET / HTTP/1.1\r\n")).m_read_idx) ∧
    (parse_line (received small_limits (bytes "GET"))).2.m_read_buf
      = (received small_limits (bytes "GET")).m_read_buf :=
  ⟨(C16_parse_line_frame (received small_limits (bytes "GET / HTTP/1.1\r\n"))).1 (by decide),
    (C16_parse_line_frame (received small_limits (bytes "GET"))).2 (by decide)⟩

end WebServer
namespace WebServer
open http_conn

/-! ## The cursor predicate -/

theorem cursor_inv_of_idx (cfg : Limits) (s t : http_conn)
    (h1 : t.m_start_line = s.m_start_line) (h2 : t.m_checked_idx = s.m_checked_idx)
    (h3 : t.m_read_idx = s.m_read_idx) (h : cursor_inv cfg s) : cursor_inv cfg t := by
  unfold cursor_inv at h ⊢
  rw [h1, h2, h3]
  exact h

/-- A property of the connection that the scanner, the three parsers, `do_request` and the
move of `m_start_line` keep is kept by an iteration of `process_read`. -/
theorem step_preserves (P : http_conn → Prop) (cfg : Limits) (fs : FileSystem)
    (hpl : ∀ s, P s → P (parse_line s).2)
    (hst : ∀ s, P s → P { s with m_start_line := s.m_checked_idx })
    (hrl : ∀ s t, P s → P (parse_request_line s t).2)
    (hh : ∀ s t, P s → P (parse_headers s t).2)
    (hc : ∀ s t r, P s → parse_content s t = some r → P r.2)
    (hd : ∀ s, P s → P (do_request cfg fs s).2)
    (ls : LINE_STATUS) (st : http_conn) (h : P st) :
    match process_read_step cfg fs ls st with
    | Sum.inl none => True
    | Sum.inl (some r) => P r.2
    | Sum.inr c => P c.2 := by
  by_cases hcc : st.m_check_state = CHECK_STATE.CHECK_STATE_CONTENT ∧ ls = LINE_STATUS.LINE_OK
  · obtain ⟨hcs, hls⟩ := hcc
    subst hls
    rw [step_content_ok cfg fs st hcs]
    cases hpc : parse_content { st with m_start_line := st.m_checked_idx } st.m_start_line with
    | none => trivial
    | some r =>
      have hp := hc _ st.m_start_line r (hst st h) hpc
      simp only []
      by_cases hg : r.1 = HTTP_CODE.GET_REQUEST
      · rw [if_pos hg]; exact hd _ hp
      · rw [if_neg hg]; exact hp
  · rw [step_scan cfg fs ls st hcc]
    have hpl1 := hpl st h
    by_cases hok : (parse_line st).1 ≠ LINE_STATUS.LINE_OK
    · rw [if_pos hok]; exact hpl1
    · rw [if_neg hok]
      have hs := hst _ hpl1
      cases hcs : (parse_line st).2.m_check_state with
      | CHECK_STATE_REQUESTLINE =>
        simp only []
        have hp := hrl _ (parse_line st).2.m_start_line hs
        by_cases hb : (parse_request_line
            { (parse_line st).2 with m_start_line := (parse_line st).2.m_checked_idx }
            (parse_line st).2.m_start_line).1 = HTTP_CODE.BAD_REQUEST
        · rw [if_pos hb]; exact hp
        · rw [if_neg hb]; exact hp
      | CHECK_STATE_HEADER =>
        simp only []
        have hp := hh _ (parse_line st).2.m_start_line hs
        by_cases hb : (parse_headers
            { (parse_line st).2 with m_start_line := (parse_line st).2.m_checked_idx }
            (parse_line st).2.m_start_line).1 = HTTP_CODE.BAD_REQUEST
        · rw [if_pos hb]; exact hp
        · rw [if_neg hb]
          by_cases hg : (parse_headers
              { (parse_line st).2 with m_start_line := (parse_line st).2.m_checked_idx }
              (parse_line st).2.m_start_line).1 = HTTP_CODE.GET_REQUEST
          · rw [if_pos hg]; exact hd _ hp
          · rw [if_neg hg]; exact hp
      | CHECK_STATE_CONTENT =>
        simp only []
        cases hpc : parse_content
            { (parse_line st).2 with m_start_line := (parse_line st).2.m_checked_idx }
            (parse_line st).2.m_start_line with
        | none => trivial
        | some r =>
          have hp := hc _ (parse_line st).2.m_start_line r hs hpc
          simp only []
          by_cases hg : r.1 = HTTP_CODE.GET_REQUEST
          · rw [if_pos hg]; exact hd _ hp
          · rw [if_neg hg]; exact hp

theorem loop_preserves (P : http_conn → Prop) (cfg : Limits) (fs : FileSystem)
    (hpl : ∀ s, P s → P (parse_line s).2)
    (hst : ∀ s, P s → P { s with m_start_line := s.m_checked_idx })
    (hrl : ∀ s t, P s → P (parse_request_line s t).2)
    (hh : ∀ s t, P s → P (parse_headers s t).2)
    (hc : ∀ s t r, P s → parse_content s t = some r → P r.2)
    (hd : ∀ s, P s → P (do_request cfg fs s).2) (f : Nat) :
    ∀ (ls : LINE_STATUS) (st : http_conn) (r : HTTP_CODE × http_conn),
      P st → process_read_loop cfg fs f ls st = some r → P r.2 := by
  induction f with
  | zero => intro ls st r _ h; cases h
  | succ f ih =>
    intro ls st r hP h
    rw [loop_succ] at h
    have hstep := step_preserves P cfg fs hpl hst hrl hh hc hd ls st hP
    cases hs : process_read_step cfg fs ls st with
    | inl r1 =>
      rw [hs] at h hstep
      cases r1 with
      | none => cases h
      | some x =>
        simp only [Option.some.injEq] at h
        subst h
        exact hstep
    | inr c =>
      rw [hs] at h hstep
      exact ih c.1 c.2 r hstep h

end WebServer
namespace WebServer
open http_conn

/-! ## `add_response` and the write index -/

theorem add_response_true_iff (cfg : Limits) (st : http_conn) (text : List Nat) :
    (add_response cfg st text).1 = true ↔
      st.m_write_idx + text.length + 1 ≤ cfg.WRITE_BUFFER_SIZE - 1 := by
  unfold add_response
  by_cases h1 : st.m_write_idx ≥ cfg.WRITE_BUFFER_SIZE
  · rw [if_pos h1]
    constructor
    · intro h; cases h
    · intro h; omega
  · rw [if_neg h1]
    simp only []
    by_cases h2 : text.length ≥ cfg.WRITE_BUFFER_SIZE - 1 - st.m_write_idx
    · rw [if_pos h2]
      constructor
      · intro h; cases h
      · intro h; omega
    · rw [if_neg h2]
      constructor
      · intro _; omega
      · intro _; rfl

theorem add_response_idx_of_false (cfg : Limits) (st : http_conn) (text : List Nat)
    (h : (add_response cfg st text).1 = false) :
    (add_response cfg st text).2.m_write_idx = st.m_write_idx := by
  unfold add_response at h ⊢
  by_cases h1 : st.m_write_idx ≥ cfg.WRITE_BUFFER_SIZE
  · rw [if_pos h1]
  · rw [if_neg h1] at h ⊢
    simp only [] at h ⊢
    by_cases h2 : text.length ≥ cfg.WRITE_BUFFER_SIZE - 1 - st.m_write_idx
    · rw [if_pos h2]
      by_cases h3 : cfg.WRITE_BUFFER_SIZE - 1 - st.m_write_idx = 0
      · rw [if_pos h3]
      · rw [if_neg h3]
    · rw [if_neg h2] at h; cases h

/-- C18 (counterexample): with 250 of the 256 bytes of the write buffer in use, a text of 5
bytes satisfies `m_write_idx + len ≤ WRITE_BUFFER_SIZE - 1`, and `add_response` returns
`false`: the NUL that ends the text has to fit as well. -/
theorem C18_fit_counterexample :
    ({ blank small_limits with m_write_idx := 250 } : http_conn).m_write_idx
        + (bytes "hello").length ≤ small_limits.WRITE_BUFFER_SIZE - 1 ∧
    (add_response small_limits { blank small_limits with m_write_idx := 250 }
        (bytes "hello")).1 = false := by
  decide

/-- C18 (amended): on a connection whose write buffer has `WRITE_BUFFER_SIZE` bytes,
`add_response` returns `true` exactly when the text and the NUL that ends it fit in
`[m_write_idx, WRITE_BUFFER_SIZE - 1)`, that is `m_write_idx + len + 1 ≤ WRITE_BUFFER_SIZE - 1`;
on `true`, `m_write_idx` has grown by `len` and the bytes `[0, m_write_idx)` of the write
buffer are the earlier ones followed by the text; on `false`, `m_write_idx` is unchanged. -/
theorem C18_add_response (cfg : Limits) (st : http_conn) (text : List Nat)
    (hlen : st.m_write_buf.length = cfg.WRITE_BUFFER_SIZE) :
    ((add_response cfg st text).1 = true ↔
      st.m_write_idx + text.length + 1 ≤ cfg.WRITE_BUFFER_SIZE - 1) ∧
    ((add_response cfg st text).1 = true →
      (add_response cfg st text).2.m_write_idx = st.m_write_idx + text.length ∧
      (add_response cfg st text).2.written = st.written ++ text) ∧
    ((add_response cfg st text).1 = false →
      (add_response cfg st text).2.m_write_idx = st.m_write_idx) := by
  refine ⟨add_response_true_iff cfg st text, fun h => ?_,
    add_response_idx_of_false cfg st text⟩
  have hfit := (add_response_true_iff cfg st text).1 h
  rw [add_response_fits cfg st text (by omega)]
  exact ⟨rfl, written_append_text st text (by rw [hlen]; omega)⟩

/-- Witness of C18: a text that fits in a fresh write buffer. -/
theorem C18_add_response_witness :
    ((add_response small_limits (blank small_limits) (bytes "hello")).1 = true ↔
      (blank small_limits).m_write_idx + (bytes "hello").length + 1
        ≤ small_limits.WRITE_BUFFER_SIZE - 1) ∧
    ((add_response small_limits (blank small_limits) (bytes "hello")).1 = true →
      (add_response small_limits (blank small_limits) (bytes "hello")).2.m_write_idx
        = (blank small_limits).m_write_idx + (bytes "hello").length ∧
      (add_response small_limits (blank small_limits) (bytes "hello")).2.written
        = (blank small_limits).written ++ bytes "hello") ∧
    ((add_response small_limits (blank small_limits) (bytes "hello")).1 = false →
      (add_response small_limits (blank small_limits) (bytes "hello")).2.m_write_idx
        = (blank small_limits).m_write_idx) :=
  C18_add_response small_limits (blank small_limits) (bytes "hello")
    (blank_sized small_limits).2.1

end WebServer
namespace WebServer
open http_conn

theorem add_response_bounded (cfg : Limits) (st : http_conn) (text : List Nat)
    (h : st.m_write_idx < cfg.WRITE_BUFFER_SIZE) :
    (add_response cfg st text).2.m_write_idx < cfg.WRITE_BUFFER_SIZE := by
  cases hr : (add_response cfg st text).1 with
  | false => rw [add_response_idx_of_false cfg st text hr]; exact h
  | true =>
    have hfit := (add_response_true_iff cfg st text).1 hr
    rw [add_response_fits cfg st text (by omega)]
    show st.m_write_idx + text.length < cfg.WRITE_BUFFER_SIZE
    omega

theorem add_headers_bounded (cfg : Limits) (st : http_conn) (n : Int)
    (h : st.m_write_idx < cfg.WRITE_BUFFER_SIZE) :
    (add_headers cfg st n).m_write_idx < cfg.WRITE_BUFFER_SIZE := by
  unfold add_headers add_blank_line add_linger add_content_type add_content_length
  simp only []
  exact add_response_bounded cfg _ _ (add_response_bounded cfg _ _
    (add_response_bounded cfg _ _ (add_response_bounded cfg _ _ h)))

theorem error_response_bounded (cfg : Limits) (st : http_conn) (status : Int)
    (title form : List Nat) (h : st.m_write_idx < cfg.WRITE_BUFFER_SIZE) :
    (error_response cfg st status title form).2.m_write_idx < cfg.WRITE_BUFFER_SIZE := by
  have hb : (add_content cfg (add_headers cfg (add_status_line cfg st status title).2
      (to_int form.length)) form).2.m_write_idx < cfg.WRITE_BUFFER_SIZE :=
    add_response_bounded cfg _ _ (add_headers_bounded cfg _ _ (add_response_bounded cfg _ _ h))
  unfold error_response
  simp only []
  by_cases hf : (add_content cfg (add_headers cfg (add_status_line cfg st status title).2
      (to_int form.length)) form).1 = false
  · rw [if_pos hf]; exact hb
  · rw [if_neg hf]; exact hb

theorem process_write_bounded (cfg : Limits) (st : http_conn) (ret : HTTP_CODE)
    (h : st.m_write_idx < cfg.WRITE_BUFFER_SIZE) :
    (process_write cfg st ret).2.m_write_idx < cfg.WRITE_BUFFER_SIZE := by
  cases ret with
  | INTERNAL_ERROR => exact error_response_bounded cfg st _ _ _ h
  | BAD_REQUEST => exact error_response_bounded cfg st _ _ _ h
  | NO_RESOURCE => exact error_response_bounded cfg st _ _ _ h
  | FORBIDDEN_REQUEST => exact error_response_bounded cfg st _ _ _ h
  | FILE_REQUEST =>
    exact add_headers_bounded cfg _ _ (add_response_bounded cfg _ _ h)
  | NO_REQUEST => exact h
  | GET_REQUEST => exact h
  | CLOSED_CONNECTION => exact h

theorem read_loop_write_idx (cfg : Limits) (socket : List recv_result) :
    ∀ st : http_conn, (read_loop cfg socket st).2.m_write_idx = st.m_write_idx := by
  induction socket with
  | nil => intro st; rfl
  | cons o rest ih =>
    intro st
    cases o with
    | would_block => rfl
    | error => rfl
    | data bs =>
      unfold read_loop
      simp only []
      by_cases h0 : (bs.take (cfg.READ_BUFFER_SIZE - st.m_read_idx)).length = 0
      · rw [if_pos h0]
      · rw [if_neg h0]
        exact ih _

theorem read_write_idx (cfg : Limits) (st : http_conn) (socket : List recv_result) :
    (read cfg st socket).2.m_write_idx = st.m_write_idx := by
  unfold http_conn.read
  by_cases h0 : st.m_read_idx ≥ cfg.READ_BUFFER_SIZE
  · rw [if_pos h0]
  · rw [if_neg h0]; exact read_loop_write_idx cfg socket st

theorem process_read_write_idx (cfg : Limits) (fs : FileSystem) (st : http_conn)
    (r : HTTP_CODE × http_conn) (h : process_read cfg fs st = some r) :
    r.2.m_write_idx = st.m_write_idx := by
  refine loop_preserves (fun s => s.m_write_idx = st.m_write_idx) cfg fs ?_ ?_ ?_ ?_ ?_ ?_ _ _
    st r rfl h
  · intro s hs
    obtain ⟨b, c, hfr, -⟩ := parse_line_frame s
    rw [hfr]; exact hs
  · intro s hs; exact hs
  · intro s t hs
    obtain ⟨b, u, v, m, c, hfr⟩ := parse_request_line_frame s t
    rw [hfr]; exact hs
  · intro s t hs
    obtain ⟨c, l, n, ho, hfr⟩ := parse_headers_frame s t
    rw [hfr]; exact hs
  · intro s t r hs hp
    obtain ⟨b, hfr, -, -, -⟩ := parse_content_frame s t r hp
    rw [hfr]; exact hs
  · intro s hs
    obtain ⟨rf, fst, fa, hfr⟩ := do_request_frame cfg fs s
    rw [hfr]; exact hs

theorem write_loop_write_idx (cfg : Limits) (socket : List writev_result) :
    ∀ (st : http_conn) (a b : Int) (sent : List Nat),
      (write_loop cfg socket st a b sent).conn.m_write_idx = st.m_write_idx ∨
      (write_loop cfg socket st a b sent).conn.m_write_idx = 0 := by
  induction socket with
  | nil => intro st a b sent; exact Or.inl rfl
  | cons o rest ih =>
    intro st a b sent
    obtain ⟨fa, hfa⟩ := unmap_frame st
    cases o with
    | would_block => exact Or.inl rfl
    | error =>
      left
      show (unmap st).m_write_idx = st.m_write_idx
      rw [hfa]
    | accepted n =>
      unfold write_loop
      simp only []
      by_cases hc : to_int (a - to_int (List.take n st.gather).length)
          ≤ to_int (b + to_int (List.take n st.gather).length)
      · rw [if_pos hc]
        by_cases hl : (unmap st).m_linger = true
        · rw [if_pos hl]; exact Or.inr rfl
        · rw [if_neg hl]
          left
          show (unmap st).m_write_idx = st.m_write_idx
          rw [hfa]
      · rw [if_neg hc]
        exact ih st _ _ _

/-- C19: `m_write_idx < WRITE_BUFFER_SIZE` holds after `init()` (the buffer is not empty), and
`add_response`, each header and body builder and `process_write` for every result code keep
it, whatever the length of the text; `read` and `process_read` leave `m_write_idx` as it
is, and `write` leaves it as it is or zero. -/
theorem C19_write_idx_bounded (cfg : Limits) (fs : FileSystem) :
    (0 < cfg.WRITE_BUFFER_SIZE → ∀ st, (init cfg st).m_write_idx < cfg.WRITE_BUFFER_SIZE) ∧
    (∀ st text, st.m_write_idx < cfg.WRITE_BUFFER_SIZE →
      (add_response cfg st text).2.m_write_idx < cfg.WRITE_BUFFER_SIZE) ∧
    (∀ st status title, st.m_write_idx < cfg.WRITE_BUFFER_SIZE →
      (add_status_line cfg st status title).2.m_write_idx < cfg.WRITE_BUFFER_SIZE) ∧
    (∀ st n, st.m_write_idx < cfg.WRITE_BUFFER_SIZE →
      (add_content_length cfg st n).2.m_write_idx < cfg.WRITE_BUFFER_SIZE) ∧
    (∀ st, st.m_write_idx < cfg.WRITE_BUFFER_SIZE →
      (add_content_type cfg st).2.m_write_idx < cfg.WRITE_BUFFER_SIZE) ∧
    (∀ st, st.m_write_idx < cfg.WRITE_BUFFER_SIZE →
      (add_linger cfg st).2.m_write_idx < cfg.WRITE_BUFFER_SIZE) ∧
    (∀ st, st.m_write_idx < cfg.WRITE_BUFFER_SIZE →
      (add_blank_line cfg st).2.m_write_idx < cfg.WRITE_BUFFER_SIZE) ∧
    (∀ st content, st.m_write_idx < cfg.WRITE_BUFFER_SIZE →
      (add_content cfg st content).2.m_write_idx < cfg.WRITE_BUFFER_SIZE) ∧
    (∀ st n, st.m_write_idx < cfg.WRITE_BUFFER_SIZE →
      (add_headers cfg st n).m_write_idx < cfg.WRITE_BUFFER_SIZE) ∧
    (∀ st ret, st.m_write_idx < cfg.WRITE_BUFFER_SIZE →
      (process_write cfg st ret).2.m_write_idx < cfg.WRITE_BUFFER_SIZE) ∧
    (∀ st socket, (read cfg st socket).2.m_write_idx = st.m_write_idx) ∧
    (∀ st r, process_read cfg fs st = some r → r.2.m_write_idx = st.m_write_idx) ∧
    (∀ st socket, st.m_write_idx < cfg.WRITE_BUFFER_SIZE →
      (write cfg st socket).conn.m_write_idx < cfg.WRITE_BUFFER_SIZE) := by
  refine ⟨fun h st => h, fun st text h => add_response_bounded cfg st text h,
    fun st status title h => add_response_bounded cfg st _ h,
    fun st n h => add_response_bounded cfg st _ h,
    fun st h => add_response_bounded cfg st _ h,
    fun st h => add_response_bounded cfg st _ h,
    fun st h => add_response_bounded cfg st _ h,
    fun st content h => add_response_bounded cfg st _ h,
    fun st n h => add_headers_bounded cfg st n h,
    fun st ret h => process_write_bounded cfg st ret h,
    fun st socket => read_write_idx cfg st socket,
    fun st r h => process_read_write_idx cfg fs st r h, fun st socket h => ?_⟩
  unfold http_conn.write
  by_cases hz : to_int (st.m_write_idx : Int) = 0
  · rw [if_pos hz]
    show 0 < cfg.WRITE_BUFFER_SIZE
    omega
  · rw [if_neg hz]
    rcases write_loop_write_idx cfg socket st (to_int st.m_write_idx) 0 [] with h1 | h1
    · rw [h1]; exact h
    · rw [h1]; omega

/-- Witness of C19: the write index after `process_write` has built a 404 response on a fresh
connection. -/
theorem C19_write_idx_bounded_witness :
    (process_write small_limits (init small_limits (blank small_limits))
        HTTP_CODE.NO_RESOURCE).2.m_write_idx < small_limits.WRITE_BUFFER_SIZE :=
  (C19_write_idx_bounded small_limits empty_fs).2.2.2.2.2.2.2.2.2.1
    (init small_limits (blank small_limits)) HTTP_CODE.NO_RESOURCE (by decide)

end WebServer
namespace WebServer
open http_conn

/-! ## The path `do_request` looks up -/

theorem getD_write_at_after (buf : List Nat) (n : Nat) (B : List Nat) (j : Nat)
    (h : n + B.length ≤ buf.length) (hj : n + B.length ≤ j) :
    (write_at buf n B).getD j 0 = buf.getD j 0 := by
  rw [write_at_fit buf n B h, ← List.append_assoc]
  have hl : (buf.take n ++ B).length = n + B.length := by
    rw [List.length_append, List.length_take]; omega
  rw [List.getD_eq_getElem?_getD, List.getD_eq_getElem?_getD,
    List.getElem?_append_right (by rw [hl]; exact hj), hl, List.getElem?_drop]
  congr 2
  omega

theorem getD_write_at_in (buf : List Nat) (n : Nat) (B : List Nat) (k : Nat)
    (h : n + B.length ≤ buf.length) (hk : k < B.length) :
    (write_at buf n B).getD (n + k) 0 = B.getD k 0 := by
  rw [write_at_fit buf n B h]
  have hl : (buf.take n).length = n := by rw [List.length_take]; omega
  rw [List.getD_eq_getElem?_getD, List.getD_eq_getElem?_getD,
    List.getElem?_append_right (by rw [hl]; omega), hl, Nat.add_sub_cancel_left,
    List.getElem?_append_left hk]

theorem singleton_of_getD (X : List Nat) (h1 : X.length = 1) (h0 : X.getD 0 0 = 0) :
    X = [0] := by
  match X, h1, h0 with
  | [x], _, h0 => simp only [List.getD_cons_zero] at h0; rw [h0]

theorem take_min_length (u : List Nat) (n : Nat) : u.take (min u.length n) = u.take n := by
  by_cases h : u.length ≤ n
  · rw [Nat.min_eq_left h, List.take_of_length_le (le_refl _), List.take_of_length_le h]
  · rw [Nat.min_eq_right (by omega)]

/-- The file-name buffer after `do_request` has built the path in it, when the buffer has
`FILENAME_LEN` bytes and its last byte is NUL: the document root, the first
`FILENAME_LEN - len - 1` bytes of the url, NUL padding, and the last byte. -/
theorem build_real_file_eq (cfg : Limits) (rf url : List Nat)
    (hF : doc_root.length < cfg.FILENAME_LEN) (hlen : rf.length = cfg.FILENAME_LEN)
    (hlast : rf.getD (cfg.FILENAME_LEN - 1) 0 = 0) :
    build_real_file cfg rf url =
      doc_root ++ url.take (cfg.FILENAME_LEN - doc_root.length - 1) ++
        (List.replicate (cfg.FILENAME_LEN - doc_root.length - 1 - url.length) 0 ++ [0]) := by
  unfold build_real_file
  simp only []
  generalize doc_root = dr at hF ⊢
  generalize hn : cfg.FILENAME_LEN - dr.length - 1 = n
  have hFn : cfg.FILENAME_LEN = dr.length + n + 1 := by omega
  have hfit1 : 0 + (dr ++ [0]).length ≤ rf.length := by
    rw [hlen, List.length_append, List.length_singleton]; omega
  have hl1 : (write_at rf 0 (dr ++ [0])).length = dr.length + n + 1 := by
    rw [write_at_length, hlen, hFn]
  have hdl : (url.take n ++ List.replicate (n - url.length) 0).length = n := by
    simp only [List.length_append, List.length_take, List.length_replicate]; omega
  have htake : (write_at rf 0 (dr ++ [0])).take dr.length = dr := by
    rw [write_at_fit rf 0 (dr ++ [0]) hfit1, List.take_zero, List.nil_append,
      List.append_assoc, List.take_left' rfl]
  have hdrop : (write_at rf 0 (dr ++ [0])).drop (dr.length + n) = [0] := by
    apply singleton_of_getD
    · rw [List.length_drop, hl1]; omega
    · rw [List.getD_eq_getElem?_getD, List.getElem?_drop, Nat.add_zero,
        ← List.getD_eq_getElem?_getD]
      by_cases hn0 : n = 0
      · subst hn0
        have := getD_write_at_in rf 0 (dr ++ [0]) dr.length hfit1
          (by rw [List.length_append, List.length_singleton]; omega)
        rw [Nat.zero_add] at this
        rw [Nat.add_zero, this, List.getD_eq_getElem?_getD,
          List.getElem?_append_right (le_refl _), Nat.sub_self]
        rfl
      · rw [getD_write_at_after rf 0 (dr ++ [0]) (dr.length + n) hfit1
          (by rw [List.length_append, List.length_singleton]; omega)]
        have e : dr.length + n = cfg.FILENAME_LEN - 1 := by omega
        rw [e]; exact hlast
  rw [write_at_fit _ dr.length _ (by rw [hl1, hdl]; omega), htake, hdl, hdrop]
  simp only [List.append_assoc]

theorem build_real_file_cstr (cfg : Limits) (rf url : List Nat) (h0 : ∀ c ∈ url, c ≠ 0)
    (hF : doc_root.length < cfg.FILENAME_LEN) (hlen : rf.length = cfg.FILENAME_LEN)
    (hlast : rf.getD (cfg.FILENAME_LEN - 1) 0 = 0) :
    cstr (build_real_file cfg rf url) 0
      = doc_root ++ url.take (cfg.FILENAME_LEN - doc_root.length - 1) := by
  have hd0 : ∀ c ∈ doc_root, c ≠ 0 := by decide
  rw [build_real_file_eq cfg rf url hF hlen hlast]
  have hz : ∀ k, List.replicate k 0 ++ [0] = 0 :: List.replicate k 0 := by
    intro k
    rw [← List.replicate_succ, List.replicate_succ']
  rw [hz]
  have := cstr_line [] (doc_root ++ url.take (cfg.FILENAME_LEN - doc_root.length - 1))
    (List.replicate (cfg.FILENAME_LEN - doc_root.length - 1 - url.length) 0) (by
      intro c hc
      rcases List.mem_append.1 hc with h | h
      · exact hd0 c h
      · exact h0 c (List.mem_of_mem_take h))
  simpa using this

theorem do_request_real_file (cfg : Limits) (fs : FileSystem) (st : http_conn) :
    (do_request cfg fs st).2.m_real_file =
      build_real_file cfg st.m_real_file ((st.str_at st.m_url).getD []) := by
  unfold do_request
  simp only []
  cases fs.stat (cstr (build_real_file cfg st.m_real_file ((st.str_at st.m_url).getD [])) 0) with
  | none => rfl
  | some s =>
    simp only []
    by_cases h1 : s.st_mode &&& S_IROTH = 0
    · rw [if_pos h1]
    · rw [if_neg h1]
      by_cases h2 : S_ISDIR s.st_mode = true
      · rw [if_pos h2]
      · rw [if_neg h2]

/-- C20: on a connection whose file-name buffer has `FILENAME_LEN` bytes and ends with a NUL
(as after `init()`, and as `do_request` leaves it), with `doc_root` shorter than the buffer
and the url `u`: the path `do_request` builds and looks up is `doc_root` followed by the first
`min |u| (FILENAME_LEN - |doc_root| - 1)` bytes of `u`, whatever these bytes are; it has at
most `FILENAME_LEN - 1` bytes and a NUL follows it inside the buffer; the result of
`do_request` is what `stat` says about this path. -/
theorem C20_lookup_path (cfg : Limits) (fs : FileSystem) (st : http_conn) (u : List Nat)
    (hF : doc_root.length < cfg.FILENAME_LEN)
    (hlen : st.m_real_file.length = cfg.FILENAME_LEN)
    (hlast : st.m_real_file.getD (cfg.FILENAME_LEN - 1) 0 = 0)
    (hu : st.str_at st.m_url = some u) :
    cstr (do_request cfg fs st).2.m_real_file 0
      = doc_root ++ u.take (min u.length (cfg.FILENAME_LEN - doc_root.length - 1)) ∧
    (do_request cfg fs st).1
      = stat_code fs
          (doc_root ++ u.take (min u.length (cfg.FILENAME_LEN - doc_root.length - 1))) ∧
    (doc_root ++ u.take (min u.length (cfg.FILENAME_LEN - doc_root.length - 1))).length
      ≤ cfg.FILENAME_LEN - 1 ∧
    (do_request cfg fs st).2.m_real_file.getD
      (doc_root ++ u.take (min u.length (cfg.FILENAME_LEN - doc_root.length - 1))).length 0
      = 0 ∧
    (do_request cfg fs st).2.m_real_file.length = cfg.FILENAME_LEN ∧
    (do_request cfg fs st).2.m_real_file.getD (cfg.FILENAME_LEN - 1) 0 = 0 := by
  have hu0 : ∀ c ∈ u, c ≠ 0 := by
    cases hq : st.m_url with
    | none => rw [hq] at hu; cases hu
    | some q =>
      rw [hq] at hu
      have e : cstr st.m_read_buf q = u := Option.some.inj hu
      rw [← e]
      exact cstr_ne_zero _ _
  have hcs := build_real_file_cstr cfg st.m_real_file u hu0 hF hlen hlast
  have heq := build_real_file_eq cfg st.m_real_file u hF hlen hlast
  have hrf := do_request_real_file cfg fs st
  have hcode := do_request_code cfg fs st
  rw [hu] at hrf hcode
  simp only [Option.getD_some] at hrf hcode
  rw [take_min_length, hrf]
  have hz : ∀ k, List.replicate k 0 ++ [0] = 0 :: List.replicate k 0 := by
    intro k
    rw [← List.replicate_succ, List.replicate_succ']
  have hpl : (doc_root ++ u.take (cfg.FILENAME_LEN - doc_root.length - 1)).length
      ≤ cfg.FILENAME_LEN - 1 := by
    rw [List.length_append, List.length_take]
    omega
  have hbl : (build_real_file cfg st.m_real_file u).length = cfg.FILENAME_LEN := by
    unfold build_real_file
    simp only []
    rw [write_at_length, write_at_length]
    exact hlen
  refine ⟨hcs, by rw [hcode, hcs], hpl, ?_, hbl, ?_⟩
  · rw [heq, hz]
    exact getD_mid _ _ _
  · have e : cfg.FILENAME_LEN - 1
        = (doc_root ++ u.take (cfg.FILENAME_LEN - doc_root.length - 1) ++
            List.replicate (cfg.FILENAME_LEN - doc_root.length - 1 - u.length) 0).length := by
      simp only [List.length_append, List.length_take, List.length_replicate]
      omega
    rw [heq, ← List.append_assoc, e]
    exact getD_mid _ _ _

/-- Witness of C20: a url with `..` segments on a fresh connection. -/
theorem C20_lookup_path_witness :
    cstr (do_request small_limits scenario_fs
        { received small_limits (bytes "/../../etc/passwd") with m_url := some 0 }).2.m_real_file 0
      = doc_root ++ bytes "/../../etc/passwd" :=
  (C20_lookup_path small_limits scenario_fs
    { received small_limits (bytes "/../../etc/passwd") with m_url := some 0 }
    (bytes "/../../etc/passwd") (by decide) (by decide) (by decide) (by decide)).1

end WebServer
namespace WebServer
open http_conn

/-! ## `unmap`, `close_conn` and `init(sockfd, addr)` -/

/-- C23: `unmap` after `unmap` leaves the connection a single `unmap` leaves, the second call
makes no `munmap` call, and after any `unmap` the stored address is null. -/
theorem C23_unmap_idempotent (st : http_conn) :
    unmap (unmap st) = unmap st ∧ (unmap st).unmap_call = none ∧
    (unmap st).m_file_address = none := by
  obtain ⟨sockfd, buf, ridx, cidx, sline, cs, meth, rf, url, ver, host, cl, lg, wbuf, widx, fa,
    fst, iv0, iv1, ivc⟩ := st
  cases fa with
  | none => exact ⟨rfl, rfl, rfl⟩
  | some a => exact ⟨rfl, rfl, rfl⟩

/-- C24: on an open connection (`m_sockfd` is not `-1`, and the counter is above the least
`int`) `close_conn` calls `removefd` for the descriptor once, sets `m_sockfd` to `-1` and
takes one off `m_user_count`; a second `close_conn` makes no call and changes neither the
connection nor the counter. -/
theorem C24_close_conn_idempotent (st : http_conn) (m_user_count : Int)
    (hopen : st.m_sockfd ≠ -1)
    (hc : -2 ^ 31 < m_user_count ∧ m_user_count < 2 ^ 31) :
    (close_conn st).2 = [effect.removefd st.m_sockfd] ∧
    (close_conn st).1 = { st with m_sockfd := -1 } ∧
    close_conn_user_count st m_user_count = m_user_count - 1 ∧
    close_conn (close_conn st).1 = ((close_conn st).1, []) ∧
    close_conn_user_count (close_conn st).1 (close_conn_user_count st m_user_count)
      = m_user_count - 1 := by
  have h1 : close_conn st = ({ st with m_sockfd := -1 }, [effect.removefd st.m_sockfd]) := by
    unfold close_conn; rw [if_pos hopen]
  have h2 : close_conn_user_count st m_user_count = m_user_count - 1 := by
    unfold close_conn_user_count
    rw [if_pos hopen]
    unfold to_int
    omega
  have h3 : close_conn { st with m_sockfd := -1 } = ({ st with m_sockfd := -1 }, []) := by
    unfold close_conn
    rw [if_neg (fun h => h rfl)]
  refine ⟨by rw [h1], by rw [h1], h2, by rw [h1]; exact h3, ?_⟩
  rw [h1, h2]
  unfold close_conn_user_count
  rw [if_neg (fun h => h rfl)]

/-- Witness of C24: a connection with descriptor 5, one of three. -/
theorem C24_close_conn_idempotent_witness :
    (close_conn { blank small_limits with m_sockfd := 5 }).2 = [effect.removefd 5] ∧
    close_conn_user_count { blank small_limits with m_sockfd := 5 } 3 = 2 ∧
    close_conn_user_count (close_conn { blank small_limits with m_sockfd := 5 }).1
      (close_conn_user_count { blank small_limits with m_sockfd := 5 } 3) = 2 :=
  have h := C24_close_conn_idempotent { blank small_limits with m_sockfd := 5 } 3
    (by decide) (by decide)
  ⟨h.1, h.2.2.1, h.2.2.2.2⟩

/-- C25 (counterexample): the event mask with which `init(sockfd, addr)` registers the
descriptor 5 has no `EPOLLET` bit: the registration is level-triggered. -/
theorem C25_not_edge_triggered :
    (init_sockfd small_limits (blank small_limits) 5 0).2.2
      = [sys_call.setsockopt_reuseaddr 5, sys_call.epoll_ctl_add 5 (addfd_events true),
          sys_call.setnonblocking 5] ∧
    addfd_events true &&& epoll.EPOLLET = 0 := by
  decide

/-- C25 (amended): `init(sockfd, addr)` on an object whose read buffer has `READ_BUFFER_SIZE`
bytes sets `SO_REUSEADDR`, registers the descriptor with a mask that has the bits of read
interest, peer hang-up and one-shot and not the edge-triggered bit, makes the descriptor
non-blocking, adds one to `m_user_count` and leaves the parser fields and cursors at their
initial values. -/
theorem C25_init_sockfd (cfg : Limits) (st : http_conn) (sockfd : Int) (m_user_count : Int)
    (hlen : st.m_read_buf.length = cfg.READ_BUFFER_SIZE)
    (hc : -2 ^ 31 ≤ m_user_count ∧ m_user_count < 2 ^ 31 - 1) :
    (init_sockfd cfg st sockfd m_user_count).2.2
      = [sys_call.setsockopt_reuseaddr sockfd,
          sys_call.epoll_ctl_add sockfd (addfd_events true),
          sys_call.setnonblocking sockfd] ∧
    addfd_events true &&& epoll.EPOLLIN ≠ 0 ∧ addfd_events true &&& epoll.EPOLLRDHUP ≠ 0 ∧
    addfd_events true &&& epoll.EPOLLONESHOT ≠ 0 ∧ addfd_events true &&& epoll.EPOLLET = 0 ∧
    (init_sockfd cfg st sockfd m_user_count).2.1 = m_user_count + 1 ∧
    (init_sockfd cfg st sockfd m_user_count).1.m_sockfd = sockfd ∧
    initial_values cfg (init_sockfd cfg st sockfd m_user_count).1 := by
  refine ⟨rfl, by decide, by decide, by decide, by decide, ?_, rfl, ?_⟩
  · show to_int (m_user_count + 1) = m_user_count + 1
    unfold to_int
    omega
  · exact init_initial_values cfg { st with m_sockfd := sockfd } hlen

/-- Witness of C25: the first connection, with descriptor 5. -/
theorem C25_init_sockfd_witness :
    (init_sockfd small_limits (blank small_limits) 5 0).2.1 = 1 ∧
    initial_values small_limits (init_sockfd small_limits (blank small_limits) 5 0).1 :=
  have h := C25_init_sockfd small_limits (blank small_limits) 5 0
    (blank_sized small_limits).1 (by decide)
  ⟨h.2.2.2.2.2.1, h.2.2.2.2.2.2.2⟩

end WebServer
namespace WebServer
open http_conn

/-! ## What `process_read` returns -/

theorem parse_headers_cs (st : http_conn) (text : Nat) :
    ((parse_headers st text).2.m_check_state = st.m_check_state ∨
      (parse_headers st text).2.m_check_state = CHECK_STATE.CHECK_STATE_CONTENT) ∧
    ((parse_headers st text).1 = HTTP_CODE.NO_REQUEST ∨
      (parse_headers st text).1 = HTTP_CODE.GET_REQUEST) := by
  unfold parse_headers
  simp only []
  repeat' split
  all_goals first
    | exact ⟨Or.inl rfl, Or.inl rfl⟩
    | exact ⟨Or.inl rfl, Or.inr rfl⟩
    | exact ⟨Or.inr rfl, Or.inl rfl⟩

theorem parse_content_cs (st : http_conn) (text : Nat) (r : HTTP_CODE × http_conn)
    (hp : parse_content st text = some r) : r.2.m_check_state = st.m_check_state := by
  obtain ⟨b, hfr, -, -, -⟩ := parse_content_frame st text r hp
  rw [hfr]

theorem do_request_cs (cfg : Limits) (fs : FileSystem) (st : http_conn) :
    (do_request cfg fs st).2.m_check_state = st.m_check_state :=
  (do_request_parsed cfg fs st).2.1

/-- One iteration of `process_read`, for a property `P` of the connection that the scanner and
each parser (in its own state) keep, and a property `Q` of what is returned. -/
theorem step_result (P : http_conn → Prop) (Q : HTTP_CODE × http_conn → Prop)
    (cfg : Limits) (fs : FileSystem)
    (hpl : ∀ s, P s → P (parse_line s).2)
    (hst : ∀ s, P s → P { s with m_start_line := s.m_checked_idx })
    (hrl : ∀ s t, P s → s.m_check_state = CHECK_STATE.CHECK_STATE_REQUESTLINE →
      P (parse_request_line s t).2)
    (hh : ∀ s t, P s → s.m_check_state = CHECK_STATE.CHECK_STATE_HEADER →
      P (parse_headers s t).2)
    (hc : ∀ s t r, P s → s.m_check_state = CHECK_STATE.CHECK_STATE_CONTENT →
      parse_content s t = some r → P r.2)
    (qn : ∀ s, P s → Q (HTTP_CODE.NO_REQUEST, s))
    (qb : ∀ s, P s → Q (HTTP_CODE.BAD_REQUEST, s))
    (qd : ∀ s, P s → s.m_check_state ≠ CHECK_STATE.CHECK_STATE_REQUESTLINE →
      Q (do_request cfg fs s))
    (ls : LINE_STATUS) (st : http_conn) (h : P st) :
    match process_read_step cfg fs ls st with
    | Sum.inl none => True
    | Sum.inl (some r) => Q r
    | Sum.inr c => P c.2 := by
  by_cases hcc : st.m_check_state = CHECK_STATE.CHECK_STATE_CONTENT ∧ ls = LINE_STATUS.LINE_OK
  · obtain ⟨hcs, hls⟩ := hcc
    subst hls
    rw [step_content_ok cfg fs st hcs]
    cases hpc : parse_content { st with m_start_line := st.m_checked_idx } st.m_start_line with
    | none => trivial
    | some r =>
      have hp := hc { st with m_start_line := st.m_checked_idx } st.m_start_line r (hst st h)
        hcs hpc
      simp only []
      by_cases hg : r.1 = HTTP_CODE.GET_REQUEST
      · rw [if_pos hg]
        apply qd _ hp
        rw [parse_content_cs _ _ r hpc]
        show st.m_check_state ≠ _
        rw [hcs]; exact fun e => by cases e
      · rw [if_neg hg]; exact hp
  · rw [step_scan cfg fs ls st hcc]
    have hpl1 := hpl st h
    by_cases hok : (parse_line st).1 ≠ LINE_STATUS.LINE_OK
    · rw [if_pos hok]; exact qn _ hpl1
    · rw [if_neg hok]
      have hs := hst _ hpl1
      cases hcs : (parse_line st).2.m_check_state with
      | CHECK_STATE_REQUESTLINE =>
        simp only []
        have hp := hrl { (parse_line st).2 with m_start_line := (parse_line st).2.m_checked_idx }
          (parse_line st).2.m_start_line hs hcs
        by_cases hb : (parse_request_line
            { (parse_line st).2 with m_start_line := (parse_line st).2.m_checked_idx }
            (parse_line st).2.m_start_line).1 = HTTP_CODE.BAD_REQUEST
        · rw [if_pos hb]; exact qb _ hp
        · rw [if_neg hb]; exact hp
      | CHECK_STATE_HEADER =>
        simp only []
        have hp := hh { (parse_line st).2 with m_start_line := (parse_line st).2.m_checked_idx }
          (parse_line st).2.m_start_line hs hcs
        by_cases hb : (parse_headers
            { (parse_line st).2 with m_start_line := (parse_line st).2.m_checked_idx }
            (parse_line st).2.m_start_line).1 = HTTP_CODE.BAD_REQUEST
        · rw [if_pos hb]; exact qb _ hp
        · rw [if_neg hb]
          by_cases hg : (parse_headers
              { (parse_line st).2 with m_start_line := (parse_line st).2.m_checked_idx }
              (parse_line st).2.m_start_line).1 = HTTP_CODE.GET_REQUEST
          · rw [if_pos hg]
            apply qd _ hp
            rcases (parse_headers_cs
              { (parse_line st).2 with m_start_line := (parse_line st).2.m_checked_idx }
              (parse_line st).2.m_start_line).1 with e | e
            · rw [e]
              show (parse_line st).2.m_check_state ≠ _
              rw [hcs]; exact fun e => by cases e
            · rw [e]; exact fun e => by cases e
          · rw [if_neg hg]; exact hp
      | CHECK_STATE_CONTENT =>
        simp only []
        cases hpc : parse_content
            { (parse_line st).2 with m_start_line := (parse_line st).2.m_checked_idx }
            (parse_line st).2.m_start_line with
        | none => trivial
        | some r =>
          have hp := hc { (parse_line st).2 with m_start_line := (parse_line st).2.m_checked_idx }
            (parse_line st).2.m_start_line r hs hcs hpc
          simp only []
          by_cases hg : r.1 = HTTP_CODE.GET_REQUEST
          · rw [if_pos hg]
            apply qd _ hp
            rw [parse_content_cs _ _ r hpc]
            show (parse_line st).2.m_check_state ≠ _
            rw [hcs]; exact fun e => by cases e
          · rw [if_neg hg]; exact hp

theorem loop_result (P : http_conn → Prop) (Q : HTTP_CODE × http_conn → Prop)
    (cfg : Limits) (fs : FileSystem)
    (hpl : ∀ s, P s → P (parse_line s).2)
    (hst : ∀ s, P s → P { s with m_start_line := s.m_checked_idx })
    (hrl : ∀ s t, P s → s.m_check_state = CHECK_STATE.CHECK_STATE_REQUESTLINE →
      P (parse_request_line s t).2)
    (hh : ∀ s t, P s → s.m_check_state = CHECK_STATE.CHECK_STATE_HEADER →
      P (parse_headers s t).2)
    (hc : ∀ s t r, P s → s.m_check_state = CHECK_STATE.CHECK_STATE_CONTENT →
      parse_content s t = some r → P r.2)
    (qn : ∀ s, P s → Q (HTTP_CODE.NO_REQUEST, s))
    (qb : ∀ s, P s → Q (HTTP_CODE.BAD_REQUEST, s))
    (qd : ∀ s, P s → s.m_check_state ≠ CHECK_STATE.CHECK_STATE_REQUESTLINE →
      Q (do_request cfg fs s))
    (f : Nat) :
    ∀ (ls : LINE_STATUS) (st : http_conn) (r : HTTP_CODE × http_conn),
      P st → process_read_loop cfg fs f ls st = some r → Q r := by
  induction f with
  | zero => intro ls st r _ h; cases h
  | succ f ih =>
    intro ls st r hP h
    rw [loop_succ] at h
    have hstep := step_result P Q cfg fs hpl hst hrl hh hc qn qb qd ls st hP
    cases hs : process_read_step cfg fs ls st with
    | inl r1 =>
      rw [hs] at h hstep
      cases r1 with
      | none => cases h
      | some x =>
        simp only [Option.some.injEq] at h
        subst h
        exact hstep
    | inr c =>
      rw [hs] at h hstep
      exact ih c.1 c.2 r hstep h

/-- The results of `process_read`: `NO_REQUEST`, `BAD_REQUEST`, or a result of `do_request`. -/
theorem process_read_code_cases (cfg : Limits) (fs : FileSystem) (st : http_conn)
    (c : HTTP_CODE) (s1 : http_conn) (hr : process_read cfg fs st = some (c, s1)) :
    c = HTTP_CODE.NO_REQUEST ∨ c = HTTP_CODE.BAD_REQUEST ∨ c = HTTP_CODE.NO_RESOURCE ∨
      c = HTTP_CODE.FORBIDDEN_REQUEST ∨ c = HTTP_CODE.FILE_REQUEST := by
  refine loop_result (fun _ => True)
    (fun r => r.1 = HTTP_CODE.NO_REQUEST ∨ r.1 = HTTP_CODE.BAD_REQUEST ∨
      r.1 = HTTP_CODE.NO_RESOURCE ∨ r.1 = HTTP_CODE.FORBIDDEN_REQUEST ∨
      r.1 = HTTP_CODE.FILE_REQUEST) cfg fs
    (fun _ _ => trivial) (fun _ _ => trivial) (fun _ _ _ _ => trivial)
    (fun _ _ _ _ => trivial) (fun _ _ _ _ _ _ => trivial)
    (fun _ _ => Or.inl rfl) (fun _ _ => Or.inr (Or.inl rfl)) ?_ _ _ st (c, s1) trivial
    (by unfold process_read at hr; exact hr)
  intro s _ _
  have hc := do_request_code cfg fs s
  rw [hc]
  unfold stat_code
  repeat' split
  all_goals simp

/-- C26: from every connection state, `process_read` ends: it returns, or it comes to a
store of `parse_content` outside the read buffer, where the program has no defined behaviour.
What it returns is `NO_REQUEST`, `BAD_REQUEST` or a result of `do_request` (`NO_RESOURCE`,
`FORBIDDEN_REQUEST`, `BAD_REQUEST`, `FILE_REQUEST`), never `GET_REQUEST`, `INTERNAL_ERROR` or
`CLOSED_CONNECTION`: the check state is one of the three values of its type. -/
theorem C26_process_read_codes (cfg : Limits) (fs : FileSystem) (st : http_conn) :
    (process_read cfg fs st = none ∧ bad_store cfg fs st = true) ∨
    (∃ c s1, process_read cfg fs st = some (c, s1) ∧ bad_store cfg fs st = false ∧
      (c = HTTP_CODE.NO_REQUEST ∨ c = HTTP_CODE.BAD_REQUEST ∨ c = HTTP_CODE.NO_RESOURCE ∨
        c = HTTP_CODE.FORBIDDEN_REQUEST ∨ c = HTTP_CODE.FILE_REQUEST) ∧
      c ≠ HTTP_CODE.GET_REQUEST ∧ c ≠ HTTP_CODE.INTERNAL_ERROR ∧
      c ≠ HTTP_CODE.CLOSED_CONNECTION) := by
  rcases process_read_total cfg fs st with ⟨⟨c, s1⟩, hr, hb⟩ | ⟨hr, hb⟩
  · refine Or.inr ⟨c, s1, hr, hb, ?_⟩
    have key := process_read_code_cases cfg fs st c s1 hr
    refine ⟨key, ?_, ?_, ?_⟩ <;>
      · intro e
        subst e
        rcases key with h | h | h | h | h <;> cases h
  · exact Or.inl ⟨hr, hb⟩

end WebServer
namespace WebServer
open http_conn

/-! ## The parsed values are slices of the read buffer -/

/-- The version pointer the request-line parser leaves lies before the NUL that ends the
line, unless it is the one it found; and when the parser has changed the check state, the url
and the version are not null. -/
theorem parse_request_line_version (st : http_conn) (text i : Nat)
    (hti : text ≤ i) (hib : i < st.m_read_buf.length) (h0 : st.m_read_buf.getD i 0 = 0) :
    (∀ q, (parse_request_line st text).2.m_version = some q →
      q ≤ i ∨ st.m_version = some q) ∧
    ((parse_request_line st text).2.m_check_state = st.m_check_state ∨
      ((parse_request_line st text).2.m_url ≠ none ∧
        (parse_request_line st text).2.m_version ≠ none)) := by
  obtain ⟨sockfd, buf, ridx, cidx, sline, cs, meth, rf, url, ver, host, cl, lg, wbuf, widx, fa,
    fst, iv0, iv1, ivc⟩ := st
  simp only [] at hib h0
  unfold parse_request_line
  simp only []
  cases hu : strpbrk buf text [32, 9] with
  | none =>
    simp only []
    exact ⟨fun q hq => Or.inr hq, (by first | exact Or.inl trivial | exact Or.inl rfl)⟩
  | some u =>
    simp only []
    obtain ⟨hu1, hu2⟩ := strpbrk_bounds _ _ _ _ hu
    have hlen := cstr_end_le buf text i hti hib h0
    have h01 : (buf.set u 0).getD i 0 = 0 := getD_set_zero _ _ _ h0
    have hib1 : i < (buf.set u 0).length := by rw [List.length_set]; exact hib
    by_cases hg : strcasecmp (cstr (buf.set u 0) text) (bytes "GET") = 0
    · simp only [if_pos hg]
      cases hv : strpbrk (buf.set u 0) (u + 1) [32, 9] with
      | none =>
        simp only []
        exact ⟨fun q hq => (by cases hq), (by first | exact Or.inl trivial | exact Or.inl rfl)⟩
      | some v =>
        simp only []
        obtain ⟨hv1, hv2⟩ := strpbrk_bounds _ _ _ _ hv
        have hlen1 := cstr_end_le (buf.set u 0) (u + 1) i (by omega) hib1 h01
        have hvi : v + 1 ≤ i := by omega
        have hq : ∀ q, some (v + 1) = some q → q ≤ i ∨ ver = some q := by
          intro q hq
          cases hq
          exact Or.inl hvi
        by_cases hver : strcasecmp (cstr ((buf.set u 0).set v 0) (v + 1)) (bytes "HTTP/1.1") ≠ 0
        · simp only [if_pos hver]
          exact ⟨hq, (by first | exact Or.inl trivial | exact Or.inl rfl)⟩
        · simp only [if_neg hver]
          by_cases hsch : strncasecmp (cstr ((buf.set u 0).set v 0) (u + 1)) (bytes "http://") 7 = 0
          · simp only [if_pos hsch]
            cases hw : strchr ((buf.set u 0).set v 0) (u + 1 + 7) 47 with
            | none =>
              simp only []
              exact ⟨hq, (by first | exact Or.inl trivial | exact Or.inl rfl)⟩
            | some w =>
              simp only []
              by_cases hsl : ((buf.set u 0).set v 0).getD w 0 ≠ 47
              · simp only [if_pos hsl]
                exact ⟨hq, (by first | exact Or.inl trivial | exact Or.inl rfl)⟩
              · simp only [if_neg hsl]
                exact ⟨hq, (by first | exact Or.inr ⟨fun e => (by cases e), fun e => (by cases e)⟩ | simp)⟩
          · simp only [if_neg hsch]
            by_cases hsl : ((buf.set u 0).set v 0).getD (u + 1) 0 ≠ 47
            · simp only [if_pos hsl]
              exact ⟨hq, (by first | exact Or.inl trivial | exact Or.inl rfl)⟩
            · simp only [if_neg hsl]
              exact ⟨hq, (by first | exact Or.inr ⟨fun e => (by cases e), fun e => (by cases e)⟩ | simp)⟩
    · simp only [if_neg hg]
      exact ⟨fun q hq => Or.inr hq, (by first | exact Or.inl trivial | exact Or.inl rfl)⟩

/-- The line a parser is called on ends with a NUL inside the received bytes: what
`process_read` knows after `parse_line` has returned `LINE_OK`. -/
theorem line_context (st : http_conn) (hcur : st.m_start_line ≤ st.m_checked_idx)
    (hok : (parse_line st).1 = LINE_STATUS.LINE_OK) :
    (parse_line st).2.m_start_line ≤ (parse_line st).2.m_checked_idx - 1 ∧
    (parse_line st).2.m_checked_idx - 1 < (parse_line st).2.m_read_idx ∧
    (parse_line st).2.m_read_buf.getD ((parse_line st).2.m_checked_idx - 1) 0 = 0 := by
  obtain ⟨buf1, c1, hfr, hle, hbl, hok2⟩ := parse_line_frame st
  obtain ⟨hc1, hc2⟩ := hok2 hok
  have hnul := (parse_line_nul st).2 hok
  refine ⟨?_, ?_, hnul⟩
  · rw [hfr]
    show st.m_start_line ≤ c1 - 1
    omega
  · rw [hfr]
    show c1 - 1 < st.m_read_idx
    omega

/-- A property of the connection that implies `m_start_line ≤ m_checked_idx` and that the
scanner, the parsers (called on a line that ends inside the received bytes) and `do_request`
keep is kept by the loop of `process_read`. -/
theorem loop_preserves_line (P : http_conn → Prop) (cfg : Limits) (fs : FileSystem)
    (hcur : ∀ s, P s → s.m_start_line ≤ s.m_checked_idx)
    (hpl : ∀ s, P s → P (parse_line s).2)
    (hst : ∀ s, P s → P { s with m_start_line := s.m_checked_idx })
    (hrl : ∀ s t i, P s → s.m_check_state = CHECK_STATE.CHECK_STATE_REQUESTLINE →
      t ≤ i → i < s.m_read_idx → s.m_read_buf.getD i 0 = 0 → P (parse_request_line s t).2)
    (hh : ∀ s t i, P s → s.m_check_state = CHECK_STATE.CHECK_STATE_HEADER →
      t ≤ i → i < s.m_read_idx → s.m_read_buf.getD i 0 = 0 → P (parse_headers s t).2)
    (hc : ∀ s t r, P s → parse_content s t = some r → P r.2)
    (hd : ∀ s, P s → P (do_request cfg fs s).2) (f : Nat) :
    ∀ (ls : LINE_STATUS) (st : http_conn) (r : HTTP_CODE × http_conn),
      P st → process_read_loop cfg fs f ls st = some r → P r.2 := by
  have step : ∀ (ls : LINE_STATUS) (st : http_conn), P st →
      match process_read_step cfg fs ls st with
      | Sum.inl none => True
      | Sum.inl (some r) => P r.2
      | Sum.inr c => P c.2 := by
    intro ls st h
    by_cases hcc : st.m_check_state = CHECK_STATE.CHECK_STATE_CONTENT ∧ ls = LINE_STATUS.LINE_OK
    · obtain ⟨hcs, hls⟩ := hcc
      subst hls
      rw [step_content_ok cfg fs st hcs]
      cases hpc : parse_content { st with m_start_line := st.m_checked_idx }
          st.m_start_line with
      | none => trivial
      | some r =>
        have hp := hc { st with m_start_line := st.m_checked_idx } st.m_start_line r
          (hst st h) hpc
        simp only []
        by_cases hg : r.1 = HTTP_CODE.GET_REQUEST
        · rw [if_pos hg]; exact hd _ hp
        · rw [if_neg hg]; exact hp
    · rw [step_scan cfg fs ls st hcc]
      have hpl1 := hpl st h
      by_cases hok : (parse_line st).1 ≠ LINE_STATUS.LINE_OK
      · rw [if_pos hok]; exact hpl1
      · rw [if_neg hok]
        have hok1 : (parse_line st).1 = LINE_STATUS.LINE_OK := not_not.1 hok
        obtain ⟨k1, k2, k3⟩ := line_context st (hcur st h) hok1
        have hs := hst _ hpl1
        cases hcs : (parse_line st).2.m_check_state with
        | CHECK_STATE_REQUESTLINE =>
          simp only []
          have hp := hrl
            { (parse_line st).2 with m_start_line := (parse_line st).2.m_checked_idx }
            (parse_line st).2.m_start_line ((parse_line st).2.m_checked_idx - 1) hs hcs k1 k2 k3
          by_cases hb : (parse_request_line
              { (parse_line st).2 with m_start_line := (parse_line st).2.m_checked_idx }
              (parse_line st).2.m_start_line).1 = HTTP_CODE.BAD_REQUEST
          · rw [if_pos hb]; exact hp
          · rw [if_neg hb]; exact hp
        | CHECK_STATE_HEADER =>
          simp only []
          have hp := hh
            { (parse_line st).2 with m_start_line := (parse_line st).2.m_checked_idx }
            (parse_line st).2.m_start_line ((parse_line st).2.m_checked_idx - 1) hs hcs k1 k2 k3
          by_cases hb : (parse_headers
              { (parse_line st).2 with m_start_line := (parse_line st).2.m_checked_idx }
              (parse_line st).2.m_start_line).1 = HTTP_CODE.BAD_REQUEST
          · rw [if_pos hb]; exact hp
          · rw [if_neg hb]
            by_cases hg : (parse_headers
                { (parse_line st).2 with m_start_line := (parse_line st).2.m_checked_idx }
                (parse_line st).2.m_start_line).1 = HTTP_CODE.GET_REQUEST
            · rw [if_pos hg]; exact hd _ hp
            · rw [if_neg hg]; exact hp
        | CHECK_STATE_CONTENT =>
          simp only []
          cases hpc : parse_content
              { (parse_line st).2 with m_start_line := (parse_line st).2.m_checked_idx }
              (parse_line st).2.m_start_line with
          | none => trivial
          | some r =>
            have hp := hc
              { (parse_line st).2 with m_start_line := (parse_line st).2.m_checked_idx }
              (parse_line st).2.m_start_line r hs hpc
            simp only []
            by_cases hg : r.1 = HTTP_CODE.GET_REQUEST
            · rw [if_pos hg]; exact hd _ hp
            · rw [if_neg hg]; exact hp
  induction f with
  | zero => intro ls st r _ h; cases h
  | succ f ih =>
    intro ls st r hP h
    rw [loop_succ] at h
    have hstep := step ls st hP
    cases hs : process_read_step cfg fs ls st with
    | inl r1 =>
      rw [hs] at h hstep
      cases r1 with
      | none => cases h
      | some x =>
        simp only [Option.some.injEq] at h
        subst h
        exact hstep
    | inr c =>
      rw [hs] at h hstep
      exact ih c.1 c.2 r hstep h

end WebServer
namespace WebServer
open http_conn

theorem slices_parse_line (st : http_conn) (h : slices_inv st) : slices_inv (parse_line st).2 := by
  obtain ⟨h1, h2, h3, h4, h5, h6, h7⟩ := h
  obtain ⟨buf1, c1, hfr, hle, hbl, -⟩ := parse_line_frame st
  have hz := (parse_line_nul st).1
  have hc : (parse_line st).2.m_checked_idx ≤ st.m_read_idx := by
    unfold parse_line
    obtain ⟨hok, hno⟩ := parse_line_loop_cases (st.m_read_idx - st.m_checked_idx) st
    by_cases hs : (parse_line_loop (st.m_read_idx - st.m_checked_idx) st).1 = LINE_STATUS.LINE_OK
    · obtain ⟨c, hc, -, -, g3, -, -⟩ := hok hs
      rw [hc]; exact g3
    · obtain ⟨c, hc, -, g2⟩ := hno hs
      rw [hc]; exact g2 h3
  rw [hfr] at hz hc ⊢
  simp only [] at hz hc
  exact ⟨by show st.m_read_idx ≤ buf1.length; omega, by show st.m_start_line ≤ c1; omega, hc,
    terminated_mono _ _ _ _ hz h4, terminated_mono _ _ _ _ hz h5, terminated_mono _ _ _ _ hz h6,
    h7⟩

theorem slices_start_here (st : http_conn) (h : slices_inv st) :
    slices_inv { st with m_start_line := st.m_checked_idx } :=
  ⟨h.1, le_refl _, h.2.2.1, h.2.2.2.1, h.2.2.2.2.1, h.2.2.2.2.2.1, h.2.2.2.2.2.2⟩

theorem slices_parse_request_line (st : http_conn) (text i : Nat) (h : slices_inv st)
    (hcs : st.m_check_state = CHECK_STATE.CHECK_STATE_REQUESTLINE)
    (hti : text ≤ i) (hi : i < st.m_read_idx) (h0 : st.m_read_buf.getD i 0 = 0) :
    slices_inv (parse_request_line st text).2 := by
  obtain ⟨h1, h2, h3, h4, h5, h6, h7⟩ := h
  obtain ⟨-, g2, g3, -⟩ := parse_request_line_feed [] st text i (by
    show st.m_read_idx + 0 ≤ _; omega) hti hi h0
  obtain ⟨v1, v2⟩ := parse_request_line_version st text i hti (by omega) h0
  have hlen := parse_request_line_length st text
  have h0' := g3 i h0
  obtain ⟨b, u, v, m, c, hfr⟩ := parse_request_line_frame st text
  rw [hfr] at g2 g3 v1 v2 hlen h0' ⊢
  simp only [] at g2 g3 v1 v2 hlen h0'
  refine ⟨by show st.m_read_idx ≤ b.length; omega, h2, h3,
    terminated_of_le _ _ i _ hi h0' g2, ?_, terminated_mono _ _ _ _ g3 h6, ?_⟩
  · intro q hq
    rcases v1 q hq with hle | hold
    · exact ⟨i, hle, hi, h0'⟩
    · exact terminated_mono _ _ _ _ g3 h5 q hold
  · intro hne
    rcases v2 with e | e
    · exact absurd (e.trans hcs) hne
    · exact e

theorem slices_parse_headers (st : http_conn) (text i : Nat) (h : slices_inv st)
    (hcs : st.m_check_state = CHECK_STATE.CHECK_STATE_HEADER)
    (hti : text ≤ i) (hi : i < st.m_read_idx) (h0 : st.m_read_buf.getD i 0 = 0) :
    slices_inv (parse_headers st text).2 := by
  obtain ⟨h1, h2, h3, h4, h5, h6, h7⟩ := h
  obtain ⟨-, g2, -, -⟩ := parse_headers_feed [] st text i (by
    show st.m_read_idx + 0 ≤ _; omega) hti hi h0
  obtain ⟨c, l, n, ho, hfr⟩ := parse_headers_frame st text
  rw [hfr] at g2 ⊢
  simp only [] at g2
  refine ⟨h1, h2, h3, h4, h5, ?_, fun _ => h7 (by rw [hcs]; exact fun e => (by cases e))⟩
  intro q hq
  rcases g2 q hq with hle | hold
  · exact ⟨i, hle, hi, h0⟩
  · exact h6 q hold

theorem slices_parse_content (st : http_conn) (text : Nat) (r : HTTP_CODE × http_conn)
    (h : slices_inv st) (hp : parse_content st text = some r) : slices_inv r.2 := by
  obtain ⟨h1, h2, h3, h4, h5, h6, h7⟩ := h
  obtain ⟨b, hfr, hl, hno, hget⟩ := parse_content_frame st text r hp
  by_cases hg : r.1 = HTTP_CODE.GET_REQUEST
  · obtain ⟨k, hb, -, -, -⟩ := hget hg
    have hz : ∀ j, st.m_read_buf.getD j 0 = 0 → b.getD j 0 = 0 := by
      intro j hj; rw [hb]; exact getD_set_zero _ _ _ hj
    rw [hfr]
    exact ⟨by show st.m_read_idx ≤ b.length; omega, h2, h3,
      terminated_mono _ _ _ _ hz h4, terminated_mono _ _ _ _ hz h5,
      terminated_mono _ _ _ _ hz h6, h7⟩
  · rw [hno hg]
    exact ⟨h1, h2, h3, h4, h5, h6, h7⟩

theorem slices_do_request (cfg : Limits) (fs : FileSystem) (st : http_conn)
    (h : slices_inv st) : slices_inv (do_request cfg fs st).2 := by
  obtain ⟨rf, fst, fa, hfr⟩ := do_request_frame cfg fs st
  rw [hfr]; exact h

theorem slices_loop (cfg : Limits) (fs : FileSystem) (f : Nat) (ls : LINE_STATUS)
    (st : http_conn) (r : HTTP_CODE × http_conn) (h : slices_inv st)
    (hr : process_read_loop cfg fs f ls st = some r) : slices_inv r.2 :=
  loop_preserves_line slices_inv cfg fs (fun s hs => hs.2.1) slices_parse_line
    slices_start_here (fun s t i hs hcs h1 h2 h3 => slices_parse_request_line s t i hs hcs h1 h2 h3)
    (fun s t i hs hcs h1 h2 h3 => slices_parse_headers s t i hs hcs h1 h2 h3)
    (fun s t r hs hp => slices_parse_content s t r hs hp) (slices_do_request cfg fs) f ls st r h hr

end WebServer
namespace WebServer
open http_conn

theorem read_buf_length_loop (cfg : Limits) (fs : FileSystem) (n f : Nat) (ls : LINE_STATUS)
    (st : http_conn) (r : HTTP_CODE × http_conn) (h : st.m_read_buf.length = n)
    (hr : process_read_loop cfg fs f ls st = some r) : r.2.m_read_buf.length = n := by
  refine loop_preserves (fun s => s.m_read_buf.length = n) cfg fs ?_ (fun s hs => hs) ?_ ?_ ?_ ?_
    f ls st r h hr
  · intro s hs
    obtain ⟨b, c, hfr, -, hl, -⟩ := parse_line_frame s
    rw [hfr]; show b.length = n; omega
  · intro s t hs
    show (parse_request_line s t).2.m_read_buf.length = n
    rw [parse_request_line_length]; exact hs
  · intro s t hs
    obtain ⟨c, l, k, ho, hfr⟩ := parse_headers_frame s t
    rw [hfr]; exact hs
  · intro s t r hs hp
    obtain ⟨b, hfr, hl, -, -⟩ := parse_content_frame s t r hp
    rw [hfr]; show b.length = n; omega
  · intro s hs
    obtain ⟨rf, fst, fa, hfr⟩ := do_request_frame cfg fs s
    rw [hfr]; exact hs

theorem slices_read_loop (cfg : Limits) (socket : List recv_result) :
    ∀ st : http_conn, slices_inv st ∧ st.m_read_buf.length = cfg.READ_BUFFER_SIZE →
      slices_inv (read_loop cfg socket st).2 ∧
      (read_loop cfg socket st).2.m_read_buf.length = cfg.READ_BUFFER_SIZE := by
  induction socket with
  | nil => intro st h; exact h
  | cons o rest ih =>
    intro st h
    cases o with
    | would_block => exact h
    | error => exact h
    | data bs =>
      unfold read_loop
      simp only []
      by_cases h0 : (bs.take (cfg.READ_BUFFER_SIZE - st.m_read_idx)).length = 0
      · rw [if_pos h0]; exact h
      · rw [if_neg h0]
        apply ih
        obtain ⟨⟨h1, h2, h3, h4, h5, h6, h7⟩, hlen⟩ := h
        have hl : (bs.take (cfg.READ_BUFFER_SIZE - st.m_read_idx)).length
            ≤ cfg.READ_BUFFER_SIZE - st.m_read_idx := by
          rw [List.length_take]; exact Nat.min_le_left _ _
        have hfit : st.m_read_idx + (bs.take (cfg.READ_BUFFER_SIZE - st.m_read_idx)).length
            ≤ st.m_read_buf.length := by omega
        have hz : ∀ p, terminated st.m_read_buf st.m_read_idx p →
            terminated (write_at st.m_read_buf st.m_read_idx
              (bs.take (cfg.READ_BUFFER_SIZE - st.m_read_idx)))
              (st.m_read_idx + (bs.take (cfg.READ_BUFFER_SIZE - st.m_read_idx)).length) p := by
          intro p hp q hq
          obtain ⟨i, hi1, hi2, hi3⟩ := hp q hq
          exact ⟨i, hi1, by omega, by rw [getD_write_at _ _ _ _ hfit hi2]; exact hi3⟩
        refine ⟨⟨?_, h2, ?_, hz _ h4, hz _ h5, hz _ h6, h7⟩, ?_⟩
        · show st.m_read_idx + _ ≤ (write_at _ _ _).length
          rw [write_at_length]; exact hfit
        · show st.m_checked_idx ≤ st.m_read_idx + _
          omega
        · show (write_at _ _ _).length = _
          rw [write_at_length]; exact hlen

theorem reachable_slices (cfg : Limits) (fs : FileSystem) (st : http_conn)
    (h : reachable cfg fs st) :
    slices_inv st ∧ st.m_read_buf.length = cfg.READ_BUFFER_SIZE := by
  induction h with
  | init st0 hsz =>
    have hlen : (init cfg st0).m_read_buf.length = cfg.READ_BUFFER_SIZE := by
      simp only [init, bzero]; rw [write_at_length]; exact hsz.1
    exact ⟨⟨Nat.zero_le _, le_refl _, le_refl _, terminated_none _ _, terminated_none _ _,
      terminated_none _ _, fun hne => absurd rfl hne⟩, hlen⟩
  | read s socket _ ih =>
    unfold http_conn.read
    by_cases h0 : s.m_read_idx ≥ cfg.READ_BUFFER_SIZE
    · rw [if_pos h0]; exact ih
    · rw [if_neg h0]; exact slices_read_loop cfg socket s ih
  | parse_line s _ ih =>
    refine ⟨slices_parse_line s ih.1, ?_⟩
    obtain ⟨b, c, hfr, -, hl, -⟩ := parse_line_frame s
    rw [hfr]; show b.length = _; rw [hl]; exact ih.2
  | process_read s r _ hr ih =>
    unfold process_read at hr
    exact ⟨slices_loop cfg fs _ _ s r ih.1 hr, read_buf_length_loop cfg fs _ _ _ s r ih.2 hr⟩

theorem terminated_slice (buf : List Nat) (n : Nat) (q : Nat) (hn : n ≤ buf.length)
    (h : terminated buf n (some q)) : q + (cstr buf q).length < n := by
  obtain ⟨i, h1, h2, h3⟩ := h q rfl
  have := cstr_end_le buf q i h1 (by omega) h3
  omega

/-- C21, the case the sentence misses: the request `GET /index.html HTTP/1.1` without a
`Host` header is answered with `FILE_REQUEST`, and `m_host` is the null pointer. -/
theorem C21_host_null_counterexample :
    (process_read small_limits scenario_fs
      (received small_limits (bytes "GET /index.html HTTP/1.1\r\n\r\n"))).map
        (fun r => (r.1, r.2.m_host, r.2.m_url.isSome, r.2.m_version.isSome))
      = some (HTTP_CODE.FILE_REQUEST, none, true, true) := by
  decide

/-- C21, amended: on every connection reached from `init()` by calls of `read`, `parse_line`
and `process_read`, `process_read` ends: at a store of `parse_content` outside the read
buffer, or with a result.  When the result is one of `do_request` (`NO_RESOURCE`,
`FORBIDDEN_REQUEST`, `FILE_REQUEST`) the request line has been accepted; once the request line
has been accepted `m_url` and `m_version` are not null and the strings they point to end
before `m_read_idx`, inside the read buffer of `READ_BUFFER_SIZE` bytes; and `m_host` is
either null or such a string. -/
theorem C21_parsed_slices (cfg : Limits) (fs : FileSystem) (st : http_conn)
    (h : reachable cfg fs st) :
    (process_read cfg fs st = none ∧ bad_store cfg fs st = true) ∨
    (∃ c s1, process_read cfg fs st = some (c, s1) ∧
      ((c = HTTP_CODE.NO_RESOURCE ∨ c = HTTP_CODE.FORBIDDEN_REQUEST ∨
          c = HTTP_CODE.FILE_REQUEST) →
        s1.m_check_state ≠ CHECK_STATE.CHECK_STATE_REQUESTLINE) ∧
      (s1.m_check_state ≠ CHECK_STATE.CHECK_STATE_REQUESTLINE →
        (∃ u, s1.m_url = some u ∧ u + (cstr s1.m_read_buf u).length < s1.m_read_idx) ∧
        (∃ v, s1.m_version = some v ∧ v + (cstr s1.m_read_buf v).length < s1.m_read_idx)) ∧
      (∀ q, s1.m_host = some q → q + (cstr s1.m_read_buf q).length < s1.m_read_idx) ∧
      s1.m_read_idx ≤ cfg.READ_BUFFER_SIZE ∧
      s1.m_read_buf.length = cfg.READ_BUFFER_SIZE) := by
  rcases process_read_total cfg fs st with ⟨⟨c, s1⟩, hr, -⟩ | ⟨hr, hb⟩
  swap
  · exact Or.inl ⟨hr, hb⟩
  right
  obtain ⟨⟨h1, h2, h3, h4, h5, h6, h7⟩, hlen⟩ :=
    reachable_slices cfg fs s1 (reachable.process_read st (c, s1) h hr)
  have key : c = HTTP_CODE.NO_REQUEST ∨ c = HTTP_CODE.BAD_REQUEST ∨
      s1.m_check_state ≠ CHECK_STATE.CHECK_STATE_REQUESTLINE := by
    refine loop_result (fun _ => True)
      (fun r => r.1 = HTTP_CODE.NO_REQUEST ∨ r.1 = HTTP_CODE.BAD_REQUEST ∨
        r.2.m_check_state ≠ CHECK_STATE.CHECK_STATE_REQUESTLINE) cfg fs
      (fun _ _ => trivial) (fun _ _ => trivial) (fun _ _ _ _ => trivial)
      (fun _ _ _ _ => trivial) (fun _ _ _ _ _ _ => trivial)
      (fun _ _ => Or.inl rfl) (fun _ _ => Or.inr (Or.inl rfl)) ?_ _ _ st (c, s1) trivial
      (by unfold process_read at hr; exact hr)
    intro s _ hne
    refine Or.inr (Or.inr ?_)
    rw [do_request_cs]; exact hne
  refine ⟨c, s1, hr, ?_, ?_, ?_, by omega, hlen⟩
  · intro hc
    rcases key with e | e | e
    · rw [e] at hc; rcases hc with x | x | x <;> cases x
    · rw [e] at hc; rcases hc with x | x | x <;> cases x
    · exact e
  · intro hne
    obtain ⟨hu, hv⟩ := h7 hne
    cases hu' : s1.m_url with
    | none => exact absurd hu' hu
    | some u =>
      cases hv' : s1.m_version with
      | none => exact absurd hv' hv
      | some v =>
        rw [hu'] at h4; rw [hv'] at h5
        exact ⟨⟨u, rfl, terminated_slice _ _ _ h1 h4⟩, ⟨v, rfl, terminated_slice _ _ _ h1 h5⟩⟩
  · intro q hq
    rw [hq] at h6
    exact terminated_slice _ _ _ h1 h6

/-- The theorem `C21_parsed_slices` applied to the connection that has received the request
`GET /index.html HTTP/1.1` with a `Host` header. -/
theorem C21_parsed_slices_witness :
    bad_store small_limits scenario_fs
      (received small_limits (bytes "GET /index.html HTTP/1.1\r\nHost: a\r\n\r\n")) = false ∧
    ((process_read small_limits scenario_fs
        (received small_limits (bytes "GET /index.html HTTP/1.1\r\nHost: a\r\n\r\n")) = none ∧
      bad_store small_limits scenario_fs
        (received small_limits (bytes "GET /index.html HTTP/1.1\r\nHost: a\r\n\r\n")) = true) ∨
    (∃ c s1, process_read small_limits scenario_fs
        (received small_limits (bytes "GET /index.html HTTP/1.1\r\nHost: a\r\n\r\n"))
        = some (c, s1) ∧
      ((c = HTTP_CODE.NO_RESOURCE ∨ c = HTTP_CODE.FORBIDDEN_REQUEST ∨
          c = HTTP_CODE.FILE_REQUEST) →
        s1.m_check_state ≠ CHECK_STATE.CHECK_STATE_REQUESTLINE) ∧
      (s1.m_check_state ≠ CHECK_STATE.CHECK_STATE_REQUESTLINE →
        (∃ u, s1.m_url = some u ∧ u + (cstr s1.m_read_buf u).length < s1.m_read_idx) ∧
        (∃ v, s1.m_version = some v ∧ v + (cstr s1.m_read_buf v).length < s1.m_read_idx)) ∧
      (∀ q, s1.m_host = some q → q + (cstr s1.m_read_buf q).length < s1.m_read_idx) ∧
      s1.m_read_idx ≤ small_limits.READ_BUFFER_SIZE ∧
      s1.m_read_buf.length = small_limits.READ_BUFFER_SIZE)) :=
  ⟨by decide, C21_parsed_slices small_limits scenario_fs _
    (reachable.read _ _ (reachable.init _ (blank_sized small_limits)))⟩

end WebServer
namespace WebServer
open http_conn

/-! ## The stored content length -/

theorem content_length_not_connection (l : List Nat) (h : is_content_length l = true) :
    is_connection l = false := by
  unfold is_content_length at h
  unfold is_connection
  have h1 : (l.take 15).map tolower = bytes "content-length:" := by simpa using h
  have h2 : (l.take 11).map tolower = ((l.take 15).map tolower).take 11 := by
    rw [← List.map_take, List.take_take]
    rfl
  rw [h2, h1]
  decide

theorem atol_nonneg (s : List Nat) (h : (s.dropWhile isspace).head? ≠ some 45) :
    0 ≤ atol s := by
  unfold atol
  simp only []
  have hb : ((s.dropWhile isspace).head? == some 45) = false := by
    simpa using h
  rw [hb]
  simp only [Bool.false_eq_true, if_false]
  have h1 : (0 : Int) ≤ (2 : Int) ^ 63 - 1 := by norm_num
  exact le_min (Int.ofNat_nonneg _) h1

/-- For a header line `l` that starts with `Content-Length:` (ignoring case), `parse_headers`
stores the `atol` of the value text converted to the 32-bit `int`; the stored value is not
negative when the value text, after its leading white space, does not start with a minus sign
and its `atol` is below 2^31. -/
theorem parse_headers_content_length (st : http_conn) (pre l R : List Nat)
    (hbuf : st.m_read_buf = pre ++ l ++ 0 :: R) (h0 : ∀ c ∈ l, c ≠ 0)
    (hcl : is_content_length l = true) :
    (parse_headers st pre.length).2.m_content_length = to_int (atol (header_value 15 l)) ∧
    (((header_value 15 l).dropWhile isspace).head? ≠ some 45 →
      atol (header_value 15 l) < 2 ^ 31 →
      0 ≤ (parse_headers st pre.length).2.m_content_length) := by
  have hne : l ≠ [] := by
    intro e
    rw [e] at hcl
    exact absurd hcl (by decide)
  have hc := content_length_not_connection l hcl
  have hv : (parse_headers st pre.length).2.m_content_length
      = to_int (atol (header_value 15 l)) := by
    rw [parse_headers_line st pre l R hbuf hne h0]
    show (header_effect pre.length l st).m_content_length = _
    rw [header_effect_content_length, hc, hcl]
    rfl
  refine ⟨hv, ?_⟩
  intro hs hlt
  rw [hv, to_int_of_range _ (atol_nonneg _ hs) hlt]
  exact atol_nonneg _ hs

/-- C22 (the code at the failing input): the header line `Content-Length: -38` makes
`parse_headers` store -38.  On the request `GET /index.html HTTP/1.1` that carries it,
`process_read` takes the body as complete, `parse_content` writes its NUL 38 bytes before
the end of the header section, inside the url, and the result is `NO_RESOURCE` with
`m_content_length = -38`; without the header line the result is `FILE_REQUEST`.  With
`Content-Length: -100` the store is before the start of the read buffer.  A value text of
2147483648 is stored as -2147483648. -/
theorem C22_negative_content_length :
    (header_effect 0 (bytes "Content-Length: -38") (blank small_limits)).m_content_length
      = -38 ∧
    (process_read small_limits scenario_fs
      (received small_limits
        (bytes "GET /index.html HTTP/1.1\r\nContent-Length: -38\r\n\r\n"))).map
        (fun r => (r.1, r.2.m_content_length, r.2.str_at r.2.m_url))
      = some (HTTP_CODE.NO_RESOURCE, -38, some (bytes "/index.")) ∧
    (process_read small_limits scenario_fs
      (received small_limits (bytes "GET /index.html HTTP/1.1\r\n\r\n"))).map Prod.fst
      = some HTTP_CODE.FILE_REQUEST ∧
    bad_store small_limits scenario_fs
      (received small_limits
        (bytes "GET /index.html HTTP/1.1\r\nContent-Length: -100\r\n\r\n")) = true ∧
    (header_effect 0 (bytes "Content-Length: 2147483648")
      (blank small_limits)).m_content_length = -2147483648 := by
  decide

/-! ## The terminating NUL of the body -/

set_option maxRecDepth 100000 in
/-- C27 (the code at the failing input): a request of 96 bytes, the size of the read buffer,
whose 48-byte body ends with the buffer, received as the head and then the body.  After the
head `process_read` returns `NO_REQUEST`; after the body the connection satisfies the cursor
predicate, has `m_content_length = 48` and the body start `m_start_line = 48`, the test of
`parse_content` succeeds (96 ≥ 48 + 48), and the index of the NUL it writes is
48 + 48 = 96, the size of the read buffer, one past its last byte: `parse_content` has no
result.  Received in one piece, the same request brings `process_read` to the same store.
With one byte less (`Content-Length: 47` and 47 bytes) the store is at index 95 and the
result is `FILE_REQUEST`. -/
theorem C27_nul_past_the_end :
    (process_read small_limits scenario_fs
      (received small_limits
        (bytes "GET /index.html HTTP/1.1\r\nContent-Length: 48\r\n\r\n"))).map
      (fun r =>
        (r.1, decide (cursor_inv small_limits
            (read small_limits r.2 [recv_result.data (List.replicate 48 120)]).2),
          (read small_limits r.2 [recv_result.data (List.replicate 48 120)]).2.m_content_length,
          (read small_limits r.2 [recv_result.data (List.replicate 48 120)]).2.m_start_line,
          (read small_limits r.2 [recv_result.data (List.replicate 48 120)]).2.m_read_idx))
      = some (HTTP_CODE.NO_REQUEST, true, 48, 48, 96) ∧
    (process_read small_limits scenario_fs
      (received small_limits
        (bytes "GET /index.html HTTP/1.1\r\nContent-Length: 48\r\n\r\n"))).map
      (fun r =>
        (decide (((read small_limits r.2
              [recv_result.data (List.replicate 48 120)]).2.m_read_idx : Int) ≥
            to_int ((read small_limits r.2
                [recv_result.data (List.replicate 48 120)]).2.m_content_length +
              ((read small_limits r.2
                [recv_result.data (List.replicate 48 120)]).2.m_checked_idx : Int))),
          (parse_content (read small_limits r.2 [recv_result.data (List.replicate 48 120)]).2
            (read small_limits r.2
              [recv_result.data (List.replicate 48 120)]).2.m_start_line).isNone,
          (read small_limits r.2 [recv_result.data (List.replicate 48 120)]).2.m_read_buf.length))
      = some (true, true, 96) ∧
    small_limits.READ_BUFFER_SIZE = 96 ∧
    bad_store small_limits scenario_fs
      (received small_limits
        (bytes "GET /index.html HTTP/1.1\r\nContent-Length: 48\r\n\r\n" ++
          List.replicate 48 120)) = true ∧
    (process_read small_limits scenario_fs
      (received small_limits
        (bytes "GET /index.html HTTP/1.1\r\nContent-Length: 48\r\n\r\n" ++
          List.replicate 48 120))).isNone = true ∧
    (process_read small_limits scenario_fs
      (received small_limits
        (bytes "GET /index.html HTTP/1.1\r\nContent-Length: 47\r\n\r\n" ++
          List.replicate 47 120))).map Prod.fst = some HTTP_CODE.FILE_REQUEST := by
  decide

end WebServer
namespace WebServer
open http_conn

/-! ## No line terminator behind the scanner -/

theorem no_crlf_of_zero (buf : List Nat) (j : Nat) (h : buf.getD j 0 = 0) : no_crlf buf j := by
  unfold no_crlf
  rw [h]
  exact ⟨by decide, by decide⟩

theorem no_crlf_set (buf : List Nat) (u j : Nat) (h : no_crlf buf j) :
    no_crlf (buf.set u 0) j := by
  by_cases e : j = u
  · subst e
    exact no_crlf_of_zero _ _ (getD_set_self buf j)
  · unfold no_crlf at h ⊢
    rw [getD_set_ne buf u j 0 e]
    exact h

theorem parse_line_loop_clean (k : Nat) : ∀ (st : http_conn),
    (∀ j, j < st.m_checked_idx → no_crlf st.m_read_buf j) →
    ∀ j, j < (parse_line_loop k st).2.m_checked_idx →
      no_crlf (parse_line_loop k st).2.m_read_buf j := by
  induction k with
  | zero => intro st h; exact h
  | succ k ih =>
    intro st h
    obtain ⟨sockfd, buf, ridx, cidx, sline, cs, meth, rf, url, ver, host, cl, lg, wbuf, widx, fa,
      fst, iv0, iv1, ivc⟩ := st
    have h' : ∀ j, j < cidx → no_crlf buf j := h
    generalize hr : parse_line_loop (k + 1)
      ⟨sockfd, buf, ridx, cidx, sline, cs, meth, rf, url, ver, host, cl, lg, wbuf, widx, fa,
        fst, iv0, iv1, ivc⟩ = r
    unfold parse_line_loop at hr
    simp only [] at hr
    by_cases h1 : cidx < ridx
    · rw [if_pos h1] at hr
      by_cases h2 : buf.getD cidx 0 = 13
      · rw [if_pos h2] at hr
        by_cases h3 : cidx + 1 = ridx
        · rw [if_pos h3] at hr
          subst hr
          exact h
        · rw [if_neg h3] at hr
          by_cases h4 : buf.getD (cidx + 1) 0 = 10
          · rw [if_pos h4] at hr
            subst hr
            intro j hj
            have hj' : j < cidx + 2 := hj
            show no_crlf ((buf.set cidx 0).set (cidx + 1) 0) j
            by_cases e1 : j < cidx
            · exact no_crlf_set _ _ _ (no_crlf_set _ _ _ (h' j e1))
            · by_cases e2 : j = cidx
              · subst e2
                exact no_crlf_set _ _ _ (no_crlf_of_zero _ _ (getD_set_self buf j))
              · have e3 : j = cidx + 1 := by omega
                subst e3
                exact no_crlf_of_zero _ _ (getD_set_self _ _)
          · rw [if_neg h4] at hr
            subst hr
            exact h
      · rw [if_neg h2] at hr
        by_cases h3 : buf.getD cidx 0 = 10
        · rw [if_pos h3] at hr
          by_cases h4 : cidx > 1 ∧ buf.getD (cidx - 1) 0 = 13
          · rw [if_pos h4] at hr
            subst hr
            intro j hj
            have hj' : j < cidx + 1 := hj
            show no_crlf ((buf.set (cidx - 1) 0).set cidx 0) j
            by_cases e1 : j < cidx
            · exact no_crlf_set _ _ _ (no_crlf_set _ _ _ (h' j e1))
            · have e3 : j = cidx := by omega
              subst e3
              exact no_crlf_of_zero _ _ (getD_set_self _ _)
          · rw [if_neg h4] at hr
            subst hr
            exact h
        · rw [if_neg h3] at hr
          subst hr
          apply ih
            ⟨sockfd, buf, ridx, cidx + 1, sline, cs, meth, rf, url, ver, host, cl, lg, wbuf,
              widx, fa, fst, iv0, iv1, ivc⟩
          intro j hj
          have hj' : j < cidx + 1 := hj
          show no_crlf buf j
          by_cases e1 : j < cidx
          · exact h' j e1
          · have e3 : j = cidx := by omega
            subst e3
            exact ⟨h2, h3⟩
    · rw [if_neg h1] at hr
      subst hr
      exact h

theorem parse_line_clean (cfg : Limits) (st : http_conn) (h : scanned_clean cfg st) :
    scanned_clean cfg (parse_line st).2 := by
  obtain ⟨h1, h2, h3, h4⟩ := h
  have hcl := parse_line_loop_clean (st.m_read_idx - st.m_checked_idx) st h4
  have hc : (parse_line st).2.m_checked_idx ≤ st.m_read_idx := by
    unfold parse_line
    obtain ⟨hok, hno⟩ := parse_line_loop_cases (st.m_read_idx - st.m_checked_idx) st
    by_cases hs : (parse_line_loop (st.m_read_idx - st.m_checked_idx) st).1 = LINE_STATUS.LINE_OK
    · obtain ⟨c, hc, -, -, g3, -, -⟩ := hok hs
      rw [hc]; exact g3
    · obtain ⟨c, hc, -, g2⟩ := hno hs
      rw [hc]; exact g2 h2
  obtain ⟨b, c, hfr, -, hl, -⟩ := parse_line_frame st
  refine ⟨?_, ?_, ?_, hcl⟩
  · rw [hfr]; show b.length = _; omega
  · rw [hfr] at hc ⊢; exact hc
  · rw [hfr]; exact h3

theorem parse_request_line_clean (st : http_conn) (text j : Nat)
    (h : no_crlf st.m_read_buf j) : no_crlf (parse_request_line st text).2.m_read_buf j := by
  unfold parse_request_line
  simp only []
  repeat' split
  all_goals first
    | exact h
    | exact no_crlf_set _ _ _ h
    | exact no_crlf_set _ _ _ (no_crlf_set _ _ _ h)

theorem parse_content_clean (st : http_conn) (text j : Nat) (r : HTTP_CODE × http_conn)
    (hp : parse_content st text = some r)
    (h : no_crlf st.m_read_buf j) : no_crlf r.2.m_read_buf j := by
  obtain ⟨b, hfr, -, hno, hget⟩ := parse_content_frame st text r hp
  by_cases hg : r.1 = HTTP_CODE.GET_REQUEST
  · obtain ⟨k, hb, -, -, -⟩ := hget hg
    rw [hfr]
    show no_crlf b j
    rw [hb]
    exact no_crlf_set _ _ _ h
  · rw [hno hg]; exact h

theorem clean_of_frame (cfg : Limits) (s t : http_conn)
    (hl : t.m_read_buf.length = s.m_read_buf.length)
    (hc : t.m_checked_idx = s.m_checked_idx) (hr : t.m_read_idx = s.m_read_idx)
    (hb : ∀ j, no_crlf s.m_read_buf j → no_crlf t.m_read_buf j)
    (h : scanned_clean cfg s) : scanned_clean cfg t := by
  obtain ⟨h1, h2, h3, h4⟩ := h
  refine ⟨by omega, by omega, by omega, ?_⟩
  intro j hj
  exact hb j (h4 j (by omega))

theorem loop_clean (cfg : Limits) (fs : FileSystem) (f : Nat) (ls : LINE_STATUS)
    (st : http_conn) (r : HTTP_CODE × http_conn) (h : scanned_clean cfg st)
    (hr : process_read_loop cfg fs f ls st = some r) : scanned_clean cfg r.2 := by
  refine loop_preserves (scanned_clean cfg) cfg fs (parse_line_clean cfg) (fun s hs => hs)
    ?_ ?_ ?_ ?_ f ls st r h hr
  · intro s t hs
    obtain ⟨b, u, v, m, c, hfr⟩ := parse_request_line_frame s t
    refine clean_of_frame cfg s _ (parse_request_line_length s t) ?_ ?_
      (fun j hj => parse_request_line_clean s t j hj) hs
    · rw [hfr]
    · rw [hfr]
  · intro s t hs
    obtain ⟨c, l, k, ho, hfr⟩ := parse_headers_frame s t
    rw [hfr]; exact hs
  · intro s t r hs hp
    obtain ⟨b, hfr, hl, -, -⟩ := parse_content_frame s t r hp
    refine clean_of_frame cfg s _ ?_ ?_ ?_ (fun j hj => parse_content_clean s t j r hp hj) hs
    · rw [hfr]; exact hl
    · rw [hfr]
    · rw [hfr]
  · intro s hs
    obtain ⟨rf, fst, fa, hfr⟩ := do_request_frame cfg fs s
    rw [hfr]; exact hs

theorem read_loop_clean (cfg : Limits) (socket : List recv_result) :
    ∀ st : http_conn, scanned_clean cfg st → scanned_clean cfg (read_loop cfg socket st).2 := by
  induction socket with
  | nil => intro st h; exact h
  | cons o rest ih =>
    intro st h
    cases o with
    | would_block => exact h
    | error => exact h
    | data bs =>
      unfold read_loop
      simp only []
      by_cases h0 : (bs.take (cfg.READ_BUFFER_SIZE - st.m_read_idx)).length = 0
      · rw [if_pos h0]; exact h
      · rw [if_neg h0]
        apply ih
        obtain ⟨h1, h2, h3, h4⟩ := h
        have hl : (bs.take (cfg.READ_BUFFER_SIZE - st.m_read_idx)).length
            ≤ cfg.READ_BUFFER_SIZE - st.m_read_idx := by
          rw [List.length_take]; exact Nat.min_le_left _ _
        have hfit : st.m_read_idx + (bs.take (cfg.READ_BUFFER_SIZE - st.m_read_idx)).length
            ≤ st.m_read_buf.length := by omega
        refine ⟨?_, ?_, ?_, ?_⟩
        · show (write_at _ _ _).length = _
          rw [write_at_length]; exact h1
        · show st.m_checked_idx ≤ st.m_read_idx + _
          omega
        · show st.m_read_idx + _ ≤ cfg.READ_BUFFER_SIZE
          omega
        · intro j hj
          have hj' : j < st.m_checked_idx := hj
          show no_crlf (write_at _ _ _) j
          unfold no_crlf
          rw [getD_write_at _ _ _ _ hfit (by omega)]
          exact h4 j hj'

theorem reachable_clean (cfg : Limits) (fs : FileSystem) (st : http_conn)
    (h : reachable cfg fs st) : scanned_clean cfg st := by
  induction h with
  | init st0 hsz =>
    have hlen : (init cfg st0).m_read_buf.length = cfg.READ_BUFFER_SIZE := by
      simp only [init, bzero]; rw [write_at_length]; exact hsz.1
    exact ⟨hlen, le_refl _, Nat.zero_le _, fun j hj => absurd hj (Nat.not_lt_zero _)⟩
  | read s socket _ ih =>
    unfold http_conn.read
    by_cases h0 : s.m_read_idx ≥ cfg.READ_BUFFER_SIZE
    · rw [if_pos h0]; exact ih
    · rw [if_neg h0]; exact read_loop_clean cfg socket s ih
  | parse_line s _ ih => exact parse_line_clean cfg s ih
  | process_read s r _ hr ih =>
    unfold process_read at hr
    exact loop_clean cfg fs _ _ s r ih hr

end WebServer
namespace WebServer
open http_conn

/-! ## `process()` and the event loop -/

end WebServer
namespace WebServer
open http_conn

/-! ## The verdict of the line scanner -/

/-- No connection reached from `init()` by calls of `read`, `parse_line` and `process_read`
has the scanner at offset 1 behind a CR at offset 0. -/
theorem reachable_not_behind_cr (cfg : Limits) (fs : FileSystem) (st : http_conn)
    (h : reachable cfg fs st) : st.m_checked_idx = 1 → st.m_read_buf.getD 0 0 ≠ 13 :=
  fun e => ((reachable_clean cfg fs st h).2.2.2 0 (by omega)).1

end WebServer
namespace WebServer
open http_conn

/-! ## The connection flag after the header section -/

/-- In the content state, with a content length that is not negative and does not overflow an
`int` when a buffer offset is added, and received bytes that do not fill the read buffer, the
loop of `process_read` returns: every store of `parse_content` is inside the read buffer. -/
theorem content_loop_returns (cfg : Limits) (fs : FileSystem) (f : Nat) (ls : LINE_STATUS)
    (st : http_conn) (hm : loop_measure ls st ≤ f)
    (hcs : st.m_check_state = CHECK_STATE.CHECK_STATE_CONTENT)
    (h1 : st.m_start_line ≤ st.m_checked_idx) (h2 : st.m_checked_idx ≤ st.m_read_idx)
    (h3 : st.m_read_idx < st.m_read_buf.length) (h4 : 0 ≤ st.m_content_length)
    (h5 : st.m_content_length + (st.m_read_buf.length : Int) < 2 ^ 31) :
    ∃ r, process_read_loop cfg fs f ls st = some r := by
  refine loop_returns (fun s => s.m_check_state = CHECK_STATE.CHECK_STATE_CONTENT ∧
      s.m_start_line ≤ s.m_checked_idx ∧ s.m_checked_idx ≤ s.m_read_idx ∧
      s.m_read_idx < s.m_read_buf.length ∧ 0 ≤ s.m_content_length ∧
      s.m_content_length + (s.m_read_buf.length : Int) < 2 ^ 31) cfg fs ?_ ?_ ?_ ?_ f ls st hm
    ⟨hcs, h1, h2, h3, h4, h5⟩
  · rintro s ⟨a1, a2, a3, a4, a5, a6⟩
    have hc : (parse_line s).2.m_checked_idx ≤ s.m_read_idx := by
      unfold parse_line
      obtain ⟨hok, hno⟩ := parse_line_loop_cases (s.m_read_idx - s.m_checked_idx) s
      by_cases hs : (parse_line_loop (s.m_read_idx - s.m_checked_idx) s).1 = LINE_STATUS.LINE_OK
      · obtain ⟨c, hc, -, -, g3, -, -⟩ := hok hs
        rw [hc]; exact g3
      · obtain ⟨c, hc, -, g2⟩ := hno hs
        rw [hc]; exact g2 a3
    obtain ⟨b, c, hfr, hle, hbl, -⟩ := parse_line_frame s
    rw [hfr] at hc ⊢
    refine ⟨a1, ?_, hc, ?_, a5, ?_⟩
    · show s.m_start_line ≤ c; omega
    · show s.m_read_idx < b.length; omega
    · show s.m_content_length + (b.length : Int) < 2 ^ 31; rw [hbl]; exact a6
  · rintro s ⟨a1, -⟩ hq
    rw [a1] at hq; cases hq
  · rintro s ⟨a1, -⟩ hq
    rw [a1] at hq; cases hq
  · rintro s ⟨a1, a2, a3, a4, a5, a6⟩ -
    have hti : to_int (s.m_content_length + (s.m_checked_idx : Int))
        = s.m_content_length + (s.m_checked_idx : Int) :=
      to_int_of_range _ (by omega) (by omega)
    rcases parse_content_cases { s with m_start_line := s.m_checked_idx } s.m_start_line with
      ⟨e, -⟩ | ⟨k, e, -, hk, -⟩ | ⟨-, ht, hb⟩
    · exact ⟨_, e, a1, le_refl _, a3, a4, a5, a6⟩
    · refine ⟨_, e, a1, le_refl _, a3, ?_, a5, ?_⟩
      · show s.m_read_idx < (s.m_read_buf.set k 0).length
        rw [List.length_set]; exact a4
      · show s.m_content_length + ((s.m_read_buf.set k 0).length : Int) < 2 ^ 31
        rw [List.length_set]; exact a6
    · exfalso
      apply hb
      have ht' : (s.m_read_idx : Int) ≥ to_int (s.m_content_length + (s.m_checked_idx : Int)) :=
        ht
      rw [hti] at ht'
      constructor
      · show 0 ≤ (s.m_start_line : Int) + s.m_content_length
        omega
      · show (s.m_start_line : Int) + s.m_content_length < (s.m_read_buf.length : Int)
        omega

/-- C8: `process_read` on a GET request with an accepted request line, the header lines `hs`
and whatever follows the blank line ends at a store of `parse_content` outside the read
buffer, or it returns, and then the linger flag is true exactly when some header line starts
with `Connection:` (any case) and its value, leading spaces and TABs skipped, is `keep-alive`
(any case), and `add_linger` writes `Connection: keep-alive`, otherwise `Connection: close`.
The call returns when the content length the header lines give is not negative, does not
overflow an `int` when a buffer offset is added and, if it is not zero, the request does not
fill the read buffer. -/
theorem C8_linger (cfg : Limits) (fs : FileSystem) (st0 : http_conn)
    (uri path : List Nat) (hs : List (List Nat)) (body : List Nat)
    (hsz : Sized cfg st0)
    (huri : ∀ c ∈ uri, c ≠ 32 ∧ c ≠ 9 ∧ c ≠ 13 ∧ c ≠ 10 ∧ c ≠ 0)
    (hpath : (uri_path uri).bind (fun p => if p.head? = some 47 then some p else none) = some path)
    (hhs : ∀ l ∈ hs, header_line l)
    (hfit : (get_request uri hs ++ body).length ≤ cfg.READ_BUFFER_SIZE)
    (hW : 32 ≤ cfg.WRITE_BUFFER_SIZE) :
    ((process_read cfg fs
          (read cfg (init cfg st0) [recv_result.data (get_request uri hs ++ body)]).2 = none ∧
        bad_store cfg fs
          (read cfg (init cfg st0) [recv_result.data (get_request uri hs ++ body)]).2 = true) ∨
      (∃ (c : HTTP_CODE) (st1 : http_conn),
        process_read cfg fs
            (read cfg (init cfg st0) [recv_result.data (get_request uri hs ++ body)]).2
          = some (c, st1) ∧
        (st1.m_linger = true ↔
          ∃ l ∈ hs, (l.take 11).map tolower = bytes "connection:" ∧
            (header_value 11 l).map tolower = bytes "keep-alive") ∧
        (add_linger cfg st1).1 = true ∧
        (add_linger cfg st1).2.written =
          (if ∃ l ∈ hs, (l.take 11).map tolower = bytes "connection:" ∧
              (header_value 11 l).map tolower = bytes "keep-alive"
           then bytes "Connection: keep-alive\r\n" else bytes "Connection: close\r\n"))) ∧
    (0 ≤ content_length_after hs 0 →
      content_length_after hs 0 + (cfg.READ_BUFFER_SIZE : Int) < 2 ^ 31 →
      (content_length_after hs 0 ≠ 0 →
        (get_request uri hs ++ body).length < cfg.READ_BUFFER_SIZE) →
      bad_store cfg fs
        (read cfg (init cfg st0) [recv_result.data (get_request uri hs ++ body)]).2
        = false) := by
  obtain ⟨stF, hrun, h1, h2, -, -, -, -, -, h8, h9, h10, h11, h12, h13, h14⟩ :=
    get_request_run cfg fs st0 uri path hs body hsz huri hpath hhs hfit
  have hany : (hs.any is_keep_alive = true) ↔
      ∃ l ∈ hs, (l.take 11).map tolower = bytes "connection:" ∧
        (header_value 11 l).map tolower = bytes "keep-alive" := by
    rw [List.any_eq_true]
    constructor
    · rintro ⟨l, hl, hk⟩
      refine ⟨l, hl, ?_⟩
      simpa [is_keep_alive, is_connection] using hk
    · rintro ⟨l, hl, hk⟩
      refine ⟨l, hl, ?_⟩
      simpa [is_keep_alive, is_connection] using hk
  -- a result keeps the flag and the write buffer of `stF`
  have hfin : ∀ (c : HTTP_CODE) (st1 : http_conn),
      process_read cfg fs
          (read cfg (init cfg st0) [recv_result.data (get_request uri hs ++ body)]).2
        = some (c, st1) →
      st1.m_linger = stF.m_linger ∧ st1.m_write_buf = stF.m_write_buf ∧
      st1.m_write_idx = stF.m_write_idx := by
    intro c st1 hres
    rw [hrun] at hres
    by_cases hcl : stF.m_content_length ≠ 0
    · rw [if_pos hcl] at hres
      have := loop_content_frame cfg fs _ _ _ (c, st1) rfl hres
      exact ⟨this.1, this.2.1, this.2.2.1⟩
    · rw [if_neg hcl] at hres
      obtain ⟨rf, fst, fa, hd⟩ := do_request_frame cfg fs stF
      have e : (do_request cfg fs stF).2 = st1 := by
        have := Option.some.inj hres
        rw [this]
      rw [← e, hd]
      exact ⟨rfl, rfl, rfl⟩
  constructor
  · rcases process_read_total cfg fs
        (read cfg (init cfg st0) [recv_result.data (get_request uri hs ++ body)]).2 with
      ⟨⟨c, st1⟩, hres, -⟩ | ⟨hn, hb⟩
    · right
      obtain ⟨hl, hwb, hwi⟩ := hfin c st1 hres
      have hlen : ((bytes "Connection: " ++ (if st1.m_linger = true then bytes "keep-alive"
          else bytes "close") ++ [13, 10])).length ≤ 24 := by
        cases st1.m_linger <;> decide
      have hfits := add_response_fits cfg st1
        (bytes "Connection: " ++ (if st1.m_linger = true then bytes "keep-alive"
          else bytes "close") ++ [13, 10]) (by rw [hwi, h12]; omega)
      refine ⟨c, st1, hres, ?_, ?_, ?_⟩
      · rw [hl, h1]; exact hany
      · unfold add_linger; rw [hfits]
      · unfold add_linger
        rw [hfits]
        simp only []
        rw [written_append_text _ _ (by rw [hwb, h13, hwi, h12]; omega)]
        have hw0 : st1.written = [] := by simp [written, hwi, h12]
        rw [hw0, hl, h1]
        by_cases hk : hs.any is_keep_alive = true
        · rw [if_pos hk, if_pos (hany.1 hk)]; decide
        · rw [if_neg hk, if_neg (fun h => hk (hany.2 h))]; decide
    · exact Or.inl ⟨hn, hb⟩
  · intro hc0 hc1 hroom
    have hret : ∃ r, process_read cfg fs
        (read cfg (init cfg st0) [recv_result.data (get_request uri hs ++ body)]).2
          = some r := by
      rw [hrun]
      by_cases hcl : stF.m_content_length ≠ 0
      · rw [if_pos hcl]
        have hlt := hroom (by rw [← h2]; exact hcl)
        apply content_loop_returns cfg fs _ LINE_STATUS.LINE_OK
          { stF with m_check_state := CHECK_STATE.CHECK_STATE_CONTENT }
        · have := crlf_lines_length_ge hs
          have hl := get_request_length uri hs
          simp only [loop_measure, h9, h10, if_true, List.length_append]
          omega
        · rfl
        · show stF.m_start_line ≤ stF.m_checked_idx
          rw [h10, h11]
        · show stF.m_checked_idx ≤ stF.m_read_idx
          rw [h9, h10, List.length_append]; omega
        · show stF.m_read_idx < stF.m_read_buf.length
          rw [h9, h14]; exact hlt
        · show 0 ≤ stF.m_content_length
          rw [h2]; exact hc0
        · show stF.m_content_length + (stF.m_read_buf.length : Int) < 2 ^ 31
          rw [h2, h14]; exact hc1
      · rw [if_neg hcl]
        exact ⟨_, rfl⟩
    obtain ⟨r, hr⟩ := hret
    rcases process_read_total cfg fs
        (read cfg (init cfg st0) [recv_result.data (get_request uri hs ++ body)]).2 with
      ⟨_, -, hb⟩ | ⟨hn, -⟩
    · exact hb
    · rw [hn] at hr; cases hr

/-- Witness of C8: the first scenario of the specification. -/
theorem C8_linger_witness :
    bad_store small_limits scenario_fs
      (read small_limits (init small_limits (blank small_limits))
        [recv_result.data (get_request (bytes "/index.html")
          [bytes "Host: x", bytes "Connection: keep-alive"] ++ [])]).2 = false ∧
    ((process_read small_limits scenario_fs
          (read small_limits (init small_limits (blank small_limits))
            [recv_result.data (get_request (bytes "/index.html")
              [bytes "Host: x", bytes "Connection: keep-alive"] ++ [])]).2 = none ∧
        bad_store small_limits scenario_fs
          (read small_limits (init small_limits (blank small_limits))
            [recv_result.data (get_request (bytes "/index.html")
              [bytes "Host: x", bytes "Connection: keep-alive"] ++ [])]).2 = true) ∨
      (∃ (c : HTTP_CODE) (st1 : http_conn),
        process_read small_limits scenario_fs
            (read small_limits (init small_limits (blank small_limits))
              [recv_result.data (get_request (bytes "/index.html")
                [bytes "Host: x", bytes "Connection: keep-alive"] ++ [])]).2
          = some (c, st1) ∧
        (st1.m_linger = true ↔
          ∃ l ∈ [bytes "Host: x", bytes "Connection: keep-alive"],
            (l.take 11).map tolower = bytes "connection:" ∧
            (header_value 11 l).map tolower = bytes "keep-alive") ∧
        (add_linger small_limits st1).1 = true ∧
        (add_linger small_limits st1).2.written =
          (if ∃ l ∈ [bytes "Host: x", bytes "Connection: keep-alive"],
              (l.take 11).map tolower = bytes "connection:" ∧
              (header_value 11 l).map tolower = bytes "keep-alive"
           then bytes "Connection: keep-alive\r\n" else bytes "Connection: close\r\n"))) :=
  ⟨(C8_linger small_limits scenario_fs (blank small_limits) (bytes "/index.html")
      (bytes "/index.html") [bytes "Host: x", bytes "Connection: keep-alive"] []
      (blank_sized small_limits) (by decide) (by decide) (by decide) (by decide)
      (by decide)).2 (by decide) (by decide) (by decide),
    (C8_linger small_limits scenario_fs (blank small_limits) (bytes "/index.html")
      (bytes "/index.html") [bytes "Host: x", bytes "Connection: keep-alive"] []
      (blank_sized small_limits) (by decide) (by decide) (by decide) (by decide)
      (by decide)).1⟩

end WebServer
namespace WebServer
open http_conn

/-! ## The cursor predicate and the scanned bytes at a request that fills the read buffer -/

end WebServer
